import Mathlib

/-!
# Kannel smsbox: SMS splitting and the timer heap

A shallow embedding of `sms_split` (gw/smsbox.c) and of the timer set
(gwlib/gw-timer.c), with the properties of the specification proved or
refuted on it.

Conventions of the embedding.
* C `int` and `long` values are mathematical integers (`Int`); signed overflow
  is undefined behaviour in C and is not modelled.
* An `Octstr *` is an `Option Octstr`; `none` is the NULL pointer.
* A failing `gw_assert` of gwlib aborts the process: `Except.error Abort.assertion`.
* Loops that the C code does not bound syntactically take an iteration budget;
  running out of it is `Except.error Abort.looping`.
-/

namespace Kannel

set_option maxRecDepth 100000

/-! ## gwlib octet strings -/

/-- One octet. -/
abbrev Octet := Fin 256

/-- The contents of a gwlib `Octstr`. -/
abbrev Octstr := List Octet

/-- Ways in which a call does not return. -/
inductive Abort where
  | assertion
  | looping
  deriving DecidableEq, Repr

deriving instance DecidableEq for Except

/-- Conversion of a C `int` to `unsigned char`. -/
def to_uchar (ch : Int) : Octet := Fin.ofNat (ch % 256).toNat

/-- Modelled from the spec: gwlib's `octstr_len` is not among the sources; the
length of an octet string, 0 for NULL. -/
def octstr_len (ostr : Option Octstr) : Int :=
  match ostr with
  | none => 0
  | some s => (s.length : Int)

/-- Modelled from the spec: gwlib's `octstr_copy` is not among the sources; it
asserts `from >= 0` and `len >= 0` and returns the octets `from .. from+len`,
clipped to the end of the string (the empty string for NULL). -/
def octstr_copy (ostr : Option Octstr) (frm len : Int) : Except Abort Octstr :=
  match ostr with
  | none => .ok []
  | some s =>
    if frm < 0 ∨ len < 0 then .error Abort.assertion
    else .ok ((s.drop frm.toNat).take len.toNat)

/-- Modelled from the spec: gwlib's `octstr_delete` is not among the sources; it
removes `len` octets at `pos`, both clipped to the string, and asserts that
the string is valid (not NULL). -/
def octstr_delete (ostr : Option Octstr) (pos len : Int) : Except Abort Octstr :=
  match ostr with
  | none => .error Abort.assertion
  | some s =>
    let pos1 := if pos > s.length then (s.length : Int) else pos
    let len1 := if pos1 + len > s.length then (s.length : Int) - pos1 else len
    if len1 > 0 then .ok (s.take pos1.toNat ++ s.drop (pos1 + len1).toNat)
    else .ok s

/-- Modelled from the spec: gwlib's `octstr_get_char` is not among the sources;
the octet at `pos`, or -1 outside the string; asserts a valid string. -/
def octstr_get_char (ostr : Option Octstr) (pos : Int) : Except Abort Int :=
  match ostr with
  | none => .error Abort.assertion
  | some s =>
    if pos ≥ s.length ∨ pos < 0 then .ok (-1)
    else
      match s.get? pos.toNat with
      | some c => .ok (c.val : Int)
      | none => .ok (-1)

/-- Modelled from the spec: gwlib's `octstr_search_char` is not among the
sources; the first position at or after `pos` holding `ch`, or -1; asserts
`0 <= ch <= UCHAR_MAX` and `pos >= 0`. -/
def octstr_search_char (ostr : Octstr) (ch pos : Int) : Except Abort Int :=
  if ch < 0 ∨ 255 < ch ∨ pos < 0 then .error Abort.assertion
  else if pos ≥ ostr.length then .ok (-1)
  else
    match (ostr.drop pos.toNat).indexOf? (to_uchar ch) with
    | some k => .ok (pos + (k : Int))
    | none => .ok (-1)

/-- Modelled from the spec: gwlib's `octstr_append_char` is not among the
sources; appends one octet. -/
def octstr_append_char (ostr : Octstr) (ch : Int) : Octstr :=
  ostr ++ [to_uchar ch]

/-- Modelled from the spec: gwlib's `octstr_set_char` is not among the sources;
overwrites the octet at `pos` when `pos` lies inside the string. -/
def octstr_set_char (ostr : Octstr) (pos ch : Int) : Octstr :=
  if pos < ostr.length then ostr.set pos.toNat (to_uchar ch) else ostr

/-- Modelled from the spec: gwlib's `octstr_insert` is not among the sources;
inserts `ostr2` into `ostr1` at `pos`. -/
def octstr_insert (ostr1 ostr2 : Octstr) (pos : Int) : Octstr :=
  ostr1.take pos.toNat ++ ostr2 ++ ostr1.drop pos.toNat

/-- Modelled from the spec: gwlib's `octstr_append` is not among the sources;
appends `ostr2` to `ostr1`. -/
def octstr_append (ostr1 ostr2 : Octstr) : Octstr :=
  ostr1 ++ ostr2

/-! ## Messages -/

/-- Modelled from the spec: the `sms` variant of `Msg` is declared in
gw/msg-decl.h, which is not among the sources; the fields are the ones
gw/smsbox.c reads and writes. Integer fields are C `long`. -/
structure Msg where
  sender : Option Octstr
  receiver : Option Octstr
  udhdata : Option Octstr
  msgdata : Option Octstr
  time : Int
  smsc_id : Option Octstr
  service : Option Octstr
  id : Int
  sms_type : Int
  flag_8bit : Int
  flag_udh : Int
  flag_flash : Int
  flag_mwi : Int
  mwimessages : Int
  flag_unicode : Int
  validity : Int
  deferred : Int
  dlr_mask : Int
  dlr_id : Option Octstr
  dlr_keyword : Option Octstr
  deriving DecidableEq, Repr

/-- Modelled from the spec: `msg_duplicate` (gw/msg.c, not among the sources)
returns a deep copy. -/
def msg_duplicate (m : Msg) : Msg := m

/-! ## sms_split (gw/smsbox.c) -/

/-- Number of octets in the catenation UDH part. -/
def CATENATE_UDH_LEN : Int := 5

/-- The function `prepend_catenation_udh` of gw/smsbox.c. -/
def prepend_catenation_udh (sms : Msg) (part_no num_messages msg_sequence : Int) : Msg :=
  let udh0 : Octstr := match sms.udhdata with
    | none => []
    | some u => u
  let udh1 := if octstr_len (some udh0) = 0 then octstr_append_char udh0 CATENATE_UDH_LEN else udh0
  let udh2 := udh1 ++ [to_uchar 0, (3 : Octet), to_uchar msg_sequence, to_uchar num_messages,
    to_uchar part_no]
  let udh3 := octstr_set_char udh2 0 (octstr_len (some udh2) - 1)
  { sms with udhdata := some udh3, flag_udh := 1 }

/-- The backward scan of `extract_msgdata_part`: `for (i = max_part_len; i > 0; i--)`
over the remaining values of `i`, returning the final value of `len`, which is
`len0` unless the loop breaks. -/
def extract_scan (msgdata : Option Octstr) (split_chars : Octstr) (len0 : Int) :
    Nat → Except Abort Int
  | 0 => .ok len0
  | i + 1 => do
    let ch ← octstr_get_char msgdata ((i : Int) + 1 - 1)
    let found ← octstr_search_char split_chars ch 0
    if found ≠ -1 then pure ((i : Int) + 1)
    else extract_scan msgdata split_chars len0 i

/-- The value of `len` in `extract_msgdata_part` after the scan for a split
character. -/
def extract_len (msgdata : Option Octstr) (split_chars : Option Octstr)
    (max_part_len : Int) : Except Abort Int :=
  match split_chars with
  | none => .ok max_part_len
  | some sc => extract_scan msgdata sc max_part_len max_part_len.toNat

/-- The function `extract_msgdata_part` of gw/smsbox.c: the extracted part and
the remaining `msgdata`. -/
def extract_msgdata_part (msgdata : Option Octstr) (split_chars : Option Octstr)
    (max_part_len : Int) : Except Abort (Octstr × Option Octstr) := do
  let len ← extract_len msgdata split_chars max_part_len
  let part ← octstr_copy msgdata 0 len
  let rest ← octstr_delete msgdata 0 len
  pure (part, some rest)

/-- The per-part budget `max_part_len` of `sms_split` for a given UDH length. -/
def part_budget (flag_8bit max_octets udh_len hf_len : Int) : Int :=
  if flag_8bit ≠ 0 then max_octets - udh_len - hf_len
  else Int.tdiv (max_octets * 8) 7 - Int.tdiv (udh_len * 8 + 6) 7 - hf_len

/-- The value of `udh_len` that `sms_split` starts from. -/
def sms_split_udh_len (orig : Msg) : Int :=
  if orig.flag_udh ≠ 0 then octstr_len orig.udhdata else 0

/-- The first part of `sms_split`: the final value of `max_part_len`. -/
def sms_split_max_part_len (orig : Msg) (header footer : Option Octstr)
    (catenate max_octets : Int) : Int :=
  let hf_len := octstr_len header + octstr_len footer
  let udh_len := sms_split_udh_len orig
  let max_part_len := part_budget orig.flag_8bit max_octets udh_len hf_len
  if octstr_len orig.msgdata > max_part_len ∧ catenate ≠ 0 then
    let udh_len1 := if udh_len = 0 then 1 else udh_len
    let udh_len2 := udh_len1 + CATENATE_UDH_LEN
    part_budget orig.flag_8bit max_octets udh_len2 hf_len
  else max_part_len

/-- Header, footer and non-last suffix are put around a part payload. -/
def compose_part (part : Msg) (payload : Octstr) (header footer nonlast_suffix : Option Octstr)
    (last : Bool) : Msg :=
  let d0 := payload
  let d1 := match header with
    | some h => octstr_insert d0 h 0
    | none => d0
  let d2 := match footer with
    | some f => octstr_append d1 f
    | none => d1
  let d3 := match last, nonlast_suffix with
    | false, some s => octstr_append d2 s
    | _, _ => d2
  { part with msgdata := some d3 }

/-- The head of the loop body of `sms_split`: the duplicate of the original that
becomes part `msgno`, without the DLR request when it is not the first part. -/
def part_skeleton (orig : Msg) (msgno : Int) : Msg :=
  let part := msg_duplicate orig
  if msgno > 1 ∧ part.dlr_mask ≠ 0 then
    { part with dlr_id := none, dlr_keyword := none, dlr_mask := 0 }
  else part

/-- The `do ... while (!last)` loop of `sms_split`; `msgno` is the value before
the increment at the head of the body. -/
def sms_split_loop (orig : Msg) (header footer nonlast_suffix split_chars : Option Octstr)
    (max_messages max_part_len nlsuf_len : Int) :
    Nat → Option Octstr → Int → Except Abort (List Msg)
  | 0, _, _ => .error Abort.looping
  | fuel + 1, msgdata, msgno0 => do
    let msgno := msgno0 + 1
    let part := part_skeleton orig msgno
    if octstr_len msgdata ≤ max_part_len ∨ msgno = max_messages then do
      let payload ← octstr_copy msgdata 0 max_part_len
      pure [compose_part part payload header footer nonlast_suffix true]
    else do
      let (payload, rest) ← extract_msgdata_part msgdata split_chars (max_part_len - nlsuf_len)
      let more ← sms_split_loop orig header footer nonlast_suffix split_chars
        max_messages max_part_len nlsuf_len fuel rest msgno
      pure (compose_part part payload header footer nonlast_suffix false :: more)

/-- The final `for` loop of `sms_split` over the parts, `msgno` counting from 1. -/
def catenation_loop (total_messages msg_sequence : Int) : Int → List Msg → List Msg
  | _, [] => []
  | msgno, part :: parts =>
    prepend_catenation_udh part msgno total_messages msg_sequence ::
      catenation_loop total_messages msg_sequence (msgno + 1) parts

/-- Iteration budget given to the splitting loop: it takes at most
`max_messages` rounds when `max_messages >= 1`, and otherwise every round
that is not the last either removes an octet or repeats forever. -/
def sms_split_fuel (orig : Msg) (max_messages : Int) : Nat :=
  max_messages.toNat + (octstr_len orig.msgdata).toNat + 1

/-- The function `sms_split` of gw/smsbox.c. -/
def sms_split (orig : Msg) (header footer nonlast_suffix split_chars : Option Octstr)
    (catenate msg_sequence max_messages max_octets : Int) : Except Abort (List Msg) := do
  let nlsuf_len := octstr_len nonlast_suffix
  let max_part_len := sms_split_max_part_len orig header footer catenate max_octets
  let msgdata := orig.msgdata
  let list ← sms_split_loop orig header footer nonlast_suffix split_chars
    max_messages max_part_len nlsuf_len (sms_split_fuel orig max_messages) msgdata 0
  let total_messages : Int := (list.length : Int)
  if catenate ≠ 0 ∧ total_messages > 1 then
    pure (catenation_loop total_messages msg_sequence 1 list)
  else pure list

/-- The octets of a possibly NULL octet string. -/
def ostr_data (ostr : Option Octstr) : Octstr :=
  match ostr with
  | none => []
  | some s => s


/-- The parts that the splitting loop builds from a list of payload chunks,
the first of them being part `msgno0 + 1`; every chunk but the final one is
composed as a non-last part. -/
def parts_of_chunks (orig : Msg) (header footer nonlast_suffix : Option Octstr) :
    Int → List Octstr → List Msg
  | _, [] => []
  | msgno0, [c] => [compose_part (part_skeleton orig (msgno0 + 1)) c header footer nonlast_suffix true]
  | msgno0, c :: c2 :: cs =>
    compose_part (part_skeleton orig (msgno0 + 1)) c header footer nonlast_suffix false ::
      parts_of_chunks orig header footer nonlast_suffix (msgno0 + 1) (c2 :: cs)

/-- The payload chunk of a part: its `msgdata` without the first `len(header)`
octets and without the last `len(footer)` octets, and for a non-last part
without `len(nonlast_suffix)` more octets at the end. -/
def payload_chunk (header footer nonlast_suffix : Option Octstr) (last : Bool) (part : Msg) :
    Octstr :=
  let d := ostr_data part.msgdata
  let h := (octstr_len header).toNat
  let t := (octstr_len footer).toNat + (if last then 0 else (octstr_len nonlast_suffix).toNat)
  (d.drop h).take (d.length - h - t)

/-- The payload chunks of a list of parts, in list order; only the final part
is a last part. -/
def payload_chunks (header footer nonlast_suffix : Option Octstr) : List Msg → List Octstr
  | [] => []
  | [p] => [payload_chunk header footer nonlast_suffix true p]
  | p :: q :: ps =>
    payload_chunk header footer nonlast_suffix false p ::
      payload_chunks header footer nonlast_suffix (q :: ps)

/-! ## Sample inputs -/

/-- A message with the given coding flag, UDH and payload, every other field
unset. -/
def sample_sms (flag_8bit flag_udh : Int) (udhdata : Option Octstr) (msgdata : Octstr) : Msg :=
  { sender := none, receiver := none, udhdata := udhdata, msgdata := some msgdata, time := 0,
    smsc_id := none, service := none, id := 0, sms_type := 0, flag_8bit := flag_8bit,
    flag_udh := flag_udh, flag_flash := 0, flag_mwi := 0, mwimessages := 0, flag_unicode := 0,
    validity := 0, deferred := 0, dlr_mask := 0, dlr_id := none, dlr_keyword := none }

/-- A text of `n` letters `A`. -/
def sample_text (n : Nat) : Octstr := List.replicate n (65 : Octet)

/-! ## The 7-bit budget in the words of the specification -/

/-- The 7-bit per-part budget as the specification writes it:
`floor(max_octets * 8 / 7) - ceil((U * 8 + 6) / 7) - H`. -/
def spec_budget_7bit (max_octets U H : Int) : Int :=
  ⌊((max_octets * 8 : Int) : ℚ) / 7⌋ - ⌈((U * 8 + 6 : Int) : ℚ) / 7⌉ - H

/-- The 7-bit per-part budget with the UDH counted in septets:
`max_octets * 8 / 7` rounded toward zero, minus `ceil(U * 8 / 7)`, minus `H`. -/
def septet_budget (max_octets U H : Int) : Int :=
  Int.tdiv (max_octets * 8) 7 - ⌈((U * 8 : Int) : ℚ) / 7⌉ - H

/-! ## Message invariants on the UDH -/

/-- The UDH is non-empty and its first octet (UDHL) is the number of octets
that follow it: `udhdata[0] = len(udhdata) - 1`. -/
def udhl_consistent (udh : Option Octstr) : Prop :=
  match udh with
  | some (b :: rest) => b.val = rest.length
  | _ => False

instance udhl_consistent_decidable (udh : Option Octstr) : Decidable (udhl_consistent udh) := by
  unfold udhl_consistent
  split <;> infer_instance

/-- The invariant of a message on its UDH: `udhdata` is empty when
`flag_udh = 0`, and otherwise starts with a consistent UDHL. -/
def msg_udh_invariant (m : Msg) : Prop :=
  (m.flag_udh = 0 → octstr_len m.udhdata = 0) ∧ (m.flag_udh ≠ 0 → udhl_consistent m.udhdata)

/-- The octets of a string as integers. -/
def octets_int (s : Octstr) : List Int := s.map (fun b => (b.val : Int))

/-! ## Timers (gwlib/gw-timer.c) -/

/-- The `struct Timer` of gwlib/gw-timer.c, without the pointer to its timer
set. Pointers are addresses; 0 is NULL. -/
structure Timer where
  output : Nat
  elapses : Int
  data : Nat
  elapsed_data : Nat
  index : Int
  deriving DecidableEq, Repr

/-- The state the timer code works on: the timer objects by address (`mem`),
the heap of the timer set (`tab[0 .. len)`; the allocation size is not
modelled) and the contents of the output lists by address. -/
structure TimerState where
  mem : Nat → Timer
  tab : Nat → Nat
  len : Nat
  lists : Nat → List Nat

/-- Assignment to `timer->index`. -/
def set_index (st : TimerState) (timer : Nat) (i : Int) : TimerState :=
  { st with mem := Function.update st.mem timer { st.mem timer with index := i } }

/-- Assignment to `timer->elapses`. -/
def set_elapses (st : TimerState) (timer : Nat) (e : Int) : TimerState :=
  { st with mem := Function.update st.mem timer { st.mem timer with elapses := e } }

/-- The function `heap_swap`. -/
def heap_swap (st : TimerState) (index1 index2 : Nat) : Except Abort TimerState :=
  if ¬ (index1 < st.len ∧ index2 < st.len) then .error Abort.assertion
  else if index1 = index2 then .ok st
  else
    let t := st.tab index1
    let st1 := { st with tab := Function.update st.tab index1 (st.tab index2) }
    let st2 := { st1 with tab := Function.update st1.tab index2 t }
    let st3 := set_index st2 (st2.tab index1) (index1 : Int)
    .ok (set_index st3 (st3.tab index2) (index2 : Int))

/-- The `do ... while` loop of `heap_adjust` that moves `t` toward the top;
returns the state and the final `index`. -/
def heap_adjust_up (t : Nat) : Nat → TimerState → Nat → Except Abort (TimerState × Nat)
  | 0, _, _ => .error Abort.looping
  | fuel + 1, st, index => do
    let st1 ← heap_swap st index (index / 2)
    let index1 := index / 2
    let parent := st1.tab (index1 / 2)
    if (st1.mem t).elapses < (st1.mem parent).elapses then heap_adjust_up t fuel st1 index1
    else pure (st1, index1)

/-- The `for (; ; )` loop of `heap_adjust` that moves `t` toward the bottom. -/
def heap_adjust_down (t : Nat) : Nat → TimerState → Nat → Except Abort TimerState
  | 0, _, _ => .error Abort.looping
  | fuel + 1, st, index =>
    let child_index := index * 2
    if child_index ≥ st.len then pure st
    else if (child_index : Int) = (st.len : Int) - 1 then
      if (st.mem (st.tab child_index)).elapses < (st.mem t).elapses then
        heap_swap st index child_index
      else pure st
    else
      let child_index1 :=
        if (st.mem (st.tab (child_index + 1))).elapses < (st.mem (st.tab child_index)).elapses then
          child_index + 1
        else child_index
      if (st.mem (st.tab child_index1)).elapses < (st.mem t).elapses then do
        let st1 ← heap_swap st index child_index1
        heap_adjust_down t fuel st1 child_index1
      else pure st

/-- The function `heap_adjust`; the second component is its return value. The
loops get `index + 1` and `len + 1` rounds, more than they can use. -/
def heap_adjust (st : TimerState) (index : Nat) : Except Abort (TimerState × Int) :=
  if ¬ (index < st.len) then .error Abort.assertion
  else
    let t := st.tab index
    let parent := st.tab (index / 2)
    if (st.mem t).elapses < (st.mem parent).elapses then do
      let (st1, index1) ← heap_adjust_up t (index + 1) st index
      pure (st1, if index1 = 0 then 1 else 0)
    else do
      let st1 ← heap_adjust_down t (st.len + 1) st index
      pure (st1, 0)

/-- The statements of `heap_delete` after the swap: the timer at the end gets
index -1 and the heap shrinks by one. -/
def heap_drop_last (st : TimerState) (last : Nat) : TimerState :=
  let st2 := set_index st (st.tab last) (-1)
  { st2 with len := st2.len - 1 }

/-- The function `heap_delete`. -/
def heap_delete (st : TimerState) (index : Nat) : Except Abort TimerState :=
  if ¬ (index < st.len) then .error Abort.assertion
  else if (st.mem (st.tab index)).index ≠ (index : Int) then .error Abort.assertion
  else do
    let last := st.len - 1
    let st1 ← heap_swap st index last
    let st3 := heap_drop_last st1 last
    if index ≠ last then do
      let (st4, _) ← heap_adjust st3 index
      pure st4
    else pure st3

/-- The first three statements of `heap_insert`: the heap grows by one, the
timer is stored at the end and gets its index. -/
def heap_append (st : TimerState) (timer : Nat) : TimerState :=
  let st1 := { st with len := st.len + 1 }
  let st2 := { st1 with tab := Function.update st1.tab (st1.len - 1) timer }
  set_index st2 timer ((st2.len : Int) - 1)

/-- The function `heap_insert`. -/
def heap_insert (st : TimerState) (timer : Nat) : Except Abort TimerState := do
  let st3 := heap_append st timer
  let (st4, _) ← heap_adjust st3 (st3.mem timer).index.toNat
  pure st4

/-- Modelled from the spec: `gwlist_delete_equal` (gwlib/list.c, not among the
sources) removes every item equal to the given pointer. -/
def gwlist_delete_equal (list : List Nat) (item : Nat) : List Nat :=
  list.filter (fun x => x ≠ item)

/-- Modelled from the spec: `gwlist_produce` (gwlib/list.c, not among the
sources) appends an item at the end of the list. -/
def gwlist_produce (list : List Nat) (item : Nat) : List Nat :=
  list ++ [item]

/-- The function `abort_elapsed`. -/
def abort_elapsed (st : TimerState) (timer : Nat) : TimerState :=
  if (st.mem timer).elapsed_data = 0 then st
  else
    let output := (st.mem timer).output
    let items := gwlist_delete_equal (st.lists output) (st.mem timer).elapsed_data
    let st1 := { st with lists := Function.update st.lists output items }
    { st1 with mem := Function.update st1.mem timer { st1.mem timer with elapsed_data := 0 } }

/-- The function `gw_timer_stop`. A negative `timer->index` of an active
timer fails the assertions of `heap_delete`. -/
def gw_timer_stop (st : TimerState) (timer : Nat) : Except Abort TimerState := do
  let st2 ← if (st.mem timer).elapses > 0 then
      let st1 := set_elapses st timer (-1)
      if (st1.mem timer).index < 0 then .error Abort.assertion
      else if st1.tab (st1.mem timer).index.toNat ≠ timer then .error Abort.assertion
      else heap_delete st1 (st1.mem timer).index.toNat
    else pure st
  pure (abort_elapsed st2 timer)

/-- The function `gw_timer_start`; `now` is the value of `time(NULL)`. The second
component tells whether the watcher thread is woken. -/
def gw_timer_start (st : TimerState) (now : Int) (timer : Nat) (interval : Int) (data : Nat) :
    Except Abort (TimerState × Bool) := do
  let interval1 := interval + now
  let (st3, wakeup) ← if (st.mem timer).elapses > 0 then
      let wakeup0 : Bool := decide (interval1 < (st.mem timer).elapses ∧ (st.mem timer).index = 0)
      let st1 := set_elapses st timer interval1
      if (st1.mem timer).index < 0 then .error Abort.assertion
      else if st1.tab (st1.mem timer).index.toNat ≠ timer then .error Abort.assertion
      else do
        let (st2, r) ← heap_adjust st1 (st1.mem timer).index.toNat
        pure (st2, wakeup0 || decide (r ≠ 0))
    else
      let st0 := abort_elapsed st timer
      let st1 := set_elapses st0 timer interval1
      if ¬ ((st1.mem timer).index < 0) then .error Abort.assertion
      else do
        let st2 ← heap_insert st1 timer
        pure (st2, decide ((st2.mem timer).index = 0))
  let st4 := if data ≠ 0 then
      { st3 with mem := Function.update st3.mem timer { st3.mem timer with data := data } }
    else st3
  pure (st4, wakeup)

/-- The function `elapse_timer`. -/
def elapse_timer (st : TimerState) (timer : Nat) : Except Abort TimerState :=
  if (st.mem timer).elapsed_data ≠ 0 then .error Abort.assertion
  else
    let elapsed : Timer := { st.mem timer with elapsed_data := (st.mem timer).data }
    let st1 := { st with mem := Function.update st.mem timer elapsed }
    let st2 := set_elapses st1 timer (-1)
    let output := (st2.mem timer).output
    let items := gwlist_produce (st2.lists output) (st2.mem timer).elapsed_data
    .ok { st2 with lists := Function.update st2.lists output items }

/-- The inner loop of `watch_timers`, run with the set locked at time `now`;
the second component lists the timers handed to `elapse_timer`, in order. -/
def watch_timers_loop (now : Int) : Nat → TimerState → Except Abort (TimerState × List Nat)
  | 0, _ => .error Abort.looping
  | fuel + 1, st =>
    if st.len > 0 ∧ (st.mem (st.tab 0)).elapses ≤ now then do
      let timer := st.tab 0
      let st1 ← heap_delete st 0
      let st2 ← elapse_timer st1 timer
      let (st3, elapsed) ← watch_timers_loop now fuel st2
      pure (st3, timer :: elapsed)
    else pure (st, [])

/-- One pass of the watcher over the heap at time `now`; every round removes
a timer, so `len + 1` rounds are enough. -/
def watch_timers_pass (st : TimerState) (now : Int) : Except Abort (TimerState × List Nat) :=
  watch_timers_loop now (st.len + 1) st

/-- A timer set right after `gw_timerset_create`: an empty heap, every timer
inactive and every output list empty. -/
def empty_timers : TimerState :=
  { mem := fun _ => { output := 0, elapses := -1, data := 0, elapsed_data := 0, index := -1 },
    tab := fun _ => 0,
    len := 0,
    lists := fun _ => [] }

/-! ## Invariants of the timer set -/

/-- The deadline of the timer at position `i` of the heap. -/
def key (st : TimerState) (i : Nat) : Int := (st.mem (st.tab i)).elapses

/-- The heap property of the `TimerHeap` comment: a child never elapses before
its parent, `tab[i/2].elapses <= tab[i].elapses` for `1 <= i < len`. -/
def heap_ordered (st : TimerState) : Prop :=
  ∀ i, 1 ≤ i → i < st.len → (st.mem (st.tab (i / 2))).elapses ≤ (st.mem (st.tab i)).elapses

/-- The timer at address `p` is in the heap. -/
def in_heap (st : TimerState) (p : Nat) : Prop := ∃ i, i < st.len ∧ st.tab i = p

/-- The `index` fields agree with the heap: the timer at `tab[i]` has index `i`,
and a timer that is not in the heap has index -1. -/
def index_consistent (st : TimerState) : Prop :=
  (∀ i, i < st.len → (st.mem (st.tab i)).index = (i : Int)) ∧
  (∀ p, ¬ in_heap st p → (st.mem p).index = -1)

/-- The `elapses` fields agree with the heap: positive for a timer in the
heap, -1 for a timer outside. -/
def deadlines_consistent (st : TimerState) : Prop :=
  (∀ i, i < st.len → 0 < (st.mem (st.tab i)).elapses) ∧
  (∀ p, ¬ in_heap st p → (st.mem p).elapses = -1)

/-- A well-formed timer set: every timer has `elapses = -1` and is outside the
heap (index -1), or has a positive `elapses` and is in the heap at
`tab[index]`. -/
def timers_wf (st : TimerState) : Prop := index_consistent st ∧ deadlines_consistent st

/-- No timer in the heap has an elapse event pending on its output list
(asserted by `elapse_timer`). -/
def no_pending_elapse (st : TimerState) : Prop :=
  ∀ i, i < st.len → (st.mem (st.tab i)).elapsed_data = 0

/-- What `heap_swap` does to a state. -/
structure SwapRel (st : TimerState) (i j : Nat) (st1 : TimerState) : Prop where
  len_eq : st1.len = st.len
  lists_eq : st1.lists = st.lists
  tab_i : st1.tab i = st.tab j
  tab_j : st1.tab j = st.tab i
  tab_other : ∀ k, k ≠ i → k ≠ j → st1.tab k = st.tab k
  elapses_eq : ∀ p, (st1.mem p).elapses = (st.mem p).elapses
  output_eq : ∀ p, (st1.mem p).output = (st.mem p).output
  data_eq : ∀ p, (st1.mem p).data = (st.mem p).data
  elapsed_data_eq : ∀ p, (st1.mem p).elapsed_data = (st.mem p).elapsed_data
  index_j : i ≠ j → (st1.mem (st.tab i)).index = (j : Int)
  index_i : i ≠ j → st.tab i ≠ st.tab j → (st1.mem (st.tab j)).index = (i : Int)
  index_other : ∀ p, i = j ∨ (p ≠ st.tab i ∧ p ≠ st.tab j) → (st1.mem p).index = (st.mem p).index

/-- What a sequence of swaps inside the heap does to a state: the timers in the
heap are permuted and only `index` fields change. -/
structure HeapPerm (st st1 : TimerState) : Prop where
  len_eq : st1.len = st.len
  lists_eq : st1.lists = st.lists
  elapses_eq : ∀ p, (st1.mem p).elapses = (st.mem p).elapses
  output_eq : ∀ p, (st1.mem p).output = (st.mem p).output
  data_eq : ∀ p, (st1.mem p).data = (st.mem p).data
  elapsed_data_eq : ∀ p, (st1.mem p).elapsed_data = (st.mem p).elapsed_data
  in_heap_iff : ∀ p, in_heap st1 p ↔ in_heap st p
  index_pres : index_consistent st → index_consistent st1

/-- The heap property holds except between position `j` and its parent, and
the parent of `j` is not later than the children of `j`. -/
def up_inv (st : TimerState) (j : Nat) : Prop :=
  (∀ i, 1 ≤ i → i < st.len → i ≠ j → key st (i / 2) ≤ key st i) ∧
  (∀ c, 1 ≤ c → c < st.len → c / 2 = j → c ≠ j → key st (j / 2) ≤ key st c)

/-- The heap property holds except between position `j` and its children, and
the parent of `j` is not later than the children of `j`. -/
def down_inv (st : TimerState) (j : Nat) : Prop :=
  (∀ i, 1 ≤ i → i < st.len → i / 2 ≠ j → key st (i / 2) ≤ key st i) ∧
  (∀ c, 1 ≤ c → c < st.len → c / 2 = j → 1 ≤ j → key st (j / 2) ≤ key st c)

/-- The heap property holds between all positions other than `j`, and the
parent of `j` is not later than the children of `j`. -/
def hole_inv (st : TimerState) (j : Nat) : Prop :=
  (∀ i, 1 ≤ i → i < st.len → i ≠ j → i / 2 ≠ j → key st (i / 2) ≤ key st i) ∧
  (∀ c, 1 ≤ c → c < st.len → c / 2 = j → 1 ≤ j → key st (j / 2) ≤ key st c)

/-- The output lists and every field of every timer except `index` are the same
in both states. -/
structure SameTimers (st st1 : TimerState) : Prop where
  lists_eq : st1.lists = st.lists
  elapses_eq : ∀ p, (st1.mem p).elapses = (st.mem p).elapses
  output_eq : ∀ p, (st1.mem p).output = (st.mem p).output
  data_eq : ∀ p, (st1.mem p).data = (st.mem p).data
  elapsed_data_eq : ∀ p, (st1.mem p).elapsed_data = (st.mem p).elapsed_data

/-! ## Sequences of heap operations -/

/-- The operations the timer code performs on the heap: `insert` is the
activation in `gw_timer_start` (set the deadline of an inactive timer, then
`heap_insert`), `delete` is `heap_delete` as the watcher calls it, `change` is
the reset in `gw_timer_start` (set the deadline of `tab[index]`, then
`heap_adjust`), `stop` is the removal in `gw_timer_stop` (set the deadline of
`tab[index]` to -1, then `heap_delete`). -/
inductive HeapOp where
  | insert (timer : Nat) (elapses : Int)
  | delete (index : Nat)
  | change (index : Nat) (elapses : Int)
  | stop (index : Nat)
  deriving DecidableEq, Repr

/-- One heap operation. -/
def apply_heap_op (st : TimerState) (op : HeapOp) : Except Abort TimerState :=
  match op with
  | .insert timer elapses =>
    let st1 := set_elapses st timer elapses
    if ¬ ((st1.mem timer).index < 0) then .error Abort.assertion
    else heap_insert st1 timer
  | .delete index => heap_delete st index
  | .change index elapses => do
    let st1 := set_elapses st (st.tab index) elapses
    let (st2, _) ← heap_adjust st1 index
    pure st2
  | .stop index =>
    let st1 := set_elapses st (st.tab index) (-1)
    heap_delete st1 index

/-- A sequence of heap operations, from left to right. -/
def run_heap_ops : TimerState → List HeapOp → Except Abort TimerState
  | st, [] => .ok st
  | st, op :: ops => do
    let st1 ← apply_heap_op st op
    run_heap_ops st1 ops

/-- The state a call returned, or the empty timer set when it did not return. -/
def returned_state (r : Except Abort TimerState) : TimerState :=
  match r with
  | .ok st => st
  | .error _ => empty_timers

/-- Whether a call returned. -/
def returned (r : Except Abort TimerState) : Bool :=
  match r with
  | .ok _ => true
  | .error _ => false

/-- A sample run: six timers are activated, one is reset to a later and one to
an earlier deadline, one is removed by the watcher and one is stopped. -/
def sample_heap_ops : List HeapOp :=
  [HeapOp.insert 1 50, HeapOp.insert 2 30, HeapOp.insert 3 40, HeapOp.insert 4 10,
    HeapOp.insert 5 20, HeapOp.insert 6 5, HeapOp.change 0 100, HeapOp.change 4 1,
    HeapOp.delete 0, HeapOp.stop 2]

/-- A sample timer set: the timers 1, 2 and 3 are active with the deadlines 10,
20 and 30 and write to the output list 9; timer 4 has elapsed, its event 8
is still on the list; every other timer is inactive. -/
def sample_timers : TimerState :=
  { mem := fun p =>
      if p = 1 then { output := 9, elapses := 10, data := 5, elapsed_data := 0, index := 0 }
      else if p = 2 then { output := 9, elapses := 20, data := 6, elapsed_data := 0, index := 1 }
      else if p = 3 then { output := 9, elapses := 30, data := 7, elapsed_data := 0, index := 2 }
      else if p = 4 then { output := 9, elapses := -1, data := 8, elapsed_data := 8, index := -1 }
      else { output := 0, elapses := -1, data := 0, elapsed_data := 0, index := -1 },
    tab := fun i => if i = 0 then 1 else if i = 1 then 2 else if i = 2 then 3 else 0,
    len := 3,
    lists := fun o => if o = 9 then [8] else [] }

/-- What one pass of the watcher at time `now` does: `st` is the state before,
`st1` the state after and `elapsed` the timers handed to `elapse_timer`, in
order. -/
structure WatchResult (now : Int) (st st1 : TimerState) (elapsed : List Nat) : Prop where
  removed_iff : ∀ p, p ∈ elapsed ↔ (in_heap st p ∧ (st.mem p).elapses ≤ now)
  nodup : elapsed.Nodup
  sorted : elapsed.Pairwise (fun p q => (st.mem p).elapses ≤ (st.mem q).elapses)
  elapsed_fields : ∀ p, p ∈ elapsed →
    (st1.mem p).elapsed_data = (st.mem p).data ∧ (st1.mem p).elapses = -1
  lists_eq : ∀ o, st1.lists o = st.lists o ++
    (elapsed.filter (fun p => (st.mem p).output = o)).map (fun p => (st.mem p).data)
  left_iff : ∀ p, in_heap st1 p ↔ (in_heap st p ∧ now < (st.mem p).elapses)
  left_late : ∀ i, i < st1.len → now < (st1.mem (st1.tab i)).elapses
  others : ∀ p, p ∉ elapsed → (st1.mem p).elapses = (st.mem p).elapses ∧
    (st1.mem p).elapsed_data = (st.mem p).elapsed_data
  output_eq : ∀ p, (st1.mem p).output = (st.mem p).output
  data_eq : ∀ p, (st1.mem p).data = (st.mem p).data
  wf : timers_wf st1
  ordered : heap_ordered st1
  no_pending : no_pending_elapse st1
/-! ## Fields copied by sms_split -/

/-- A 7-bit message without UDH that asks for delivery reports: `dlr_mask` 3,
`dlr_id` "1" and `dlr_keyword` "DLR". -/
def sample_dlr_sms (msgdata : Octstr) : Msg :=
  { sample_sms 0 0 none msgdata with
    dlr_mask := 3, dlr_id := some [49], dlr_keyword := some [68, 76, 82] }

/-- The fields of a message other than `msgdata`, `udhdata` and the three DLR
fields: these five are blanked. -/
def other_fields (m : Msg) : Msg :=
  { m with msgdata := none, udhdata := none, dlr_mask := 0, dlr_id := none, dlr_keyword := none }

/-- The fields of a message other than `msgdata`, `udhdata`, `flag_udh` and the
three DLR fields. -/
def other_fields_but_flag_udh (m : Msg) : Msg :=
  { other_fields m with flag_udh := 0 }

/-! ## send_message (gw/smsbox.c) -/

/-- Modelled from the spec: a number list (gwlib/numhash.c is not among the
sources) is represented by its lookup, the value `numhash_find_number` returns
for a number: 1 when it is in the list, 0 when it is not, -1 on error. -/
abbrev Numhash := Octstr → Int

/-- Modelled from the spec: the service kinds of gw/urltrans.h, which is not
among the sources. -/
def TRANSTYPE_GET_URL : Int := 0

/-- Modelled from the spec: service kind `post-url` of gw/urltrans.h. -/
def TRANSTYPE_POST_URL : Int := 1

/-- Modelled from the spec: service kind `text` of gw/urltrans.h. -/
def TRANSTYPE_TEXT : Int := 2

/-- Modelled from the spec: service kind `file` of gw/urltrans.h. -/
def TRANSTYPE_FILE : Int := 3

/-- Modelled from the spec: service kind `sendsms` of gw/urltrans.h. -/
def TRANSTYPE_SENDSMS : Int := 4

/-- Modelled from the spec: a `URLTranslation` (gw/urltrans.c is not among the
sources) is represented by the values its accessors return; the field `f` is the
result of `urltrans_f`, `pattern` is the result of `urltrans_get_pattern` for a
message, and `prefix_text` and `suffix_text` are the results of
`urltrans_prefix` and `urltrans_suffix`. -/
structure URLTranslation where
  type : Int
  name : Option Octstr
  pattern : Msg → Option Octstr
  faked_sender : Option Octstr
  max_messages : Int
  concatenation : Int
  split_chars : Option Octstr
  split_suffix : Option Octstr
  omit_empty : Int
  header : Option Octstr
  footer : Option Octstr
  username : Option Octstr
  password : Option Octstr
  forced_smsc : Option Octstr
  default_smsc : Option Octstr
  allow_ip : Option Octstr
  deny_ip : Option Octstr
  white_list : Option Numhash
  black_list : Option Numhash
  accept_x_kannel_headers : Int
  assume_plain_text : Int
  send_sender : Int
  prefix_text : Option Octstr
  suffix_text : Option Octstr

/-- The value of `max_msgs` in `send_message`. -/
def send_message_max_msgs (trans : Option URLTranslation) : Int :=
  match trans with
  | some t => t.max_messages
  | none => 1

/-- The test `trans != NULL && urltrans_omit_empty(trans)` of `send_message`. -/
def send_message_omit_empty (trans : Option URLTranslation) : Bool :=
  match trans with
  | some t => decide (t.omit_empty ≠ 0)
  | none => false

/-- The message that `send_message` hands to `sms_split`: a message without UDH
and without text gets the empty string as `msgdata`. -/
def send_message_input (msg : Msg) : Msg :=
  if msg.flag_udh = 0 ∧ octstr_len msg.msgdata = 0 then { msg with msgdata := some [] } else msg

/-- The value of `header` in `send_message`. -/
def send_message_header (trans : Option URLTranslation) : Option Octstr :=
  match trans with
  | some t => t.header
  | none => none

/-- The value of `footer` in `send_message`. -/
def send_message_footer (trans : Option URLTranslation) : Option Octstr :=
  match trans with
  | some t => t.footer
  | none => none

/-- The value of `suffix` in `send_message`. -/
def send_message_suffix (trans : Option URLTranslation) : Option Octstr :=
  match trans with
  | some t => t.split_suffix
  | none => none

/-- The value of `split_chars` in `send_message`. -/
def send_message_split_chars (trans : Option URLTranslation) : Option Octstr :=
  match trans with
  | some t => t.split_chars
  | none => none

/-- The value of `catenate` in `send_message`. -/
def send_message_catenate (trans : Option URLTranslation) : Int :=
  match trans with
  | some t => t.concatenation
  | none => 0

/-- The function `send_message` of gw/smsbox.c: the parts written to the
bearerbox, in the order of writing. `counter` is the value that
`counter_increase(catenated_sms_counter)` returns when it is called, and
`sms_max_length` the global of that name. -/
def send_message (trans : Option URLTranslation) (msg : Msg) (counter sms_max_length : Int) :
    Except Abort (List Msg) :=
  let max_msgs := send_message_max_msgs trans
  if max_msgs = 0 then .ok []
  else if (msg.flag_udh = 0 ∧ octstr_len msg.msgdata = 0) ∧ send_message_omit_empty trans = true
  then .ok []
  else
    let msg1 := send_message_input msg
    let catenate := send_message_catenate trans
    let msg_sequence := if catenate ≠ 0 then counter % 256 else 0
    sms_split msg1 (send_message_header trans) (send_message_footer trans)
      (send_message_suffix trans) (send_message_split_chars trans) catenate msg_sequence
      max_msgs sms_max_length

/-- A translation of kind `text` with the given reply text, at most
`max_messages` parts per reply and nothing else configured. -/
def sample_trans (reply : Octstr) (max_messages : Int) : URLTranslation :=
  { type := TRANSTYPE_TEXT, name := none, pattern := fun _ => some reply, faked_sender := none,
    max_messages := max_messages, concatenation := 0, split_chars := none, split_suffix := none,
    omit_empty := 0, header := none, footer := none, username := none, password := none,
    forced_smsc := none, default_smsc := none, allow_ip := none, deny_ip := none,
    white_list := none, black_list := none, accept_x_kannel_headers := 0,
    assume_plain_text := 0, send_sender := 0, prefix_text := none, suffix_text := none }

/-! ## DLR storage drivers (gw/dlr_mssql.c, gw/dlr_mongodb.c)

The table (MSSQL) or namespace (MongoDB) is a list of records in the order in
which the back-end visits them. Every driver function takes two flags: `pconn`
tells whether `dbpool_conn_consume` hands out a connection, and `fails` whether
the back-end operation fails (`dbpool_conn_select` or `dbpool_conn_update`
report an error, the MongoDB client raises an exception). -/

/-- Modelled from the spec: `struct dlr_entry` of gw/dlr_p.h, which is not among
the sources; the fields are those the drivers read and fill. -/
structure dlr_entry where
  smsc : Option Octstr
  timestamp : Option Octstr
  source : Option Octstr
  destination : Option Octstr
  service : Option Octstr
  url : Option Octstr
  boxc_id : Option Octstr
  mask : Int
  deriving DecidableEq, Repr

/-- A stored record: the nine columns that `dlr_add_mssql` inserts, which are
the nine fields of the document that `dlr_mongodb_add` inserts. -/
structure DlrRecord where
  smsc : Octstr
  ts : Octstr
  src : Octstr
  dst : Octstr
  serv : Octstr
  url : Octstr
  mask : Int
  boxc : Octstr
  status : Int
  deriving DecidableEq, Repr

/-- The part of a condition that concerns the destination: absent, the SQL
clause `AND dst LIKE '%D'`, or the BSON field `dst: D`. -/
inductive DstCond where
  | any
  | like (dst : Octstr)
  | equal (dst : Octstr)
  deriving DecidableEq, Repr

/-- The condition of a statement or query: `smsc = S AND ts = T` and the
destination part. -/
structure DlrCond where
  smsc : Octstr
  ts : Octstr
  dst : DstCond
  deriving DecidableEq, Repr

/-- Modelled from the spec: how the back-end evaluates a condition on a record.
The SQL pattern `'%D'` matches the values that end with `D` (for a `D` without
pattern characters); a BSON string field matches the equal value. -/
def dlr_cond_matches (c : DlrCond) (r : DlrRecord) : Bool :=
  decide (r.smsc = c.smsc) && decide (r.ts = c.ts) &&
    (match c.dst with
      | DstCond.any => true
      | DstCond.like d => decide (d <:+ r.dst)
      | DstCond.equal d => decide (r.dst = d))

/-- Modelled from the spec: gwlib's `octstr_get_cstr` is not among the sources;
it gives the octets of the string, and the text "(null)" for NULL. -/
def octstr_get_cstr (ostr : Option Octstr) : Octstr :=
  match ostr with
  | some s => s
  | none => [40, 110, 117, 108, 108, 41]

/-- The record that both `add` functions insert for an entry: status 0. -/
def dlr_record (entry : dlr_entry) : DlrRecord :=
  { smsc := octstr_get_cstr entry.smsc, ts := octstr_get_cstr entry.timestamp,
    src := octstr_get_cstr entry.source, dst := octstr_get_cstr entry.destination,
    serv := octstr_get_cstr entry.service, url := octstr_get_cstr entry.url,
    mask := entry.mask, boxc := octstr_get_cstr entry.boxc_id, status := 0 }

/-- Modelled from the spec: a `SELECT ... WHERE` statement returns the matching
rows. -/
def sql_select (store : List DlrRecord) (c : DlrCond) : List DlrRecord :=
  store.filter (dlr_cond_matches c)

/-- Modelled from the spec: `UPDATE ... SET status = n WHERE` bracketed by
`SET ROWCOUNT 1` and `SET ROWCOUNT 0` stops after the first matching row. It is
also what `mongo_update` does with flags 0 (neither multi nor upsert). -/
def update_first (c : DlrCond) (status : Int) : List DlrRecord → List DlrRecord
  | [] => []
  | r :: rs =>
    if dlr_cond_matches c r then { r with status := status } :: rs
    else r :: update_first c status rs

/-- Modelled from the spec: `DELETE ... WHERE` bracketed by `SET ROWCOUNT 1` and
`SET ROWCOUNT 0` stops after the first matching row. -/
def delete_first (c : DlrCond) : List DlrRecord → List DlrRecord
  | [] => []
  | r :: rs => if dlr_cond_matches c r then rs else r :: delete_first c rs

/-- Modelled from the spec: `mongo_remove` of the MongoDB client removes the
documents that match the condition; with the empty condition this is how
`dlr_mongodb_flush` removes all records of the namespace. -/
def mongo_remove (store : List DlrRecord) (c : Option DlrCond) : List DlrRecord :=
  match c with
  | none => []
  | some c => store.filter (fun r => !dlr_cond_matches c r)

/-- Modelled from the spec: `mongo_find_one` of the MongoDB client returns the
first document that matches the condition. -/
def mongo_find_one (store : List DlrRecord) (c : DlrCond) : Option DlrRecord :=
  store.find? (dlr_cond_matches c)

/-- The clause `like` of the MSSQL driver and the condition of its statements. -/
def mssql_cond (smsc ts : Octstr) (dst : Option Octstr) : DlrCond :=
  let like := match dst with
    | some d => DstCond.like d
    | none => DstCond.any
  { smsc := smsc, ts := ts, dst := like }

/-- The BSON condition `cond` of the MongoDB driver. -/
def mongodb_cond (smsc ts : Octstr) (dst : Option Octstr) : DlrCond :=
  let d := match dst with
    | some d => DstCond.equal d
    | none => DstCond.any
  { smsc := smsc, ts := ts, dst := d }

/-- The function `dlr_messages_mssql`: the first column of the first row of
`SELECT COUNT(*)`. -/
def dlr_messages_mssql (pconn fails : Bool) (store : List DlrRecord) : Int :=
  let msgs : Int := -1
  if pconn = false then -1
  else if fails = true then -1
  else
    let result : List Int := [(store.length : Int)]
    match result with
    | row :: _ => row
    | [] => msgs

/-- The function `dlr_add_mssql`. -/
def dlr_add_mssql (pconn fails : Bool) (store : List DlrRecord) (entry : dlr_entry) :
    List DlrRecord :=
  if pconn = false then store
  else if fails = true then store
  else store ++ [dlr_record entry]

/-- The function `dlr_remove_mssql`. -/
def dlr_remove_mssql (pconn fails : Bool) (store : List DlrRecord) (smsc ts : Octstr)
    (dst : Option Octstr) : List DlrRecord :=
  if pconn = false then store
  else if fails = true then store
  else delete_first (mssql_cond smsc ts dst) store

/-- The function `dlr_get_mssql`: the entry made from the first row of the
result. -/
def dlr_get_mssql (pconn fails : Bool) (store : List DlrRecord) (smsc ts : Octstr)
    (dst : Option Octstr) : Option dlr_entry :=
  if pconn = false then none
  else if fails = true then none
  else
    match sql_select store (mssql_cond smsc ts dst) with
    | row :: _ =>
      some { mask := row.mask, service := some row.serv, url := some row.url,
             source := some row.src, destination := some row.dst, boxc_id := some row.boxc,
             smsc := some smsc, timestamp := none }
    | [] => none

/-- The function `dlr_update_mssql`. -/
def dlr_update_mssql (pconn fails : Bool) (store : List DlrRecord) (smsc ts : Octstr)
    (dst : Option Octstr) (status : Int) : List DlrRecord :=
  if pconn = false then store
  else if fails = true then store
  else update_first (mssql_cond smsc ts dst) status store

/-- The function `dlr_flush_mssql`: `DELETE FROM table`. -/
def dlr_flush_mssql (pconn fails : Bool) (store : List DlrRecord) : List DlrRecord :=
  if pconn = false then store
  else if fails = true then store
  else []

/-- The function `dlr_mongodb_add`. -/
def dlr_mongodb_add (pconn fails : Bool) (store : List DlrRecord) (entry : dlr_entry) :
    List DlrRecord :=
  if pconn = false then store
  else if fails = true then store
  else store ++ [dlr_record entry]

/-- The function `dlr_mongodb_get`. -/
def dlr_mongodb_get (pconn fails : Bool) (store : List DlrRecord) (smsc ts : Octstr)
    (dst : Option Octstr) : Option dlr_entry :=
  if pconn = false then none
  else
    let found := if fails = true then none else mongo_find_one store (mongodb_cond smsc ts dst)
    match found with
    | some obj =>
      some { mask := obj.mask, service := some obj.serv, url := some obj.url,
             source := some obj.src, destination := some obj.dst, boxc_id := some obj.boxc,
             smsc := some obj.smsc, timestamp := none }
    | none => none

/-- The function `dlr_mongodb_update`: `mongo_update` with flags 0. -/
def dlr_mongodb_update (pconn fails : Bool) (store : List DlrRecord) (smsc ts : Octstr)
    (dst : Option Octstr) (status : Int) : List DlrRecord :=
  if pconn = false then store
  else if fails = true then store
  else update_first (mongodb_cond smsc ts dst) status store

/-- The function `dlr_mongodb_remove`. -/
def dlr_mongodb_remove (pconn fails : Bool) (store : List DlrRecord) (smsc ts : Octstr)
    (dst : Option Octstr) : List DlrRecord :=
  if pconn = false then store
  else if fails = true then store
  else mongo_remove store (some (mongodb_cond smsc ts dst))

/-- The function `dlr_mongodb_messages`: `count` starts as 0 and is assigned
only when `mongo_count` returns. -/
def dlr_mongodb_messages (pconn fails : Bool) (store : List DlrRecord) : Int :=
  let count : Int := 0
  if pconn = false then -1
  else
    let count1 := if fails = true then count else (store.length : Int)
    count1

/-- The function `dlr_mongodb_flush`: `mongo_remove` with the empty condition. -/
def dlr_mongodb_flush (pconn fails : Bool) (store : List DlrRecord) : List DlrRecord :=
  if pconn = false then store
  else if fails = true then store
  else mongo_remove store none

/-- The entry of the round-trip scenario: smsc "S", timestamp "T", destination
"441234567". -/
def sample_dlr_entry : dlr_entry :=
  { smsc := some [83], timestamp := some [84], source := some [49],
    destination := some [52, 52, 49, 50, 51, 52, 53, 54, 55], service := some [],
    url := some [], boxc_id := some [], mask := 3 }

/-- A stored record with smsc "S", timestamp "T" and the given destination. -/
def sample_dlr_record (dst : Octstr) (status : Int) : DlrRecord :=
  { smsc := [83], ts := [84], src := [49], dst := dst, serv := [], url := [], mask := 3,
    boxc := [], status := status }

/-! ## The sendsms interface (gw/smsbox.c) -/

/-- Modelled from the spec: gwlib's `octstr_create` is not among the sources; the
octets of a C string literal. -/
def octstr_create (cstr : String) : Octstr :=
  cstr.toList.map (fun c => (Fin.ofNat c.toNat : Octet))

/-- The octets of a C string: everything before the first NUL. -/
def cstr_octets (s : Octstr) : Octstr := s.takeWhile (fun c => decide (c ≠ 0))

/-- Modelled from the spec: `strspn` of the C library, the length of the longest
initial segment of the C string `s` made of octets of the C string `accept`. -/
def strspn : Octstr → Octstr → Int
  | [], _ => 0
  | c :: s, accept =>
    if c ≠ 0 ∧ c ∈ cstr_octets accept then strspn s accept + 1 else 0

/-- Modelled from the spec: the message kinds of gw/msg-decl.h, which is not
among the sources. -/
def mo : Int := 0

/-- Modelled from the spec: message kind `mt_reply` of gw/msg-decl.h. -/
def mt_reply : Int := 1

/-- Modelled from the spec: message kind `mt_push` of gw/msg-decl.h. -/
def mt_push : Int := 2

/-- The file-scope variables and the environment that the request handlers of
gw/smsbox.c read. `urltrans_find_username` and `urltrans_find` are the lookups
of gw/urltrans.c in the table `translations`, and `is_allowed_ip` is the test of
gwlib, none of which is among the sources, and so are `octstr_read_file` of
gwlib and `html_to_sms` of gw/html.c; `now` is the value of `time(NULL)` and
`counter` the value returned by `counter_increase(catenated_sms_counter)`. -/
structure Smsbox where
  sendsms_number_chars : Octstr
  global_sender : Option Octstr
  white_list : Option Numhash
  black_list : Option Numhash
  sms_max_length : Int
  urltrans_find_username : Octstr → Option URLTranslation
  urltrans_find : Option Octstr → Option Octstr → Option URLTranslation
  is_allowed_ip : Option Octstr → Option Octstr → Option Octstr → Int
  now : Int
  counter : Int
  reply_couldnotfetch : Option Octstr
  reply_couldnotrepresent : Option Octstr
  octstr_read_file : Octstr → Option Octstr
  html_to_sms : Octstr → Octstr

/-- The outcome of a sendsms request: the HTTP status and body, the message
handed to `send_message` (if any) and the parts written to the bearerbox. -/
structure SendsmsResult where
  status : Int
  body : Octstr
  sent : Option Msg
  written : List Msg
  deriving DecidableEq, Repr

/-- The exits `fielderror` and `fielderror2` of `smsbox_req_handle`: status 400
and the diagnostic as body; nothing was handed to `send_message`. -/
def fielderror (returnerror : Octstr) : SendsmsResult :=
  { status := 400, body := returnerror, sent := none, written := [] }

/-- The test `octstr_len(udh) != octstr_get_char(udh, 0) + 1` of
`smsbox_req_handle` for a given `udh`. -/
def udh_length_differs (udh : Octstr) : Except Abort Bool :=
  match octstr_get_char (some udh) 0 with
  | .ok c => .ok (decide (octstr_len (some udh) ≠ c + 1))
  | .error e => .error e

/-- The value of `newfrom` in `smsbox_req_handle`, or `none` when the request
is rejected for want of a sender. -/
def sendsms_newfrom (cfg : Smsbox) (t : URLTranslation) (frm : Option Octstr) : Option Octstr :=
  match t.faked_sender with
  | some f => some f
  | none =>
    if octstr_len frm > 0 then frm
    else match cfg.global_sender with
      | some g => some g
      | none => none

/-- The value of `msg->sms.smsc_id` in `smsbox_req_handle`. -/
def sendsms_smsc_id (t : URLTranslation) (smsc : Option Octstr) : Option Octstr :=
  match t.forced_smsc with
  | some f => some f
  | none =>
    match smsc with
    | some s => some s
    | none => t.default_smsc

/-- The message that `smsbox_req_handle` builds and hands to `send_message`
once every check has passed. -/
def sendsms_msg (cfg : Smsbox) (t : URLTranslation) (newfrom to_ : Octstr)
    (text : Option Octstr) (binary : Int) (udh smsc : Option Octstr)
    (flag_flash flag_mwi mwimessages flag_unicode validity deferred dlr_mask : Int)
    (dlr_id : Option Octstr) : Msg :=
  { sender := some newfrom, receiver := some to_,
    udhdata := (match udh with
      | some u => some u
      | none => some (octstr_create "")),
    msgdata := (match text with
      | some x => some x
      | none => some (octstr_create "")),
    time := cfg.now, smsc_id := sendsms_smsc_id t smsc, service := t.name, id := 0,
    sms_type := mt_push,
    flag_8bit := if binary ≠ 0 ∨ flag_unicode ≠ 0 then 1 else 0,
    flag_udh := (match udh with
      | none => 0
      | some _ => 1),
    flag_flash := flag_flash, flag_mwi := flag_mwi, mwimessages := mwimessages,
    flag_unicode := flag_unicode, validity := validity, deferred := deferred,
    dlr_mask := dlr_mask,
    dlr_id := (match dlr_id with
      | some d => some d
      | none => some (octstr_create "")),
    dlr_keyword := some (octstr_create "DLR") }

/-- The test `list != NULL && numhash_find_number(list, to) < 1` of
`smsbox_req_handle`. -/
def numhash_lacks (list : Option Numhash) (number : Octstr) : Bool :=
  match list with
  | some l => decide (l number < 1)
  | none => false

/-- The test `list != NULL && numhash_find_number(list, to) == 1` of
`smsbox_req_handle`. -/
def numhash_has (list : Option Numhash) (number : Octstr) : Bool :=
  match list with
  | some l => decide (l number = 1)
  | none => false

/-- The end of `smsbox_req_handle`: the message is handed to `send_message`,
and the answer is status 202 with the body "Sent.". -/
def sendsms_send (cfg : Smsbox) (t : URLTranslation) (msg : Msg) : Except Abort SendsmsResult :=
  match send_message (some t) msg cfg.counter cfg.sms_max_length with
  | .error e => .error e
  | .ok parts =>
    .ok { status := 202, body := octstr_create "Sent.", sent := some msg, written := parts }

/-- The part of `smsbox_req_handle` after the UDH length check. -/
def smsbox_req_handle_checked (cfg : Smsbox) (t : URLTranslation) (frm : Option Octstr)
    (to_ : Octstr) (text : Option Octstr) (binary : Int) (udh smsc : Option Octstr)
    (flag_flash flag_mwi mwimessages flag_unicode validity deferred dlr_mask : Int)
    (dlr_id : Option Octstr) : Except Abort SendsmsResult :=
  if strspn to_ cfg.sendsms_number_chars < octstr_len (some to_) then
    .ok (fielderror (octstr_create "Garbage 'to' field, rejected."))
  else if numhash_lacks t.white_list to_ = true then
    .ok (fielderror (octstr_create "Number is not in white-list."))
  else if numhash_has t.black_list to_ = true then
    .ok (fielderror (octstr_create "Number is in black-list."))
  else if numhash_lacks cfg.white_list to_ = true then
    .ok (fielderror (octstr_create "Number is not in global white-list."))
  else if numhash_has cfg.black_list to_ = true then
    .ok (fielderror (octstr_create "Number is in global black-list."))
  else
    match sendsms_newfrom cfg t frm with
    | none => .ok (fielderror (octstr_create "Sender missing and no global set, rejected"))
    | some newfrom =>
      if flag_flash < 0 ∨ flag_flash > 1 then
        .ok (fielderror (octstr_create "Flash field misformed, rejected"))
      else if flag_mwi < 0 ∨ flag_mwi > 8 then
        .ok (fielderror (octstr_create "MWI field misformed, rejected"))
      else if mwimessages < 0 ∨ mwimessages > 255 then
        .ok (fielderror (octstr_create "MWIMessages field misformed, rejected"))
      else if flag_flash ≠ 0 ∧ flag_mwi ≠ 0 then
        .ok (fielderror (octstr_create "Flash and MWI fields present, rejected"))
      else if flag_unicode < 0 ∨ flag_unicode > 1 then
        .ok (fielderror (octstr_create "Unicode field misformed, rejected"))
      else if validity < 0 then
        .ok (fielderror (octstr_create "Validity field misformed, rejected"))
      else if deferred < 0 then
        .ok (fielderror (octstr_create "Deferred field misformed, rejected"))
      else
        sendsms_send cfg t (sendsms_msg cfg t newfrom to_ text binary udh smsc flag_flash flag_mwi
          mwimessages flag_unicode validity deferred dlr_mask dlr_id)

/-- The function `smsbox_req_handle` of gw/smsbox.c. -/
def smsbox_req_handle (cfg : Smsbox) (t : URLTranslation) (_client_ip frm : Option Octstr)
    (to_ : Octstr) (text : Option Octstr) (binary : Int) (udh smsc : Option Octstr)
    (flag_flash flag_mwi mwimessages flag_unicode validity deferred dlr_mask : Int)
    (dlr_id : Option Octstr) : Except Abort SendsmsResult :=
  match (match udh with
    | some u => udh_length_differs u
    | none => .ok false) with
  | .error e => .error e
  | .ok true => .ok (fielderror (octstr_create "UDH field misformed, rejected"))
  | .ok false =>
    smsbox_req_handle_checked cfg t frm to_ text binary udh smsc flag_flash flag_mwi
      mwimessages flag_unicode validity deferred dlr_mask dlr_id

/-- A configuration with `sendsms_number_chars` "0123456789+ -", no lists, no
global sender, `sms_max_length` 140 and a translation table that knows the user
"u" (password "p", any address allowed). -/
def sample_smsbox : Smsbox :=
  { sendsms_number_chars := octstr_create "0123456789+ -", global_sender := none,
    white_list := none, black_list := none, sms_max_length := 140,
    urltrans_find_username := fun name =>
      if name = octstr_create "u" then
        some { sample_trans [] 1 with
          type := TRANSTYPE_SENDSMS, username := some (octstr_create "u"),
          password := some (octstr_create "p") }
      else none,
    urltrans_find := fun _ _ => none,
    is_allowed_ip := fun _ _ _ => 1,
    now := 1000, counter := 0,
    reply_couldnotfetch := some (octstr_create "Could not fetch content, sorry."),
    reply_couldnotrepresent :=
      some (octstr_create "Result could not be represented as an SMS message."),
    octstr_read_file := fun _ => none,
    html_to_sms := fun body => body }

/-- Modelled from the spec: `isspace` of the C library in the C locale. -/
def isspace (c : Octet) : Bool :=
  c = 32 || c = 9 || c = 10 || c = 11 || c = 12 || c = 13

/-- Modelled from the spec: `isdigit` of the C library. -/
def isdigit (c : Octet) : Bool := decide (48 ≤ c.val ∧ c.val ≤ 57)

/-- The value of a run of decimal digits. -/
def digits_value (ds : Octstr) : Int :=
  ds.foldl (fun n c => n * 10 + ((c.val : Int) - 48)) 0

/-- Modelled from the spec: `sscanf(s, "%d", &n)` of the C library reads white
space, an optional sign and decimal digits; the result is the number stored,
or `none` when there are no digits and the variable keeps its value. -/
def sscanf_d (s : Octstr) : Option Int :=
  let s1 := (cstr_octets s).dropWhile isspace
  let negative := decide (s1.head? = some 45)
  let s2 := if s1.head? = some 45 ∨ s1.head? = some 43 then s1.drop 1 else s1
  let ds := s2.takeWhile isdigit
  if ds = [] then none
  else some (if negative = true then - digits_value ds else digits_value ds)

/-- Modelled from the spec: gwlib's `octstr_compare` is not among the sources;
it compares octet by octet, a proper prefix being smaller, and gives -1, 0
or 1. -/
def octstr_compare_data : Octstr → Octstr → Int
  | [], [] => 0
  | [], _ :: _ => -1
  | _ :: _, [] => 1
  | a :: as, b :: bs =>
    if a < b then -1 else if b < a then 1 else octstr_compare_data as bs

/-- Modelled from the spec: gwlib's `octstr_compare`, where NULL equals NULL
and is smaller than every string. -/
def octstr_compare (ostr1 ostr2 : Option Octstr) : Int :=
  match ostr1, ostr2 with
  | none, none => 0
  | none, some _ => -1
  | some _, none => 1
  | some a, some b => octstr_compare_data a b

/-- Modelled from the spec: `http_cgi_variable` of gwlib/http.c, which is not
among the sources: the value of the first CGI variable of the given name, or
NULL. -/
def http_cgi_variable (args : List (Octstr × Octstr)) (name : String) : Option Octstr :=
  (args.find? (fun v => decide (v.1 = octstr_create name))).map (fun v => v.2)

/-- The function `authorise_username` of gw/smsbox.c. -/
def authorise_username (cfg : Smsbox) (username password client_ip : Option Octstr) :
    Option URLTranslation :=
  match username, password with
  | some u, some p =>
    match cfg.urltrans_find_username u with
    | none => none
    | some t =>
      if octstr_compare (some p) t.password ≠ 0 then none
      else if cfg.is_allowed_ip t.allow_ip t.deny_ip client_ip = 0 then none
      else some t
  | _, _ => none

/-- The value of `user` in `default_authorise_user`. -/
def cgi_user (list : List (Octstr × Octstr)) : Option Octstr :=
  match http_cgi_variable list "username" with
  | some u => some u
  | none => http_cgi_variable list "user"

/-- The value of `pass` in `default_authorise_user`. -/
def cgi_pass (list : List (Octstr × Octstr)) : Option Octstr :=
  match http_cgi_variable list "password" with
  | some p => some p
  | none => http_cgi_variable list "pass"

/-- The function `default_authorise_user` of gw/smsbox.c. -/
def default_authorise_user (cfg : Smsbox) (list : List (Octstr × Octstr))
    (client_ip : Option Octstr) : Option URLTranslation :=
  authorise_username cfg (cgi_user list) (cgi_pass list) client_ip

/-- The function `authorise_user` of gw/smsbox.c, compiled without PAM. -/
def authorise_user (cfg : Smsbox) (list : List (Octstr × Octstr))
    (client_ip : Option Octstr) : Option URLTranslation :=
  default_authorise_user cfg list client_ip

/-- The integer that `smsbox_req_sendsms` reads from a CGI variable with
`sscanf`, starting from 0. -/
def cgi_int (args : List (Octstr × Octstr)) (name : String) : Int :=
  match http_cgi_variable args name with
  | some s =>
    match sscanf_d s with
    | some n => n
    | none => 0
  | none => 0

/-- The answer of the sendsms interface to a request that is refused before
`smsbox_req_handle` is called. -/
def refused (status : Int) (body : String) : SendsmsResult :=
  { status := status, body := octstr_create body, sent := none, written := [] }

/-- The function `smsbox_req_sendsms` of gw/smsbox.c. -/
def smsbox_req_sendsms (cfg : Smsbox) (args : List (Octstr × Octstr))
    (client_ip : Option Octstr) : Except Abort SendsmsResult :=
  match authorise_user cfg args client_ip with
  | none => .ok (refused 403 "Authorization failed for sendsms")
  | some t =>
    let udh := http_cgi_variable args "udh"
    let text := http_cgi_variable args "text"
    let smsc := http_cgi_variable args "smsc"
    let frm := http_cgi_variable args "from"
    let dlr_id := http_cgi_variable args "dlrid"
    let charset := http_cgi_variable args "charset"
    let dlr_mask := cgi_int args "dlrmask"
    let flag_flash := cgi_int args "flash"
    let flag_mwi := cgi_int args "mwi"
    let mwimessages := cgi_int args "mwimessages"
    let flag_unicode := cgi_int args "unicode"
    let validity := cgi_int args "validity"
    let deferred := cgi_int args "deferred"
    match http_cgi_variable args "to" with
    | none => .ok (refused 400 "Wrong sendsms args, rejected")
    | some to_ =>
      let binary : Int := if udh.isSome = true ∧ charset.isNone = true then 1 else 0
      smsbox_req_handle cfg t client_ip frm to_ text binary udh smsc flag_flash flag_mwi
        mwimessages flag_unicode validity deferred dlr_mask dlr_id

/-- Modelled from the spec: `tolower` of the C library in the C locale. -/
def tolower (c : Octet) : Octet :=
  if 65 ≤ c.val ∧ c.val ≤ 90 then c + 32 else c

/-- Modelled from the spec: gwlib's `octstr_case_compare` is not among the
sources; `octstr_compare` without regard to the case of letters. -/
def octstr_case_compare (ostr1 ostr2 : Octstr) : Int :=
  octstr_compare_data (ostr1.map tolower) (ostr2.map tolower)

/-- Modelled from the spec: gwlib's `octstr_strip_blanks` is not among the
sources; it removes white space from both ends. -/
def octstr_strip_blanks (s : Octstr) : Octstr :=
  ((s.dropWhile isspace).reverse.dropWhile isspace).reverse

/-- The value of a hexadecimal digit. -/
def hex_value (c : Octet) : Option Nat :=
  if 48 ≤ c.val ∧ c.val ≤ 57 then some (c.val - 48)
  else if 97 ≤ c.val ∧ c.val ≤ 102 then some (c.val - 87)
  else if 65 ≤ c.val ∧ c.val ≤ 70 then some (c.val - 55)
  else none

/-- The octets written as pairs of hexadecimal digits; a last digit without
partner is dropped. -/
def hex_pairs : Octstr → Option Octstr
  | a :: b :: rest =>
    match hex_value a, hex_value b, hex_pairs rest with
    | some x, some y, some r => some (Fin.ofNat (x * 16 + y) :: r)
    | _, _, _ => none
  | [a] =>
    match hex_value a with
    | some _ => some []
    | none => none
  | [] => some []

/-- Modelled from the spec: gwlib's `octstr_hex_to_binary` is not among the
sources; the string converted from hexadecimal digits, or `none` when the
function returns -1 because an octet is not a hexadecimal digit. -/
def octstr_hex_to_binary (s : Octstr) : Option Octstr := hex_pairs s

/-- The variables that `get_x_kannel_from_headers` fills. -/
structure XKannel where
  frm : Option Octstr
  to_ : Option Octstr
  udh : Option Octstr
  user : Option Octstr
  pass : Option Octstr
  smsc : Option Octstr
  flag_flash : Int
  flag_mwi : Int
  mwimessages : Int
  flag_unicode : Int
  validity : Int
  deferred : Int
  dlr_mask : Int
  dlr_id : Option Octstr
  deriving DecidableEq, Repr

/-- The variables of a caller of `get_x_kannel_from_headers` before the call:
every pointer NULL, every integer 0. -/
def x_kannel_null : XKannel :=
  { frm := none, to_ := none, udh := none, user := none, pass := none, smsc := none,
    flag_flash := 0, flag_mwi := 0, mwimessages := 0, flag_unicode := 0, validity := 0,
    deferred := 0, dlr_mask := 0, dlr_id := none }

/-- The value an integer header leaves in its variable: `sscanf` with "%d". -/
def x_kannel_int (old : Int) (val : Octstr) : Int :=
  match sscanf_d val with
  | some n => n
  | none => old

/-- One round of the loop of `get_x_kannel_from_headers`, for the header
`name: val`; `auth` tells whether the caller passed pointers for user, pass
and smsc. -/
def x_kannel_header (auth : Bool) (x : XKannel) (name val : Octstr) : XKannel :=
  if octstr_case_compare name (octstr_create "X-Kannel-From") = 0 then
    { x with frm := some (octstr_strip_blanks val) }
  else if octstr_case_compare name (octstr_create "X-Kannel-To") = 0 then
    { x with to_ := some (octstr_strip_blanks val) }
  else if octstr_case_compare name (octstr_create "X-Kannel-Username") = 0 then
    if auth = true then { x with user := some (octstr_strip_blanks val) } else x
  else if octstr_case_compare name (octstr_create "X-Kannel-Password") = 0 then
    if auth = true then { x with pass := some (octstr_strip_blanks val) } else x
  else if octstr_case_compare name (octstr_create "X-Kannel-SMSC") = 0 then
    if auth = true then { x with smsc := some (octstr_strip_blanks val) } else x
  else if octstr_case_compare name (octstr_create "X-Kannel-UDH") = 0 then
    { x with udh := octstr_hex_to_binary (octstr_strip_blanks val) }
  else if octstr_case_compare name (octstr_create "X-Kannel-DLR-ID") = 0 then
    { x with dlr_id := some (octstr_strip_blanks val) }
  else if octstr_case_compare name (octstr_create "X-Kannel-Flash") = 0 then
    { x with flag_flash := x_kannel_int x.flag_flash val }
  else if octstr_case_compare name (octstr_create "X-Kannel-MWI") = 0 then
    { x with flag_mwi := x_kannel_int x.flag_mwi val }
  else if octstr_case_compare name (octstr_create "X-Kannel-MWI-Messages") = 0 then
    { x with mwimessages := x_kannel_int x.mwimessages val }
  else if octstr_case_compare name (octstr_create "X-Kannel-Unicode") = 0 then
    { x with flag_unicode := x_kannel_int x.flag_unicode val }
  else if octstr_case_compare name (octstr_create "X-Kannel-Validity") = 0 then
    { x with validity := x_kannel_int x.validity val }
  else if octstr_case_compare name (octstr_create "X-Kannel-Deferred") = 0 then
    { x with deferred := x_kannel_int x.deferred val }
  else if octstr_case_compare name (octstr_create "X-Kannel-DLR-Mask") = 0 then
    { x with dlr_mask := x_kannel_int x.dlr_mask val }
  else x

/-- The variables of the caller as `get_x_kannel_from_headers` resets them
before its loop: `dlr_mask`, `dlr_id` and the six integers. -/
def x_kannel_reset (x : XKannel) : XKannel :=
  { frm := x.frm, to_ := x.to_, udh := x.udh, user := x.user, pass := x.pass, smsc := x.smsc,
    flag_flash := 0, flag_mwi := 0, mwimessages := 0, flag_unicode := 0, validity := 0,
    deferred := 0, dlr_mask := 0, dlr_id := none }

/-- The function `get_x_kannel_from_headers` of gw/smsbox.c; a header is a pair
of name and value, as `http_header_get` returns it, and `x` holds the variables
of the caller before the call. -/
def get_x_kannel_from_headers (headers : List (Octstr × Octstr)) (auth : Bool) (x : XKannel) :
    XKannel :=
  headers.foldl (fun x h => x_kannel_header auth x h.1 h.2) (x_kannel_reset x)

/-- Modelled from the spec: `http_header_get_content_type` of gwlib/http.c,
which is not among the sources: the media type of the first Content-Type
header, without parameters and surrounding white space, and
"application/octet-stream" when there is no such header. -/
def http_header_get_content_type (headers : List (Octstr × Octstr)) : Octstr :=
  match headers.find? (fun h => decide (octstr_case_compare h.1 (octstr_create "Content-Type") = 0)) with
  | none => octstr_create "application/octet-stream"
  | some h => octstr_strip_blanks ((octstr_strip_blanks h.2).takeWhile (fun c => decide (c ≠ 59)))

/-- The function `smsbox_sendsms_post` of gw/smsbox.c. -/
def smsbox_sendsms_post (cfg : Smsbox) (headers : List (Octstr × Octstr)) (body : Octstr)
    (client_ip : Option Octstr) : Except Abort SendsmsResult :=
  let x := get_x_kannel_from_headers headers true x_kannel_null
  match authorise_username cfg x.user x.pass client_ip with
  | none => .ok (refused 403 "Authorization failed for sendsms")
  | some t =>
    match x.to_ with
    | none => .ok (refused 400 "Insufficient headers, rejected")
    | some to_ =>
      let type := http_header_get_content_type headers
      if octstr_compare (some type) (some (octstr_create "application/octet-stream")) = 0 then
        smsbox_req_handle cfg t client_ip x.frm to_ (some body) 1 x.udh x.smsc x.flag_flash
          x.flag_mwi x.mwimessages x.flag_unicode x.validity x.deferred x.dlr_mask x.dlr_id
      else if octstr_compare (some type) (some (octstr_create "text/plain")) = 0 then
        smsbox_req_handle cfg t client_ip x.frm to_ (some body) 0 x.udh x.smsc x.flag_flash
          x.flag_mwi x.mwimessages x.flag_unicode x.validity x.deferred x.dlr_mask x.dlr_id
      else .ok (refused 415 "Unsupported content-type, rejected")

/-- The branch of `sendsms_thread` for the URL /sendsms: a request without body
goes to `smsbox_req_sendsms`, one with a body to `smsbox_sendsms_post`. -/
def sendsms_request (cfg : Smsbox) (args hdrs : List (Octstr × Octstr)) (body : Option Octstr)
    (ip : Option Octstr) : Except Abort SendsmsResult :=
  match body with
  | none => smsbox_req_sendsms cfg args ip
  | some b => smsbox_sendsms_post cfg hdrs b ip

/-- The credentials that a sendsms request gives: the CGI variables of a
request without body, the X-Kannel headers of a request with body. -/
def request_credentials (args hdrs : List (Octstr × Octstr)) (body : Option Octstr) :
    Option Octstr × Option Octstr :=
  match body with
  | none => (cgi_user args, cgi_pass args)
  | some _ =>
    ((get_x_kannel_from_headers hdrs true x_kannel_null).user,
      (get_x_kannel_from_headers hdrs true x_kannel_null).pass)

/-- A translation with the given username exists, the given password equals
that translation's password, and the client address passes its allow_ip and
deny_ip lists. -/
def credentials_accepted (cfg : Smsbox) (username password client_ip : Option Octstr) : Prop :=
  ∃ u p t, username = some u ∧ password = some p ∧ cfg.urltrans_find_username u = some t ∧
    t.password = some p ∧ cfg.is_allowed_ip t.allow_ip t.deny_ip client_ip ≠ 0

/-- The diagnostics with which `smsbox_req_handle` rejects a request. -/
def sendsms_diagnostics : List Octstr :=
  [octstr_create "UDH field misformed, rejected",
   octstr_create "Garbage 'to' field, rejected.",
   octstr_create "Number is not in white-list.",
   octstr_create "Number is in black-list.",
   octstr_create "Number is not in global white-list.",
   octstr_create "Number is in global black-list.",
   octstr_create "Sender missing and no global set, rejected",
   octstr_create "Flash field misformed, rejected",
   octstr_create "MWI field misformed, rejected",
   octstr_create "MWIMessages field misformed, rejected",
   octstr_create "Flash and MWI fields present, rejected",
   octstr_create "Unicode field misformed, rejected",
   octstr_create "Validity field misformed, rejected",
   octstr_create "Deferred field misformed, rejected"]

/-! ## The obey loop and the HTTP result loop (gw/smsbox.c) -/

/-- A message written to the bearerbox: an SMS, or an ack with its fields `time`
and `id`. -/
inductive BoxMsg where
  | sms (m : Msg)
  | ack (time id : Int)
  deriving DecidableEq, Repr

/-- The `struct receiver` of gw/smsbox.c. -/
structure receiver where
  msg : Msg
  trans : URLTranslation

/-- The function `remember_receiver` of gw/smsbox.c: the reply skeleton kept
for an HTTP request; `msg_create` leaves `id` and `sms_type` at 0. -/
def remember_receiver (msg : Msg) (trans : URLTranslation) : receiver :=
  { msg :=
      { sender := msg.sender, receiver := msg.receiver, service := trans.name, flag_8bit := 0,
        flag_udh := 0, udhdata := none, flag_flash := 0, flag_mwi := 0, mwimessages := 0,
        flag_unicode := 0, msgdata := none, validity := 0, deferred := 0, time := -1,
        smsc_id := msg.smsc_id, dlr_id := none, dlr_keyword := none, dlr_mask := 0, id := 0,
        sms_type := 0 },
    trans := trans }

/-- The function `obey_request` of gw/smsbox.c: the return value, `*result`, and
the receivers remembered for the HTTP requests it starts (the request itself,
its URL, headers and body, is not represented). -/
def obey_request (cfg : Smsbox) (trans : URLTranslation) (msg : Msg) :
    Except Abort (Int × Option Octstr × List receiver) :=
  match trans.pattern msg with
  | none => .error Abort.assertion
  | some pattern =>
    if trans.type = TRANSTYPE_TEXT then .ok (1, some pattern, [])
    else if trans.type = TRANSTYPE_FILE then .ok (1, cfg.octstr_read_file pattern, [])
    else if trans.type = TRANSTYPE_GET_URL then .ok (0, none, [remember_receiver msg trans])
    else if trans.type = TRANSTYPE_POST_URL then .ok (0, none, [remember_receiver msg trans])
    else .ok (-1, none, [])

/-- The sender that `obey_request_thread` gives to the reply of a translation:
its faked sender, else the global sender, else the receiver of the request. -/
def obey_sender (cfg : Smsbox) (trans : URLTranslation) (msg : Msg) : Option Octstr :=
  match trans.faked_sender with
  | some p => some p
  | none =>
    match cfg.global_sender with
    | some g => some g
    | none => msg.receiver

/-- The end of the body of the loop of `obey_request_thread` when there is a
direct reply: the reply becomes the text of the message, which is handed to
`send_message`, and the ack is written after its parts. -/
def obey_send (cfg : Smsbox) (trans : Option URLTranslation) (msg : Msg) (reply : Option Octstr)
    (reply_msg : BoxMsg) (started : List receiver) : Except Abort (List BoxMsg × List receiver) :=
  match send_message trans { msg with msgdata := reply, flag_8bit := 0, flag_udh := 0, time := cfg.now }
      cfg.counter cfg.sms_max_length with
  | .error e => .error e
  | .ok parts => .ok (parts.map BoxMsg.sms ++ [reply_msg], started)

/-- One round of the loop of `obey_request_thread` of gw/smsbox.c, for the
message `msg` taken from the queue: the messages written to the bearerbox, in
the order of writing, and the receivers of the HTTP requests started. -/
def obey_request_thread (cfg : Smsbox) (msg : Msg) : Except Abort (List BoxMsg × List receiver) :=
  if octstr_len msg.sender = 0 ∨ octstr_len msg.receiver = 0 then .ok ([], [])
  else if octstr_compare msg.sender msg.receiver = 0 then .ok ([], [])
  else
    let reply_msg := BoxMsg.ack msg.time msg.id
    match cfg.urltrans_find msg.msgdata msg.smsc_id with
    | none =>
      obey_send cfg none { msg with sender := msg.receiver, receiver := msg.sender }
        (some (octstr_create "Request failed")) reply_msg []
    | some t =>
      let msg1 : Msg :=
        { msg with sender := obey_sender cfg t msg, receiver := msg.sender, sms_type := mt_reply }
      match obey_request cfg t msg1 with
      | .error e => .error e
      | .ok (ret, reply, started) =>
        if ret ≠ 0 then
          if ret = -1 then
            obey_send cfg none msg1 (some (octstr_create "Request failed")) reply_msg started
          else obey_send cfg (some t) msg1 reply reply_msg started
        else .ok ([reply_msg], started)

/-- Modelled from the spec: status code `HTTP_OK` of gwlib/http.h. -/
def HTTP_OK : Int := 200

/-- Modelled from the spec: gwlib's `octstr_case_search` is not among the
sources; the first position at or after `pos` where `needle` occurs in
`haystack`, compared without regard to case, or -1. -/
def octstr_case_search (haystack needle : Octstr) (pos : Int) : Int :=
  match (List.range (haystack.length + 1 - needle.length)).find?
      (fun (i : Nat) => decide (pos ≤ Int.ofNat i) &&
        decide (((haystack.drop i).take needle.length).map tolower = needle.map tolower)) with
  | some i => (i : Int)
  | none => -1

/-- Modelled from the spec: gwlib's `octstr_truncate` is not among the sources;
it asserts `new_len >= 0` and keeps the first `new_len` octets. -/
def octstr_truncate (ostr : Octstr) (new_len : Int) : Except Abort Octstr :=
  if new_len < 0 then .error Abort.assertion else .ok (ostr.take new_len.toNat)

/-- The function `strip_prefix_and_suffix` of gw/smsbox.c: the new content of
`html`. -/
def strip_prefix_and_suffix (html : Octstr) (prefix_text suffix_text : Option Octstr) :
    Except Abort Octstr :=
  match prefix_text, suffix_text with
  | some p, some s =>
    let prefix_end := octstr_case_search html p 0
    if prefix_end = -1 then .ok html
    else
      let prefix_end1 := prefix_end + octstr_len (some p)
      let suffix_start := octstr_case_search html s prefix_end1
      if suffix_start = -1 then .ok html
      else
        match octstr_delete (some html) 0 prefix_end1 with
        | .error e => .error e
        | .ok html1 => octstr_truncate html1 (suffix_start - prefix_end1)
  | _, _ => .ok html

/-- The function `fill_message` of gw/smsbox.c: the message after the call.
Where the code destroys `msg->sms.sender` without assigning it (a `dlr_id`
that is accepted), the field is left as it is. -/
def fill_message (cfg : Smsbox) (msg : Msg) (trans : URLTranslation) (replytext : Option Octstr)
    (octet_stream : Int) (frm to_ udh : Option Octstr)
    (flag_flash flag_mwi mwimessages flag_unicode validity deferred : Int)
    (dlr_id : Option Octstr) (dlr_mask : Int) : Msg :=
  let accept : Bool := decide (trans.accept_x_kannel_headers ≠ 0)
  let m1 := { msg with msgdata := replytext }
  let m2 := if octet_stream ≠ 0 ∧ trans.assume_plain_text = 0 then { m1 with flag_8bit := 1 } else m1
  let m3 := { m2 with time := cfg.now }
  let m4 := if dlr_id.isSome = true ∧ accept = true then
      { m3 with dlr_id := dlr_id, dlr_keyword := some (octstr_create "DLR") }
    else m3
  let m5 := if frm.isSome = true ∧ accept = true then { m4 with sender := frm } else m4
  let m6 := if to_.isSome = true ∧ accept = true then { m5 with receiver := to_ } else m5
  let m7 := if udh.isSome = true ∧ accept = true then { m6 with flag_udh := 1, udhdata := udh }
    else m6
  let m8 := if flag_flash ≠ 0 ∧ accept = true then { m7 with flag_flash := flag_flash } else m7
  let m9 := if flag_mwi ≠ 0 ∧ accept = true then { m8 with flag_mwi := flag_mwi } else m8
  let m10 := if mwimessages ≠ 0 ∧ accept = true then { m9 with mwimessages := mwimessages }
    else m9
  let m11 := if flag_unicode ≠ 0 ∧ accept = true then { m10 with flag_unicode := flag_unicode }
    else m10
  let m12 := if validity ≠ 0 ∧ accept = true then { m11 with validity := validity } else m11
  let m13 := if deferred ≠ 0 ∧ accept = true then { m12 with deferred := deferred } else m12
  if dlr_mask ≠ 0 ∧ accept = true then
    { m13 with dlr_mask := dlr_mask,
               dlr_keyword := (match m13.dlr_keyword with
                 | some k => some k
                 | none => some (octstr_create "DLR")) }
  else m13

/-- What `http_receive_result` hands to `url_result_thread`: the receiver
remembered for the request, the status, and the headers and body of the
reply. -/
structure HttpResult where
  id : receiver
  status : Int
  reply_headers : List (Octstr × Octstr)
  reply_body : Octstr

/-- The first half of a round of the loop of `url_result_thread`: the values of
`replytext` and `octets` and of the variables filled from the headers. The
variables `dlr_mask` and `dlr_id` come into the round with the values `x0` has;
`from`, `to`, `udh` and the six integers are reset by the loop. -/
def url_result_reply (cfg : Smsbox) (x0 : XKannel) (res : HttpResult) :
    Except Abort (Option Octstr × Int × XKannel) :=
  let type := http_header_get_content_type res.reply_headers
  if res.status = HTTP_OK then
    if octstr_compare (some type) (some (octstr_create "text/html")) = 0 ∨
        octstr_compare (some type) (some (octstr_create "text/vnd.wap.wml")) = 0 then
      match strip_prefix_and_suffix res.reply_body res.id.trans.prefix_text
          res.id.trans.suffix_text with
      | .error e => .error e
      | .ok body =>
        .ok (some (octstr_strip_blanks (cfg.html_to_sms body)), 0,
          get_x_kannel_from_headers res.reply_headers false x0)
    else if octstr_compare (some type) (some (octstr_create "text/plain")) = 0 then
      .ok (some (octstr_strip_blanks res.reply_body), 0,
        get_x_kannel_from_headers res.reply_headers false x0)
    else if octstr_compare (some type) (some (octstr_create "application/octet-stream")) = 0 then
      .ok (some res.reply_body, 1, get_x_kannel_from_headers res.reply_headers false x0)
    else .ok (cfg.reply_couldnotrepresent, 0, x0)
  else .ok (cfg.reply_couldnotfetch, 0, x0)

/-- One round of the loop of `url_result_thread` of gw/smsbox.c, for one HTTP
result: the messages written to the bearerbox and the values that the
variables `dlr_mask` and `dlr_id` have after the round; `dlr` holds their
values before it. -/
def url_result_thread (cfg : Smsbox) (dlr : Int × Option Octstr) (res : HttpResult) :
    Except Abort (List BoxMsg × (Int × Option Octstr)) :=
  match url_result_reply cfg { x_kannel_null with dlr_mask := dlr.1, dlr_id := dlr.2 } res with
  | .error e => .error e
  | .ok (replytext, octets, x) =>
    match send_message (some res.id.trans)
        (fill_message cfg res.id.msg res.id.trans replytext octets x.frm x.to_ x.udh x.flag_flash
          x.flag_mwi x.mwimessages x.flag_unicode x.validity x.deferred x.dlr_id x.dlr_mask)
        cfg.counter cfg.sms_max_length with
    | .error e => .error e
    | .ok parts => .ok (parts.map BoxMsg.sms, (x.dlr_mask, x.dlr_id))

/-- The configuration `sample_smsbox` with a translation table that answers
every request with the given translation. -/
def sample_smsbox_with (t : URLTranslation) : Smsbox :=
  { sample_smsbox with urltrans_find := fun _ _ => some t }

/-- The request of the fixed-text scenario: sender "+1", receiver "+2", text
"ping", time 7 and id 42. -/
def sample_mo : Msg :=
  { sample_sms 0 0 none (octstr_create "ping") with
    sender := some (octstr_create "+1"), receiver := some (octstr_create "+2"), time := 7,
    id := 42 }

/-! ## The invariants of a message in the words of the specification -/

/-- The invariants of a message: flag_flash and flag_mwi are not both set; if
udhdata is non-empty then flag_udh = 1 and the UDHL is consistent; if
flag_unicode = 1 then flag_8bit = 1. -/
def message_invariants (m : Msg) : Prop :=
  ¬ (m.flag_flash ≠ 0 ∧ m.flag_mwi ≠ 0) ∧
  (octstr_len m.udhdata ≠ 0 → m.flag_udh = 1 ∧ udhl_consistent m.udhdata) ∧
  (m.flag_unicode = 1 → m.flag_8bit = 1)

instance message_invariants_decidable (m : Msg) : Decidable (message_invariants m) := by
  unfold message_invariants
  infer_instance

/-- A request with a UDH and a Unicode text: the request of `sample_mo` with
udhdata 02 70 00, flag_udh = 1, flag_unicode = 1 and flag_8bit = 1. -/
def sample_mo_udh : Msg :=
  { sample_mo with udhdata := some [2, 112, 0], flag_udh := 1, flag_8bit := 1, flag_unicode := 1 }


/-- A call of one of the heap functions of gw-timer.c on the heap of a timer
set. `heap_insert` is called as `gw_timer_start` calls it, after
`gw_assert(timer->index < 0)`; `store` is an assignment to the `elapses` field
of a timer, which `gw_timer_start` makes before it calls `heap_adjust`. -/
inductive HeapCall where
  | insert (timer : Nat)
  | delete (index : Nat)
  | swap (index1 index2 : Nat)
  | adjust (index : Nat)
  | store (timer : Nat) (elapses : Int)
  deriving DecidableEq, Repr

/-- One call of a heap function. -/
def apply_heap_call (st : TimerState) (call : HeapCall) : Except Abort TimerState :=
  match call with
  | .insert timer =>
    if ¬ ((st.mem timer).index < 0) then .error Abort.assertion
    else heap_insert st timer
  | .delete index => heap_delete st index
  | .swap index1 index2 => heap_swap st index1 index2
  | .adjust index => do
    let (st1, _) ← heap_adjust st index
    pure st1
  | .store timer elapses => .ok (set_elapses st timer elapses)

/-- A sequence of calls of the heap functions, from left to right. -/
def run_heap_calls : TimerState → List HeapCall → Except Abort TimerState
  | st, [] => .ok st
  | st, call :: calls => do
    let st1 ← apply_heap_call st call
    run_heap_calls st1 calls

/-- A sample sequence of calls: three insertions, a swap and the adjustment
that repairs it, a deadline change with its adjustment, and two deletions. -/
def sample_heap_calls : List HeapCall :=
  [.store 1 30, .insert 1, .store 2 20, .insert 2, .store 3 10, .insert 3,
   .swap 0 2, .adjust 2, .adjust 0, .store 2 5, .adjust 1, .delete 0, .delete 1]

/-- The needle stands in the body at position `i`, compared without regard to
the case of letters. -/
def occurs_at (body needle : Octstr) (i : Nat) : Prop :=
  i + needle.length ≤ body.length ∧
    ((body.drop i).take needle.length).map tolower = needle.map tolower

instance occurs_at_decidable (body needle : Octstr) (i : Nat) :
    Decidable (occurs_at body needle i) := by
  unfold occurs_at
  infer_instance

/-- Position `i` is the first occurrence of the needle in the body at or after
position `pos`. -/
def first_occurrence (body needle : Octstr) (pos i : Nat) : Prop :=
  pos ≤ i ∧ occurs_at body needle i ∧ ∀ k, pos ≤ k → k < i → ¬ occurs_at body needle k

/-- A part fits one physical SMS of `max_octets` octets: an 8-bit part has
`len(udhdata) + len(msgdata) <= max_octets`, a 7-bit part has
`ceil(len(udhdata) * 8 / 7) + len(msgdata) <= floor(max_octets * 8 / 7)`. -/
def fits_one_sms (max_octets : Int) (part : Msg) : Prop :=
  if part.flag_8bit ≠ 0 then octstr_len part.udhdata + octstr_len part.msgdata ≤ max_octets
  else ⌈((octstr_len part.udhdata * 8 : Int) : ℚ) / 7⌉ + octstr_len part.msgdata ≤
    ⌊((max_octets * 8 : Int) : ℚ) / 7⌋

/-- The loop `for (;;)` of `url_result_thread` of gw/smsbox.c over the results
that `http_receive_result` hands out, in order: the messages written to the
bearerbox in each round. `dlr` holds the values of the variables `dlr_mask` and
`dlr_id` at the head of the round. -/
def url_result_loop (cfg : Smsbox) :
    Int × Option Octstr → List HttpResult → Except Abort (List (List BoxMsg))
  | _, [] => .ok []
  | dlr, res :: rest =>
    match url_result_thread cfg dlr res with
    | .error e => .error e
    | .ok (out, dlr1) =>
      match url_result_loop cfg dlr1 rest with
      | .error e => .error e
      | .ok outs => .ok (out :: outs)

/-- The function `url_result_thread` of gw/smsbox.c from its first statement:
`dlr_mask = 0; dlr_id = NULL;`, then the loop. -/
def url_result_run (cfg : Smsbox) (results : List HttpResult) :
    Except Abort (List (List BoxMsg)) :=
  url_result_loop cfg (0, none) results

/-- The fields `dlr_mask`, `dlr_id` and `dlr_keyword` of the SMS messages among
the messages written in one round. -/
def emitted_dlr (out : List BoxMsg) : List (Int × Option Octstr × Option Octstr) :=
  out.filterMap (fun b =>
    match b with
    | .sms m => some (m.dlr_mask, m.dlr_id, m.dlr_keyword)
    | .ack _ _ => none)

/-- A translation of kind `get-url` that accepts X-Kannel headers. -/
def sample_get_trans : URLTranslation :=
  { sample_trans [] 1 with type := TRANSTYPE_GET_URL, accept_x_kannel_headers := 1 }

/-- A reply 200 with content type text/plain, the header `X-Kannel-DLR-Mask: 3`
and the body "one", to a request of `sample_mo`. -/
def sample_reply_dlr : HttpResult :=
  { id := remember_receiver sample_mo sample_get_trans, status := 200,
    reply_headers := [(octstr_create "Content-Type", octstr_create "text/plain"),
      (octstr_create "X-Kannel-DLR-Mask", octstr_create "3")],
    reply_body := octstr_create "one" }

/-- A reply 404 without headers and body, to a request of `sample_mo`. -/
def sample_reply_404 : HttpResult :=
  { id := remember_receiver sample_mo sample_get_trans, status := 404,
    reply_headers := [], reply_body := [] }

/-- The sender of a reply in the words of the specification: the faked sender
of the translation if it is set, else the global sender if it is set, else the
receiver of the request. -/
def spec_reply_sender (faked_sender global_sender receiver : Option Octstr) : Option Octstr :=
  if faked_sender.isSome then faked_sender
  else if global_sender.isSome then global_sender
  else receiver

/-- The fixed-text translation "pong" with the faked sender "100". -/
def sample_faked_trans : URLTranslation :=
  { sample_trans (octstr_create "pong") 1 with faked_sender := some (octstr_create "100") }

/-- The configuration `sample_smsbox` with the global sender "200" and a
translation table that answers every request with the given translation. -/
def sample_global_smsbox (t : URLTranslation) : Smsbox :=
  { sample_smsbox_with t with global_sender := some (octstr_create "200") }
/-! # Theorems -/

/-! ## Facts about the octet-string operations -/

theorem octstr_len_nonneg (o : Option Octstr) : 0 ≤ octstr_len o := by
  cases o <;> simp [octstr_len]

theorem octstr_len_eq (o : Option Octstr) : octstr_len o = ((ostr_data o).length : Int) := by
  cases o <;> simp [octstr_len, ostr_data]

theorem extract_scan_le (md : Option Octstr) (sc : Octstr) (len0 : Int) (k : Nat) (len : Int)
    (h : extract_scan md sc len0 k = .ok len) : len = len0 ∨ (1 ≤ len ∧ len ≤ (k : Int)) := by
  induction k with
  | zero =>
    simp only [extract_scan, Except.ok.injEq] at h
    exact Or.inl h.symm
  | succ k ih =>
    simp only [extract_scan, bind, Except.bind] at h
    split at h
    · simp at h
    · split at h
      · simp at h
      · split at h
        · simp only [pure, Except.pure, Except.ok.injEq] at h
          right
          omega
        · rcases ih h with h1 | h1
          · exact Or.inl h1
          · right
            omega

theorem octstr_get_char_ok (d : Octstr) (i : Nat) (hi : i < d.length) :
    ∃ c : Octet, octstr_get_char (some d) ((i : Int) + 1 - 1) = .ok (c.val : Int) := by
  refine ⟨d.get ⟨i, hi⟩, ?_⟩
  have h1 : ¬ ((i : Int) + 1 - 1 ≥ (d.length : Int) ∨ (i : Int) + 1 - 1 < 0) := by omega
  have h2 : ((i : Int) + 1 - 1).toNat = i := by omega
  simp only [octstr_get_char, h1, if_false, h2]
  rw [List.get?_eq_get hi]

theorem octstr_search_char_ok (sc : Octstr) (c : Octet) :
    ∃ r, octstr_search_char sc (c.val : Int) 0 = .ok r := by
  have hc : ¬ ((c.val : Int) < 0 ∨ 255 < (c.val : Int) ∨ (0 : Int) < 0) := by
    have := c.isLt
    omega
  simp only [octstr_search_char, hc, if_false]
  split
  · exact ⟨_, rfl⟩
  · split <;> exact ⟨_, rfl⟩

theorem extract_scan_ok (d : Octstr) (sc : Octstr) (len0 : Int) (k : Nat) (hk : k ≤ d.length) :
    ∃ r, extract_scan (some d) sc len0 k = .ok r := by
  induction k with
  | zero => exact ⟨len0, rfl⟩
  | succ k ih =>
    obtain ⟨c, hc⟩ := octstr_get_char_ok d k (by omega)
    obtain ⟨r, hr⟩ := octstr_search_char_ok sc c
    simp only [extract_scan, bind, Except.bind, hc, hr]
    split
    · exact ⟨_, rfl⟩
    · exact ih (by omega)

theorem compose_part_msgdata (p : Msg) (c : Octstr) (hdr ftr suf : Option Octstr) (last : Bool) :
    (compose_part p c hdr ftr suf last).msgdata =
      some (ostr_data hdr ++ c ++ ostr_data ftr ++ (if last then [] else ostr_data suf)) := by
  cases hdr <;> cases ftr <;> cases suf <;> cases last <;>
    simp [compose_part, ostr_data, octstr_insert, octstr_append]

theorem payload_chunk_compose (p : Msg) (c : Octstr) (hdr ftr suf : Option Octstr) (last : Bool) :
    payload_chunk hdr ftr suf last (compose_part p c hdr ftr suf last) = c := by
  simp only [payload_chunk, compose_part_msgdata, octstr_len_eq, Int.toNat_ofNat]
  cases last <;> simp [ostr_data, List.take_append_eq_append_take, List.drop_append_eq_append_drop]

theorem payload_chunks_parts_of_chunks (orig : Msg) (hdr ftr suf : Option Octstr)
    (chunks : List Octstr) : ∀ msgno0 : Int,
    payload_chunks hdr ftr suf (parts_of_chunks orig hdr ftr suf msgno0 chunks) = chunks := by
  induction chunks with
  | nil => intro _; rfl
  | cons c cs ih =>
    intro msgno0
    cases cs with
    | nil => simp [parts_of_chunks, payload_chunks, payload_chunk_compose]
    | cons c2 cs =>
      have := ih (msgno0 + 1)
      simp only [parts_of_chunks] at this ⊢
      cases cs <;> simp_all [parts_of_chunks, payload_chunks, payload_chunk_compose]

theorem length_parts_of_chunks (orig : Msg) (hdr ftr suf : Option Octstr)
    (chunks : List Octstr) : ∀ msgno0 : Int,
    (parts_of_chunks orig hdr ftr suf msgno0 chunks).length = chunks.length := by
  induction chunks with
  | nil => intro _; rfl
  | cons c cs ih =>
    intro msgno0
    cases cs with
    | nil => rfl
    | cons c2 cs =>
      have := ih (msgno0 + 1)
      simp only [parts_of_chunks, List.length_cons] at this ⊢
      omega

theorem octstr_copy_ok (md : Option Octstr) (len : Int) (payload : Octstr)
    (h : octstr_copy md 0 len = .ok payload) :
    payload = (ostr_data md).take len.toNat ∧ (md ≠ none → 0 ≤ len) := by
  cases md with
  | none =>
    simp only [octstr_copy, Except.ok.injEq] at h
    simp [ostr_data, ← h]
  | some d =>
    simp only [octstr_copy] at h
    split at h
    · simp at h
    · simp only [Except.ok.injEq] at h
      refine ⟨by simp [ostr_data, ← h], fun _ => by omega⟩

theorem octstr_delete_ok (md : Option Octstr) (len : Int) (rest : Octstr) (hlen : 0 ≤ len)
    (h : octstr_delete md 0 len = .ok rest) :
    ∃ d, md = some d ∧ rest = d.drop len.toNat := by
  cases md with
  | none => simp [octstr_delete] at h
  | some d =>
    refine ⟨d, rfl, ?_⟩
    have h0 : ¬ ((0 : Int) > (d.length : Int)) := by omega
    simp only [octstr_delete, h0, if_false, zero_add] at h
    by_cases h1 : len > (d.length : Int)
    · simp only [h1, if_true, sub_zero] at h
      by_cases h2 : (d.length : Int) > 0
      · simp only [h2, if_true, Except.ok.injEq, Int.toNat_ofNat, Int.toNat_zero,
          List.take_zero, List.nil_append] at h
        rw [← h, List.drop_length, List.drop_of_length_le (by omega)]
      · simp only [h2, if_false, Except.ok.injEq] at h
        have : d.length = 0 := by omega
        rw [← h, List.drop_of_length_le (by omega)]
        exact List.length_eq_zero.mp this
    · simp only [h1, if_false] at h
      by_cases h2 : len > 0
      · simp only [h2, if_true, Except.ok.injEq, Int.toNat_zero,
          List.take_zero, List.nil_append] at h
        exact h.symm
      · simp only [h2, if_false, Except.ok.injEq] at h
        have : len.toNat = 0 := by omega
        rw [this, ← h, List.drop_zero]


theorem except_bind_ok {α β : Type} (x : Except Abort α) (f : α → Except Abort β) (b : β) :
    (x >>= f) = .ok b ↔ ∃ a, x = .ok a ∧ f a = .ok b := by
  cases x with
  | error e => simp [bind, Except.bind]
  | ok a => simp [bind, Except.bind]

theorem extract_len_le (md sc : Option Octstr) (L len : Int)
    (h : extract_len md sc L = .ok len) : len ≤ L := by
  cases sc with
  | none =>
    simp only [extract_len, Except.ok.injEq] at h
    omega
  | some s =>
    have := extract_scan_le _ _ _ _ _ h
    omega

theorem extract_msgdata_part_ok (md sc : Option Octstr) (L : Int) (payload : Octstr)
    (rest : Option Octstr) (h : extract_msgdata_part md sc L = .ok (payload, rest)) :
    ∃ (d : Octstr) (n : Nat), md = some d ∧ (n : Int) ≤ L ∧ payload = d.take n ∧
      rest = some (d.drop n) := by
  unfold extract_msgdata_part at h
  rw [except_bind_ok] at h
  obtain ⟨len, hlen, h⟩ := h
  rw [except_bind_ok] at h
  obtain ⟨part, hpart, h⟩ := h
  rw [except_bind_ok] at h
  obtain ⟨rst, hrest, h⟩ := h
  simp only [pure, Except.pure, Except.ok.injEq, Prod.mk.injEq] at h
  obtain ⟨hp, hr⟩ := h
  subst hp
  have hle := extract_len_le _ _ _ _ hlen
  have hcopy := octstr_copy_ok _ _ _ hpart
  cases md with
  | none => simp [octstr_delete] at hrest
  | some d =>
    have hnn : 0 ≤ len := hcopy.2 (by simp)
    obtain ⟨d2, hd2, hrst⟩ := octstr_delete_ok _ _ _ hnn hrest
    simp only [Option.some.injEq] at hd2
    subst hd2
    refine ⟨d, len.toNat, rfl, ?_, ?_, ?_⟩
    · rw [Int.toNat_of_nonneg hnn]; exact hle
    · rw [hcopy.1]; rfl
    · rw [← hr, hrst]

/-- Everything the splitting loop returns is built from consecutive chunks of
the remaining message data. -/
theorem sms_split_loop_chunks (orig : Msg) (hdr ftr suf sc : Option Octstr)
    (maxm P S : Int) :
    ∀ (fuel : Nat) (md : Option Octstr) (msgno0 : Int) (parts : List Msg),
      sms_split_loop orig hdr ftr suf sc maxm P S fuel md msgno0 = .ok parts →
      ∃ chunks : List Octstr, chunks ≠ [] ∧
        parts = parts_of_chunks orig hdr ftr suf msgno0 chunks ∧
        chunks.flatten <+: ostr_data md ∧
        (msgno0 + (chunks.length : Int) = maxm ∨ chunks.flatten = ostr_data md) ∧
        (msgno0 < maxm → msgno0 + (chunks.length : Int) ≤ maxm) ∧
        (0 ≤ P → ∀ c ∈ chunks.getLast?, (c.length : Int) ≤ P) ∧
        (∀ c ∈ chunks.dropLast, (c.length : Int) ≤ P - S) := by
  intro fuel
  induction fuel with
  | zero =>
    intro md msgno0 parts h
    simp [sms_split_loop] at h
  | succ fuel ih =>
    intro md msgno0 parts h
    unfold sms_split_loop at h
    simp only [] at h
    split at h
    · rename_i hcond
      rw [except_bind_ok] at h
      obtain ⟨payload, hpay, h⟩ := h
      simp only [pure, Except.pure, Except.ok.injEq] at h
      have hcopy := octstr_copy_ok _ _ _ hpay
      refine ⟨[payload], by simp, ?_, ?_, ?_, ?_, ?_, ?_⟩
      · rw [← h]; rfl
      · simp only [List.flatten_cons, List.flatten_nil, List.append_nil, hcopy.1]
        exact List.take_prefix _ _
      · rcases hcond with hfit | hlast
        · right
          simp only [List.flatten_cons, List.flatten_nil, List.append_nil, hcopy.1]
          apply List.take_of_length_le
          rw [octstr_len_eq] at hfit
          omega
        · left
          simp only [List.length_singleton, Nat.cast_one]
          exact hlast
      · intro hlt
        simp only [List.length_singleton, Nat.cast_one]
        omega
      · intro hP c hc
        simp only [List.getLast?_singleton, Option.mem_def, Option.some.injEq] at hc
        subst hc
        rw [hcopy.1, List.length_take]
        omega
      · simp
    · rename_i hcond
      rw [except_bind_ok] at h
      obtain ⟨⟨payload, rest⟩, hext, h⟩ := h
      simp only [] at h
      rw [except_bind_ok] at h
      obtain ⟨more, hmore, h⟩ := h
      simp only [pure, Except.pure, Except.ok.injEq] at h
      obtain ⟨d, n, hmd, hn, hpayload, hrest⟩ := extract_msgdata_part_ok _ _ _ _ _ hext
      obtain ⟨chunks, hne, hparts, hpre, hall, hbound, hlastlen, hlen⟩ := ih rest (msgno0 + 1) more hmore
      subst hmd hrest hpayload
      simp only [ostr_data] at hpre hall ⊢
      obtain ⟨c2, cs, hcs⟩ := List.exists_cons_of_ne_nil hne
      refine ⟨d.take n :: chunks, by simp, ?_, ?_, ?_, ?_, ?_, ?_⟩
      · rw [← h, hparts, hcs]; rfl
      · simp only [List.flatten_cons]
        obtain ⟨t, ht⟩ := hpre
        refine ⟨t, ?_⟩
        rw [List.append_assoc, ht, List.take_append_drop]
      · rcases hall with h1 | h1
        · left
          simp only [List.length_cons, Nat.cast_add, Nat.cast_one]
          omega
        · right
          simp only [List.flatten_cons, h1, List.take_append_drop]
      · intro hlt
        simp only [List.length_cons, Nat.cast_add, Nat.cast_one]
        have hne2 : msgno0 + 1 ≠ maxm := fun hh => hcond (Or.inr hh)
        have := hbound (by omega)
        omega
      · intro hP c hc
        rw [hcs] at hc
        simp only [List.getLast?_cons_cons] at hc
        rw [hcs] at hlastlen
        exact hlastlen hP c hc
      · intro c hc
        rw [hcs] at hc
        simp only [List.dropLast_cons₂, List.mem_cons] at hc
        rcases hc with hc | hc
        · subst hc
          rw [List.length_take]
          omega
        · rw [hcs] at hlen
          exact hlen c hc

theorem octstr_copy_returns (md : Option Octstr) (len : Int) (h : 0 ≤ len) :
    ∃ p, octstr_copy md 0 len = .ok p := by
  cases md with
  | none => exact ⟨_, rfl⟩
  | some d =>
    have : ¬ ((0 : Int) < 0 ∨ len < 0) := by omega
    simp only [octstr_copy, this, if_false]
    exact ⟨_, rfl⟩

theorem octstr_delete_returns (d : Octstr) (pos len : Int) :
    ∃ r, octstr_delete (some d) pos len = .ok r := by
  simp only [octstr_delete]
  by_cases h : (if (if pos > (d.length : Int) then (d.length : Int) else pos) + len > (d.length : Int)
      then (d.length : Int) - (if pos > (d.length : Int) then (d.length : Int) else pos)
      else len) > 0
  · rw [if_pos h]
    exact ⟨_, rfl⟩
  · rw [if_neg h]
    exact ⟨_, rfl⟩

theorem extract_msgdata_part_returns (d : Octstr) (sc : Option Octstr) (L : Int)
    (h0 : 0 ≤ L) (h1 : L ≤ (d.length : Int)) :
    ∃ p r, extract_msgdata_part (some d) sc L = .ok (p, r) := by
  have hlen : ∃ len, extract_len (some d) sc L = .ok len ∧ 0 ≤ len := by
    cases sc with
    | none => exact ⟨L, rfl, h0⟩
    | some s =>
      obtain ⟨r, hr⟩ := extract_scan_ok d s L L.toNat (by omega)
      refine ⟨r, hr, ?_⟩
      have := extract_scan_le _ _ _ _ _ hr
      omega
  obtain ⟨len, hlen, hnn⟩ := hlen
  obtain ⟨p, hp⟩ := octstr_copy_returns (some d) len hnn
  obtain ⟨r, hr⟩ := octstr_delete_returns d 0 len
  refine ⟨p, some r, ?_⟩
  simp only [extract_msgdata_part, bind, Except.bind, hlen, hp, hr]
  rfl

/-- With at least one message allowed and a budget that admits every copy, the
splitting loop returns within `max_messages - msgno0` rounds. -/
theorem sms_split_loop_returns (orig : Msg) (hdr ftr suf sc : Option Octstr)
    (maxm P S : Int) (hP : 0 ≤ P) (hS : 0 ≤ S) :
    ∀ (fuel : Nat) (md : Option Octstr) (msgno0 : Int),
      msgno0 < maxm → maxm - msgno0 ≤ (fuel : Int) →
      (octstr_len md ≤ P ∨ msgno0 + 1 = maxm ∨ S ≤ P) →
      ∃ parts, sms_split_loop orig hdr ftr suf sc maxm P S fuel md msgno0 = .ok parts := by
  intro fuel
  induction fuel with
  | zero =>
    intro md msgno0 h1 h2 _
    simp only [Nat.cast_zero] at h2
    omega
  | succ fuel ih =>
    intro md msgno0 h1 h2 h3
    unfold sms_split_loop
    simp only []
    split
    · obtain ⟨p, hp⟩ := octstr_copy_returns md P hP
      rw [hp]
      exact ⟨_, rfl⟩
    · rename_i hcond
      have hfit : ¬ octstr_len md ≤ P := fun hh => hcond (Or.inl hh)
      have hnl : ¬ msgno0 + 1 = maxm := fun hh => hcond (Or.inr hh)
      have hSP : S ≤ P := by
        rcases h3 with h | h | h
        · exact absurd h hfit
        · exact absurd h hnl
        · exact h
      cases md with
      | none =>
        simp only [octstr_len] at hfit
        omega
      | some d =>
        simp only [octstr_len] at hfit
        obtain ⟨p, r, hpr⟩ := extract_msgdata_part_returns d sc (P - S) (by omega) (by omega)
        simp only [Nat.cast_add, Nat.cast_one] at h2
        obtain ⟨more, hmore⟩ := ih r (msgno0 + 1) (by omega) (by omega) (Or.inr (Or.inr hSP))
        rw [hpr]
        simp only [bind, Except.bind, hmore]
        exact ⟨_, rfl⟩

theorem sms_split_ok (orig : Msg) (hdr ftr suf sc : Option Octstr)
    (cat seq maxm maxo : Int) (parts : List Msg) :
    sms_split orig hdr ftr suf sc cat seq maxm maxo = .ok parts ↔
      ∃ list, sms_split_loop orig hdr ftr suf sc maxm
          (sms_split_max_part_len orig hdr ftr cat maxo) (octstr_len suf)
          (sms_split_fuel orig maxm) orig.msgdata 0 = .ok list ∧
        parts = if cat ≠ 0 ∧ (list.length : Int) > 1 then
            catenation_loop (list.length : Int) seq 1 list
          else list := by
  unfold sms_split
  simp only []
  rw [except_bind_ok]
  constructor
  · rintro ⟨list, h1, h2⟩
    refine ⟨list, h1, ?_⟩
    split at h2 <;> simp only [pure, Except.pure, Except.ok.injEq] at h2
    · rename_i hc; rw [if_pos hc]; exact h2.symm
    · rename_i hc; rw [if_neg hc]; exact h2.symm
  · rintro ⟨list, h1, h2⟩
    refine ⟨list, h1, ?_⟩
    split
    · rename_i hc; rw [if_pos hc] at h2; rw [h2]; rfl
    · rename_i hc; rw [if_neg hc] at h2; rw [h2]; rfl

theorem prepend_catenation_udh_msgdata (p : Msg) (k n s : Int) :
    (prepend_catenation_udh p k n s).msgdata = p.msgdata := rfl

theorem length_catenation_loop (n s : Int) (l : List Msg) :
    ∀ k : Int, (catenation_loop n s k l).length = l.length := by
  induction l with
  | nil => intro _; rfl
  | cons p ps ih => intro k; simp [catenation_loop, ih]

theorem payload_chunk_congr (hdr ftr suf : Option Octstr) (last : Bool) (p q : Msg)
    (h : p.msgdata = q.msgdata) :
    payload_chunk hdr ftr suf last p = payload_chunk hdr ftr suf last q := by
  simp only [payload_chunk, h]

theorem payload_chunks_catenation_loop (hdr ftr suf : Option Octstr) (n s : Int)
    (l : List Msg) : ∀ k : Int,
    payload_chunks hdr ftr suf (catenation_loop n s k l) = payload_chunks hdr ftr suf l := by
  induction l with
  | nil => intro _; rfl
  | cons p ps ih =>
    intro k
    cases ps with
    | nil =>
      simp only [catenation_loop, payload_chunks]
      rw [payload_chunk_congr _ _ _ _ _ p (prepend_catenation_udh_msgdata _ _ _ _)]
    | cons q qs =>
      have := ih (k + 1)
      simp only [catenation_loop, payload_chunks] at this ⊢
      rw [this, payload_chunk_congr _ _ _ _ _ p (prepend_catenation_udh_msgdata _ _ _ _)]

theorem payload_chunks_length (hdr ftr suf : Option Octstr) (l : List Msg) :
    (payload_chunks hdr ftr suf l).length = l.length := by
  induction l with
  | nil => rfl
  | cons p ps ih =>
    cases ps with
    | nil => rfl
    | cons q qs =>
      simp only [payload_chunks, List.length_cons] at ih ⊢
      omega

/-- What `sms_split` returns, in terms of payload chunks of the original data. -/
theorem sms_split_chunks (orig : Msg) (hdr ftr suf sc : Option Octstr)
    (cat seq maxm maxo : Int) (parts : List Msg)
    (h : sms_split orig hdr ftr suf sc cat seq maxm maxo = .ok parts) :
    ∃ chunks : List Octstr, chunks ≠ [] ∧
      parts = (if cat ≠ 0 ∧ (chunks.length : Int) > 1 then
          catenation_loop (chunks.length : Int) seq 1 (parts_of_chunks orig hdr ftr suf 0 chunks)
        else parts_of_chunks orig hdr ftr suf 0 chunks) ∧
      parts.length = chunks.length ∧
      payload_chunks hdr ftr suf parts = chunks ∧
      chunks.flatten <+: ostr_data orig.msgdata ∧
      ((chunks.length : Int) = maxm ∨ chunks.flatten = ostr_data orig.msgdata) ∧
      (0 < maxm → (chunks.length : Int) ≤ maxm) ∧
      (0 ≤ sms_split_max_part_len orig hdr ftr cat maxo → ∀ c ∈ chunks.getLast?,
        (c.length : Int) ≤ sms_split_max_part_len orig hdr ftr cat maxo) ∧
      (∀ c ∈ chunks.dropLast,
        (c.length : Int) ≤ sms_split_max_part_len orig hdr ftr cat maxo - octstr_len suf) := by
  rw [sms_split_ok] at h
  obtain ⟨list, hloop, hparts⟩ := h
  obtain ⟨chunks, hne, hlist, hpre, hall, hbound, hlast, hlen⟩ :=
    sms_split_loop_chunks _ _ _ _ _ _ _ _ _ _ _ _ hloop
  have hll : list.length = chunks.length := by rw [hlist, length_parts_of_chunks]
  refine ⟨chunks, hne, ?_, ?_, ?_, hpre, ?_, ?_, hlast, hlen⟩
  · rw [hparts, hll, hlist]
  · rw [hparts]
    split
    · rw [length_catenation_loop, hll]
    · exact hll
  · rw [hparts]
    split
    · rw [payload_chunks_catenation_loop, hlist, payload_chunks_parts_of_chunks]
    · rw [hlist, payload_chunks_parts_of_chunks]
  · simpa using hall
  · simpa using hbound

/-- `sms_split` returns when at least one message is allowed and the budget
admits every copy it makes. -/
theorem sms_split_returns (orig : Msg) (hdr ftr suf sc : Option Octstr)
    (cat seq maxm maxo : Int) (hmax : 1 ≤ maxm)
    (hP : 0 ≤ sms_split_max_part_len orig hdr ftr cat maxo)
    (hb : octstr_len orig.msgdata ≤ sms_split_max_part_len orig hdr ftr cat maxo ∨ maxm = 1 ∨
      octstr_len suf ≤ sms_split_max_part_len orig hdr ftr cat maxo) :
    ∃ parts, sms_split orig hdr ftr suf sc cat seq maxm maxo = .ok parts := by
  obtain ⟨list, hlist⟩ := sms_split_loop_returns orig hdr ftr suf sc maxm
    (sms_split_max_part_len orig hdr ftr cat maxo) (octstr_len suf) hP (octstr_len_nonneg _)
    (sms_split_fuel orig maxm) orig.msgdata 0 (by omega)
    (by
      have := octstr_len_nonneg orig.msgdata
      simp only [sms_split_fuel, Nat.cast_add, Nat.cast_one]
      omega)
    (by
      rcases hb with h | h | h
      · exact Or.inl h
      · right; left; omega
      · exact Or.inr (Or.inr h))
  exact ⟨_, (sms_split_ok _ _ _ _ _ _ _ _ _ _).mpr ⟨list, hlist, rfl⟩⟩

theorem except_bind_error {α β : Type} (x : Except Abort α) (f : α → Except Abort β) (e : Abort) :
    (x >>= f) = .error e ↔ x = .error e ∨ ∃ a, x = .ok a ∧ f a = .error e := by
  cases x with
  | error e1 => simp [bind, Except.bind]
  | ok a => simp [bind, Except.bind]

theorem octstr_copy_no_loop (md : Option Octstr) (frm len : Int) :
    octstr_copy md frm len ≠ .error Abort.looping := by
  unfold octstr_copy
  cases md with
  | none => simp
  | some d =>
    simp only []
    split <;> simp

theorem octstr_delete_no_loop (md : Option Octstr) (pos len : Int) :
    octstr_delete md pos len ≠ .error Abort.looping := by
  cases md with
  | none => simp [octstr_delete]
  | some d =>
    obtain ⟨r, hr⟩ := octstr_delete_returns d pos len
    rw [hr]
    simp

theorem octstr_get_char_no_loop (md : Option Octstr) (pos : Int) :
    octstr_get_char md pos ≠ .error Abort.looping := by
  unfold octstr_get_char
  cases md with
  | none => simp
  | some d =>
    simp only []
    split
    · simp
    · split <;> simp

theorem octstr_search_char_no_loop (s : Octstr) (ch pos : Int) :
    octstr_search_char s ch pos ≠ .error Abort.looping := by
  unfold octstr_search_char
  split
  · simp
  · split
    · simp
    · split <;> simp

theorem extract_scan_no_loop (md : Option Octstr) (sc : Octstr) (len0 : Int) (k : Nat) :
    extract_scan md sc len0 k ≠ .error Abort.looping := by
  induction k with
  | zero => simp [extract_scan]
  | succ k ih =>
    unfold extract_scan
    intro h
    rw [except_bind_error] at h
    rcases h with h | ⟨ch, _, h⟩
    · exact octstr_get_char_no_loop _ _ h
    · rw [except_bind_error] at h
      rcases h with h | ⟨found, _, h⟩
      · exact octstr_search_char_no_loop _ _ _ h
      · split at h
        · simp [pure, Except.pure] at h
        · exact ih h

theorem extract_msgdata_part_no_loop (md sc : Option Octstr) (L : Int) :
    extract_msgdata_part md sc L ≠ .error Abort.looping := by
  unfold extract_msgdata_part
  intro h
  rw [except_bind_error] at h
  rcases h with h | ⟨len, _, h⟩
  · cases sc with
    | none => simp [extract_len] at h
    | some s => exact extract_scan_no_loop _ _ _ _ h
  · rw [except_bind_error] at h
    rcases h with h | ⟨part, _, h⟩
    · exact octstr_copy_no_loop _ _ _ h
    · rw [except_bind_error] at h
      rcases h with h | ⟨rest, _, h⟩
      · exact octstr_delete_no_loop _ _ _ h
      · simp [pure, Except.pure] at h

/-- With `max_messages - msgno0` rounds allowed the splitting loop ends, by
returning or by a failed assertion. -/
theorem sms_split_loop_no_loop (orig : Msg) (hdr ftr suf sc : Option Octstr)
    (maxm P S : Int) :
    ∀ (fuel : Nat) (md : Option Octstr) (msgno0 : Int),
      msgno0 < maxm → maxm - msgno0 ≤ (fuel : Int) →
      sms_split_loop orig hdr ftr suf sc maxm P S fuel md msgno0 ≠ .error Abort.looping := by
  intro fuel
  induction fuel with
  | zero =>
    intro md msgno0 h1 h2
    simp only [Nat.cast_zero] at h2
    omega
  | succ fuel ih =>
    intro md msgno0 h1 h2
    unfold sms_split_loop
    simp only []
    split
    · intro h
      rw [except_bind_error] at h
      rcases h with h | ⟨p, _, h⟩
      · exact octstr_copy_no_loop _ _ _ h
      · simp [pure, Except.pure] at h
    · rename_i hcond
      have hnl : ¬ msgno0 + 1 = maxm := fun hh => hcond (Or.inr hh)
      intro h
      rw [except_bind_error] at h
      rcases h with h | ⟨⟨p, r⟩, _, h⟩
      · exact extract_msgdata_part_no_loop _ _ _ h
      · simp only [] at h
        rw [except_bind_error] at h
        simp only [Nat.cast_add, Nat.cast_one] at h2
        rcases h with h | ⟨more, _, h⟩
        · exact ih r (msgno0 + 1) (by omega) (by omega) h
        · simp [pure, Except.pure] at h

/-- For `max_messages >= 1` the loop of `sms_split` ends within the rounds the
embedding allows. -/
theorem sms_split_no_loop (orig : Msg) (hdr ftr suf sc : Option Octstr)
    (cat seq maxm maxo : Int) (hmax : 1 ≤ maxm) :
    sms_split orig hdr ftr suf sc cat seq maxm maxo ≠ .error Abort.looping := by
  unfold sms_split
  simp only []
  intro h
  rw [except_bind_error] at h
  rcases h with h | ⟨list, _, h⟩
  · refine sms_split_loop_no_loop orig hdr ftr suf sc maxm _ _ _ _ 0 (by omega) ?_ h
    have := octstr_len_nonneg orig.msgdata
    simp only [sms_split_fuel, Nat.cast_add, Nat.cast_one]
    omega
  · split at h <;> simp [pure, Except.pure] at h

/-! ## Claims about sms_split -/

/-- C1: for max_messages >= 1 and a per-part budget of at least len(nonlast_suffix),
`sms_split` returns parts whose payload chunks (msgdata without header, footer
and non-last suffix), concatenated in list order, form a prefix of the original
msgdata, and the whole of it when fewer than max_messages parts were produced. -/
theorem sms_split_payload_prefix (orig : Msg) (header footer nonlast_suffix split_chars : Option Octstr)
    (catenate msg_sequence max_messages max_octets : Int)
    (hmax : 1 ≤ max_messages)
    (hbudget : octstr_len nonlast_suffix ≤
      sms_split_max_part_len orig header footer catenate max_octets) :
    ∃ parts, sms_split orig header footer nonlast_suffix split_chars catenate msg_sequence
        max_messages max_octets = .ok parts ∧
      (payload_chunks header footer nonlast_suffix parts).flatten <+: ostr_data orig.msgdata ∧
      ((parts.length : Int) < max_messages →
        (payload_chunks header footer nonlast_suffix parts).flatten = ostr_data orig.msgdata) := by
  have hS := octstr_len_nonneg nonlast_suffix
  obtain ⟨parts, hparts⟩ := sms_split_returns orig header footer nonlast_suffix split_chars
    catenate msg_sequence max_messages max_octets hmax (by omega) (Or.inr (Or.inr hbudget))
  obtain ⟨chunks, _, _, hlen, hchunks, hpre, hall, _⟩ :=
    sms_split_chunks _ _ _ _ _ _ _ _ _ _ hparts
  refine ⟨parts, hparts, ?_, ?_⟩
  · rw [hchunks]; exact hpre
  · intro hlt
    rw [hchunks]
    rcases hall with h | h
    · rw [hlen] at hlt; omega
    · exact h

/-- Witness of C1: an 8-bit message of seven octets, split with header, footer,
suffix and a split character into parts of at most seven octets. -/
theorem sms_split_payload_prefix_witness :
    ((1 : Int) ≤ 2 ∧ octstr_len (some [7, 7]) ≤
        sms_split_max_part_len (sample_sms 1 0 none [1, 2, 32, 4, 5, 6, 7]) (some [9]) (some [8]) 0 7) ∧
      ∃ parts, sms_split (sample_sms 1 0 none [1, 2, 32, 4, 5, 6, 7]) (some [9]) (some [8])
          (some [7, 7]) (some [32]) 0 0 2 7 = .ok parts ∧
        (payload_chunks (some [9]) (some [8]) (some [7, 7]) parts).flatten <+:
          ostr_data (sample_sms 1 0 none [1, 2, 32, 4, 5, 6, 7]).msgdata ∧
        ((parts.length : Int) < 2 →
          (payload_chunks (some [9]) (some [8]) (some [7, 7]) parts).flatten =
            ostr_data (sample_sms 1 0 none [1, 2, 32, 4, 5, 6, 7]).msgdata) :=
  ⟨⟨by decide, by decide⟩,
    sms_split_payload_prefix (sample_sms 1 0 none [1, 2, 32, 4, 5, 6, 7]) (some [9]) (some [8])
      (some [7, 7]) (some [32]) 0 0 2 7 (by decide) (by decide)⟩

/-- C7, as stated, fails: with max_messages = 1, a three-octet header and
max_octets = 2 the budget is negative and `sms_split` does not return a list;
`octstr_copy` is called with a negative length and its assertion aborts. -/
theorem sms_split_negative_budget_aborts :
    (1 : Int) ≤ 1 ∧
      sms_split (sample_sms 1 0 none [1, 2, 3]) (some [72, 105, 58]) none none none 0 0 1 2 =
        .error Abort.assertion ∧
      ¬ ∃ parts, sms_split (sample_sms 1 0 none [1, 2, 3]) (some [72, 105, 58]) none none none
        0 0 1 2 = .ok parts := by
  refine ⟨by decide, by decide, ?_⟩
  rintro ⟨parts, h⟩
  have h2 : sms_split (sample_sms 1 0 none [1, 2, 3]) (some [72, 105, 58]) none none none
      0 0 1 2 = .error Abort.assertion := by decide
  rw [h2] at h
  exact absurd h (by simp)

/-- C7 (amended): for max_messages >= 1 `sms_split` terminates; when moreover the
budget P is non-negative and, unless the message fits into P or
max_messages = 1, at least len(nonlast_suffix), it returns N parts with
1 <= N <= max_messages; and when P = 0 and nonlast_suffix is empty every part
has an empty payload chunk. -/
theorem sms_split_part_count (orig : Msg) (header footer nonlast_suffix split_chars : Option Octstr)
    (catenate msg_sequence max_messages max_octets : Int)
    (hmax : 1 ≤ max_messages) :
    sms_split orig header footer nonlast_suffix split_chars catenate msg_sequence
      max_messages max_octets ≠ .error Abort.looping ∧
    (0 ≤ sms_split_max_part_len orig header footer catenate max_octets →
      (octstr_len orig.msgdata ≤ sms_split_max_part_len orig header footer catenate max_octets ∨
        max_messages = 1 ∨
        octstr_len nonlast_suffix ≤
          sms_split_max_part_len orig header footer catenate max_octets) →
      ∃ parts, sms_split orig header footer nonlast_suffix split_chars catenate msg_sequence
          max_messages max_octets = .ok parts ∧
        1 ≤ parts.length ∧ (parts.length : Int) ≤ max_messages ∧
        (sms_split_max_part_len orig header footer catenate max_octets = 0 →
          octstr_len nonlast_suffix = 0 →
          ∀ c ∈ payload_chunks header footer nonlast_suffix parts, c = [])) := by
  refine ⟨sms_split_no_loop orig header footer nonlast_suffix split_chars catenate msg_sequence
    max_messages max_octets hmax, ?_⟩
  intro hP hb
  obtain ⟨parts, hparts⟩ := sms_split_returns orig header footer nonlast_suffix split_chars
    catenate msg_sequence max_messages max_octets hmax hP hb
  obtain ⟨chunks, hne, _, hlen, hchunks, _, _, hbound, hlast, hnonlast⟩ :=
    sms_split_chunks _ _ _ _ _ _ _ _ _ _ hparts
  refine ⟨parts, hparts, ?_, ?_, ?_⟩
  · rw [hlen]
    exact Nat.one_le_iff_ne_zero.mpr (fun h0 => hne (List.length_eq_zero.mp h0))
  · rw [hlen]; exact hbound (by omega)
  · intro hP0 hS0 c hc
    rw [hchunks] at hc
    have hcl : (c.length : Int) ≤ 0 := by
      have hsplit := List.dropLast_append_getLast? (l := chunks)
      cases hgl : chunks.getLast? with
      | none =>
        rw [List.getLast?_eq_none_iff] at hgl
        exact absurd hgl hne
      | some z =>
        have hz := hsplit z hgl
        rw [← hz, List.mem_append, List.mem_singleton] at hc
        rcases hc with hc | hc
        · have := hnonlast c hc
          rw [hP0, hS0] at this
          simpa using this
        · have := hlast hP c (by rw [hc]; exact hgl)
          rw [hP0] at this
          exact this
    have : c.length = 0 := by omega
    exact List.length_eq_zero.mp this

/-- Witness of C7 (amended): budget 0, no suffix, three messages allowed. -/
theorem sms_split_part_count_witness :
    ((1 : Int) ≤ 3 ∧
      0 ≤ sms_split_max_part_len (sample_sms 1 0 none [1, 2, 3]) (some [72, 105]) none 0 2 ∧
      octstr_len none ≤
        sms_split_max_part_len (sample_sms 1 0 none [1, 2, 3]) (some [72, 105]) none 0 2) ∧
    sms_split (sample_sms 1 0 none [1, 2, 3]) (some [72, 105]) none none none 0 0 3 2 ≠
      .error Abort.looping ∧
    ∃ parts, sms_split (sample_sms 1 0 none [1, 2, 3]) (some [72, 105]) none none none 0 0 3 2 =
        .ok parts ∧
      1 ≤ parts.length ∧ (parts.length : Int) ≤ 3 ∧
      (sms_split_max_part_len (sample_sms 1 0 none [1, 2, 3]) (some [72, 105]) none 0 2 = 0 →
        octstr_len none = 0 →
        ∀ c ∈ payload_chunks (some [72, 105]) none none parts, c = []) :=
  ⟨⟨by decide, by decide, by decide⟩,
    (sms_split_part_count (sample_sms 1 0 none [1, 2, 3]) (some [72, 105]) none none none
      0 0 3 2 (by decide)).1,
    (sms_split_part_count (sample_sms 1 0 none [1, 2, 3]) (some [72, 105]) none none none
      0 0 3 2 (by decide)).2 (by decide) (Or.inr (Or.inr (by decide)))⟩

theorem map_msgdata_catenation_loop (n s : Int) (l : List Msg) : ∀ k : Int,
    (catenation_loop n s k l).map Msg.msgdata = l.map Msg.msgdata := by
  induction l with
  | nil => intro _; rfl
  | cons p ps ih =>
    intro k
    simp only [catenation_loop, List.map_cons, ih, prepend_catenation_udh_msgdata]

theorem parts_of_chunks_msgdata (orig : Msg) (hdr ftr suf : Option Octstr)
    (chunks : List Octstr) : ∀ (msgno0 : Int) (k : Nat) (c : Octstr), chunks[k]? = some c →
    ((parts_of_chunks orig hdr ftr suf msgno0 chunks).map Msg.msgdata)[k]? =
      some (some (ostr_data hdr ++ c ++ ostr_data ftr ++
        (if k + 1 < chunks.length then ostr_data suf else []))) := by
  induction chunks with
  | nil => intro _ k c h; simp at h
  | cons c1 cs ih =>
    intro msgno0 k c h
    cases cs with
    | nil =>
      cases k with
      | zero =>
        simp only [List.getElem?_cons_zero, Option.some.injEq] at h
        subst h
        simp [parts_of_chunks, compose_part_msgdata]
      | succ k => simp at h
    | cons c2 cs =>
      cases k with
      | zero =>
        simp only [List.getElem?_cons_zero, Option.some.injEq] at h
        subst h
        simp [parts_of_chunks, compose_part_msgdata]
      | succ k =>
        simp only [List.getElem?_cons_succ] at h
        have := ih (msgno0 + 1) k c h
        simp only [parts_of_chunks, List.map_cons, List.getElem?_cons_succ, List.length_cons] at this ⊢
        rw [this]
        simp

/-- C10, as stated, fails: in a non-last part the footer comes before the
non-last suffix. Header 09, footer 08, suffix 07 07: the first part is
09 01 02 20 08 07 07, which is not header, chunk, suffix, footer for any chunk. -/
theorem sms_split_footer_before_suffix :
    (sms_split (sample_sms 1 0 none [1, 2, 32, 4, 5, 6, 7]) (some [9]) (some [8])
        (some [7, 7]) (some [32]) 0 0 2 7).map (fun l => l.map Msg.msgdata) =
      .ok [some [9, 1, 2, 32, 8, 7, 7], some [9, 4, 5, 6, 7, 8]] ∧
    ∀ chunk : Octstr, ([9] : Octstr) ++ chunk ++ [7, 7] ++ [8] ≠ [9, 1, 2, 32, 8, 7, 7] := by
  refine ⟨by decide, ?_⟩
  intro chunk h
  have := congrArg (fun l => l.reverse.head?) h
  simp at this

/-- C10 (amended): every part returned by `sms_split` has the msgdata header,
payload chunk, footer, and for a non-last part the non-last suffix after the
footer. -/
theorem sms_split_part_layout (orig : Msg) (header footer nonlast_suffix split_chars : Option Octstr)
    (catenate msg_sequence max_messages max_octets : Int) (parts : List Msg)
    (h : sms_split orig header footer nonlast_suffix split_chars catenate msg_sequence
      max_messages max_octets = .ok parts)
    (k : Nat) (p : Msg) (hk : parts[k]? = some p) :
    p.msgdata = some (ostr_data header ++
      (payload_chunks header footer nonlast_suffix parts).getD k [] ++ ostr_data footer ++
      (if k + 1 < parts.length then ostr_data nonlast_suffix else [])) := by
  obtain ⟨chunks, _, hparts, hlen, hchunks, _⟩ := sms_split_chunks _ _ _ _ _ _ _ _ _ _ h
  have hmap : parts.map Msg.msgdata =
      (parts_of_chunks orig header footer nonlast_suffix 0 chunks).map Msg.msgdata := by
    rw [hparts]
    split
    · rw [map_msgdata_catenation_loop]
    · rfl
  have hklt : k < chunks.length := by
    rw [← hlen]
    by_contra hge
    rw [List.getElem?_eq_none (by omega)] at hk
    exact absurd hk (by simp)
  have hc : chunks[k]? = some (chunks.getD k []) := by
    rw [List.getD_eq_getElem?_getD, List.getElem?_eq_getElem hklt]
    rfl
  have h1 := parts_of_chunks_msgdata orig header footer nonlast_suffix chunks 0 k _ hc
  rw [← hmap, List.getElem?_map, hk] at h1
  simp only [Option.map_some', Option.some.injEq] at h1
  rw [h1, hchunks, hlen]

/-- Witness of C10 (amended): the first part of a two-part split. -/
theorem sms_split_part_layout_witness :
    (sample_sms 1 0 none [9, 1, 2, 32, 8, 7, 7]).msgdata = some (ostr_data (some [9]) ++
      (payload_chunks (some [9]) (some [8]) (some [7, 7])
        [sample_sms 1 0 none [9, 1, 2, 32, 8, 7, 7], sample_sms 1 0 none [9, 4, 5, 6, 7, 8]]).getD 0 []
        ++ ostr_data (some [8]) ++
      (if 0 + 1 < [sample_sms 1 0 none [9, 1, 2, 32, 8, 7, 7],
          sample_sms 1 0 none [9, 4, 5, 6, 7, 8]].length then ostr_data (some [7, 7]) else [])) :=
  sms_split_part_layout (sample_sms 1 0 none [1, 2, 32, 4, 5, 6, 7]) (some [9]) (some [8])
    (some [7, 7]) (some [32]) 0 0 2 7
    [sample_sms 1 0 none [9, 1, 2, 32, 8, 7, 7], sample_sms 1 0 none [9, 4, 5, 6, 7, 8]]
    (by decide) 0 (sample_sms 1 0 none [9, 1, 2, 32, 8, 7, 7]) (by decide)

theorem tdiv_add_six_eq_ceil (u : Int) (hu : 0 ≤ u) :
    Int.tdiv (u * 8 + 6) 7 = ⌈((u * 8 : Int) : ℚ) / 7⌉ := by
  rw [Int.tdiv_eq_ediv (by omega) (by omega)]
  symm
  rw [Int.ceil_eq_iff]
  have h1 := Int.ediv_add_emod (u * 8 + 6) 7
  have h2 := Int.emod_nonneg (u * 8 + 6) (by omega : (7 : Int) ≠ 0)
  have h3 := Int.emod_lt_of_pos (u * 8 + 6) (by omega : (0 : Int) < 7)
  constructor
  · rw [lt_div_iff₀ (by norm_num)]
    have : ((u * 8 + 6) / 7 - 1) * 7 < u * 8 := by omega
    exact_mod_cast this
  · rw [div_le_iff₀ (by norm_num)]
    have : u * 8 ≤ (u * 8 + 6) / 7 * 7 := by omega
    exact_mod_cast this

theorem tdiv_eq_floor (a : Int) (ha : 0 ≤ a) :
    Int.tdiv (a * 8) 7 = ⌊((a * 8 : Int) : ℚ) / 7⌋ := by
  rw [Int.tdiv_eq_ediv (by omega) (by omega)]
  symm
  rw [Int.floor_eq_iff]
  have h1 := Int.ediv_add_emod (a * 8) 7
  have h2 := Int.emod_nonneg (a * 8) (by omega : (7 : Int) ≠ 0)
  have h3 := Int.emod_lt_of_pos (a * 8) (by omega : (0 : Int) < 7)
  constructor
  · rw [le_div_iff₀ (by norm_num)]
    have : (a * 8) / 7 * 7 ≤ a * 8 := by omega
    exact_mod_cast this
  · rw [div_lt_iff₀ (by norm_num)]
    have : a * 8 < ((a * 8) / 7 + 1) * 7 := by omega
    exact_mod_cast this

theorem part_budget_7bit (maxo u H : Int) (hu : 0 ≤ u) :
    part_budget 0 maxo u H = septet_budget maxo u H := by
  simp only [part_budget, septet_budget, ne_eq, not_true_eq_false, if_false,
    tdiv_add_six_eq_ceil u hu]

/-- C8, as stated, fails: for a 7-bit message without UDH, header and footer
and max_octets = 140 the budget is 160, while the stated formula gives
160 - ceil(6/7) = 159. -/
theorem sms_split_budget_not_spec_formula :
    (sample_sms 0 0 none (sample_text 10)).flag_8bit = 0 ∧
    sms_split_max_part_len (sample_sms 0 0 none (sample_text 10)) none none 0 140 = 160 ∧
    spec_budget_7bit 140 (sms_split_udh_len (sample_sms 0 0 none (sample_text 10)))
      (octstr_len none + octstr_len none) = 159 := by
  refine ⟨rfl, by decide, ?_⟩
  have hU : sms_split_udh_len (sample_sms 0 0 none (sample_text 10)) = 0 := by decide
  rw [hU]
  simp only [spec_budget_7bit, octstr_len]
  have h1 : ⌊(((140 : Int) * 8 : Int) : ℚ) / 7⌋ = 160 := by
    rw [Int.floor_eq_iff]; norm_num
  have h2 : ⌈(((0 : Int) * 8 + 6 : Int) : ℚ) / 7⌉ = 1 := by
    rw [Int.ceil_eq_iff]; norm_num
  rw [h1, h2]
  norm_num

/-- C8 (amended): for a 7-bit message the per-part budget of `sms_split` is
max_octets * 8 / 7 rounded toward zero (the floor for max_octets >= 0), minus
ceil(U * 8 / 7), minus H, where U is the UDH length (0 without flag_udh) and
H = len(header) + len(footer); when the message is longer than that and
catenate is true, the same with U replaced by max(U, 1) + 5. -/
theorem sms_split_budget_7bit (orig : Msg) (header footer : Option Octstr)
    (catenate max_octets : Int) (h7 : orig.flag_8bit = 0) :
    sms_split_max_part_len orig header footer catenate max_octets =
      (if octstr_len orig.msgdata >
            septet_budget max_octets (sms_split_udh_len orig)
              (octstr_len header + octstr_len footer) ∧ catenate ≠ 0 then
          septet_budget max_octets (max (sms_split_udh_len orig) 1 + 5)
            (octstr_len header + octstr_len footer)
        else
          septet_budget max_octets (sms_split_udh_len orig)
            (octstr_len header + octstr_len footer)) ∧
      (0 ≤ max_octets →
        Int.tdiv (max_octets * 8) 7 = ⌊((max_octets * 8 : Int) : ℚ) / 7⌋) := by
  have hU : 0 ≤ sms_split_udh_len orig := by
    unfold sms_split_udh_len
    split
    · exact octstr_len_nonneg _
    · exact le_refl _
  refine ⟨?_, tdiv_eq_floor max_octets⟩
  have hU2 : (if sms_split_udh_len orig = 0 then (1 : Int) else sms_split_udh_len orig) =
      max (sms_split_udh_len orig) 1 := by
    split
    · rename_i h0; rw [h0]; rfl
    · rw [max_eq_left (by omega)]
  simp only [sms_split_max_part_len, h7, CATENATE_UDH_LEN, hU2]
  rw [part_budget_7bit _ _ _ hU, part_budget_7bit _ _ _ (by
    have := le_max_right (sms_split_udh_len orig) 1
    omega)]

/-- Witness of C8 (amended): a 7-bit text of 200 characters, max_octets = 140. -/
theorem sms_split_budget_7bit_witness :
    (sample_sms 0 0 none (sample_text 200)).flag_8bit = 0 ∧
    (sms_split_max_part_len (sample_sms 0 0 none (sample_text 200)) none none 1 140 =
      (if octstr_len (sample_sms 0 0 none (sample_text 200)).msgdata >
            septet_budget 140 (sms_split_udh_len (sample_sms 0 0 none (sample_text 200)))
              (octstr_len none + octstr_len none) ∧ (1 : Int) ≠ 0 then
          septet_budget 140 (max (sms_split_udh_len (sample_sms 0 0 none (sample_text 200))) 1 + 5)
            (octstr_len none + octstr_len none)
        else
          septet_budget 140 (sms_split_udh_len (sample_sms 0 0 none (sample_text 200)))
            (octstr_len none + octstr_len none)) ∧
      ((0 : Int) ≤ 140 →
        Int.tdiv ((140 : Int) * 8) 7 = ⌊(((140 : Int) * 8 : Int) : ℚ) / 7⌋)) :=
  ⟨rfl, sms_split_budget_7bit (sample_sms 0 0 none (sample_text 200)) none none 1 140 rfl⟩

/-! ## The catenation UDH -/

theorem to_uchar_val (x : Int) (h0 : 0 ≤ x) (h1 : x < 256) : ((to_uchar x).val : Int) = x := by
  unfold to_uchar
  rw [Int.emod_eq_of_lt h0 h1]
  simp only [Fin.ofNat, Fin.val_mk]
  omega

theorem prepend_catenation_udh_flag (p : Msg) (k n s : Int) :
    (prepend_catenation_udh p k n s).flag_udh = 1 := rfl

theorem prepend_catenation_udh_empty (p : Msg) (k n s : Int) (h : octstr_len p.udhdata = 0) :
    (prepend_catenation_udh p k n s).udhdata =
      some [(5 : Octet), 0, 3, to_uchar s, to_uchar n, to_uchar k] := by
  have hd : (match p.udhdata with | none => ([] : Octstr) | some u => u) = [] := by
    cases hu : p.udhdata with
    | none => rfl
    | some u =>
      rw [hu] at h
      simp only [octstr_len, Nat.cast_eq_zero, List.length_eq_zero] at h
      exact h
  simp only [prepend_catenation_udh, hd]
  rfl

theorem prepend_catenation_udh_cons (p : Msg) (k n s : Int) (b : Octet) (rest : Octstr)
    (h : p.udhdata = some (b :: rest)) :
    (prepend_catenation_udh p k n s).udhdata =
      some (to_uchar ((rest.length : Int) + 5) ::
        (rest ++ [(0 : Octet), 3, to_uchar s, to_uchar n, to_uchar k])) := by
  have hlen : ¬ (octstr_len (some (b :: rest)) = 0) := by
    simp only [octstr_len, List.length_cons, Nat.cast_add, Nat.cast_one]
    omega
  unfold prepend_catenation_udh
  simp only [h]
  rw [if_neg hlen]
  have hpos : (0 : Int) < ((b :: rest ++ [to_uchar 0, (3 : Octet), to_uchar s, to_uchar n,
      to_uchar k]).length : Int) := by
    simp only [List.cons_append, List.length_cons, Nat.cast_add, Nat.cast_one]
    omega
  unfold octstr_set_char
  rw [if_pos hpos]
  simp only [octstr_len, List.cons_append, List.length_cons, List.length_append,
    List.length_nil, Int.toNat_zero, List.set_cons_zero, Option.some.injEq, List.cons.injEq]
  refine ⟨?_, rfl⟩
  congr 1
  push_cast
  omega

theorem getElem?_catenation_loop (n s : Int) (l : List Msg) : ∀ (k : Int) (i : Nat),
    (catenation_loop n s k l)[i]? =
      (l[i]?).map (fun q => prepend_catenation_udh q (k + (i : Int)) n s) := by
  induction l with
  | nil => intro k i; simp [catenation_loop]
  | cons p ps ih =>
    intro k i
    cases i with
    | zero => simp [catenation_loop]
    | succ i =>
      simp only [catenation_loop, List.getElem?_cons_succ, ih, Nat.cast_add, Nat.cast_one]
      congr 1
      funext q
      congr 1
      omega

theorem part_skeleton_udh (orig : Msg) (msgno : Int) :
    (part_skeleton orig msgno).udhdata = orig.udhdata ∧
      (part_skeleton orig msgno).flag_udh = orig.flag_udh := by
  by_cases hc : msgno > 1 ∧ orig.dlr_mask ≠ 0 <;> simp [part_skeleton, msg_duplicate, hc]

theorem compose_part_udh (p : Msg) (c : Octstr) (hdr ftr suf : Option Octstr) (last : Bool) :
    (compose_part p c hdr ftr suf last).udhdata = p.udhdata ∧
      (compose_part p c hdr ftr suf last).flag_udh = p.flag_udh := ⟨rfl, rfl⟩

theorem parts_of_chunks_udh (orig : Msg) (hdr ftr suf : Option Octstr) (chunks : List Octstr) :
    ∀ (msgno0 : Int), ∀ p ∈ parts_of_chunks orig hdr ftr suf msgno0 chunks,
      p.udhdata = orig.udhdata ∧ p.flag_udh = orig.flag_udh := by
  induction chunks with
  | nil => intro _ p hp; simp [parts_of_chunks] at hp
  | cons c cs ih =>
    intro msgno0 p hp
    cases cs with
    | nil =>
      simp only [parts_of_chunks, List.mem_singleton] at hp
      rw [hp]
      exact ⟨(compose_part_udh _ _ _ _ _ _).1.trans (part_skeleton_udh _ _).1,
        (compose_part_udh _ _ _ _ _ _).2.trans (part_skeleton_udh _ _).2⟩
    | cons c2 cs =>
      simp only [parts_of_chunks, List.mem_cons] at hp
      rcases hp with hp | hp
      · rw [hp]
        exact ⟨(compose_part_udh _ _ _ _ _ _).1.trans (part_skeleton_udh _ _).1,
          (compose_part_udh _ _ _ _ _ _).2.trans (part_skeleton_udh _ _).2⟩
      · exact ih (msgno0 + 1) p (by simpa [parts_of_chunks] using hp)

theorem udhl_consistent_prepend (q : Msg) (k n s : Int) (h : octstr_len q.udhdata ≤ 250) :
    udhl_consistent (prepend_catenation_udh q k n s).udhdata := by
  cases hu : q.udhdata with
  | none =>
    rw [prepend_catenation_udh_empty q k n s (by rw [hu]; rfl)]
    simp only [udhl_consistent, List.length_cons, List.length_nil]
    rfl
  | some u =>
    cases u with
    | nil =>
      rw [prepend_catenation_udh_empty q k n s (by rw [hu]; rfl)]
      simp only [udhl_consistent, List.length_cons, List.length_nil]
      rfl
    | cons b rest =>
      rw [prepend_catenation_udh_cons q k n s b rest hu]
      rw [hu] at h
      simp only [octstr_len, List.length_cons, Nat.cast_add, Nat.cast_one] at h
      simp only [udhl_consistent, List.length_append, List.length_cons, List.length_nil]
      have := to_uchar_val ((rest.length : Int) + 5) (by omega) (by omega)
      omega

/-- C2: when the original satisfies the UDH invariant and its UDH has at most
250 octets, every part returned by `sms_split` with flag_udh set has a
non-empty udhdata whose first octet is len(udhdata) - 1, with or without a
concatenation header. -/
theorem sms_split_udhl_consistent (orig : Msg)
    (header footer nonlast_suffix split_chars : Option Octstr)
    (catenate msg_sequence max_messages max_octets : Int) (parts : List Msg)
    (hinv : msg_udh_invariant orig) (hudh : octstr_len orig.udhdata ≤ 250)
    (h : sms_split orig header footer nonlast_suffix split_chars catenate msg_sequence
      max_messages max_octets = .ok parts) :
    ∀ p ∈ parts, p.flag_udh ≠ 0 → udhl_consistent p.udhdata := by
  obtain ⟨chunks, _, hparts, _⟩ := sms_split_chunks _ _ _ _ _ _ _ _ _ _ h
  intro p hp hflag
  rw [hparts] at hp
  split at hp
  · obtain ⟨i, hi⟩ := List.getElem?_of_mem hp
    rw [getElem?_catenation_loop] at hi
    cases hq : (parts_of_chunks orig header footer nonlast_suffix 0 chunks)[i]? with
    | none => rw [hq] at hi; simp at hi
    | some q =>
      rw [hq] at hi
      simp only [Option.map_some', Option.some.injEq] at hi
      have hqm := List.getElem?_mem hq
      have hqu := (parts_of_chunks_udh orig header footer nonlast_suffix chunks 0 q hqm).1
      rw [← hi]
      exact udhl_consistent_prepend q _ _ _ (by rw [hqu]; exact hudh)
  · obtain ⟨hu, hf⟩ := parts_of_chunks_udh orig header footer nonlast_suffix chunks 0 p hp
    rw [hu]
    exact hinv.2 (by rw [← hf]; exact hflag)

/-- Witness of C2: an 8-bit message with the UDH 02 70 00, split with
catenation into two parts. -/
theorem sms_split_udhl_consistent_witness :
    (msg_udh_invariant (sample_sms 1 1 (some [2, 112, 0]) (sample_text 20)) ∧
      octstr_len (sample_sms 1 1 (some [2, 112, 0]) (sample_text 20)).udhdata ≤ 250 ∧
      sms_split (sample_sms 1 1 (some [2, 112, 0]) (sample_text 20)) none none none none 1 7 5 20 =
        .ok [sample_sms 1 1 (some [7, 112, 0, 0, 3, 7, 2, 1]) (sample_text 12),
          sample_sms 1 1 (some [7, 112, 0, 0, 3, 7, 2, 2]) (sample_text 8)]) ∧
    ∀ p ∈ [sample_sms 1 1 (some [7, 112, 0, 0, 3, 7, 2, 1]) (sample_text 12),
        sample_sms 1 1 (some [7, 112, 0, 0, 3, 7, 2, 2]) (sample_text 8)],
      p.flag_udh ≠ 0 → udhl_consistent p.udhdata :=
  ⟨⟨⟨by decide, fun _ => by decide⟩, by decide, by decide⟩,
    sms_split_udhl_consistent (sample_sms 1 1 (some [2, 112, 0]) (sample_text 20))
      none none none none 1 7 5 20 _ ⟨by decide, fun _ => by decide⟩ (by decide) (by decide)⟩

/-- C3: with catenate true, msg_sequence in 0..255 and N parts, 2 <= N <= 255,
the part at list position k (part number k + 1) has flag_udh = 1 and its
udhdata ends with the five octets 00 03 msg_sequence N k+1; when the original
has no UDH the udhdata is exactly 05 00 03 msg_sequence N k+1. -/
theorem sms_split_catenation_udh (orig : Msg)
    (header footer nonlast_suffix split_chars : Option Octstr)
    (catenate msg_sequence max_messages max_octets : Int) (parts : List Msg)
    (hcat : catenate ≠ 0) (hseq : 0 ≤ msg_sequence ∧ msg_sequence ≤ 255)
    (h : sms_split orig header footer nonlast_suffix split_chars catenate msg_sequence
      max_messages max_octets = .ok parts)
    (hN : 2 ≤ parts.length ∧ parts.length ≤ 255)
    (k : Nat) (p : Msg) (hk : parts[k]? = some p) :
    p.flag_udh = 1 ∧
    (∃ udh, p.udhdata = some udh ∧
      [0, 3, msg_sequence, (parts.length : Int), (k : Int) + 1] <:+ octets_int udh) ∧
    (octstr_len orig.udhdata = 0 → ∃ udh, p.udhdata = some udh ∧
      octets_int udh = [5, 0, 3, msg_sequence, (parts.length : Int), (k : Int) + 1]) := by
  obtain ⟨chunks, _, hparts, hlen, _⟩ := sms_split_chunks _ _ _ _ _ _ _ _ _ _ h
  have hklt : k < parts.length := by
    by_contra hge
    rw [List.getElem?_eq_none (by omega)] at hk
    exact absurd hk (by simp)
  have hc : catenate ≠ 0 ∧ (chunks.length : Int) > 1 := ⟨hcat, by omega⟩
  rw [if_pos hc] at hparts
  rw [hparts, getElem?_catenation_loop] at hk
  cases hq : (parts_of_chunks orig header footer nonlast_suffix 0 chunks)[k]? with
  | none => rw [hq] at hk; simp at hk
  | some q =>
    rw [hq] at hk
    simp only [Option.map_some', Option.some.injEq] at hk
    have hqu := (parts_of_chunks_udh orig header footer nonlast_suffix chunks 0 q
      (List.getElem?_mem hq)).1
    have hs := to_uchar_val msg_sequence hseq.1 (by omega)
    have hn := to_uchar_val (chunks.length : Int) (by omega) (by omega)
    have hkk := to_uchar_val ((k : Int) + 1) (by omega) (by omega)
    have h0 : ((0 : Octet).val : Int) = 0 := rfl
    have h3 : ((3 : Octet).val : Int) = 3 := rfl
    have h5 : ((5 : Octet).val : Int) = 5 := rfl
    have hk1 : (1 : Int) + (k : Int) = (k : Int) + 1 := by omega
    have hempty : octstr_len q.udhdata = 0 → ∃ udh, p.udhdata = some udh ∧
        octets_int udh = [5, 0, 3, msg_sequence, (parts.length : Int), (k : Int) + 1] := by
      intro he
      refine ⟨_, by rw [← hk]; exact prepend_catenation_udh_empty q _ _ _ he, ?_⟩
      simp only [octets_int, List.map_cons, List.map_nil, hk1, hs, hn, hkk, h0, h3, h5, hlen]
    refine ⟨by rw [← hk]; rfl, ?_, fun he => hempty (by rw [hqu]; exact he)⟩
    cases hu : q.udhdata with
    | none =>
      obtain ⟨udh, hudh, hoct⟩ := hempty (by rw [hu]; rfl)
      exact ⟨udh, hudh, by rw [hoct]; exact ⟨[5], rfl⟩⟩
    | some u =>
      cases u with
      | nil =>
        obtain ⟨udh, hudh, hoct⟩ := hempty (by rw [hu]; rfl)
        exact ⟨udh, hudh, by rw [hoct]; exact ⟨[5], rfl⟩⟩
      | cons b rest =>
        refine ⟨_, by rw [← hk]; exact prepend_catenation_udh_cons q _ _ _ b rest hu, ?_⟩
        refine ⟨octets_int (to_uchar ((rest.length : Int) + 5) :: rest), ?_⟩
        simp only [octets_int, List.map_cons, List.map_append, List.map_nil, hk1, hs, hn, hkk, h0,
          h3, hlen, List.cons_append]

/-- Witness of C3: a 7-bit text of 200 characters with max_octets = 140 is split
into two parts with the UDH 05 00 03 ref 02 01 and 05 00 03 ref 02 02 (ref = 17). -/
theorem sms_split_catenation_udh_witness :
    ((1 : Int) ≠ 0 ∧ ((0 : Int) ≤ 17 ∧ (17 : Int) ≤ 255) ∧
      sms_split (sample_sms 0 0 none (sample_text 200)) none none none none 1 17 10 140 =
        .ok [sample_sms 0 1 (some [5, 0, 3, 17, 2, 1]) (sample_text 153),
          sample_sms 0 1 (some [5, 0, 3, 17, 2, 2]) (sample_text 47)]) ∧
    ((sample_sms 0 1 (some [5, 0, 3, 17, 2, 2]) (sample_text 47)).flag_udh = 1 ∧
      (∃ udh, (sample_sms 0 1 (some [5, 0, 3, 17, 2, 2]) (sample_text 47)).udhdata = some udh ∧
        [0, 3, 17, (([sample_sms 0 1 (some [5, 0, 3, 17, 2, 1]) (sample_text 153),
          sample_sms 0 1 (some [5, 0, 3, 17, 2, 2]) (sample_text 47)].length : Nat) : Int),
          ((1 : Nat) : Int) + 1] <:+ octets_int udh) ∧
      (octstr_len (sample_sms 0 0 none (sample_text 200)).udhdata = 0 →
        ∃ udh, (sample_sms 0 1 (some [5, 0, 3, 17, 2, 2]) (sample_text 47)).udhdata = some udh ∧
          octets_int udh = [5, 0, 3, 17,
            (([sample_sms 0 1 (some [5, 0, 3, 17, 2, 1]) (sample_text 153),
              sample_sms 0 1 (some [5, 0, 3, 17, 2, 2]) (sample_text 47)].length : Nat) : Int),
            ((1 : Nat) : Int) + 1])) :=
  ⟨⟨by decide, ⟨by decide, by decide⟩, by decide⟩,
    sms_split_catenation_udh (sample_sms 0 0 none (sample_text 200)) none none none none
      1 17 10 140 _ (by decide) ⟨by decide, by decide⟩ (by decide) ⟨by decide, by decide⟩
      1 _ rfl⟩

/-- C9 fails as stated: for a 7-bit message without UDH, catenate = 1 does not
give the parts of catenate = 0. The 200-character text with max_octets = 140
is cut into 153 + 47 characters with a concatenation UDH on both parts, and
into 160 + 40 characters without UDH when catenate = 0. -/
theorem sms_split_catenates_7bit :
    (sample_sms 0 0 none (sample_text 200)).flag_8bit = 0 ∧
    sms_split (sample_sms 0 0 none (sample_text 200)) none none none none 1 17 10 140 =
      .ok [sample_sms 0 1 (some [5, 0, 3, 17, 2, 1]) (sample_text 153),
        sample_sms 0 1 (some [5, 0, 3, 17, 2, 2]) (sample_text 47)] ∧
    sms_split (sample_sms 0 0 none (sample_text 200)) none none none none 0 17 10 140 =
      .ok [sample_sms 0 0 none (sample_text 160), sample_sms 0 0 none (sample_text 40)] ∧
    sms_split (sample_sms 0 0 none (sample_text 200)) none none none none 1 17 10 140 ≠
      sms_split (sample_sms 0 0 none (sample_text 200)) none none none none 0 17 10 140 := by
  refine ⟨rfl, by decide, by decide, by decide⟩

/-! ## The timer heap -/

theorem set_index_mem (st : TimerState) (p : Nat) (v : Int) (q : Nat) :
    ((set_index st p v).mem q).elapses = (st.mem q).elapses ∧
    ((set_index st p v).mem q).output = (st.mem q).output ∧
    ((set_index st p v).mem q).data = (st.mem q).data ∧
    ((set_index st p v).mem q).elapsed_data = (st.mem q).elapsed_data ∧
    ((set_index st p v).mem q).index = (if q = p then v else (st.mem q).index) := by
  by_cases h : q = p
  · subst h
    simp [set_index]
  · simp [set_index, Function.update, h]

theorem set_index_frame (st : TimerState) (p : Nat) (v : Int) :
    (set_index st p v).tab = st.tab ∧ (set_index st p v).len = st.len ∧
      (set_index st p v).lists = st.lists := ⟨rfl, rfl, rfl⟩

theorem set_elapses_mem (st : TimerState) (p : Nat) (v : Int) (q : Nat) :
    ((set_elapses st p v).mem q).index = (st.mem q).index ∧
    ((set_elapses st p v).mem q).output = (st.mem q).output ∧
    ((set_elapses st p v).mem q).data = (st.mem q).data ∧
    ((set_elapses st p v).mem q).elapsed_data = (st.mem q).elapsed_data ∧
    ((set_elapses st p v).mem q).elapses = (if q = p then v else (st.mem q).elapses) := by
  by_cases h : q = p
  · subst h
    simp [set_elapses]
  · simp [set_elapses, Function.update, h]

theorem set_elapses_frame (st : TimerState) (p : Nat) (v : Int) :
    (set_elapses st p v).tab = st.tab ∧ (set_elapses st p v).len = st.len ∧
      (set_elapses st p v).lists = st.lists := ⟨rfl, rfl, rfl⟩

theorem heap_swap_spec (st : TimerState) (i j : Nat) (hi : i < st.len) (hj : j < st.len) :
    ∃ st1, heap_swap st i j = .ok st1 ∧ SwapRel st i j st1 := by
  have hb : ¬ ¬ (i < st.len ∧ j < st.len) := not_not.mpr ⟨hi, hj⟩
  by_cases hij : i = j
  · subst hij
    refine ⟨st, by simp [heap_swap, hi], ?_⟩
    exact ⟨rfl, rfl, rfl, rfl, fun _ _ _ => rfl, fun _ => rfl, fun _ => rfl, fun _ => rfl,
      fun _ => rfl, fun h => absurd rfl h, fun h => absurd rfl h, fun _ _ => rfl⟩
  · have hji : j ≠ i := fun h => hij h.symm
    refine ⟨_, by simp only [heap_swap, hb, if_false, hij]; rfl, ?_⟩
    have ht1 : ∀ k, (Function.update (Function.update st.tab i (st.tab j)) j (st.tab i)) k =
        if k = j then st.tab i else if k = i then st.tab j else st.tab k := by
      intro k
      simp only [Function.update, eq_rec_constant, dite_eq_ite]
    refine ⟨rfl, rfl, ?_, ?_, ?_, ?_, ?_, ?_, ?_, ?_, ?_, ?_⟩
    · simp only [set_index_frame, ht1, hij, if_false, if_true]
    · simp only [set_index_frame, ht1, if_true]
    · intro k hk1 hk2
      simp only [set_index_frame, ht1, hk1, hk2, if_false]
    · intro p
      rw [(set_index_mem _ _ _ _).1, (set_index_mem _ _ _ _).1]
    · intro p
      rw [(set_index_mem _ _ _ _).2.1, (set_index_mem _ _ _ _).2.1]
    · intro p
      rw [(set_index_mem _ _ _ _).2.2.1, (set_index_mem _ _ _ _).2.2.1]
    · intro p
      rw [(set_index_mem _ _ _ _).2.2.2.1, (set_index_mem _ _ _ _).2.2.2.1]
    · intro _
      rw [(set_index_mem _ _ _ _).2.2.2.2]
      simp only [set_index_frame, ht1, if_true]
    · intro _ hne
      have hne2 : st.tab j ≠ st.tab i := fun h => hne h.symm
      rw [(set_index_mem _ _ _ _).2.2.2.2, (set_index_mem _ _ _ _).2.2.2.2]
      simp only [set_index_frame, ht1, if_true, hij, if_false, hne2]
    · intro p hp
      rcases hp with hp | ⟨hp1, hp2⟩
      · exact absurd hp hij
      · rw [(set_index_mem _ _ _ _).2.2.2.2, (set_index_mem _ _ _ _).2.2.2.2]
        simp only [set_index_frame, ht1, if_true, hij, if_false, hp1, hp2]

theorem heap_ordered_iff (st : TimerState) :
    heap_ordered st ↔ ∀ i, 1 ≤ i → i < st.len → key st (i / 2) ≤ key st i := Iff.rfl

theorem SwapRel.key_eq {st st1 : TimerState} {i j : Nat} (h : SwapRel st i j st1) (k : Nat) :
    key st1 k = if k = i then key st j else if k = j then key st i else key st k := by
  unfold key
  by_cases hi : k = i
  · subst hi
    rw [if_pos rfl, h.tab_i, h.elapses_eq]
  · by_cases hj : k = j
    · subst hj
      rw [if_neg hi, if_pos rfl, h.tab_j, h.elapses_eq]
    · rw [if_neg hi, if_neg hj, h.tab_other k hi hj, h.elapses_eq]

theorem SwapRel.in_heap_iff {st st1 : TimerState} {i j : Nat} (h : SwapRel st i j st1)
    (hi : i < st.len) (hj : j < st.len) (p : Nat) : in_heap st1 p ↔ in_heap st p := by
  unfold in_heap
  rw [h.len_eq]
  constructor
  · rintro ⟨k, hk, hp⟩
    by_cases hki : k = i
    · exact ⟨j, hj, by rw [← hp, hki, h.tab_i]⟩
    · by_cases hkj : k = j
      · exact ⟨i, hi, by rw [← hp, hkj, h.tab_j]⟩
      · exact ⟨k, hk, by rw [← hp, h.tab_other k hki hkj]⟩
  · rintro ⟨k, hk, hp⟩
    by_cases hki : k = i
    · exact ⟨j, hj, by rw [← hp, hki, h.tab_j]⟩
    · by_cases hkj : k = j
      · exact ⟨i, hi, by rw [← hp, hkj, h.tab_i]⟩
      · exact ⟨k, hk, by rw [← hp, h.tab_other k hki hkj]⟩

theorem index_consistent_inj {st : TimerState} (h : index_consistent st) (a b : Nat)
    (ha : a < st.len) (hb : b < st.len) (hab : st.tab a = st.tab b) : a = b := by
  have h1 := h.1 a ha
  have h2 := h.1 b hb
  rw [hab] at h1
  omega

theorem SwapRel.index_pres {st st1 : TimerState} {i j : Nat} (h : SwapRel st i j st1)
    (hi : i < st.len) (hj : j < st.len) (hc : index_consistent st) : index_consistent st1 := by
  by_cases hij : i = j
  · constructor
    · intro k hk
      rw [h.len_eq] at hk
      have htab : st1.tab k = st.tab k := by
        by_cases hki : k = i
        · rw [hki, h.tab_i, ← hij]
        · exact h.tab_other k hki (by rw [← hij]; exact hki)
      rw [htab, h.index_other _ (Or.inl hij)]
      exact hc.1 k hk
    · intro p hp
      rw [h.in_heap_iff hi hj] at hp
      rw [h.index_other _ (Or.inl hij)]
      exact hc.2 p hp
  · have hne : st.tab i ≠ st.tab j := fun he => hij (index_consistent_inj hc i j hi hj he)
    constructor
    · intro k hk
      rw [h.len_eq] at hk
      by_cases hki : k = i
      · rw [hki, h.tab_i]
        exact h.index_i hij hne
      · by_cases hkj : k = j
        · rw [hkj, h.tab_j]
          exact h.index_j hij
        · rw [h.tab_other k hki hkj, h.index_other _ (Or.inr ⟨?_, ?_⟩)]
          · exact hc.1 k hk
          · exact fun he => hki (index_consistent_inj hc k i hk hi he)
          · exact fun he => hkj (index_consistent_inj hc k j hk hj he)
    · intro p hp
      rw [h.in_heap_iff hi hj] at hp
      rw [h.index_other _ (Or.inr ⟨?_, ?_⟩)]
      · exact hc.2 p hp
      · exact fun he => hp ⟨i, hi, he.symm⟩
      · exact fun he => hp ⟨j, hj, he.symm⟩

theorem SwapRel.heapPerm {st st1 : TimerState} {i j : Nat} (h : SwapRel st i j st1)
    (hi : i < st.len) (hj : j < st.len) : HeapPerm st st1 :=
  ⟨h.len_eq, h.lists_eq, h.elapses_eq, h.output_eq, h.data_eq, h.elapsed_data_eq,
    h.in_heap_iff hi hj, h.index_pres hi hj⟩

theorem heapPerm_refl (st : TimerState) : HeapPerm st st :=
  ⟨rfl, rfl, fun _ => rfl, fun _ => rfl, fun _ => rfl, fun _ => rfl, fun _ => Iff.rfl, id⟩

theorem heapPerm_trans {a b c : TimerState} (h1 : HeapPerm a b) (h2 : HeapPerm b c) :
    HeapPerm a c :=
  ⟨h2.len_eq.trans h1.len_eq, h2.lists_eq.trans h1.lists_eq,
    fun p => (h2.elapses_eq p).trans (h1.elapses_eq p),
    fun p => (h2.output_eq p).trans (h1.output_eq p),
    fun p => (h2.data_eq p).trans (h1.data_eq p),
    fun p => (h2.elapsed_data_eq p).trans (h1.elapsed_data_eq p),
    fun p => (h2.in_heap_iff p).trans (h1.in_heap_iff p),
    fun h => h2.index_pres (h1.index_pres h)⟩

/-- The loop of `heap_adjust` toward the top restores the heap property. -/
theorem heap_adjust_up_spec (t : Nat) : ∀ (fuel : Nat) (st : TimerState) (j : Nat),
    j < st.len → st.tab j = t → j < fuel → key st j < key st (j / 2) → up_inv st j →
    ∃ st1 j1, heap_adjust_up t fuel st j = .ok (st1, j1) ∧ heap_ordered st1 ∧
      HeapPerm st st1 ∧ st1.tab j1 = t ∧ j1 < j := by
  intro fuel
  induction fuel with
  | zero => intro st j _ _ hf; omega
  | succ fuel ih =>
    intro st j hj ht hf hlt hinv
    have hj1 : 1 ≤ j := by
      by_contra h0
      have : j = 0 := by omega
      subst this
      simp at hlt
    obtain ⟨st1, hswap, hrel⟩ := heap_swap_spec st j (j / 2) hj (by omega)
    have hperm := hrel.heapPerm hj (by omega)
    have hk := hrel.key_eq
    have hpj : j / 2 ≠ j := by omega
    have ht1 : st1.tab (j / 2) = t := by rw [hrel.tab_j, ht]
    have hinv1 : up_inv st1 (j / 2) := by
      constructor
      · intro i hi1 hi2 hi3
        rw [hrel.len_eq] at hi2
        rw [hk i, hk (i / 2)]
        by_cases hij : i = j
        · subst hij
          rw [if_pos rfl, if_neg hpj, if_pos rfl]
          omega
        · rw [if_neg hij, if_neg hi3]
          by_cases h2j : i / 2 = j
          · rw [if_pos h2j]
            exact hinv.2 i hi1 hi2 h2j hij
          · rw [if_neg h2j]
            by_cases h2p : i / 2 = j / 2
            · rw [if_pos h2p]
              have := hinv.1 i hi1 hi2 hij
              rw [h2p] at this
              omega
            · rw [if_neg h2p]
              exact hinv.1 i hi1 hi2 hij
      · intro c hc1 hc2 hc3 hc4
        rw [hrel.len_eq] at hc2
        rw [hk c, hk (j / 2 / 2)]
        by_cases hp0 : j / 2 = 0
        · have hj' : j = 1 := by omega
          have hc' : c = 1 := by omega
          subst hj'
          subst hc'
          simp only [Nat.reduceDiv, if_true, one_ne_zero, if_false]
          simp only [Nat.reduceDiv] at hlt
          omega
        · have hpp : j / 2 / 2 ≠ j := by omega
          have hpp2 : j / 2 / 2 ≠ j / 2 := by omega
          rw [if_neg hpp, if_neg hpp2]
          have hp := hinv.1 (j / 2) (by omega) (by omega) hpj
          by_cases hcj : c = j
          · rw [if_pos hcj]
            exact hp
          · rw [if_neg hcj, if_neg hc4]
            have := hinv.1 c hc1 hc2 hcj
            rw [hc3] at this
            omega
    unfold heap_adjust_up
    simp only [hswap, bind, Except.bind]
    have hcond : ((st1.mem t).elapses < (st1.mem (st1.tab (j / 2 / 2))).elapses) ↔
        key st1 (j / 2) < key st1 (j / 2 / 2) := by
      unfold key
      rw [ht1]
    by_cases hc : (st1.mem t).elapses < (st1.mem (st1.tab (j / 2 / 2))).elapses
    · rw [if_pos hc]
      obtain ⟨st2, j2, hres, hord, hperm2, htab2, hlt2⟩ :=
        ih st1 (j / 2) (by rw [hrel.len_eq]; omega) ht1 (by omega) (hcond.mp hc) hinv1
      exact ⟨st2, j2, hres, hord, heapPerm_trans hperm hperm2, htab2, by omega⟩
    · rw [if_neg hc]
      refine ⟨st1, j / 2, rfl, ?_, hperm, ht1, by omega⟩
      intro i hi1 hi2
      by_cases hip : i = j / 2
      · subst hip
        have := fun h => hc (hcond.mpr h)
        show key st1 (j / 2 / 2) ≤ key st1 (j / 2)
        omega
      · exact hinv1.1 i hi1 hi2 hip

/-- The loop of `heap_adjust` toward the bottom restores the heap property. -/
theorem heap_adjust_down_spec (t : Nat) : ∀ (fuel : Nat) (st : TimerState) (j : Nat),
    j < st.len → st.tab j = t → st.len < fuel + j → down_inv st j →
    ∃ st1, heap_adjust_down t fuel st j = .ok st1 ∧ heap_ordered st1 ∧ HeapPerm st st1 := by
  intro fuel
  induction fuel with
  | zero => intro st j hj _ hf; omega
  | succ fuel ih =>
    intro st j hj ht hf hinv
    have hkt : (st.mem t).elapses = key st j := by unfold key; rw [ht]
    unfold heap_adjust_down
    simp only []
    by_cases hc1 : j * 2 ≥ st.len
    · rw [if_pos hc1]
      refine ⟨st, rfl, ?_, heapPerm_refl st⟩
      intro i hi1 hi2
      exact hinv.1 i hi1 hi2 (by omega)
    · rw [if_neg hc1]
      by_cases hc2 : ((j * 2 : Nat) : Int) = (st.len : Int) - 1
      · rw [if_pos hc2]
        by_cases hc3 : (st.mem (st.tab (j * 2))).elapses < (st.mem t).elapses
        · rw [if_pos hc3]
          have hlt : key st (j * 2) < key st j := by rw [← hkt]; exact hc3
          have hj1 : 1 ≤ j := by
            by_contra h0
            have : j = 0 := by omega
            subst this
            simp at hlt
          obtain ⟨st1, hswap, hrel⟩ := heap_swap_spec st j (j * 2) hj (by omega)
          refine ⟨st1, hswap, ?_, hrel.heapPerm hj (by omega)⟩
          have hk := hrel.key_eq
          intro i hi1 hi2
          rw [hrel.len_eq] at hi2
          show key st1 (i / 2) ≤ key st1 i
          rw [hk i, hk (i / 2)]
          have hcj : j * 2 ≠ j := by omega
          by_cases hij : i = j
          · subst hij
            rw [if_pos rfl, if_neg (by omega), if_neg (by omega)]
            exact hinv.2 (i * 2) (by omega) (by omega) (by omega) hj1
          · rw [if_neg hij]
            by_cases hic : i = j * 2
            · subst hic
              rw [if_pos rfl, if_pos (by omega)]
              omega
            · rw [if_neg hic, if_neg (by omega), if_neg (by omega)]
              exact hinv.1 i hi1 hi2 (by omega)
        · rw [if_neg hc3]
          refine ⟨st, rfl, ?_, heapPerm_refl st⟩
          intro i hi1 hi2
          by_cases hp : i / 2 = j
          · have hi : i = j * 2 := by omega
            subst hi
            show key st (j * 2 / 2) ≤ key st (j * 2)
            rw [hp]
            have : ¬ key st (j * 2) < key st j := by rw [← hkt]; exact hc3
            omega
          · exact hinv.1 i hi1 hi2 hp
      · rw [if_neg hc2]
        have h2 : j * 2 + 1 < st.len := by omega
        by_cases hc3 : (st.mem (st.tab (j * 2 + 1))).elapses < (st.mem (st.tab (j * 2))).elapses
        · -- the second child elapses first
          rw [if_pos hc3]
          have hlt12 : key st (j * 2 + 1) < key st (j * 2) := hc3
          by_cases hc4 : (st.mem (st.tab (j * 2 + 1))).elapses < (st.mem t).elapses
          · rw [if_pos hc4]
            have hlt : key st (j * 2 + 1) < key st j := by rw [← hkt]; exact hc4
            obtain ⟨st1, hswap, hrel⟩ := heap_swap_spec st j (j * 2 + 1) hj h2
            have hk := hrel.key_eq
            have hinv1 : down_inv st1 (j * 2 + 1) := by
              constructor
              · intro i hi1 hi2 hi3
                rw [hrel.len_eq] at hi2
                rw [hk i, hk (i / 2)]
                by_cases hij : i = j
                · subst hij
                  rw [if_pos rfl, if_neg (by omega), if_neg (by omega)]
                  exact hinv.2 (i * 2 + 1) (by omega) h2 (by omega) (by omega)
                · rw [if_neg hij]
                  by_cases hic : i = j * 2 + 1
                  · subst hic
                    rw [if_pos rfl, if_pos (by omega)]
                    omega
                  · rw [if_neg hic]
                    by_cases hpj : i / 2 = j
                    · rw [if_pos hpj]
                      have hi : i = j * 2 := by omega
                      subst hi
                      omega
                    · rw [if_neg hpj, if_neg hi3]
                      exact hinv.1 i hi1 hi2 hpj
              · intro c hc1' hc2' hc3' _
                rw [hrel.len_eq] at hc2'
                rw [hk c, hk ((j * 2 + 1) / 2)]
                rw [if_pos (by omega), if_neg (by omega), if_neg (by omega)]
                have := hinv.1 c hc1' hc2' (by omega)
                rw [hc3'] at this
                exact this
            simp only [hswap, bind, Except.bind]
            obtain ⟨st2, hres, hord, hperm2⟩ := ih st1 (j * 2 + 1)
              (by rw [hrel.len_eq]; exact h2) (by rw [hrel.tab_j, ht])
              (by rw [hrel.len_eq]; omega) hinv1
            exact ⟨st2, hres, hord, heapPerm_trans (hrel.heapPerm hj h2) hperm2⟩
          · rw [if_neg hc4]
            refine ⟨st, rfl, ?_, heapPerm_refl st⟩
            have hge : ¬ key st (j * 2 + 1) < key st j := by rw [← hkt]; exact hc4
            intro i hi1 hi2
            by_cases hp : i / 2 = j
            · show key st (i / 2) ≤ key st i
              rw [hp]
              have hi : i = j * 2 ∨ i = j * 2 + 1 := by omega
              rcases hi with hi | hi <;> subst hi <;> omega
            · exact hinv.1 i hi1 hi2 hp
        · -- the first child elapses first
          rw [if_neg hc3]
          have hge12 : ¬ key st (j * 2 + 1) < key st (j * 2) := hc3
          by_cases hc4 : (st.mem (st.tab (j * 2))).elapses < (st.mem t).elapses
          · rw [if_pos hc4]
            have hlt : key st (j * 2) < key st j := by rw [← hkt]; exact hc4
            have hj1 : 1 ≤ j := by
              by_contra h0
              have : j = 0 := by omega
              subst this
              simp at hlt
            obtain ⟨st1, hswap, hrel⟩ := heap_swap_spec st j (j * 2) hj (by omega)
            have hk := hrel.key_eq
            have hinv1 : down_inv st1 (j * 2) := by
              constructor
              · intro i hi1 hi2 hi3
                rw [hrel.len_eq] at hi2
                rw [hk i, hk (i / 2)]
                by_cases hij : i = j
                · subst hij
                  rw [if_pos rfl, if_neg (by omega), if_neg (by omega)]
                  exact hinv.2 (i * 2) (by omega) (by omega) (by omega) hj1
                · rw [if_neg hij]
                  by_cases hic : i = j * 2
                  · subst hic
                    rw [if_pos rfl, if_pos (by omega)]
                    omega
                  · rw [if_neg hic]
                    by_cases hpj : i / 2 = j
                    · rw [if_pos hpj]
                      have hi : i = j * 2 + 1 := by omega
                      subst hi
                      omega
                    · rw [if_neg hpj, if_neg hi3]
                      exact hinv.1 i hi1 hi2 hpj
              · intro c hc1' hc2' hc3' _
                rw [hrel.len_eq] at hc2'
                rw [hk c, hk (j * 2 / 2)]
                rw [if_pos (by omega), if_neg (by omega), if_neg (by omega)]
                have := hinv.1 c hc1' hc2' (by omega)
                rw [hc3'] at this
                exact this
            simp only [hswap, bind, Except.bind]
            obtain ⟨st2, hres, hord, hperm2⟩ := ih st1 (j * 2)
              (by rw [hrel.len_eq]; omega) (by rw [hrel.tab_j, ht])
              (by rw [hrel.len_eq]; omega) hinv1
            exact ⟨st2, hres, hord, heapPerm_trans (hrel.heapPerm hj (by omega)) hperm2⟩
          · rw [if_neg hc4]
            refine ⟨st, rfl, ?_, heapPerm_refl st⟩
            have hge : ¬ key st (j * 2) < key st j := by rw [← hkt]; exact hc4
            intro i hi1 hi2
            by_cases hp : i / 2 = j
            · show key st (i / 2) ≤ key st i
              rw [hp]
              have hi : i = j * 2 ∨ i = j * 2 + 1 := by omega
              rcases hi with hi | hi <;> subst hi <;> omega
            · exact hinv.1 i hi1 hi2 hp

theorem HeapPerm.sameTimers {st st1 : TimerState} (h : HeapPerm st st1) : SameTimers st st1 :=
  ⟨h.lists_eq, h.elapses_eq, h.output_eq, h.data_eq, h.elapsed_data_eq⟩

theorem sameTimers_refl (st : TimerState) : SameTimers st st :=
  ⟨rfl, fun _ => rfl, fun _ => rfl, fun _ => rfl, fun _ => rfl⟩

theorem sameTimers_trans {a b c : TimerState} (h1 : SameTimers a b) (h2 : SameTimers b c) :
    SameTimers a c :=
  ⟨h2.lists_eq.trans h1.lists_eq,
    fun p => (h2.elapses_eq p).trans (h1.elapses_eq p),
    fun p => (h2.output_eq p).trans (h1.output_eq p),
    fun p => (h2.data_eq p).trans (h1.data_eq p),
    fun p => (h2.elapsed_data_eq p).trans (h1.elapsed_data_eq p)⟩

theorem heap_ordered_hole (st : TimerState) (j : Nat) (h : heap_ordered st) : hole_inv st j := by
  constructor
  · intro i hi1 hi2 _ _
    exact h i hi1 hi2
  · intro c hc1 hc2 hc3 hj1
    have h1 : key st (j / 2) ≤ key st j := h j hj1 (by omega)
    have h2 : key st (c / 2) ≤ key st c := h c hc1 hc2
    rw [hc3] at h2
    omega

/-- `heap_adjust` at a position restores the heap property when it holds
everywhere else. -/
theorem heap_adjust_spec (st : TimerState) (j : Nat) (hj : j < st.len) (hinv : hole_inv st j) :
    ∃ st1 r, heap_adjust st j = .ok (st1, r) ∧ heap_ordered st1 ∧ HeapPerm st st1 := by
  unfold heap_adjust
  rw [if_neg (not_not.mpr hj)]
  simp only []
  by_cases hc : (st.mem (st.tab j)).elapses < (st.mem (st.tab (j / 2))).elapses
  · rw [if_pos hc]
    have hlt : key st j < key st (j / 2) := hc
    have hj1 : 1 ≤ j := by
      by_contra h0
      have : j = 0 := by omega
      subst this
      simp at hlt
    have hup : up_inv st j := by
      constructor
      · intro i hi1 hi2 hi3
        by_cases hp : i / 2 = j
        · have := hinv.2 i hi1 hi2 hp hj1
          rw [hp]
          omega
        · exact hinv.1 i hi1 hi2 hi3 hp
      · intro c hc1 hc2 hc3 _
        exact hinv.2 c hc1 hc2 hc3 hj1
    obtain ⟨st1, j1, hres, hord, hperm, _, _⟩ :=
      heap_adjust_up_spec (st.tab j) (j + 1) st j hj rfl (by omega) hlt hup
    simp only [hres, bind, Except.bind]
    exact ⟨st1, _, rfl, hord, hperm⟩
  · rw [if_neg hc]
    have hge : ¬ key st j < key st (j / 2) := hc
    have hdown : down_inv st j := by
      constructor
      · intro i hi1 hi2 hi3
        by_cases hij : i = j
        · subst hij
          omega
        · exact hinv.1 i hi1 hi2 hij hi3
      · exact hinv.2
    obtain ⟨st1, hres, hord, hperm⟩ :=
      heap_adjust_down_spec (st.tab j) (st.len + 1) st j hj rfl (by omega) hdown
    simp only [hres, bind, Except.bind]
    exact ⟨st1, _, rfl, hord, hperm⟩

/-! ## The heap operations return on every consistent heap -/

theorem heap_adjust_up_returns (t : Nat) : ∀ (fuel : Nat) (st : TimerState) (j : Nat),
    j < st.len → st.tab j = t → j < fuel → 1 ≤ j →
    ∃ st1 j1, heap_adjust_up t fuel st j = .ok (st1, j1) ∧ HeapPerm st st1 := by
  intro fuel
  induction fuel with
  | zero => intro st j _ _ hf; omega
  | succ fuel ih =>
    intro st j hj ht hf hj1
    obtain ⟨st1, hswap, hrel⟩ := heap_swap_spec st j (j / 2) hj (by omega)
    have hperm := hrel.heapPerm hj (by omega)
    have ht1 : st1.tab (j / 2) = t := by rw [hrel.tab_j, ht]
    unfold heap_adjust_up
    simp only [hswap, bind, Except.bind]
    by_cases hc : (st1.mem t).elapses < (st1.mem (st1.tab (j / 2 / 2))).elapses
    · rw [if_pos hc]
      have hp1 : 1 ≤ j / 2 := by
        by_contra h0
        have h00 : j / 2 = 0 := by omega
        rw [h00] at ht1
        rw [h00, Nat.zero_div, ht1] at hc
        exact lt_irrefl _ hc
      obtain ⟨st2, j2, hres, hperm2⟩ :=
        ih st1 (j / 2) (by rw [hrel.len_eq]; omega) ht1 (by omega) hp1
      exact ⟨st2, j2, hres, heapPerm_trans hperm hperm2⟩
    · rw [if_neg hc]
      exact ⟨st1, j / 2, rfl, hperm⟩

theorem heap_adjust_down_returns (t : Nat) : ∀ (fuel : Nat) (st : TimerState) (j : Nat),
    j < st.len → st.tab j = t → st.len < fuel + j →
    ∃ st1, heap_adjust_down t fuel st j = .ok st1 ∧ HeapPerm st st1 := by
  intro fuel
  induction fuel with
  | zero => intro st j hj _ hf; omega
  | succ fuel ih =>
    intro st j hj ht hf
    have hkt : (st.mem t).elapses = (st.mem (st.tab j)).elapses := by rw [ht]
    unfold heap_adjust_down
    simp only []
    by_cases hc1 : j * 2 ≥ st.len
    · rw [if_pos hc1]
      exact ⟨st, rfl, heapPerm_refl st⟩
    · rw [if_neg hc1]
      by_cases hc2 : ((j * 2 : Nat) : Int) = (st.len : Int) - 1
      · rw [if_pos hc2]
        by_cases hc3 : (st.mem (st.tab (j * 2))).elapses < (st.mem t).elapses
        · rw [if_pos hc3]
          obtain ⟨st1, hswap, hrel⟩ := heap_swap_spec st j (j * 2) hj (by omega)
          exact ⟨st1, hswap, hrel.heapPerm hj (by omega)⟩
        · rw [if_neg hc3]
          exact ⟨st, rfl, heapPerm_refl st⟩
      · rw [if_neg hc2]
        have h2 : j * 2 + 1 < st.len := by omega
        by_cases hc3 : (st.mem (st.tab (j * 2 + 1))).elapses < (st.mem (st.tab (j * 2))).elapses
        · rw [if_pos hc3]
          by_cases hc4 : (st.mem (st.tab (j * 2 + 1))).elapses < (st.mem t).elapses
          · rw [if_pos hc4]
            obtain ⟨st1, hswap, hrel⟩ := heap_swap_spec st j (j * 2 + 1) hj h2
            simp only [hswap, bind, Except.bind]
            obtain ⟨st2, hres, hperm2⟩ := ih st1 (j * 2 + 1)
              (by rw [hrel.len_eq]; exact h2) (by rw [hrel.tab_j, ht])
              (by rw [hrel.len_eq]; omega)
            exact ⟨st2, hres, heapPerm_trans (hrel.heapPerm hj h2) hperm2⟩
          · rw [if_neg hc4]
            exact ⟨st, rfl, heapPerm_refl st⟩
        · rw [if_neg hc3]
          by_cases hc4 : (st.mem (st.tab (j * 2))).elapses < (st.mem t).elapses
          · rw [if_pos hc4]
            have hj1 : 1 ≤ j := by
              by_contra h0
              have h00 : j = 0 := by omega
              rw [h00] at hc4 hkt
              rw [hkt] at hc4
              exact lt_irrefl _ hc4
            obtain ⟨st1, hswap, hrel⟩ := heap_swap_spec st j (j * 2) hj (by omega)
            simp only [hswap, bind, Except.bind]
            obtain ⟨st2, hres, hperm2⟩ := ih st1 (j * 2)
              (by rw [hrel.len_eq]; omega) (by rw [hrel.tab_j, ht])
              (by rw [hrel.len_eq]; omega)
            exact ⟨st2, hres, heapPerm_trans (hrel.heapPerm hj (by omega)) hperm2⟩
          · rw [if_neg hc4]
            exact ⟨st, rfl, heapPerm_refl st⟩

/-- `heap_adjust` returns at every valid position, whatever the deadlines. -/
theorem heap_adjust_returns (st : TimerState) (j : Nat) (hj : j < st.len) :
    ∃ st1 r, heap_adjust st j = .ok (st1, r) ∧ HeapPerm st st1 := by
  unfold heap_adjust
  rw [if_neg (not_not.mpr hj)]
  simp only []
  by_cases hc : (st.mem (st.tab j)).elapses < (st.mem (st.tab (j / 2))).elapses
  · rw [if_pos hc]
    have hj1 : 1 ≤ j := by
      by_contra h0
      have h00 : j = 0 := by omega
      rw [h00] at hc
      exact lt_irrefl _ hc
    obtain ⟨st1, j1, hres, hperm⟩ :=
      heap_adjust_up_returns (st.tab j) (j + 1) st j hj rfl (by omega) hj1
    simp only [hres, bind, Except.bind]
    exact ⟨st1, _, rfl, hperm⟩
  · rw [if_neg hc]
    obtain ⟨st1, hres, hperm⟩ :=
      heap_adjust_down_returns (st.tab j) (st.len + 1) st j hj rfl (by omega)
    simp only [hres, bind, Except.bind]
    exact ⟨st1, _, rfl, hperm⟩

/-- `heap_insert` of a timer that is not in the heap. -/
theorem heap_insert_spec (st : TimerState) (timer : Nat) (hc : index_consistent st)
    (hord : heap_ordered st) (hout : ¬ in_heap st timer) :
    ∃ st1, heap_insert st timer = .ok st1 ∧ heap_ordered st1 ∧ index_consistent st1 ∧
      st1.len = st.len + 1 ∧ SameTimers st st1 ∧
      (∀ p, in_heap st1 p ↔ (in_heap st p ∨ p = timer)) := by
  unfold heap_insert
  simp only [bind, Except.bind]
  generalize hst3 : heap_append st timer = st3
  have hlen3 : st3.len = st.len + 1 := by rw [← hst3]; rfl
  have htab3 : ∀ k, st3.tab k = if k = st.len then timer else st.tab k := by
    intro k
    rw [← hst3]
    simp only [heap_append, set_index_frame, Function.update, eq_rec_constant, dite_eq_ite,
      Nat.add_sub_cancel]
  have hmem3 : ∀ q, (st3.mem q).elapses = (st.mem q).elapses ∧
      (st3.mem q).output = (st.mem q).output ∧ (st3.mem q).data = (st.mem q).data ∧
      (st3.mem q).elapsed_data = (st.mem q).elapsed_data ∧
      (st3.mem q).index = (if q = timer then ((st.len : Int)) else (st.mem q).index) := by
    intro q
    rw [← hst3]
    by_cases hq : q = timer
    · subst hq
      simp [heap_append, set_index]
    · simp [heap_append, set_index, Function.update, hq]
  have hidx : (st3.mem timer).index.toNat = st.len := by
    rw [(hmem3 timer).2.2.2.2, if_pos rfl]
    omega
  have hsame3 : SameTimers st st3 :=
    ⟨by rw [← hst3]; rfl, fun p => (hmem3 p).1, fun p => (hmem3 p).2.1,
      fun p => (hmem3 p).2.2.1, fun p => (hmem3 p).2.2.2.1⟩
  have hkey3 : ∀ k, k < st.len → key st3 k = key st k := by
    intro k hk
    unfold key
    rw [htab3 k, if_neg (by omega), hsame3.elapses_eq]
  have hheap3 : ∀ p, in_heap st3 p ↔ (in_heap st p ∨ p = timer) := by
    intro p
    unfold in_heap
    rw [hlen3]
    constructor
    · rintro ⟨k, hk, hp⟩
      rw [htab3 k] at hp
      by_cases hkl : k = st.len
      · rw [if_pos hkl] at hp
        exact Or.inr hp.symm
      · rw [if_neg hkl] at hp
        exact Or.inl ⟨k, by omega, hp⟩
    · rintro (⟨k, hk, hp⟩ | hp)
      · exact ⟨k, by omega, by rw [htab3 k, if_neg (by omega)]; exact hp⟩
      · exact ⟨st.len, by omega, by rw [htab3 st.len, if_pos rfl]; exact hp.symm⟩
  have hc3 : index_consistent st3 := by
    constructor
    · intro k hk
      rw [hlen3] at hk
      rw [htab3 k]
      by_cases hkl : k = st.len
      · rw [if_pos hkl, (hmem3 timer).2.2.2.2, if_pos rfl, hkl]
      · rw [if_neg hkl, (hmem3 _).2.2.2.2, if_neg]
        · exact hc.1 k (by omega)
        · intro he
          exact hout ⟨k, by omega, he⟩
    · intro p hp
      rw [hheap3] at hp
      rw [(hmem3 p).2.2.2.2, if_neg (fun he => hp (Or.inr he))]
      exact hc.2 p (fun he => hp (Or.inl he))
  have hhole3 : hole_inv st3 st.len := by
    constructor
    · intro i hi1 hi2 hi3 hi4
      rw [hlen3] at hi2
      rw [hkey3 i (by omega), hkey3 (i / 2) (by omega)]
      exact hord i hi1 (by omega)
    · intro c _ hc2 hc3 hj1
      rw [hlen3] at hc2
      omega
  obtain ⟨st1, r, hres, hord1, hperm⟩ := heap_adjust_spec st3 st.len (by omega) hhole3
  rw [hidx, hres]
  refine ⟨st1, rfl, hord1, hperm.index_pres hc3, by rw [hperm.len_eq, hlen3],
    sameTimers_trans hsame3 hperm.sameTimers, ?_⟩
  intro p
  rw [hperm.in_heap_iff, hheap3]

/-- `heap_delete` at a valid position of a consistent heap returns, removes the
timer at that position only, and leaves the heap ordered when the heap
property held between all other positions. -/
theorem heap_delete_spec (st : TimerState) (i : Nat) (hi : i < st.len)
    (hc : index_consistent st) :
    ∃ st1, heap_delete st i = .ok st1 ∧ index_consistent st1 ∧
      st1.len + 1 = st.len ∧ SameTimers st st1 ∧
      (∀ p, in_heap st1 p ↔ (in_heap st p ∧ p ≠ st.tab i)) ∧
      (hole_inv st i → heap_ordered st1) := by
  unfold heap_delete
  rw [if_neg (not_not.mpr hi), if_neg (not_not.mpr (hc.1 i hi))]
  obtain ⟨st1, hswap, hrel⟩ := heap_swap_spec st i (st.len - 1) hi (by omega)
  have hc1 : index_consistent st1 := hrel.index_pres hi (by omega) hc
  simp only [hswap, bind, Except.bind]
  generalize hst3 : heap_drop_last st1 (st.len - 1) = st3
  have hlen3 : st3.len = st.len - 1 := by rw [← hst3, ← hrel.len_eq]; rfl
  have htab3 : st3.tab = st1.tab := by rw [← hst3]; rfl
  have hlast : st1.tab (st.len - 1) = st.tab i := by
    by_cases hil : i = st.len - 1
    · rw [← hil, hrel.tab_i, ← hil]
    · exact hrel.tab_j
  have hmem3 : ∀ q, (st3.mem q).elapses = (st1.mem q).elapses ∧
      (st3.mem q).output = (st1.mem q).output ∧ (st3.mem q).data = (st1.mem q).data ∧
      (st3.mem q).elapsed_data = (st1.mem q).elapsed_data ∧
      (st3.mem q).index = (if q = st.tab i then -1 else (st1.mem q).index) := by
    intro q
    rw [← hst3, ← hlast]
    exact set_index_mem st1 (st1.tab (st.len - 1)) (-1) q
  have hsame3 : SameTimers st st3 :=
    ⟨by rw [← hst3]; exact hrel.lists_eq,
      fun p => ((hmem3 p).1).trans (hrel.elapses_eq p),
      fun p => ((hmem3 p).2.1).trans (hrel.output_eq p),
      fun p => ((hmem3 p).2.2.1).trans (hrel.data_eq p),
      fun p => ((hmem3 p).2.2.2.1).trans (hrel.elapsed_data_eq p)⟩
  have hkey3 : ∀ k, key st3 k = if k = i then key st (st.len - 1)
      else if k = st.len - 1 then key st i else key st k := by
    intro k
    rw [← hrel.key_eq k]
    unfold key
    rw [htab3, (hmem3 _).1]
  have hheap3 : ∀ p, in_heap st3 p ↔ (in_heap st p ∧ p ≠ st.tab i) := by
    intro p
    constructor
    · rintro ⟨k, hk, hp⟩
      rw [hlen3] at hk
      rw [htab3] at hp
      have hin1 : in_heap st1 p := ⟨k, by rw [hrel.len_eq]; omega, hp⟩
      refine ⟨(hrel.in_heap_iff hi (by omega) p).mp hin1, ?_⟩
      intro he
      rw [← hlast, ← hp] at he
      have := index_consistent_inj hc1 k (st.len - 1) (by rw [hrel.len_eq]; omega)
        (by rw [hrel.len_eq]; omega) he
      omega
    · rintro ⟨hin, hne⟩
      obtain ⟨k, hk, hp⟩ := (hrel.in_heap_iff hi (by omega) p).mpr hin
      rw [hrel.len_eq] at hk
      have hkl : k ≠ st.len - 1 := by
        intro he
        rw [he, hlast] at hp
        exact hne hp.symm
      exact ⟨k, by rw [hlen3]; omega, by rw [htab3]; exact hp⟩
  have hc3 : index_consistent st3 := by
    constructor
    · intro k hk
      rw [hlen3] at hk
      rw [htab3, (hmem3 _).2.2.2.2, if_neg]
      · exact hc1.1 k (by rw [hrel.len_eq]; omega)
      · intro he
        rw [← hlast] at he
        have := index_consistent_inj hc1 k (st.len - 1) (by rw [hrel.len_eq]; omega)
          (by rw [hrel.len_eq]; omega) he
        omega
    · intro p hp
      rw [(hmem3 p).2.2.2.2]
      by_cases hpe : p = st.tab i
      · rw [if_pos hpe]
      · rw [if_neg hpe]
        apply hc1.2 p
        intro hin1
        exact hp ((hheap3 p).mpr ⟨(hrel.in_heap_iff hi (by omega) p).mp hin1, hpe⟩)
  by_cases hil : i = st.len - 1
  · rw [if_neg (not_not.mpr hil)]
    refine ⟨st3, rfl, hc3, by rw [hlen3]; omega, hsame3, hheap3, ?_⟩
    intro hh k hk1 hk2
    rw [hlen3] at hk2
    show key st3 (k / 2) ≤ key st3 k
    have e1 : ¬ k = i := by omega
    have e2 : ¬ k = st.len - 1 := by omega
    have e3 : ¬ k / 2 = i := by omega
    have e4 : ¬ k / 2 = st.len - 1 := by omega
    rw [hkey3 k, hkey3 (k / 2)]
    simp only [e1, e2, e3, e4, if_false]
    exact hh.1 k hk1 (by omega) (by omega) (by omega)
  · rw [if_pos hil]
    obtain ⟨st4, r, hres, hperm⟩ := heap_adjust_returns st3 i (by rw [hlen3]; omega)
    simp only [hres]
    refine ⟨st4, rfl, hperm.index_pres hc3, by rw [hperm.len_eq, hlen3]; omega,
      sameTimers_trans hsame3 hperm.sameTimers, ?_, ?_⟩
    · intro p
      rw [hperm.in_heap_iff, hheap3]
    intro hh
    have hhole3 : hole_inv st3 i := by
      constructor
      · intro k hk1 hk2 hk3 hk4
        rw [hlen3] at hk2
        have e2 : ¬ k = st.len - 1 := by omega
        have e4 : ¬ k / 2 = st.len - 1 := by omega
        rw [hkey3 k, hkey3 (k / 2)]
        simp only [hk3, e2, hk4, e4, if_false]
        exact hh.1 k hk1 (by omega) hk3 hk4
      · intro c hc1' hc2' hc3' hi1
        rw [hlen3] at hc2'
        have e1 : ¬ c = i := by omega
        have e2 : ¬ c = st.len - 1 := by omega
        have e3 : ¬ i / 2 = i := by omega
        have e4 : ¬ i / 2 = st.len - 1 := by omega
        rw [hkey3 c, hkey3 (i / 2)]
        simp only [e1, e2, e3, e4, if_false]
        exact hh.2 c hc1' (by omega) hc3' hi1
    obtain ⟨st5, r5, hres5, hord5, _⟩ := heap_adjust_spec st3 i (by rw [hlen3]; omega) hhole3
    rw [hres] at hres5
    simp only [Except.ok.injEq, Prod.mk.injEq] at hres5
    rw [hres5.1]
    exact hord5

theorem returned_state_eq (r : Except Abort TimerState) (h : returned r = true) :
    r = .ok (returned_state r) := by
  cases r with
  | error e => simp [returned] at h
  | ok st => rfl

theorem heap_ordered_top (st : TimerState) (h : heap_ordered st) :
    ∀ i, i < st.len → key st 0 ≤ key st i := by
  intro i
  induction i using Nat.strong_induction_on with
  | _ i ih =>
    intro hi
    by_cases h0 : i = 0
    · subst h0
      exact le_refl _
    · have h1 := ih (i / 2) (by omega) (by omega)
      have h2 : key st (i / 2) ≤ key st i := h i (by omega) hi
      omega

theorem index_consistent_in_heap {st : TimerState} (hc : index_consistent st) (p : Nat) :
    in_heap st p ↔ 0 ≤ (st.mem p).index := by
  constructor
  · rintro ⟨k, hk, hp⟩
    rw [← hp, hc.1 k hk]
    omega
  · intro h
    by_contra hn
    have := hc.2 p hn
    omega

theorem set_elapses_in_heap (st : TimerState) (p : Nat) (e : Int) (q : Nat) :
    in_heap (set_elapses st p e) q ↔ in_heap st q := Iff.rfl

theorem set_elapses_index_consistent (st : TimerState) (p : Nat) (e : Int)
    (hc : index_consistent st) : index_consistent (set_elapses st p e) := by
  constructor
  · intro k hk
    rw [(set_elapses_mem st p e _).1]
    exact hc.1 k hk
  · intro q hq
    rw [(set_elapses_mem st p e _).1]
    exact hc.2 q hq

theorem set_elapses_key (st : TimerState) (p : Nat) (e : Int) (k : Nat) (h : st.tab k ≠ p) :
    key (set_elapses st p e) k = key st k := by
  unfold key
  rw [(set_elapses_mem st p e _).2.2.2.2]
  exact if_neg h

/-- After the deadline of the timer at position `i` was overwritten, the heap
property still holds between all other positions. -/
theorem set_elapses_hole (st : TimerState) (i : Nat) (e : Int) (hi : i < st.len)
    (hc : index_consistent st) (hord : heap_ordered st) :
    hole_inv (set_elapses st (st.tab i) e) i := by
  have hk : ∀ k, k < st.len → k ≠ i → key (set_elapses st (st.tab i) e) k = key st k := by
    intro k hk hki
    exact set_elapses_key st _ e k (fun he => hki (index_consistent_inj hc k i hk hi he))
  have hh := heap_ordered_hole st i hord
  constructor
  · intro k hk1 hk2 hk3 hk4
    have hk2' : k < st.len := hk2
    rw [hk k hk2' hk3, hk (k / 2) (by omega) hk4]
    exact hh.1 k hk1 hk2' hk3 hk4
  · intro c hc1 hc2 hc3 hi1
    have hc2' : c < st.len := hc2
    rw [hk c hc2' (by omega), hk (i / 2) (by omega) (by omega)]
    exact hh.2 c hc1 hc2' hc3 hi1

/-- Every heap operation that returns keeps the index fields consistent and
the heap ordered. -/
theorem apply_heap_op_inv (st st1 : TimerState) (op : HeapOp)
    (hc : index_consistent st) (hord : heap_ordered st)
    (h : apply_heap_op st op = .ok st1) : index_consistent st1 ∧ heap_ordered st1 := by
  cases op with
  | insert timer e =>
    simp only [apply_heap_op] at h
    split at h
    · exact absurd h (by simp)
    · rename_i hidx
      have hidx' : (st.mem timer).index < 0 := by
        have := not_not.mp hidx
        rw [(set_elapses_mem st timer e timer).1] at this
        exact this
      have hout : ¬ in_heap st timer := by
        rw [index_consistent_in_heap hc]
        omega
      have hord1 : heap_ordered (set_elapses st timer e) := by
        intro k hk1 hk2
        have hk2' : k < st.len := hk2
        show key (set_elapses st timer e) (k / 2) ≤ key (set_elapses st timer e) k
        rw [set_elapses_key st timer e k (fun he => hout ⟨k, hk2', he⟩),
          set_elapses_key st timer e (k / 2) (fun he => hout ⟨k / 2, by omega, he⟩)]
        exact hord k hk1 hk2'
      obtain ⟨st2, hres, hord2, hc2, _⟩ := heap_insert_spec (set_elapses st timer e) timer
        (set_elapses_index_consistent st timer e hc) hord1 hout
      rw [hres] at h
      simp only [Except.ok.injEq] at h
      subst h
      exact ⟨hc2, hord2⟩
  | delete index =>
    simp only [apply_heap_op] at h
    by_cases hi : index < st.len
    · obtain ⟨st2, hres, hc2, _, _, _, hord2⟩ := heap_delete_spec st index hi hc
      rw [hres] at h
      simp only [Except.ok.injEq] at h
      subst h
      exact ⟨hc2, hord2 (heap_ordered_hole st index hord)⟩
    · simp [heap_delete, hi] at h
  | change index e =>
    simp only [apply_heap_op] at h
    by_cases hi : index < st.len
    · obtain ⟨st2, r, hres, hord2, hperm⟩ := heap_adjust_spec
        (set_elapses st (st.tab index) e) index hi (set_elapses_hole st index e hi hc hord)
      rw [hres] at h
      simp only [bind, Except.bind, pure, Except.pure, Except.ok.injEq] at h
      subst h
      exact ⟨hperm.index_pres (set_elapses_index_consistent st _ e hc), hord2⟩
    · have hi' : ¬ index < (set_elapses st (st.tab index) e).len := hi
      simp [heap_adjust, hi', bind, Except.bind] at h
  | stop index =>
    simp only [apply_heap_op] at h
    by_cases hi : index < st.len
    · obtain ⟨st2, hres, hc2, _, _, _, hord2⟩ := heap_delete_spec
        (set_elapses st (st.tab index) (-1)) index hi
        (set_elapses_index_consistent st _ _ hc)
      rw [hres] at h
      simp only [Except.ok.injEq] at h
      subst h
      exact ⟨hc2, hord2 (set_elapses_hole st index (-1) hi hc hord)⟩
    · have hi' : ¬ index < (set_elapses st (st.tab index) (-1)).len := hi
      simp [heap_delete, hi'] at h

theorem run_heap_ops_inv (ops : List HeapOp) : ∀ (st st1 : TimerState),
    index_consistent st → heap_ordered st → run_heap_ops st ops = .ok st1 →
    index_consistent st1 ∧ heap_ordered st1 := by
  induction ops with
  | nil =>
    intro st st1 hc hord h
    simp only [run_heap_ops, Except.ok.injEq] at h
    subst h
    exact ⟨hc, hord⟩
  | cons op ops ih =>
    intro st st1 hc hord h
    simp only [run_heap_ops] at h
    rw [except_bind_ok] at h
    obtain ⟨st2, h1, h2⟩ := h
    obtain ⟨hc2, hord2⟩ := apply_heap_op_inv st st2 op hc hord h1
    exact ih st2 st1 hc2 hord2 h2

/-- C4: starting from an empty heap (len = 0, every timer with index -1), after
every sequence of insertions, deletions at a valid index, deadline changes
followed by `heap_adjust`, and removals as in `gw_timer_stop`, the heap
satisfies tab[i/2].elapses <= tab[i].elapses for 1 <= i < len, and tab[0] has
the smallest deadline of all timers in the heap. -/
theorem timer_heap_ordered (st0 : TimerState) (ops : List HeapOp) (st : TimerState)
    (hlen : st0.len = 0) (hidx : ∀ p, (st0.mem p).index = -1)
    (h : run_heap_ops st0 ops = .ok st) :
    (∀ i, 1 ≤ i → i < st.len →
      (st.mem (st.tab (i / 2))).elapses ≤ (st.mem (st.tab i)).elapses) ∧
    (∀ i, i < st.len → (st.mem (st.tab 0)).elapses ≤ (st.mem (st.tab i)).elapses) := by
  have hc0 : index_consistent st0 := by
    constructor
    · intro i hi
      rw [hlen] at hi
      omega
    · intro p _
      exact hidx p
  have hord0 : heap_ordered st0 := by
    intro i _ hi
    rw [hlen] at hi
    omega
  obtain ⟨_, hord⟩ := run_heap_ops_inv ops st0 st hc0 hord0 h
  exact ⟨hord, heap_ordered_top st hord⟩

/-- Witness of C4: the sample run from the empty timer set. -/
theorem timer_heap_ordered_witness :
    (empty_timers.len = 0 ∧ (∀ p, (empty_timers.mem p).index = -1) ∧
      run_heap_ops empty_timers sample_heap_ops =
        .ok (returned_state (run_heap_ops empty_timers sample_heap_ops))) ∧
    ((∀ i, 1 ≤ i → i < (returned_state (run_heap_ops empty_timers sample_heap_ops)).len →
        ((returned_state (run_heap_ops empty_timers sample_heap_ops)).mem
          ((returned_state (run_heap_ops empty_timers sample_heap_ops)).tab (i / 2))).elapses ≤
        ((returned_state (run_heap_ops empty_timers sample_heap_ops)).mem
          ((returned_state (run_heap_ops empty_timers sample_heap_ops)).tab i)).elapses) ∧
      (∀ i, i < (returned_state (run_heap_ops empty_timers sample_heap_ops)).len →
        ((returned_state (run_heap_ops empty_timers sample_heap_ops)).mem
          ((returned_state (run_heap_ops empty_timers sample_heap_ops)).tab 0)).elapses ≤
        ((returned_state (run_heap_ops empty_timers sample_heap_ops)).mem
          ((returned_state (run_heap_ops empty_timers sample_heap_ops)).tab i)).elapses)) :=
  ⟨⟨rfl, fun _ => rfl, returned_state_eq _ (by decide!)⟩,
    timer_heap_ordered empty_timers sample_heap_ops _ rfl (fun _ => rfl)
      (returned_state_eq _ (by decide!))⟩

/-! ## gw_timer_stop -/

theorem abort_elapsed_frame (st : TimerState) (t : Nat) :
    (abort_elapsed st t).tab = st.tab ∧ (abort_elapsed st t).len = st.len ∧
    (∀ p, ((abort_elapsed st t).mem p).elapses = (st.mem p).elapses ∧
      ((abort_elapsed st t).mem p).index = (st.mem p).index ∧
      ((abort_elapsed st t).mem p).output = (st.mem p).output ∧
      ((abort_elapsed st t).mem p).data = (st.mem p).data ∧
      ((abort_elapsed st t).mem p).elapsed_data =
        (if p = t then 0 else (st.mem p).elapsed_data)) := by
  unfold abort_elapsed
  by_cases h : (st.mem t).elapsed_data = 0
  · rw [if_pos h]
    refine ⟨rfl, rfl, fun p => ⟨rfl, rfl, rfl, rfl, ?_⟩⟩
    by_cases hp : p = t
    · rw [if_pos hp, hp, h]
    · rw [if_neg hp]
  · rw [if_neg h]
    refine ⟨rfl, rfl, fun p => ?_⟩
    by_cases hp : p = t
    · subst hp
      simp
    · simp [Function.update, hp]

theorem abort_elapsed_lists (st : TimerState) (t : Nat) (h : (st.mem t).elapsed_data ≠ 0) :
    (st.mem t).elapsed_data ∉ (abort_elapsed st t).lists (st.mem t).output := by
  unfold abort_elapsed
  rw [if_neg h]
  simp [gwlist_delete_equal, List.mem_filter]

theorem in_heap_congr {st st1 : TimerState} (htab : st1.tab = st.tab) (hlen : st1.len = st.len)
    (p : Nat) : in_heap st1 p ↔ in_heap st p := by
  unfold in_heap
  rw [htab, hlen]

theorem timers_wf_active {st : TimerState} (hwf : timers_wf st) (t : Nat)
    (h : 0 < (st.mem t).elapses) :
    ∃ i, i < st.len ∧ st.tab i = t ∧ (st.mem t).index = (i : Int) := by
  have hin : in_heap st t := by
    by_contra hn
    have := hwf.2.2 t hn
    omega
  obtain ⟨i, hi, hti⟩ := hin
  refine ⟨i, hi, hti, ?_⟩
  rw [← hti]
  exact hwf.1.1 i hi

theorem timers_wf_inactive {st : TimerState} (hwf : timers_wf st) (t : Nat)
    (h : ¬ 0 < (st.mem t).elapses) :
    ¬ in_heap st t ∧ (st.mem t).elapses = -1 ∧ (st.mem t).index = -1 := by
  have hout : ¬ in_heap st t := by
    rintro ⟨i, hi, hti⟩
    have := hwf.2.1 i hi
    rw [hti] at this
    exact h this
  exact ⟨hout, hwf.2.2 t hout, hwf.1.2 t hout⟩

/-- C5: for every timer of a well-formed timer set, `gw_timer_stop` returns and
leaves the timer with elapses = -1, outside the heap with index = -1, with no
elapsed_data, and with no element equal to its former elapsed_data on its
output list; every other timer keeps its deadline and its place in or outside
the heap. -/
theorem gw_timer_stop_spec (st : TimerState) (timer : Nat) (hwf : timers_wf st) :
    ∃ st1, gw_timer_stop st timer = .ok st1 ∧
      (st1.mem timer).elapses = -1 ∧ (st1.mem timer).index = -1 ∧ ¬ in_heap st1 timer ∧
      (st1.mem timer).elapsed_data = 0 ∧
      ((st.mem timer).elapsed_data ≠ 0 →
        (st.mem timer).elapsed_data ∉ st1.lists (st.mem timer).output) ∧
      (∀ p, p ≠ timer →
        (st1.mem p).elapses = (st.mem p).elapses ∧ (in_heap st1 p ↔ in_heap st p)) := by
  unfold gw_timer_stop
  by_cases hact : (st.mem timer).elapses > 0
  · rw [if_pos hact]
    obtain ⟨i, hi, hti, hidx⟩ := timers_wf_active hwf timer hact
    have hm := set_elapses_mem st timer (-1)
    have hidx1 : ((set_elapses st timer (-1)).mem timer).index = (i : Int) := by
      rw [(hm timer).1, hidx]
    have hnn : ¬ ((set_elapses st timer (-1)).mem timer).index < 0 := by
      rw [hidx1]
      omega
    have htn : ((set_elapses st timer (-1)).mem timer).index.toNat = i := by
      rw [hidx1]
      omega
    have htab : ¬ (set_elapses st timer (-1)).tab i ≠ timer := not_not.mpr hti
    simp only []
    rw [if_neg hnn, htn, if_neg htab]
    obtain ⟨st2, hdel, hc2, _, hsame, hheap, _⟩ := heap_delete_spec (set_elapses st timer (-1)) i hi
      (set_elapses_index_consistent st timer (-1) hwf.1)
    have hti1 : (set_elapses st timer (-1)).tab i = timer := hti
    rw [hti1] at hheap
    simp only [hdel, bind, Except.bind, pure, Except.pure]
    obtain ⟨hatab, halen, hamem⟩ := abort_elapsed_frame st2 timer
    have hout2 : ¬ in_heap st2 timer := by
      rw [hheap]
      exact fun h => h.2 rfl
    refine ⟨_, rfl, ?_, ?_, ?_, ?_, ?_, ?_⟩
    · rw [(hamem timer).1, hsame.elapses_eq, (hm timer).2.2.2.2, if_pos rfl]
    · rw [(hamem timer).2.1]
      exact hc2.2 timer hout2
    · rw [in_heap_congr hatab halen]
      exact hout2
    · rw [(hamem timer).2.2.2.2, if_pos rfl]
    · intro hne
      have h1 : (st2.mem timer).elapsed_data = (st.mem timer).elapsed_data := by
        rw [hsame.elapsed_data_eq, (hm timer).2.2.2.1]
      have h2 : (st2.mem timer).output = (st.mem timer).output := by
        rw [hsame.output_eq, (hm timer).2.1]
      rw [← h1, ← h2]
      exact abort_elapsed_lists st2 timer (by rw [h1]; exact hne)
    · intro p hp
      constructor
      · rw [(hamem p).1, hsame.elapses_eq, (hm p).2.2.2.2, if_neg hp]
      · rw [in_heap_congr hatab halen, hheap, set_elapses_in_heap]
        exact ⟨fun h => h.1, fun h => ⟨h, hp⟩⟩
  · rw [if_neg hact]
    obtain ⟨hout, hel, hidx⟩ := timers_wf_inactive hwf timer hact
    simp only [bind, Except.bind, pure, Except.pure]
    obtain ⟨hatab, halen, hamem⟩ := abort_elapsed_frame st timer
    refine ⟨_, rfl, ?_, ?_, ?_, ?_, ?_, ?_⟩
    · rw [(hamem timer).1, hel]
    · rw [(hamem timer).2.1, hidx]
    · rw [in_heap_congr hatab halen]
      exact hout
    · rw [(hamem timer).2.2.2.2, if_pos rfl]
    · exact abort_elapsed_lists st timer
    · intro p _
      exact ⟨(hamem p).1, in_heap_congr hatab halen p⟩

theorem sample_timers_in_heap (p : Nat) : in_heap sample_timers p ↔ (p = 1 ∨ p = 2 ∨ p = 3) := by
  constructor
  · rintro ⟨i, hi, hp⟩
    have hi3 : i < 3 := hi
    interval_cases i
    · exact Or.inl hp.symm
    · exact Or.inr (Or.inl hp.symm)
    · exact Or.inr (Or.inr hp.symm)
  · rintro (h | h | h)
    · exact ⟨0, by decide, h.symm⟩
    · exact ⟨1, by decide, h.symm⟩
    · exact ⟨2, by decide, h.symm⟩

theorem sample_timers_wf : timers_wf sample_timers := by
  refine ⟨⟨?_, ?_⟩, ⟨?_, ?_⟩⟩
  · intro i hi
    have hi3 : i < 3 := hi
    interval_cases i <;> rfl
  · intro p hp
    rw [sample_timers_in_heap] at hp
    have h1 : p ≠ 1 := fun h => hp (Or.inl h)
    have h2 : p ≠ 2 := fun h => hp (Or.inr (Or.inl h))
    have h3 : p ≠ 3 := fun h => hp (Or.inr (Or.inr h))
    by_cases h4 : p = 4 <;> simp [sample_timers, h1, h2, h3, h4]
  · intro i hi
    have hi3 : i < 3 := hi
    interval_cases i <;> decide
  · intro p hp
    rw [sample_timers_in_heap] at hp
    have h1 : p ≠ 1 := fun h => hp (Or.inl h)
    have h2 : p ≠ 2 := fun h => hp (Or.inr (Or.inl h))
    have h3 : p ≠ 3 := fun h => hp (Or.inr (Or.inr h))
    by_cases h4 : p = 4 <;> simp [sample_timers, h1, h2, h3, h4]

theorem sample_timers_ordered : heap_ordered sample_timers := by
  intro i hi1 hi
  have hi3 : i < 3 := hi
  interval_cases i <;> decide

theorem sample_timers_no_pending : no_pending_elapse sample_timers := by
  intro i hi
  have hi3 : i < 3 := hi
  interval_cases i <;> rfl

/-- Witness of C5: the timer at the top of the sample timer set is stopped. -/
theorem gw_timer_stop_spec_witness :
    timers_wf sample_timers ∧
    ∃ st1, gw_timer_stop sample_timers 1 = .ok st1 ∧
      (st1.mem 1).elapses = -1 ∧ (st1.mem 1).index = -1 ∧ ¬ in_heap st1 1 ∧
      (st1.mem 1).elapsed_data = 0 ∧
      ((sample_timers.mem 1).elapsed_data ≠ 0 →
        (sample_timers.mem 1).elapsed_data ∉ st1.lists (sample_timers.mem 1).output) ∧
      (∀ p, p ≠ 1 →
        (st1.mem p).elapses = (sample_timers.mem p).elapses ∧
          (in_heap st1 p ↔ in_heap sample_timers p)) :=
  ⟨sample_timers_wf, gw_timer_stop_spec sample_timers 1 sample_timers_wf⟩

/-! ## The watcher -/

theorem elapse_timer_spec (st : TimerState) (t : Nat) (h : (st.mem t).elapsed_data = 0) :
    ∃ st1, elapse_timer st t = .ok st1 ∧ st1.tab = st.tab ∧ st1.len = st.len ∧
      (∀ p, (st1.mem p).index = (st.mem p).index ∧ (st1.mem p).output = (st.mem p).output ∧
        (st1.mem p).data = (st.mem p).data) ∧
      (st1.mem t).elapses = -1 ∧ (st1.mem t).elapsed_data = (st.mem t).data ∧
      (∀ p, p ≠ t → (st1.mem p).elapses = (st.mem p).elapses ∧
        (st1.mem p).elapsed_data = (st.mem p).elapsed_data) ∧
      (∀ o, st1.lists o = if o = (st.mem t).output then st.lists o ++ [(st.mem t).data]
        else st.lists o) := by
  unfold elapse_timer
  rw [if_neg (not_not.mpr h)]
  refine ⟨_, rfl, rfl, rfl, ?_, ?_, ?_, ?_, ?_⟩
  · intro p
    by_cases hp : p = t
    · subst hp
      simp [set_elapses]
    · simp [set_elapses, Function.update, hp]
  · simp [set_elapses]
  · simp [set_elapses]
  · intro p hp
    simp [set_elapses, Function.update, hp]
  · intro o
    by_cases ho : o = (st.mem t).output
    · rw [if_pos ho]
      simp [set_elapses, gwlist_produce, Function.update, ho]
    · rw [if_neg ho]
      simp [set_elapses, gwlist_produce, Function.update, ho]

theorem in_heap_elapses_pos {st : TimerState} (hwf : timers_wf st) (p : Nat)
    (h : in_heap st p) : 0 < (st.mem p).elapses := by
  obtain ⟨i, hi, hp⟩ := h
  rw [← hp]
  exact hwf.2.1 i hi

theorem in_heap_top_le {st : TimerState} (hord : heap_ordered st) (p : Nat)
    (h : in_heap st p) : (st.mem (st.tab 0)).elapses ≤ (st.mem p).elapses := by
  obtain ⟨i, hi, hp⟩ := h
  rw [← hp]
  exact heap_ordered_top st hord i hi

/-- One round of the watcher loop: the timer at the top is removed from the
heap and elapses, and the timer set stays well-formed and ordered. -/
theorem watch_round (st : TimerState) (hlen : st.len > 0) (hwf : timers_wf st)
    (hord : heap_ordered st) (hnp : no_pending_elapse st) :
    ∃ sd se, heap_delete st 0 = .ok sd ∧ elapse_timer sd (st.tab 0) = .ok se ∧
      se.len + 1 = st.len ∧
      (∀ p, in_heap se p ↔ (in_heap st p ∧ p ≠ st.tab 0)) ∧
      (∀ p, (se.mem p).output = (st.mem p).output ∧ (se.mem p).data = (st.mem p).data) ∧
      (se.mem (st.tab 0)).elapses = -1 ∧
      (se.mem (st.tab 0)).elapsed_data = (st.mem (st.tab 0)).data ∧
      (∀ p, p ≠ st.tab 0 → (se.mem p).elapses = (st.mem p).elapses ∧
        (se.mem p).elapsed_data = (st.mem p).elapsed_data) ∧
      (∀ o, se.lists o = if o = (st.mem (st.tab 0)).output then
          st.lists o ++ [(st.mem (st.tab 0)).data] else st.lists o) ∧
      timers_wf se ∧ heap_ordered se ∧ no_pending_elapse se := by
  obtain ⟨sd, hdel, hcd, hlend, hsame, hheapd, hordd⟩ := heap_delete_spec st 0 hlen hwf.1
  have hordd := hordd (heap_ordered_hole st 0 hord)
  have hed : (sd.mem (st.tab 0)).elapsed_data = 0 := by
    rw [hsame.elapsed_data_eq]
    exact hnp 0 hlen
  obtain ⟨se, hel, htab, hlene, hmem, helt, hedt, hoth, hlists⟩ :=
    elapse_timer_spec sd (st.tab 0) hed
  have hheape : ∀ p, in_heap se p ↔ (in_heap st p ∧ p ≠ st.tab 0) := by
    intro p
    rw [in_heap_congr htab hlene, hheapd]
  have hne : ∀ i, i < se.len → se.tab i ≠ st.tab 0 := by
    intro i hi
    exact ((hheape (se.tab i)).mp ⟨i, hi, rfl⟩).2
  refine ⟨sd, se, hdel, hel, by rw [hlene]; exact hlend, hheape, ?_, ?_, ?_, ?_, ?_, ?_, ?_, ?_⟩
  · intro p
    exact ⟨((hmem p).2.1).trans (hsame.output_eq p), ((hmem p).2.2).trans (hsame.data_eq p)⟩
  · exact helt
  · rw [hedt, hsame.data_eq]
  · intro p hp
    exact ⟨((hoth p hp).1).trans (hsame.elapses_eq p),
      ((hoth p hp).2).trans (hsame.elapsed_data_eq p)⟩
  · intro o
    rw [hlists o, hsame.lists_eq, hsame.output_eq, hsame.data_eq]
  · refine ⟨⟨?_, ?_⟩, ⟨?_, ?_⟩⟩
    · intro i hi
      rw [(hmem _).1, htab]
      exact hcd.1 i (by rw [← hlene]; exact hi)
    · intro p hp
      rw [(hmem p).1]
      exact hcd.2 p (by rw [← in_heap_congr htab hlene]; exact hp)
    · intro i hi
      rw [(hoth _ (hne i hi)).1, hsame.elapses_eq]
      exact in_heap_elapses_pos hwf _ ((hheape _).mp ⟨i, hi, rfl⟩).1
    · intro p hp
      by_cases hpt : p = st.tab 0
      · rw [hpt]
        exact helt
      · rw [(hoth p hpt).1, hsame.elapses_eq]
        exact hwf.2.2 p (fun hin => hp ((hheape p).mpr ⟨hin, hpt⟩))
  · intro i hi1 hi2
    have h1 := hne i hi2
    have h2 := hne (i / 2) (by omega)
    rw [(hoth _ h1).1, (hoth _ h2).1, htab]
    exact hordd i hi1 (by rw [← hlene]; exact hi2)
  · intro i hi
    rw [(hoth _ (hne i hi)).2, hsame.elapsed_data_eq]
    obtain ⟨k, hk, hkt⟩ := ((hheape _).mp ⟨i, hi, rfl⟩).1
    rw [← hkt]
    exact hnp k hk

/-- The watcher loop returns and removes exactly the timers that are due. -/
theorem watch_timers_loop_spec (now : Int) : ∀ (fuel : Nat) (st : TimerState),
    st.len < fuel → timers_wf st → heap_ordered st → no_pending_elapse st →
    ∃ st1 elapsed, watch_timers_loop now fuel st = .ok (st1, elapsed) ∧
      WatchResult now st st1 elapsed := by
  intro fuel
  induction fuel with
  | zero => intro st hf; omega
  | succ fuel ih =>
    intro st hf hwf hord hnp
    unfold watch_timers_loop
    by_cases hc : st.len > 0 ∧ (st.mem (st.tab 0)).elapses ≤ now
    · rw [if_pos hc]
      obtain ⟨hlen, hdue⟩ := hc
      obtain ⟨sd, se, hdel, hel, hlene, hheape, hod, helt, hedt, hoth, hlists, hwfe, horde, hnpe⟩ :=
        watch_round st hlen hwf hord hnp
      obtain ⟨s3, rest, hloop, hres⟩ := ih se (by omega) hwfe horde hnpe
      simp only [hdel, hel, hloop, bind, Except.bind, pure, Except.pure]
      refine ⟨s3, st.tab 0 :: rest, rfl, ?_⟩
      have htop : in_heap st (st.tab 0) := ⟨0, hlen, rfl⟩
      have hrest_ne : ∀ p, p ∈ rest → p ≠ st.tab 0 := by
        intro p hp
        exact ((hheape p).mp ((hres.removed_iff p).mp hp).1).2
      have htop_not : st.tab 0 ∉ rest := fun h => hrest_ne _ h rfl
      have hdata : (fun p => (se.mem p).data) = (fun p => (st.mem p).data) := by
        funext p
        rw [(hod p).2]
      constructor
      · intro p
        rw [List.mem_cons, hres.removed_iff, hheape]
        constructor
        · rintro (h | ⟨⟨hin, hne⟩, hle⟩)
          · rw [h]
            exact ⟨htop, hdue⟩
          · rw [(hoth p hne).1] at hle
            exact ⟨hin, hle⟩
        · rintro ⟨hin, hle⟩
          by_cases hpt : p = st.tab 0
          · exact Or.inl hpt
          · exact Or.inr ⟨⟨hin, hpt⟩, by rw [(hoth p hpt).1]; exact hle⟩
      · exact List.nodup_cons.mpr ⟨htop_not, hres.nodup⟩
      · rw [List.pairwise_cons]
        constructor
        · intro q hq
          exact in_heap_top_le hord q ((hheape q).mp ((hres.removed_iff q).mp hq).1).1
        · refine hres.sorted.imp_of_mem ?_
          intro a b ha hb hab
          rw [(hoth a (hrest_ne a ha)).1, (hoth b (hrest_ne b hb)).1] at hab
          exact hab
      · intro p hp
        rw [List.mem_cons] at hp
        rcases hp with hp | hp
        · rw [hp, (hres.others _ htop_not).1, (hres.others _ htop_not).2]
          exact ⟨hedt, helt⟩
        · have := hres.elapsed_fields p hp
          rw [(hod p).2] at this
          exact this
      · intro o
        rw [hres.lists_eq o, hlists o]
        have hpred : (fun p => decide ((se.mem p).output = o)) =
            (fun p => decide ((st.mem p).output = o)) := by
          funext p
          rw [(hod p).1]
        rw [hpred, hdata]
        by_cases ho : o = (st.mem (st.tab 0)).output
        · rw [if_pos ho, List.filter_cons_of_pos (by simp [ho]), List.map_cons,
            List.append_assoc]
          rfl
        · have ho2 : ¬ (st.mem (st.tab 0)).output = o := fun he => ho he.symm
          rw [if_neg ho, List.filter_cons_of_neg (by simp [ho2])]
      · intro p
        rw [hres.left_iff, hheape]
        constructor
        · rintro ⟨⟨hin, hne⟩, hlt⟩
          rw [(hoth p hne).1] at hlt
          exact ⟨hin, hlt⟩
        · rintro ⟨hin, hlt⟩
          have hne : p ≠ st.tab 0 := by
            intro he
            rw [he] at hlt
            omega
          exact ⟨⟨hin, hne⟩, by rw [(hoth p hne).1]; exact hlt⟩
      · exact hres.left_late
      · intro p hp
        rw [List.mem_cons, not_or] at hp
        rw [(hres.others p hp.2).1, (hres.others p hp.2).2]
        exact hoth p hp.1
      · intro p
        rw [hres.output_eq, (hod p).1]
      · intro p
        rw [hres.data_eq, (hod p).2]
      · exact hres.wf
      · exact hres.ordered
      · exact hres.no_pending
    · rw [if_neg hc]
      refine ⟨st, [], rfl, ?_⟩
      have hlate : ∀ p, in_heap st p → now < (st.mem p).elapses := by
        intro p hin
        have hlen : st.len > 0 := by
          obtain ⟨i, hi, _⟩ := hin
          omega
        have h1 := in_heap_top_le hord p hin
        have h2 : ¬ (st.mem (st.tab 0)).elapses ≤ now := fun h => hc ⟨hlen, h⟩
        omega
      constructor
      · intro p
        constructor
        · intro h
          simp at h
        · rintro ⟨hin, hle⟩
          have := hlate p hin
          omega
      · exact List.nodup_nil
      · exact List.Pairwise.nil
      · intro p hp
        simp at hp
      · intro o
        simp
      · intro p
        exact ⟨fun h => ⟨h, hlate p h⟩, fun h => h.1⟩
      · intro i hi
        exact hlate _ ⟨i, hi, rfl⟩
      · intro p _
        exact ⟨rfl, rfl⟩
      · intro p
        rfl
      · intro p
        rfl
      · exact hwf
      · exact hord
      · exact hnp

/-- C6: on a well-formed timer set (consistent indices and deadlines, ordered
heap, no pending event on an active timer) one pass of the watcher at time
`now` returns; the timers it elapses are exactly the timers of the heap with a
deadline <= now, each once, in non-decreasing order of deadline; each of them
gets elapsed_data = data and elapses = -1 and its data is appended to its
output list; the timers left in the heap are exactly those with a deadline
> now. -/
theorem watch_timers_pass_spec (st : TimerState) (now : Int) (hwf : timers_wf st)
    (hord : heap_ordered st) (hnp : no_pending_elapse st) :
    ∃ st1 elapsed, watch_timers_pass st now = .ok (st1, elapsed) ∧
      (∀ p, p ∈ elapsed ↔ (in_heap st p ∧ (st.mem p).elapses ≤ now)) ∧
      elapsed.Nodup ∧
      elapsed.Pairwise (fun p q => (st.mem p).elapses ≤ (st.mem q).elapses) ∧
      (∀ p, p ∈ elapsed → ¬ in_heap st1 p ∧ (st1.mem p).elapsed_data = (st.mem p).data ∧
        (st1.mem p).elapses = -1) ∧
      (∀ o, st1.lists o = st.lists o ++
        (elapsed.filter (fun p => (st.mem p).output = o)).map (fun p => (st.mem p).data)) ∧
      (∀ p, in_heap st1 p ↔ (in_heap st p ∧ now < (st.mem p).elapses)) ∧
      (∀ i, i < st1.len → now < (st1.mem (st1.tab i)).elapses) := by
  obtain ⟨st1, elapsed, hloop, hres⟩ :=
    watch_timers_loop_spec now (st.len + 1) st (by omega) hwf hord hnp
  refine ⟨st1, elapsed, hloop, hres.removed_iff, hres.nodup, hres.sorted, ?_, hres.lists_eq,
    hres.left_iff, hres.left_late⟩
  intro p hp
  refine ⟨?_, hres.elapsed_fields p hp⟩
  rw [hres.left_iff]
  have := ((hres.removed_iff p).mp hp).2
  intro h
  omega

/-- Witness of C6: the sample timer set at time 20; the timers 1 and 2 elapse. -/
theorem watch_timers_pass_spec_witness :
    (timers_wf sample_timers ∧ heap_ordered sample_timers ∧ no_pending_elapse sample_timers) ∧
    ∃ st1 elapsed, watch_timers_pass sample_timers 20 = .ok (st1, elapsed) ∧
      (∀ p, p ∈ elapsed ↔ (in_heap sample_timers p ∧ (sample_timers.mem p).elapses ≤ 20)) ∧
      elapsed.Nodup ∧
      elapsed.Pairwise (fun p q => (sample_timers.mem p).elapses ≤ (sample_timers.mem q).elapses) ∧
      (∀ p, p ∈ elapsed → ¬ in_heap st1 p ∧
        (st1.mem p).elapsed_data = (sample_timers.mem p).data ∧ (st1.mem p).elapses = -1) ∧
      (∀ o, st1.lists o = sample_timers.lists o ++
        (elapsed.filter (fun p => (sample_timers.mem p).output = o)).map
          (fun p => (sample_timers.mem p).data)) ∧
      (∀ p, in_heap st1 p ↔ (in_heap sample_timers p ∧ 20 < (sample_timers.mem p).elapses)) ∧
      (∀ i, i < st1.len → 20 < (st1.mem (st1.tab i)).elapses) :=
  ⟨⟨sample_timers_wf, sample_timers_ordered, sample_timers_no_pending⟩,
    watch_timers_pass_spec sample_timers 20 sample_timers_wf sample_timers_ordered
      sample_timers_no_pending⟩
/-! ## Fields copied by sms_split -/

theorem part_skeleton_fields (orig : Msg) (msgno : Int) :
    other_fields (part_skeleton orig msgno) = other_fields orig ∧
    (msgno ≤ 1 → (part_skeleton orig msgno).dlr_mask = orig.dlr_mask ∧
      (part_skeleton orig msgno).dlr_id = orig.dlr_id ∧
      (part_skeleton orig msgno).dlr_keyword = orig.dlr_keyword) ∧
    (1 < msgno → orig.dlr_mask ≠ 0 → (part_skeleton orig msgno).dlr_mask = 0 ∧
      (part_skeleton orig msgno).dlr_id = none ∧
      (part_skeleton orig msgno).dlr_keyword = none) := by
  by_cases hc : msgno > 1 ∧ orig.dlr_mask ≠ 0
  · have e : part_skeleton orig msgno =
        { orig with dlr_id := none, dlr_keyword := none, dlr_mask := 0 } := by
      simp [part_skeleton, msg_duplicate, hc]
    rw [e]
    exact ⟨rfl, fun h => absurd hc.1 (by omega), fun _ _ => ⟨rfl, rfl, rfl⟩⟩
  · have e : part_skeleton orig msgno = orig := by
      simp only [part_skeleton, msg_duplicate, hc, if_false]
    rw [e]
    exact ⟨rfl, fun _ => ⟨rfl, rfl, rfl⟩, fun h1 h2 => absurd ⟨h1, h2⟩ hc⟩

theorem getElem?_parts_of_chunks (orig : Msg) (hdr ftr suf : Option Octstr)
    (chunks : List Octstr) : ∀ (msgno0 : Int) (k : Nat) (q : Msg),
      (parts_of_chunks orig hdr ftr suf msgno0 chunks)[k]? = some q →
      ∃ c last, q = compose_part (part_skeleton orig (msgno0 + (k : Int) + 1)) c hdr ftr suf last := by
  induction chunks with
  | nil => intro _ k q hq; simp [parts_of_chunks] at hq
  | cons c cs ih =>
    intro msgno0 k q hq
    cases cs with
    | nil =>
      cases k with
      | zero =>
        simp only [parts_of_chunks, List.getElem?_cons_zero, Option.some.injEq] at hq
        exact ⟨c, true, by rw [← hq]; simp⟩
      | succ k => simp [parts_of_chunks] at hq
    | cons c2 cs =>
      cases k with
      | zero =>
        simp only [parts_of_chunks, List.getElem?_cons_zero, Option.some.injEq] at hq
        exact ⟨c, false, by rw [← hq]; simp⟩
      | succ k =>
        simp only [parts_of_chunks, List.getElem?_cons_succ] at hq
        obtain ⟨c', last, hc⟩ := ih (msgno0 + 1) k q hq
        refine ⟨c', last, ?_⟩
        rw [hc]
        congr 2
        push_cast
        omega

theorem prepend_catenation_udh_fields (q : Msg) (k n s : Int) :
    other_fields_but_flag_udh (prepend_catenation_udh q k n s) = other_fields_but_flag_udh q ∧
    (prepend_catenation_udh q k n s).dlr_mask = q.dlr_mask ∧
    (prepend_catenation_udh q k n s).dlr_id = q.dlr_id ∧
    (prepend_catenation_udh q k n s).dlr_keyword = q.dlr_keyword := ⟨rfl, rfl, rfl, rfl⟩

theorem parts_of_chunks_fields (orig : Msg) (hdr ftr suf : Option Octstr)
    (chunks : List Octstr) (k : Nat) (q : Msg)
    (hq : (parts_of_chunks orig hdr ftr suf 0 chunks)[k]? = some q) :
    other_fields q = other_fields orig ∧
    (k = 0 → q.dlr_mask = orig.dlr_mask ∧ q.dlr_id = orig.dlr_id ∧
      q.dlr_keyword = orig.dlr_keyword) ∧
    (1 ≤ k → orig.dlr_mask ≠ 0 → q.dlr_mask = 0 ∧ q.dlr_id = none ∧ q.dlr_keyword = none) := by
  obtain ⟨c, last, hc⟩ := getElem?_parts_of_chunks orig hdr ftr suf chunks 0 k q hq
  obtain ⟨h1, h2, h3⟩ := part_skeleton_fields orig (0 + (k : Int) + 1)
  have e1 : other_fields q = other_fields (part_skeleton orig (0 + (k : Int) + 1)) := by
    rw [hc]; rfl
  have e2 : q.dlr_mask = (part_skeleton orig (0 + (k : Int) + 1)).dlr_mask := by rw [hc]; rfl
  have e3 : q.dlr_id = (part_skeleton orig (0 + (k : Int) + 1)).dlr_id := by rw [hc]; rfl
  have e4 : q.dlr_keyword = (part_skeleton orig (0 + (k : Int) + 1)).dlr_keyword := by
    rw [hc]; rfl
  rw [e1, e2, e3, e4]
  exact ⟨h1, fun hk => h2 (by omega), fun hk hd => h3 (by omega) hd⟩

/-- C11 fails as stated: the 200-character 7-bit message without UDH that asks
for delivery reports is split with catenate = 1 into two parts, and both parts
have flag_udh = 1 while the original has flag_udh = 0, so a field other than
msgdata, udhdata and the DLR fields is not copied unchanged. -/
theorem sms_split_sets_flag_udh :
    (sample_dlr_sms (sample_text 200)).dlr_mask ≠ 0 ∧
    (sample_dlr_sms (sample_text 200)).flag_udh = 0 ∧
    sms_split (sample_dlr_sms (sample_text 200)) none none none none 1 17 10 140 =
      .ok [{ sample_dlr_sms (sample_text 153) with
            flag_udh := 1, udhdata := some [5, 0, 3, 17, 2, 1] },
        sample_sms 0 1 (some [5, 0, 3, 17, 2, 2]) (sample_text 47)] ∧
    other_fields { sample_dlr_sms (sample_text 153) with
        flag_udh := 1, udhdata := some [5, 0, 3, 17, 2, 1] } ≠
      other_fields (sample_dlr_sms (sample_text 200)) ∧
    other_fields (sample_sms 0 1 (some [5, 0, 3, 17, 2, 2]) (sample_text 47)) ≠
      other_fields (sample_dlr_sms (sample_text 200)) := by
  refine ⟨by decide, rfl, by decide, by decide, by decide⟩

/-- C11 (amended): when sms_split divides a message with dlr_mask != 0 into
parts, the first part keeps dlr_mask, dlr_id and dlr_keyword of the original,
every later part has dlr_mask = 0 and neither dlr_id nor dlr_keyword, every
field other than msgdata, udhdata, flag_udh and the DLR fields is copied
unchanged into every part, and flag_udh is copied unchanged unless the
concatenation UDH was added (catenate true and more than one part), in which
case it is 1 in every part. -/
theorem sms_split_part_fields (orig : Msg)
    (header footer nonlast_suffix split_chars : Option Octstr)
    (catenate msg_sequence max_messages max_octets : Int) (parts : List Msg)
    (hdlr : orig.dlr_mask ≠ 0)
    (h : sms_split orig header footer nonlast_suffix split_chars catenate msg_sequence
      max_messages max_octets = .ok parts)
    (k : Nat) (p : Msg) (hk : parts[k]? = some p) :
    (k = 0 → p.dlr_mask = orig.dlr_mask ∧ p.dlr_id = orig.dlr_id ∧
      p.dlr_keyword = orig.dlr_keyword) ∧
    (1 ≤ k → p.dlr_mask = 0 ∧ p.dlr_id = none ∧ p.dlr_keyword = none) ∧
    other_fields_but_flag_udh p = other_fields_but_flag_udh orig ∧
    p.flag_udh = (if catenate ≠ 0 ∧ 1 < parts.length then 1 else orig.flag_udh) := by
  obtain ⟨chunks, _, hparts, hlen, _⟩ := sms_split_chunks _ _ _ _ _ _ _ _ _ _ h
  have hother : ∀ q : Msg, other_fields q = other_fields orig →
      other_fields_but_flag_udh q = other_fields_but_flag_udh orig := by
    intro q hq
    simp only [other_fields_but_flag_udh, hq]
  by_cases hc : catenate ≠ 0 ∧ (chunks.length : Int) > 1
  · have hc2 : catenate ≠ 0 ∧ 1 < parts.length := ⟨hc.1, by omega⟩
    rw [if_pos hc] at hparts
    rw [if_pos hc2]
    rw [hparts, getElem?_catenation_loop] at hk
    cases hq : (parts_of_chunks orig header footer nonlast_suffix 0 chunks)[k]? with
    | none => rw [hq] at hk; simp at hk
    | some q =>
      rw [hq] at hk
      simp only [Option.map_some', Option.some.injEq] at hk
      obtain ⟨f1, f2, f3⟩ := parts_of_chunks_fields orig header footer nonlast_suffix chunks k q hq
      obtain ⟨g1, g2, g3, g4⟩ := prepend_catenation_udh_fields q (1 + (k : Int))
        (chunks.length : Int) msg_sequence
      rw [← hk, g1, g2, g3, g4]
      exact ⟨f2, fun h1 => f3 h1 hdlr, hother q f1, rfl⟩
  · have hc2 : ¬ (catenate ≠ 0 ∧ 1 < parts.length) := fun hh => hc ⟨hh.1, by omega⟩
    rw [if_neg hc] at hparts
    rw [if_neg hc2]
    rw [hparts] at hk
    obtain ⟨f1, f2, f3⟩ := parts_of_chunks_fields orig header footer nonlast_suffix chunks k p hk
    refine ⟨f2, fun h1 => f3 h1 hdlr, hother p f1, ?_⟩
    exact (parts_of_chunks_udh orig header footer nonlast_suffix chunks 0 p
      (List.getElem?_mem hk)).2

/-- Witness of C11: the second part of the 200-character message that asks for
delivery reports, split with catenation into parts of 153 and 47 characters. -/
theorem sms_split_part_fields_witness :
    ((sample_dlr_sms (sample_text 200)).dlr_mask ≠ 0 ∧
      sms_split (sample_dlr_sms (sample_text 200)) none none none none 1 17 10 140 =
        .ok [{ sample_dlr_sms (sample_text 153) with
              flag_udh := 1, udhdata := some [5, 0, 3, 17, 2, 1] },
          sample_sms 0 1 (some [5, 0, 3, 17, 2, 2]) (sample_text 47)]) ∧
    (((1 : Nat) = 0 → (sample_sms 0 1 (some [5, 0, 3, 17, 2, 2]) (sample_text 47)).dlr_mask =
          (sample_dlr_sms (sample_text 200)).dlr_mask ∧
        (sample_sms 0 1 (some [5, 0, 3, 17, 2, 2]) (sample_text 47)).dlr_id =
          (sample_dlr_sms (sample_text 200)).dlr_id ∧
        (sample_sms 0 1 (some [5, 0, 3, 17, 2, 2]) (sample_text 47)).dlr_keyword =
          (sample_dlr_sms (sample_text 200)).dlr_keyword) ∧
      (1 ≤ 1 → (sample_sms 0 1 (some [5, 0, 3, 17, 2, 2]) (sample_text 47)).dlr_mask = 0 ∧
        (sample_sms 0 1 (some [5, 0, 3, 17, 2, 2]) (sample_text 47)).dlr_id = none ∧
        (sample_sms 0 1 (some [5, 0, 3, 17, 2, 2]) (sample_text 47)).dlr_keyword = none) ∧
      other_fields_but_flag_udh (sample_sms 0 1 (some [5, 0, 3, 17, 2, 2]) (sample_text 47)) =
        other_fields_but_flag_udh (sample_dlr_sms (sample_text 200)) ∧
      (sample_sms 0 1 (some [5, 0, 3, 17, 2, 2]) (sample_text 47)).flag_udh =
        (if (1 : Int) ≠ 0 ∧ 1 < [{ sample_dlr_sms (sample_text 153) with
              flag_udh := 1, udhdata := some [5, 0, 3, 17, 2, 1] },
          sample_sms 0 1 (some [5, 0, 3, 17, 2, 2]) (sample_text 47)].length then 1
        else (sample_dlr_sms (sample_text 200)).flag_udh)) :=
  ⟨⟨by decide, by decide⟩,
    sms_split_part_fields (sample_dlr_sms (sample_text 200)) none none none none
      1 17 10 140 _ (by decide) (by decide) 1 _ rfl⟩


/-! ## send_message -/

theorem octstr_copy_eq (md : Option Octstr) (len : Int) (h : 0 ≤ len) :
    octstr_copy md 0 len = .ok ((ostr_data md).take len.toNat) := by
  cases md with
  | none => simp [octstr_copy, ostr_data]
  | some d =>
    have : ¬ ((0 : Int) < 0 ∨ len < 0) := by omega
    simp only [octstr_copy, this, if_false, ostr_data, Int.toNat_zero, List.drop_zero]

/-- A message that fits the budget, or any message when only one part is
allowed, is returned by `sms_split` as one part. -/
theorem sms_split_one_part (orig : Msg) (hdr ftr suf sc : Option Octstr)
    (cat seq maxm maxo : Int)
    (hP : 0 ≤ sms_split_max_part_len orig hdr ftr cat maxo)
    (hfit : octstr_len orig.msgdata ≤ sms_split_max_part_len orig hdr ftr cat maxo ∨ maxm = 1) :
    sms_split orig hdr ftr suf sc cat seq maxm maxo =
      .ok [compose_part (part_skeleton orig 1)
        ((ostr_data orig.msgdata).take (sms_split_max_part_len orig hdr ftr cat maxo).toNat)
        hdr ftr suf true] := by
  rw [sms_split_ok]
  refine ⟨[compose_part (part_skeleton orig 1)
        ((ostr_data orig.msgdata).take (sms_split_max_part_len orig hdr ftr cat maxo).toNat)
        hdr ftr suf true], ?_, ?_⟩
  · have hc : octstr_len orig.msgdata ≤ sms_split_max_part_len orig hdr ftr cat maxo ∨
        (0 : Int) + 1 = maxm := by
      rcases hfit with h | h
      · exact Or.inl h
      · exact Or.inr (by omega)
    simp only [sms_split_fuel, sms_split_loop, hc, if_true, octstr_copy_eq _ _ hP]
    rfl
  · simp

theorem sms_split_msgdata_some (orig : Msg) (hdr ftr suf sc : Option Octstr)
    (cat seq maxm maxo : Int) (parts : List Msg)
    (h : sms_split orig hdr ftr suf sc cat seq maxm maxo = .ok parts) :
    ∀ p ∈ parts, p.msgdata ≠ none := by
  obtain ⟨chunks, _, hparts, _⟩ := sms_split_chunks _ _ _ _ _ _ _ _ _ _ h
  have hbase : ∀ (k : Nat) (q : Msg),
      (parts_of_chunks orig hdr ftr suf 0 chunks)[k]? = some q → q.msgdata ≠ none := by
    intro k q hq
    obtain ⟨c, last, hc⟩ := getElem?_parts_of_chunks orig hdr ftr suf chunks 0 k q hq
    rw [hc, compose_part_msgdata]
    simp
  intro p hp
  obtain ⟨i, hi⟩ := List.getElem?_of_mem hp
  rw [hparts] at hi
  split at hi
  · rw [getElem?_catenation_loop] at hi
    cases hq : (parts_of_chunks orig hdr ftr suf 0 chunks)[i]? with
    | none => rw [hq] at hi; simp at hi
    | some q =>
      rw [hq] at hi
      simp only [Option.map_some', Option.some.injEq] at hi
      rw [← hi, prepend_catenation_udh_msgdata]
      exact hbase i q hq
  · exact hbase i p hi

theorem send_message_input_len (msg : Msg) :
    octstr_len (send_message_input msg).msgdata = octstr_len msg.msgdata := by
  unfold send_message_input
  split
  · rename_i h; rw [h.2]; rfl
  · rfl


/-- C12 fails as stated. With max_messages = -1 the 200-character message is
written as two parts, more than max_messages; and with a header of 161 octets
the budget is negative and the call ends in an assertion of gwlib with nothing
written, although max_messages is 3 and the message is not empty. -/
theorem send_message_part_count_fails :
    send_message (some (sample_trans [] (-1))) (sample_sms 0 0 none (sample_text 200)) 0 140 =
      .ok [sample_sms 0 0 none (sample_text 160), sample_sms 0 0 none (sample_text 40)] ∧
    send_message_max_msgs (some (sample_trans [] (-1))) = -1 ∧
    send_message (some { sample_trans [] 3 with header := some (sample_text 161) })
      (sample_sms 0 0 none (sample_text 5)) 0 140 = .error Abort.assertion ∧
    send_message_max_msgs (some { sample_trans [] 3 with header := some (sample_text 161) }) = 3 ∧
    octstr_len (sample_sms 0 0 none (sample_text 5)).msgdata = 5 := by
  refine ⟨by decide, rfl, by decide, rfl, rfl⟩

/-- C12 (amended): when max_messages is not negative, the per-part budget of
sms_split is not negative, and it is at least len(split_suffix) unless the
message fits into it or max_messages = 1, then
send_message returns, and it writes no message if and only if the
translation's max_messages is 0, or the message has flag_udh = 0 and empty
msgdata and the translation has omit_empty set; in every other case it writes
at least one and at most max_messages parts, exactly one when there is no
translation, each part with a msgdata (never NULL), and a message without UDH
and without text is written as one part whose msgdata is header followed by
footer. -/
theorem send_message_parts (trans : Option URLTranslation) (msg : Msg)
    (counter sms_max_length : Int)
    (hmax : 0 ≤ send_message_max_msgs trans)
    (hP : 0 ≤ sms_split_max_part_len (send_message_input msg) (send_message_header trans)
      (send_message_footer trans) (send_message_catenate trans) sms_max_length)
    (hb : octstr_len msg.msgdata ≤ sms_split_max_part_len (send_message_input msg)
        (send_message_header trans) (send_message_footer trans) (send_message_catenate trans)
        sms_max_length ∨ send_message_max_msgs trans = 1 ∨
      octstr_len (send_message_suffix trans) ≤ sms_split_max_part_len (send_message_input msg)
        (send_message_header trans) (send_message_footer trans) (send_message_catenate trans)
        sms_max_length) :
    ∃ parts, send_message trans msg counter sms_max_length = .ok parts ∧
      (parts = [] ↔ (send_message_max_msgs trans = 0 ∨
        (msg.flag_udh = 0 ∧ octstr_len msg.msgdata = 0 ∧ send_message_omit_empty trans = true))) ∧
      (parts ≠ [] → 1 ≤ parts.length ∧ (parts.length : Int) ≤ send_message_max_msgs trans) ∧
      (trans = none → parts.length = 1) ∧
      (∀ p ∈ parts, p.msgdata ≠ none) ∧
      (msg.flag_udh = 0 → octstr_len msg.msgdata = 0 → ∀ p ∈ parts, parts.length = 1 ∧
        p.msgdata = some (ostr_data (send_message_header trans) ++
          ostr_data (send_message_footer trans))) := by
  by_cases h0 : send_message_max_msgs trans = 0
  · refine ⟨[], by simp [send_message, h0], by simp [h0], by simp, ?_, by simp, by simp⟩
    intro ht
    rw [ht] at h0
    simp [send_message_max_msgs] at h0
  by_cases h1 : (msg.flag_udh = 0 ∧ octstr_len msg.msgdata = 0) ∧
      send_message_omit_empty trans = true
  · refine ⟨[], by simp [send_message, h0, h1], ?_, by simp, ?_, by simp, by simp⟩
    · simp [h1.1.1, h1.1.2, h1.2]
    · intro ht
      rw [ht] at h1
      simp [send_message_omit_empty] at h1
  have hsend : send_message trans msg counter sms_max_length =
      sms_split (send_message_input msg) (send_message_header trans) (send_message_footer trans)
        (send_message_suffix trans) (send_message_split_chars trans) (send_message_catenate trans)
        (if send_message_catenate trans ≠ 0 then counter % 256 else 0)
        (send_message_max_msgs trans) sms_max_length := by
    simp only [send_message, h0, h1, if_false]
  have hmax1 : 1 ≤ send_message_max_msgs trans := by omega
  obtain ⟨parts, hparts⟩ := sms_split_returns (send_message_input msg)
    (send_message_header trans) (send_message_footer trans) (send_message_suffix trans)
    (send_message_split_chars trans) (send_message_catenate trans)
    (if send_message_catenate trans ≠ 0 then counter % 256 else 0)
    (send_message_max_msgs trans) sms_max_length hmax1 hP
    (by rw [send_message_input_len]; exact hb)
  obtain ⟨chunks, hne, _, hlen, _, _, _, hle, _⟩ := sms_split_chunks _ _ _ _ _ _ _ _ _ _ hparts
  have hpos : 1 ≤ parts.length := by
    rw [hlen]
    cases chunks with
    | nil => exact absurd rfl hne
    | cons c cs => simp
  have hnil : parts ≠ [] := by
    intro hn
    rw [hn] at hpos
    simp at hpos
  have hupper : (parts.length : Int) ≤ send_message_max_msgs trans := by
    rw [hlen]; exact hle (by omega)
  refine ⟨parts, by rw [hsend, hparts], ?_, fun _ => ⟨hpos, hupper⟩, ?_,
    sms_split_msgdata_some _ _ _ _ _ _ _ _ _ _ hparts, ?_⟩
  · constructor
    · intro hn; exact absurd hn hnil
    · rintro (h | ⟨ha, hb2, hc⟩)
      · exact absurd h h0
      · exact absurd ⟨⟨ha, hb2⟩, hc⟩ h1
  · intro ht
    rw [ht] at hupper
    simp only [send_message_max_msgs] at hupper
    omega
  · intro hu hl p hp
    have hone := sms_split_one_part (send_message_input msg)
      (send_message_header trans) (send_message_footer trans) (send_message_suffix trans)
      (send_message_split_chars trans) (send_message_catenate trans)
      (if send_message_catenate trans ≠ 0 then counter % 256 else 0)
      (send_message_max_msgs trans) sms_max_length hP
      (Or.inl (by rw [send_message_input_len, hl]; exact hP))
    rw [hparts] at hone
    simp only [Except.ok.injEq] at hone
    rw [hone] at hp ⊢
    simp only [List.mem_singleton] at hp
    refine ⟨rfl, ?_⟩
    rw [hp, compose_part_msgdata]
    have hd : ostr_data (send_message_input msg).msgdata = [] := by
      simp [send_message_input, hu, hl, ostr_data]
    simp [hd]

/-- Witness of C12 (amended): the 200-character message sent through a
translation that allows three parts. -/
theorem send_message_parts_witness :
    (0 ≤ send_message_max_msgs (some (sample_trans [] 3)) ∧
      0 ≤ sms_split_max_part_len (send_message_input (sample_sms 0 0 none (sample_text 200)))
        (send_message_header (some (sample_trans [] 3)))
        (send_message_footer (some (sample_trans [] 3)))
        (send_message_catenate (some (sample_trans [] 3))) 140 ∧
      octstr_len (send_message_suffix (some (sample_trans [] 3))) ≤
        sms_split_max_part_len (send_message_input (sample_sms 0 0 none (sample_text 200)))
          (send_message_header (some (sample_trans [] 3)))
          (send_message_footer (some (sample_trans [] 3)))
          (send_message_catenate (some (sample_trans [] 3))) 140) ∧
    ∃ parts, send_message (some (sample_trans [] 3)) (sample_sms 0 0 none (sample_text 200))
        0 140 = .ok parts ∧
      (parts = [] ↔ (send_message_max_msgs (some (sample_trans [] 3)) = 0 ∨
        ((sample_sms 0 0 none (sample_text 200)).flag_udh = 0 ∧
          octstr_len (sample_sms 0 0 none (sample_text 200)).msgdata = 0 ∧
          send_message_omit_empty (some (sample_trans [] 3)) = true))) ∧
      (parts ≠ [] → 1 ≤ parts.length ∧
        (parts.length : Int) ≤ send_message_max_msgs (some (sample_trans [] 3))) ∧
      (some (sample_trans [] 3) = none → parts.length = 1) ∧
      (∀ p ∈ parts, p.msgdata ≠ none) ∧
      ((sample_sms 0 0 none (sample_text 200)).flag_udh = 0 →
        octstr_len (sample_sms 0 0 none (sample_text 200)).msgdata = 0 →
        ∀ p ∈ parts, parts.length = 1 ∧
          p.msgdata = some (ostr_data (send_message_header (some (sample_trans [] 3))) ++
            ostr_data (send_message_footer (some (sample_trans [] 3))))) :=
  ⟨⟨by decide, by decide, by decide⟩,
    send_message_parts (some (sample_trans [] 3)) (sample_sms 0 0 none (sample_text 200)) 0 140
      (by decide) (by decide) (Or.inr (Or.inr (by decide)))⟩

/-! ## DLR storage drivers -/

/-- C13 fails on the MongoDB driver, which compares the destination for
equality. After add of the entry with destination "441234567",
update("S","T","4567",2) leaves the stored record at status 0 and
get("S","T","567") finds nothing; the MSSQL driver, which builds
`dst LIKE '%4567'`, sets the status to 2 and returns the entry. -/
theorem dlr_mongodb_dst_not_suffix :
    dlr_mongodb_add true false [] sample_dlr_entry =
      [sample_dlr_record [52, 52, 49, 50, 51, 52, 53, 54, 55] 0] ∧
    dlr_mongodb_update true false [sample_dlr_record [52, 52, 49, 50, 51, 52, 53, 54, 55] 0]
      [83] [84] (some [52, 53, 54, 55]) 2 =
      [sample_dlr_record [52, 52, 49, 50, 51, 52, 53, 54, 55] 0] ∧
    dlr_mongodb_get true false [sample_dlr_record [52, 52, 49, 50, 51, 52, 53, 54, 55] 0]
      [83] [84] (some [53, 54, 55]) = none ∧
    dlr_add_mssql true false [] sample_dlr_entry =
      [sample_dlr_record [52, 52, 49, 50, 51, 52, 53, 54, 55] 0] ∧
    dlr_update_mssql true false [sample_dlr_record [52, 52, 49, 50, 51, 52, 53, 54, 55] 0]
      [83] [84] (some [52, 53, 54, 55]) 2 =
      [sample_dlr_record [52, 52, 49, 50, 51, 52, 53, 54, 55] 2] ∧
    dlr_get_mssql true false [sample_dlr_record [52, 52, 49, 50, 51, 52, 53, 54, 55] 2]
      [83] [84] (some [53, 54, 55]) =
      some { sample_dlr_entry with timestamp := none } := by
  refine ⟨by decide, by decide, by decide, by decide, by decide, by decide⟩

/-- C14 fails on the MongoDB driver: with two stored records of smsc "S" and
timestamp "T", remove("S","T",NULL) deletes both, where the MSSQL driver deletes
the first only; update changes one record in both drivers. -/
theorem dlr_mongodb_remove_deletes_all :
    dlr_mongodb_remove true false
      [sample_dlr_record [52, 52, 49] 0, sample_dlr_record [52, 52, 50] 0] [83] [84] none = [] ∧
    dlr_remove_mssql true false
      [sample_dlr_record [52, 52, 49] 0, sample_dlr_record [52, 52, 50] 0] [83] [84] none =
      [sample_dlr_record [52, 52, 50] 0] ∧
    dlr_mongodb_update true false
      [sample_dlr_record [52, 52, 49] 0, sample_dlr_record [52, 52, 50] 0] [83] [84] none 2 =
      [sample_dlr_record [52, 52, 49] 2, sample_dlr_record [52, 52, 50] 0] ∧
    dlr_update_mssql true false
      [sample_dlr_record [52, 52, 49] 0, sample_dlr_record [52, 52, 50] 0] [83] [84] none 2 =
      [sample_dlr_record [52, 52, 49] 2, sample_dlr_record [52, 52, 50] 0] := by
  refine ⟨by decide, by decide, by decide, by decide⟩

/-- C15 fails on the MongoDB driver: when a connection is there and the count
operation fails, `dlr_mongodb_messages` returns 0, whatever is stored; the MSSQL
driver returns -1. Without a connection both return -1, and when the back-end
answers both return the number of records. -/
theorem dlr_mongodb_messages_failure (store : List DlrRecord) :
    dlr_mongodb_messages true true store = 0 ∧
    dlr_messages_mssql true true store = -1 ∧
    dlr_mongodb_messages false true store = -1 ∧
    dlr_mongodb_messages false false store = -1 ∧
    dlr_messages_mssql false true store = -1 ∧
    dlr_messages_mssql false false store = -1 ∧
    dlr_mongodb_messages true false store = (store.length : Int) ∧
    dlr_messages_mssql true false store = (store.length : Int) :=
  ⟨rfl, rfl, rfl, rfl, rfl, rfl, rfl, rfl⟩

/-! ## The sendsms interface -/

theorem mem_cstr_octets (s : Octstr) (c : Octet) (h : c ∈ cstr_octets s) : c ∈ s :=
  (List.takeWhile_sublist _).subset h

theorem strspn_le (s accept : Octstr) : strspn s accept ≤ (s.length : Int) := by
  induction s with
  | nil => simp [strspn]
  | cons c s ih =>
    simp only [strspn, List.length_cons, Nat.cast_add, Nat.cast_one]
    split <;> omega

/-- A character outside `accept` makes `strspn` stop before the end. -/
theorem strspn_lt (s accept : Octstr) (h : ∃ c ∈ s, c ∉ accept) :
    strspn s accept < (s.length : Int) := by
  induction s with
  | nil => obtain ⟨c, hc, _⟩ := h; simp at hc
  | cons a s ih =>
    obtain ⟨c, hc, hn⟩ := h
    simp only [strspn, List.length_cons, Nat.cast_add, Nat.cast_one]
    split
    · rename_i ha
      rcases List.mem_cons.mp hc with rfl | hs
      · exact absurd (mem_cstr_octets _ _ ha.2) hn
      · have := ih ⟨c, hs, hn⟩
        omega
    · omega

/-- The two ways `smsbox_req_handle_checked` ends: with status 400 and one of
the diagnostics, or, every check passed, with the outcome of `send_message` on
the message it built. -/
theorem smsbox_req_handle_checked_spec (cfg : Smsbox) (t : URLTranslation) (frm : Option Octstr)
    (to_ : Octstr) (text : Option Octstr) (binary : Int) (udh smsc : Option Octstr)
    (flag_flash flag_mwi mwimessages flag_unicode validity deferred dlr_mask : Int)
    (dlr_id : Option Octstr) :
    (∃ d ∈ sendsms_diagnostics, d ≠ octstr_create "UDH field misformed, rejected" ∧
      smsbox_req_handle_checked cfg t frm to_ text binary udh smsc flag_flash flag_mwi
        mwimessages flag_unicode validity deferred dlr_mask dlr_id = .ok (fielderror d) ∧
      (strspn to_ cfg.sendsms_number_chars < octstr_len (some to_) →
        d = octstr_create "Garbage 'to' field, rejected.")) ∨
    (¬ strspn to_ cfg.sendsms_number_chars < octstr_len (some to_) ∧
      (0 ≤ flag_flash ∧ flag_flash ≤ 1) ∧ (0 ≤ flag_mwi ∧ flag_mwi ≤ 8) ∧
      (0 ≤ mwimessages ∧ mwimessages ≤ 255) ∧ ¬ (flag_flash ≠ 0 ∧ flag_mwi ≠ 0) ∧
      (0 ≤ flag_unicode ∧ flag_unicode ≤ 1) ∧ 0 ≤ validity ∧ 0 ≤ deferred ∧
      ∃ newfrom, sendsms_newfrom cfg t frm = some newfrom ∧
        smsbox_req_handle_checked cfg t frm to_ text binary udh smsc flag_flash flag_mwi
          mwimessages flag_unicode validity deferred dlr_mask dlr_id =
        sendsms_send cfg t (sendsms_msg cfg t newfrom to_ text binary udh smsc flag_flash
          flag_mwi mwimessages flag_unicode validity deferred dlr_mask dlr_id)) := by
  unfold smsbox_req_handle_checked
  by_cases h1 : strspn to_ cfg.sendsms_number_chars < octstr_len (some to_)
  · exact Or.inl ⟨octstr_create "Garbage 'to' field, rejected.", by decide, by decide,
      by rw [if_pos h1], fun _ => rfl⟩
  rw [if_neg h1]
  by_cases h2 : numhash_lacks t.white_list to_ = true
  · exact Or.inl ⟨octstr_create "Number is not in white-list.", by decide, by decide,
      by rw [if_pos h2], fun h => absurd h h1⟩
  rw [if_neg h2]
  by_cases h3 : numhash_has t.black_list to_ = true
  · exact Or.inl ⟨octstr_create "Number is in black-list.", by decide, by decide,
      by rw [if_pos h3], fun h => absurd h h1⟩
  rw [if_neg h3]
  by_cases h4 : numhash_lacks cfg.white_list to_ = true
  · exact Or.inl ⟨octstr_create "Number is not in global white-list.", by decide, by decide,
      by rw [if_pos h4], fun h => absurd h h1⟩
  rw [if_neg h4]
  by_cases h5 : numhash_has cfg.black_list to_ = true
  · exact Or.inl ⟨octstr_create "Number is in global black-list.", by decide, by decide,
      by rw [if_pos h5], fun h => absurd h h1⟩
  rw [if_neg h5]
  cases hfrom : sendsms_newfrom cfg t frm with
  | none =>
    exact Or.inl ⟨octstr_create "Sender missing and no global set, rejected", by decide,
      by decide, rfl, fun h => absurd h h1⟩
  | some newfrom =>
    dsimp only []
    by_cases g1 : flag_flash < 0 ∨ flag_flash > 1
    · exact Or.inl ⟨octstr_create "Flash field misformed, rejected", by decide, by decide,
        by rw [if_pos g1], fun h => absurd h h1⟩
    rw [if_neg g1]
    by_cases g2 : flag_mwi < 0 ∨ flag_mwi > 8
    · exact Or.inl ⟨octstr_create "MWI field misformed, rejected", by decide, by decide,
        by rw [if_pos g2], fun h => absurd h h1⟩
    rw [if_neg g2]
    by_cases g3 : mwimessages < 0 ∨ mwimessages > 255
    · exact Or.inl ⟨octstr_create "MWIMessages field misformed, rejected", by decide, by decide,
        by rw [if_pos g3], fun h => absurd h h1⟩
    rw [if_neg g3]
    by_cases g4 : flag_flash ≠ 0 ∧ flag_mwi ≠ 0
    · exact Or.inl ⟨octstr_create "Flash and MWI fields present, rejected", by decide, by decide,
        by rw [if_pos g4], fun h => absurd h h1⟩
    rw [if_neg g4]
    by_cases g5 : flag_unicode < 0 ∨ flag_unicode > 1
    · exact Or.inl ⟨octstr_create "Unicode field misformed, rejected", by decide, by decide,
        by rw [if_pos g5], fun h => absurd h h1⟩
    rw [if_neg g5]
    by_cases g6 : validity < 0
    · exact Or.inl ⟨octstr_create "Validity field misformed, rejected", by decide, by decide,
        by rw [if_pos g6], fun h => absurd h h1⟩
    rw [if_neg g6]
    by_cases g7 : deferred < 0
    · exact Or.inl ⟨octstr_create "Deferred field misformed, rejected", by decide, by decide,
        by rw [if_pos g7], fun h => absurd h h1⟩
    rw [if_neg g7]
    exact Or.inr ⟨fun h => h1 h, by omega, by omega, by omega, g4, by omega, by omega, by omega,
      newfrom, rfl, rfl⟩

theorem udh_length_differs_consistent (u : Octstr) (h : udhl_consistent (some u)) :
    udh_length_differs u = .ok false := by
  cases u with
  | nil => exact absurd h (by simp [udhl_consistent])
  | cons b rest =>
    have hb : (b.val : Int) = (rest.length : Int) := by
      have : b.val = rest.length := h
      omega
    have h0 : ¬ ((0 : Int) ≥ ((b :: rest).length : Int) ∨ (0 : Int) < 0) := by
      simp only [List.length_cons, Nat.cast_add, Nat.cast_one]
      omega
    have h1 : ¬ ((rest.length : Int) + 1 ≤ 0) := by omega
    simp only [udh_length_differs, octstr_get_char, h0, if_false, Int.toNat_zero, List.get?_cons_zero,
      octstr_len, List.length_cons, Nat.cast_add, Nat.cast_one, hb]
    simp [h1]

/-- With an absent or well-formed UDH `smsbox_req_handle` goes on to the other
checks. -/
theorem smsbox_req_handle_udh_ok (cfg : Smsbox) (t : URLTranslation)
    (client_ip frm : Option Octstr)
    (to_ : Octstr) (text : Option Octstr) (binary : Int) (udh smsc : Option Octstr)
    (flag_flash flag_mwi mwimessages flag_unicode validity deferred dlr_mask : Int)
    (dlr_id : Option Octstr) (hudh : udh = none ∨ udhl_consistent udh) :
    smsbox_req_handle cfg t client_ip frm to_ text binary udh smsc flag_flash flag_mwi
      mwimessages flag_unicode validity deferred dlr_mask dlr_id =
    smsbox_req_handle_checked cfg t frm to_ text binary udh smsc flag_flash flag_mwi
      mwimessages flag_unicode validity deferred dlr_mask dlr_id := by
  cases udh with
  | none => rfl
  | some u =>
    have hc : udhl_consistent (some u) := by
      rcases hudh with h | h
      · exact absurd h (by simp)
      · exact h
    simp only [smsbox_req_handle, udh_length_differs_consistent u hc]

/-- C16: a request with an absent or well-formed udh is answered with status
400 and one of the diagnostics, and no message is handed to `send_message`,
when `to` has a character outside sendsms_number_chars, or flash is not 0
or 1, or mwi is not in 0..8, or mwimessages is not in 0..255, or unicode is
not 0 or 1, or validity or deferred is negative, or flash = 1 comes with
mwi != 0; for a bad `to` the body is "Garbage 'to' field, rejected.". -/
theorem smsbox_req_handle_rejects (cfg : Smsbox) (t : URLTranslation)
    (client_ip frm : Option Octstr)
    (to_ : Octstr) (text : Option Octstr) (binary : Int) (udh smsc : Option Octstr)
    (flag_flash flag_mwi mwimessages flag_unicode validity deferred dlr_mask : Int)
    (dlr_id : Option Octstr) (hudh : udh = none ∨ udhl_consistent udh)
    (hbad : (∃ c ∈ to_, c ∉ cfg.sendsms_number_chars) ∨ (flag_flash ≠ 0 ∧ flag_flash ≠ 1) ∨
      (flag_mwi < 0 ∨ 8 < flag_mwi) ∨ (mwimessages < 0 ∨ 255 < mwimessages) ∨
      (flag_unicode ≠ 0 ∧ flag_unicode ≠ 1) ∨ validity < 0 ∨ deferred < 0 ∨
      (flag_flash = 1 ∧ flag_mwi ≠ 0)) :
    ∃ r, smsbox_req_handle cfg t client_ip frm to_ text binary udh smsc flag_flash flag_mwi
        mwimessages flag_unicode validity deferred dlr_mask dlr_id = .ok r ∧
      r.status = 400 ∧ r.body ∈ sendsms_diagnostics ∧ r.sent = none ∧ r.written = [] ∧
      ((∃ c ∈ to_, c ∉ cfg.sendsms_number_chars) →
        r.body = octstr_create "Garbage 'to' field, rejected.") := by
  rw [smsbox_req_handle_udh_ok _ _ _ _ _ _ _ _ _ _ _ _ _ _ _ _ _ hudh]
  rcases smsbox_req_handle_checked_spec cfg t frm to_ text binary udh smsc flag_flash flag_mwi
      mwimessages flag_unicode validity deferred dlr_mask dlr_id with
    ⟨d, hd, _, heq, hto⟩ | ⟨k1, k2, k3, k4, k5, k6, k7, k8, _⟩
  · refine ⟨fielderror d, heq, rfl, hd, rfl, rfl, fun hc => hto ?_⟩
    have := strspn_lt to_ cfg.sendsms_number_chars hc
    simpa [octstr_len] using this
  · exfalso
    rcases hbad with hc | hc | hc | hc | hc | hc | hc | hc
    · apply k1
      have := strspn_lt to_ cfg.sendsms_number_chars hc
      simpa [octstr_len] using this
    · omega
    · omega
    · omega
    · omega
    · omega
    · omega
    · exact k5 ⟨by omega, hc.2⟩

/-- Witness of C16: `to` = "+1-800-bad" with sendsms_number_chars
"0123456789+ -" gives status 400 and the body "Garbage 'to' field, rejected.". -/
theorem smsbox_req_handle_rejects_witness :
    ((none : Option Octstr) = none ∨ udhl_consistent none) ∧
    (∃ c ∈ octstr_create "+1-800-bad", c ∉ sample_smsbox.sendsms_number_chars) ∧
    ∃ r, smsbox_req_handle sample_smsbox (sample_trans [] 1) none (some (octstr_create "123"))
        (octstr_create "+1-800-bad") (some (octstr_create "hi")) 0 none none 0 0 0 0 0 0 0 none =
        .ok r ∧
      r.status = 400 ∧ r.body ∈ sendsms_diagnostics ∧ r.sent = none ∧ r.written = [] ∧
      ((∃ c ∈ octstr_create "+1-800-bad", c ∉ sample_smsbox.sendsms_number_chars) →
        r.body = octstr_create "Garbage 'to' field, rejected.") :=
  ⟨Or.inl rfl, ⟨98, by decide, by decide⟩,
    smsbox_req_handle_rejects sample_smsbox (sample_trans [] 1) none (some (octstr_create "123"))
      (octstr_create "+1-800-bad") (some (octstr_create "hi")) 0 none none 0 0 0 0 0 0 0 none
      (Or.inl rfl) (Or.inl ⟨98, by decide, by decide⟩)⟩

theorem send_message_returns (trans : Option URLTranslation) (msg : Msg)
    (counter sms_max_length : Int)
    (hmax : 0 ≤ send_message_max_msgs trans)
    (hP : 0 ≤ sms_split_max_part_len (send_message_input msg) (send_message_header trans)
      (send_message_footer trans) (send_message_catenate trans) sms_max_length)
    (hb : octstr_len msg.msgdata ≤ sms_split_max_part_len (send_message_input msg)
        (send_message_header trans) (send_message_footer trans) (send_message_catenate trans)
        sms_max_length ∨ send_message_max_msgs trans = 1 ∨
      octstr_len (send_message_suffix trans) ≤ sms_split_max_part_len (send_message_input msg)
        (send_message_header trans) (send_message_footer trans) (send_message_catenate trans)
        sms_max_length) :
    ∃ parts, send_message trans msg counter sms_max_length = .ok parts := by
  by_cases h0 : send_message_max_msgs trans = 0
  · exact ⟨[], by simp [send_message, h0]⟩
  by_cases h1 : (msg.flag_udh = 0 ∧ octstr_len msg.msgdata = 0) ∧
      send_message_omit_empty trans = true
  · exact ⟨[], by simp [send_message, h0, h1]⟩
  obtain ⟨parts, hparts⟩ := sms_split_returns (send_message_input msg)
    (send_message_header trans) (send_message_footer trans) (send_message_suffix trans)
    (send_message_split_chars trans) (send_message_catenate trans)
    (if send_message_catenate trans ≠ 0 then counter % 256 else 0)
    (send_message_max_msgs trans) sms_max_length (by omega) hP
    (by rw [send_message_input_len]; exact hb)
  exact ⟨parts, by simp only [send_message, h0, h1, if_false]; exact hparts⟩

/-- C17 fails as stated: the request /sendsms?user=u&pass=p&to=123&from=55&
text=hi&dlrmask=-1 of an authorised user is answered with status 202 and
"Sent.", and the message handed to `send_message` and written to the bearerbox
has dlr_mask = -1. -/
theorem sendsms_negative_dlrmask_accepted :
    cgi_int [(octstr_create "user", octstr_create "u"), (octstr_create "pass", octstr_create "p"),
      (octstr_create "to", octstr_create "123"), (octstr_create "from", octstr_create "55"),
      (octstr_create "text", octstr_create "hi"),
      (octstr_create "dlrmask", octstr_create "-1")] "dlrmask" = -1 ∧
    (smsbox_req_sendsms sample_smsbox
      [(octstr_create "user", octstr_create "u"), (octstr_create "pass", octstr_create "p"),
       (octstr_create "to", octstr_create "123"), (octstr_create "from", octstr_create "55"),
       (octstr_create "text", octstr_create "hi"),
       (octstr_create "dlrmask", octstr_create "-1")] none).map
      (fun r => (r.status, r.body, r.sent.map Msg.dlr_mask, r.written.map Msg.dlr_mask)) =
      .ok (202, octstr_create "Sent.", some (-1), [-1]) := by
  refine ⟨by decide, by decide⟩

/-- C17 (amended): `smsbox_req_handle` does not check dlrmask. A request with
an absent or well-formed udh whose other fields pass every check (characters of
`to`, number lists, sender, flash, mwi, mwimessages, unicode, validity,
deferred) and whose message `send_message` can split is answered with status
202 and "Sent." whatever dlrmask is, a negative one included, and the message
handed to `send_message` has dlr_mask = dlrmask. -/
theorem smsbox_req_handle_any_dlr_mask (cfg : Smsbox) (t : URLTranslation)
    (client_ip frm : Option Octstr)
    (to_ : Octstr) (text : Option Octstr) (binary : Int) (udh smsc : Option Octstr)
    (flag_flash flag_mwi mwimessages flag_unicode validity deferred dlr_mask : Int)
    (dlr_id : Option Octstr) (newfrom : Octstr)
    (hudh : udh = none ∨ udhl_consistent udh)
    (hto : ¬ strspn to_ cfg.sendsms_number_chars < octstr_len (some to_))
    (hlists : numhash_lacks t.white_list to_ = false ∧ numhash_has t.black_list to_ = false ∧
      numhash_lacks cfg.white_list to_ = false ∧ numhash_has cfg.black_list to_ = false)
    (hfrom : sendsms_newfrom cfg t frm = some newfrom)
    (hflags : (0 ≤ flag_flash ∧ flag_flash ≤ 1) ∧ (0 ≤ flag_mwi ∧ flag_mwi ≤ 8) ∧
      (0 ≤ mwimessages ∧ mwimessages ≤ 255) ∧ ¬ (flag_flash ≠ 0 ∧ flag_mwi ≠ 0) ∧
      (0 ≤ flag_unicode ∧ flag_unicode ≤ 1) ∧ 0 ≤ validity ∧ 0 ≤ deferred)
    (hsend : ∃ parts, send_message (some t) (sendsms_msg cfg t newfrom to_ text binary udh smsc
      flag_flash flag_mwi mwimessages flag_unicode validity deferred dlr_mask dlr_id)
      cfg.counter cfg.sms_max_length = .ok parts) :
    ∃ r m, smsbox_req_handle cfg t client_ip frm to_ text binary udh smsc flag_flash flag_mwi
        mwimessages flag_unicode validity deferred dlr_mask dlr_id = .ok r ∧
      r.status = 202 ∧ r.body = octstr_create "Sent." ∧ r.sent = some m ∧
      m.dlr_mask = dlr_mask := by
  obtain ⟨parts, hparts⟩ := hsend
  rw [smsbox_req_handle_udh_ok _ _ _ _ _ _ _ _ _ _ _ _ _ _ _ _ _ hudh]
  obtain ⟨l1, l2, l3, l4⟩ := hlists
  obtain ⟨f1, f2, f3, f4, f5, f6, f7⟩ := hflags
  have g1 : ¬ (flag_flash < 0 ∨ flag_flash > 1) := by omega
  have g2 : ¬ (flag_mwi < 0 ∨ flag_mwi > 8) := by omega
  have g3 : ¬ (mwimessages < 0 ∨ mwimessages > 255) := by omega
  have g5 : ¬ (flag_unicode < 0 ∨ flag_unicode > 1) := by omega
  have g6 : ¬ (validity < 0) := by omega
  have g7 : ¬ (deferred < 0) := by omega
  have heq : smsbox_req_handle_checked cfg t frm to_ text binary udh smsc flag_flash flag_mwi
      mwimessages flag_unicode validity deferred dlr_mask dlr_id =
      sendsms_send cfg t (sendsms_msg cfg t newfrom to_ text binary udh smsc flag_flash flag_mwi
        mwimessages flag_unicode validity deferred dlr_mask dlr_id) := by
    unfold smsbox_req_handle_checked
    rw [if_neg hto, if_neg (by rw [l1]; simp), if_neg (by rw [l2]; simp),
      if_neg (by rw [l3]; simp), if_neg (by rw [l4]; simp), hfrom]
    dsimp only []
    rw [if_neg g1, if_neg g2, if_neg g3, if_neg f4, if_neg g5, if_neg g6, if_neg g7]
  rw [heq]
  simp only [sendsms_send, hparts]
  exact ⟨_, _, rfl, rfl, rfl, rfl, rfl⟩

/-- Witness of C17 (amended): the request to = "123", from = "55", text = "hi"
with dlrmask = -1. -/
theorem smsbox_req_handle_any_dlr_mask_witness :
    (((none : Option Octstr) = none ∨ udhl_consistent none) ∧
      ¬ strspn (octstr_create "123") sample_smsbox.sendsms_number_chars <
        octstr_len (some (octstr_create "123")) ∧
      sendsms_newfrom sample_smsbox (sample_trans [] 1) (some (octstr_create "55")) =
        some (octstr_create "55") ∧
      ∃ parts, send_message (some (sample_trans [] 1))
        (sendsms_msg sample_smsbox (sample_trans [] 1) (octstr_create "55") (octstr_create "123")
          (some (octstr_create "hi")) 0 none none 0 0 0 0 0 0 (-1) none)
        sample_smsbox.counter sample_smsbox.sms_max_length = .ok parts) ∧
    ∃ r m, smsbox_req_handle sample_smsbox (sample_trans [] 1) none (some (octstr_create "55"))
        (octstr_create "123") (some (octstr_create "hi")) 0 none none 0 0 0 0 0 0 (-1) none =
        .ok r ∧
      r.status = 202 ∧ r.body = octstr_create "Sent." ∧ r.sent = some m ∧ m.dlr_mask = -1 :=
  ⟨⟨Or.inl rfl, by decide, by decide,
      send_message_returns _ _ _ _ (by decide) (by decide) (Or.inl (by decide))⟩,
    smsbox_req_handle_any_dlr_mask sample_smsbox (sample_trans [] 1) none
      (some (octstr_create "55")) (octstr_create "123") (some (octstr_create "hi")) 0 none none
      0 0 0 0 0 0 (-1) none (octstr_create "55") (Or.inl rfl) (by decide)
      ⟨rfl, rfl, rfl, rfl⟩ (by decide)
      ⟨⟨by decide, by decide⟩, ⟨by decide, by decide⟩, ⟨by decide, by decide⟩, by decide,
        ⟨by decide, by decide⟩, by decide, by decide⟩
      (send_message_returns _ _ _ _ (by decide) (by decide) (Or.inl (by decide)))⟩

/-- An UDH that is not empty and whose first octet is not its length minus one
is rejected with "UDH field misformed, rejected". -/
theorem smsbox_req_handle_udh_misformed (cfg : Smsbox) (t : URLTranslation)
    (client_ip frm : Option Octstr)
    (to_ : Octstr) (text : Option Octstr) (binary : Int) (b : Octet) (rest : Octstr)
    (smsc : Option Octstr)
    (flag_flash flag_mwi mwimessages flag_unicode validity deferred dlr_mask : Int)
    (dlr_id : Option Octstr) (h : ¬ udhl_consistent (some (b :: rest))) :
    smsbox_req_handle cfg t client_ip frm to_ text binary (some (b :: rest)) smsc flag_flash
      flag_mwi mwimessages flag_unicode validity deferred dlr_mask dlr_id =
    .ok (fielderror (octstr_create "UDH field misformed, rejected")) := by
  have hb : ¬ ((b.val : Int) = (rest.length : Int)) := by
    intro hc
    apply h
    show b.val = rest.length
    omega
  have h0 : ¬ ((0 : Int) ≥ ((b :: rest).length : Int) ∨ (0 : Int) < 0) := by
    simp only [List.length_cons, Nat.cast_add, Nat.cast_one]
    omega
  have h1 : ¬ ((0 : Int) ≥ (rest.length : Int) + 1 ∨ (0 : Int) < 0) := by omega
  have hd : udh_length_differs (b :: rest) = .ok true := by
    simp only [udh_length_differs, octstr_get_char, h0, if_false, Int.toNat_zero,
      List.get?_cons_zero, octstr_len, List.length_cons, Nat.cast_add, Nat.cast_one]
    rw [if_neg h1]
    simp only [ne_eq, add_left_inj, Except.ok.injEq, decide_eq_true_eq, decide_not,
      Bool.not_eq_true', decide_eq_false_iff_not]
    intro hc
    exact hb hc.symm
  simp only [smsbox_req_handle, hd]

/-- C18 fails on the code for the empty udh: the request /sendsms?user=u&
pass=p&to=123&from=55&text=hi&udh= passes the length check (octstr_get_char
gives -1 for the empty string, and -1 + 1 is its length), is answered with
status 202 and "Sent.", and a message with flag_udh = 1 and an empty udhdata is
written to the bearerbox. An udh with a wrong first octet (02 70 for instance)
is rejected with "UDH field misformed, rejected". -/
theorem sendsms_empty_udh_accepted :
    (smsbox_req_sendsms sample_smsbox
      [(octstr_create "user", octstr_create "u"), (octstr_create "pass", octstr_create "p"),
       (octstr_create "to", octstr_create "123"), (octstr_create "from", octstr_create "55"),
       (octstr_create "text", octstr_create "hi"), (octstr_create "udh", [])] none).map
      (fun r => (r.status, r.body, r.sent.map Msg.flag_udh, r.written.map Msg.flag_udh,
        r.written.map (fun p => octstr_len p.udhdata))) =
      .ok (202, octstr_create "Sent.", some 1, [1], [0]) ∧
    smsbox_req_sendsms sample_smsbox
      [(octstr_create "user", octstr_create "u"), (octstr_create "pass", octstr_create "p"),
       (octstr_create "to", octstr_create "123"), (octstr_create "from", octstr_create "55"),
       (octstr_create "text", octstr_create "hi"), (octstr_create "udh", [2, 112])] none =
      .ok (fielderror (octstr_create "UDH field misformed, rejected")) := by
  refine ⟨by decide, by decide⟩

theorem octstr_compare_data_eq_zero (a : Octstr) : ∀ b : Octstr,
    octstr_compare_data a b = 0 ↔ a = b := by
  induction a with
  | nil =>
    intro b
    cases b with
    | nil => simp [octstr_compare_data]
    | cons y ys => simp [octstr_compare_data]
  | cons x xs ih =>
    intro b
    cases b with
    | nil => simp [octstr_compare_data]
    | cons y ys =>
      simp only [octstr_compare_data, List.cons.injEq]
      by_cases h1 : x < y
      · simp only [h1, if_true]
        constructor
        · intro h; omega
        · rintro ⟨rfl, _⟩; exact absurd h1 (lt_irrefl _)
      · by_cases h2 : y < x
        · simp only [h1, h2, if_true, if_false]
          constructor
          · intro h; omega
          · rintro ⟨rfl, _⟩; exact absurd h2 (lt_irrefl _)
        · simp only [h1, h2, if_false, ih]
          have : x = y := le_antisymm (not_lt.mp h2) (not_lt.mp h1)
          simp [this]

/-- The function `authorise_username` gives no translation unless the
credentials are accepted. -/
theorem authorise_username_none (cfg : Smsbox) (username password client_ip : Option Octstr)
    (h : ¬ credentials_accepted cfg username password client_ip) :
    authorise_username cfg username password client_ip = none := by
  cases username with
  | none => rfl
  | some u =>
    cases password with
    | none => rfl
    | some p =>
      simp only [authorise_username]
      cases ht : cfg.urltrans_find_username u with
      | none => rfl
      | some t =>
        dsimp only []
        by_cases hp : octstr_compare (some p) t.password ≠ 0
        · rw [if_pos hp]
        · rw [if_neg hp]
          by_cases hip : cfg.is_allowed_ip t.allow_ip t.deny_ip client_ip = 0
          · rw [if_pos hip]
          · exfalso
            apply h
            refine ⟨u, p, t, rfl, rfl, ht, ?_, hip⟩
            have hz : octstr_compare (some p) t.password = 0 := not_not.mp hp
            cases hpw : t.password with
            | none => rw [hpw] at hz; simp [octstr_compare] at hz
            | some q =>
              rw [hpw] at hz
              simp only [octstr_compare] at hz
              rw [(octstr_compare_data_eq_zero p q).mp hz]

/-- C19: unless a translation with the given username exists, the given
password equals that translation's password and the client address passes its
allow_ip and deny_ip lists, a sendsms request, without body (GET) or with
body (POST), is answered with status 403 and "Authorization failed for
sendsms" and no message is handed to `send_message`; for a request with a body
this holds whatever its headers are, so also when X-Kannel-To is missing
(status 400 otherwise) or the content type is unsupported (415 otherwise). -/
theorem sendsms_unauthorised (cfg : Smsbox) (args hdrs : List (Octstr × Octstr))
    (body : Option Octstr) (ip : Option Octstr)
    (h : ¬ credentials_accepted cfg (request_credentials args hdrs body).1
      (request_credentials args hdrs body).2 ip) :
    ∃ r, sendsms_request cfg args hdrs body ip = .ok r ∧ r.status = 403 ∧
      r.body = octstr_create "Authorization failed for sendsms" ∧ r.sent = none ∧
      r.written = [] := by
  refine ⟨refused 403 "Authorization failed for sendsms", ?_, rfl, rfl, rfl, rfl⟩
  cases body with
  | none =>
    have ha := authorise_username_none cfg _ _ ip h
    simp only [request_credentials] at ha
    simp only [sendsms_request, smsbox_req_sendsms, authorise_user, default_authorise_user, ha]
  | some b =>
    have ha := authorise_username_none cfg _ _ ip h
    simp only [request_credentials] at ha
    simp only [sendsms_request, smsbox_sendsms_post, ha]

/-- The answers of `smsbox_sendsms_post` to the user "u": with the right
password, 400 without X-Kannel-To and 415 for the content type image/png. -/
theorem smsbox_sendsms_post_authorised :
    smsbox_sendsms_post sample_smsbox
      [(octstr_create "X-Kannel-Username", octstr_create "u"),
       (octstr_create "X-Kannel-Password", octstr_create "p"),
       (octstr_create "Content-Type", octstr_create "image/png")] (octstr_create "hi") none =
      .ok (refused 400 "Insufficient headers, rejected") ∧
    smsbox_sendsms_post sample_smsbox
      [(octstr_create "X-Kannel-Username", octstr_create "u"),
       (octstr_create "X-Kannel-Password", octstr_create "p"),
       (octstr_create "X-Kannel-To", octstr_create "123"),
       (octstr_create "Content-Type", octstr_create "image/png")] (octstr_create "hi") none =
      .ok (refused 415 "Unsupported content-type, rejected") := by
  refine ⟨by decide, by decide⟩

theorem sample_smsbox_rejects_password :
    ¬ credentials_accepted sample_smsbox (some (octstr_create "u")) (some (octstr_create "x"))
      none := by
  rintro ⟨u, p, t, hu, hp, ht, hpw, _⟩
  simp only [Option.some.injEq] at hu hp
  subst hu
  subst hp
  have : sample_smsbox.urltrans_find_username (octstr_create "u") =
      some { sample_trans [] 1 with
        type := TRANSTYPE_SENDSMS, username := some (octstr_create "u"),
        password := some (octstr_create "p") } := by
    simp [sample_smsbox]
  rw [this] at ht
  simp only [Option.some.injEq] at ht
  rw [← ht] at hpw
  revert hpw
  decide

/-- Witness of C19: a request with body by the user "u" with the wrong
password "x", without X-Kannel-To and with the content type image/png. -/
theorem sendsms_unauthorised_witness :
    ¬ credentials_accepted sample_smsbox
      (request_credentials []
        [(octstr_create "X-Kannel-Username", octstr_create "u"),
         (octstr_create "X-Kannel-Password", octstr_create "x"),
         (octstr_create "Content-Type", octstr_create "image/png")]
        (some (octstr_create "hi"))).1
      (request_credentials []
        [(octstr_create "X-Kannel-Username", octstr_create "u"),
         (octstr_create "X-Kannel-Password", octstr_create "x"),
         (octstr_create "Content-Type", octstr_create "image/png")]
        (some (octstr_create "hi"))).2 none ∧
    ∃ r, sendsms_request sample_smsbox []
        [(octstr_create "X-Kannel-Username", octstr_create "u"),
         (octstr_create "X-Kannel-Password", octstr_create "x"),
         (octstr_create "Content-Type", octstr_create "image/png")]
        (some (octstr_create "hi")) none = .ok r ∧ r.status = 403 ∧
      r.body = octstr_create "Authorization failed for sendsms" ∧ r.sent = none ∧
      r.written = [] :=
  ⟨by
      have e1 : (request_credentials []
          [(octstr_create "X-Kannel-Username", octstr_create "u"),
           (octstr_create "X-Kannel-Password", octstr_create "x"),
           (octstr_create "Content-Type", octstr_create "image/png")]
          (some (octstr_create "hi"))) = (some (octstr_create "u"), some (octstr_create "x")) := by
        decide
      rw [e1]
      exact sample_smsbox_rejects_password,
    sendsms_unauthorised sample_smsbox []
      [(octstr_create "X-Kannel-Username", octstr_create "u"),
       (octstr_create "X-Kannel-Password", octstr_create "x"),
       (octstr_create "Content-Type", octstr_create "image/png")]
      (some (octstr_create "hi")) none
      (by
        have e1 : (request_credentials []
            [(octstr_create "X-Kannel-Username", octstr_create "u"),
             (octstr_create "X-Kannel-Password", octstr_create "x"),
             (octstr_create "Content-Type", octstr_create "image/png")]
            (some (octstr_create "hi"))) =
            (some (octstr_create "u"), some (octstr_create "x")) := by
          decide
        rw [e1]
        exact sample_smsbox_rejects_password)⟩

/-! ## The obey loop -/

theorem octstr_compare_eq_zero (a b : Option Octstr) : octstr_compare a b = 0 ↔ a = b := by
  cases a with
  | none => cases b <;> simp [octstr_compare]
  | some x =>
    cases b with
    | none => simp [octstr_compare]
    | some y => simp [octstr_compare, octstr_compare_data_eq_zero]

/-- The budget of a 7-bit message without UDH is at least the septets of
`max_octets` less the seven septets of a concatenation header and less header
and footer. -/
theorem sms_split_max_part_len_text (orig : Msg) (hdr ftr : Option Octstr) (cat maxo : Int)
    (hu : orig.flag_udh = 0) (h8 : orig.flag_8bit = 0) :
    Int.tdiv (maxo * 8) 7 - 7 - (octstr_len hdr + octstr_len ftr) ≤
      sms_split_max_part_len orig hdr ftr cat maxo := by
  have e1 : Int.tdiv ((0 : Int) * 8 + 6) 7 = 0 := by decide
  have e2 : Int.tdiv (((1 : Int) + CATENATE_UDH_LEN) * 8 + 6) 7 = 7 := by decide
  simp only [sms_split_max_part_len, sms_split_udh_len, part_budget, hu, h8, ne_eq,
    not_true_eq_false, if_false, if_true, e1, e2]
  split <;> omega

theorem obey_send_returns (cfg : Smsbox) (trans : Option URLTranslation) (msg : Msg)
    (reply : Option Octstr) (reply_msg : BoxMsg) (started : List receiver)
    (hmax : 0 ≤ send_message_max_msgs trans)
    (hroom : octstr_len (send_message_header trans) + octstr_len (send_message_footer trans) +
      octstr_len (send_message_suffix trans) + 7 ≤ Int.tdiv (cfg.sms_max_length * 8) 7) :
    ∃ parts : List Msg, obey_send cfg trans msg reply reply_msg started =
      .ok (parts.map BoxMsg.sms ++ [reply_msg], started) := by
  have hin : ∀ m : Msg, m.flag_udh = 0 → m.flag_8bit = 0 →
      (send_message_input m).flag_udh = 0 ∧ (send_message_input m).flag_8bit = 0 := by
    intro m h1 h2
    unfold send_message_input
    split
    · exact ⟨h1, h2⟩
    · exact ⟨h1, h2⟩
  obtain ⟨i1, i2⟩ := hin { msg with msgdata := reply, flag_8bit := 0, flag_udh := 0, time := cfg.now }
    rfl rfl
  have hlow := sms_split_max_part_len_text
    (send_message_input { msg with msgdata := reply, flag_8bit := 0, flag_udh := 0, time := cfg.now })
    (send_message_header trans) (send_message_footer trans) (send_message_catenate trans)
    cfg.sms_max_length i1 i2
  have hs := octstr_len_nonneg (send_message_suffix trans)
  obtain ⟨parts, hparts⟩ := send_message_returns trans
    { msg with msgdata := reply, flag_8bit := 0, flag_udh := 0, time := cfg.now }
    cfg.counter cfg.sms_max_length hmax (by omega) (Or.inr (Or.inr (by omega)))
  refine ⟨parts, ?_⟩
  unfold obey_send
  rw [hparts]

/-- C20 fails as stated for a get-url service: the obey loop starts the HTTP
request for the message with id 42 and time 7 and writes the ack at once; the
reply part for that message is written by the HTTP result loop when the
result of the request arrives (here status 404, hence the text "Could not
fetch content, sorry."), that is after the ack. -/
theorem obey_ack_before_http_reply :
    (obey_request_thread
      (sample_smsbox_with
        { sample_trans (octstr_create "http://x/") 1 with type := TRANSTYPE_GET_URL })
      sample_mo).map (fun p => (p.1, p.2.map (fun r => r.msg))) =
      .ok ([BoxMsg.ack 7 42],
        [(remember_receiver
          { sample_mo with
            sender := some (octstr_create "+2"), receiver := some (octstr_create "+1"),
            sms_type := mt_reply }
          { sample_trans (octstr_create "http://x/") 1 with type := TRANSTYPE_GET_URL }).msg]) ∧
    url_result_thread
      (sample_smsbox_with
        { sample_trans (octstr_create "http://x/") 1 with type := TRANSTYPE_GET_URL })
      (0, none)
      { id := remember_receiver
          { sample_mo with
            sender := some (octstr_create "+2"), receiver := some (octstr_create "+1"),
            sms_type := mt_reply }
          { sample_trans (octstr_create "http://x/") 1 with type := TRANSTYPE_GET_URL },
        status := 404, reply_headers := [], reply_body := [] } =
      .ok ([BoxMsg.sms
        { sample_sms 0 0 none (octstr_create "Could not fetch content, sorry.") with
          sender := some (octstr_create "+2"), receiver := some (octstr_create "+1"),
          time := 1000 }], (0, none)) := by
  refine ⟨by decide, by decide⟩

theorem sample_pong_room : ∀ t,
    (sample_smsbox_with (sample_trans (octstr_create "pong") 1)).urltrans_find
      sample_mo.msgdata sample_mo.smsc_id = some t →
    (∀ m, t.pattern m ≠ none) ∧ 0 ≤ t.max_messages ∧
      octstr_len t.header + octstr_len t.footer + octstr_len t.split_suffix + 7 ≤
        Int.tdiv ((sample_smsbox_with (sample_trans (octstr_create "pong") 1)).sms_max_length * 8)
          7 := by
  intro t ht
  have e : t = sample_trans (octstr_create "pong") 1 := by
    simp only [sample_smsbox_with, Option.some.injEq] at ht
    exact ht.symm
  subst e
  refine ⟨fun m => by simp [sample_trans], by decide, by decide⟩

/-! ## Direct replies of the obey loop -/

theorem sms_split_other_fields (orig : Msg) (hdr ftr suf sc : Option Octstr)
    (cat seq maxm maxo : Int) (parts : List Msg)
    (h : sms_split orig hdr ftr suf sc cat seq maxm maxo = .ok parts) :
    ∀ p ∈ parts, other_fields_but_flag_udh p = other_fields_but_flag_udh orig := by
  obtain ⟨chunks, _, hparts, _⟩ := sms_split_chunks _ _ _ _ _ _ _ _ _ _ h
  have hbase : ∀ (k : Nat) (q : Msg),
      (parts_of_chunks orig hdr ftr suf 0 chunks)[k]? = some q →
      other_fields_but_flag_udh q = other_fields_but_flag_udh orig := by
    intro k q hq
    have := (parts_of_chunks_fields orig hdr ftr suf chunks k q hq).1
    simp only [other_fields_but_flag_udh, this]
  intro p hp
  obtain ⟨i, hi⟩ := List.getElem?_of_mem hp
  rw [hparts] at hi
  split at hi
  · rw [getElem?_catenation_loop] at hi
    cases hq : (parts_of_chunks orig hdr ftr suf 0 chunks)[i]? with
    | none => rw [hq] at hi; simp at hi
    | some q =>
      rw [hq] at hi
      simp only [Option.map_some', Option.some.injEq] at hi
      rw [← hi, (prepend_catenation_udh_fields q _ _ _).1]
      exact hbase i q hq
  · exact hbase i p hi

theorem other_fields_sender (p q : Msg)
    (h : other_fields_but_flag_udh p = other_fields_but_flag_udh q) :
    p.sender = q.sender ∧ p.receiver = q.receiver ∧ p.sms_type = q.sms_type ∧
      p.flag_8bit = q.flag_8bit ∧ p.time = q.time ∧ p.flag_unicode = q.flag_unicode := by
  have h1 := congrArg Msg.sender h
  have h2 := congrArg Msg.receiver h
  have h3 := congrArg Msg.sms_type h
  have h4 := congrArg Msg.flag_8bit h
  have h5 := congrArg Msg.time h
  have h6 := congrArg Msg.flag_unicode h
  exact ⟨h1, h2, h3, h4, h5, h6⟩

/-- What `send_message` writes: nothing, or the parts of `sms_split`. -/
theorem send_message_cases (trans : Option URLTranslation) (msg : Msg)
    (counter sms_max_length : Int) (parts : List Msg)
    (h : send_message trans msg counter sms_max_length = .ok parts) :
    parts = [] ∨
    sms_split (send_message_input msg) (send_message_header trans) (send_message_footer trans)
      (send_message_suffix trans) (send_message_split_chars trans) (send_message_catenate trans)
      (if send_message_catenate trans ≠ 0 then counter % 256 else 0)
      (send_message_max_msgs trans) sms_max_length = .ok parts := by
  unfold send_message at h
  by_cases h0 : send_message_max_msgs trans = 0
  · rw [if_pos h0] at h
    simp only [Except.ok.injEq] at h
    exact Or.inl h.symm
  rw [if_neg h0] at h
  by_cases h1 : (msg.flag_udh = 0 ∧ octstr_len msg.msgdata = 0) ∧
      send_message_omit_empty trans = true
  · rw [if_pos h1] at h
    simp only [Except.ok.injEq] at h
    exact Or.inl h.symm
  rw [if_neg h1] at h
  exact Or.inr h

theorem send_message_input_fields (msg : Msg) :
    other_fields_but_flag_udh (send_message_input msg) = other_fields_but_flag_udh msg ∧
    (send_message_input msg).flag_udh = msg.flag_udh ∧
    (send_message_input msg).udhdata = msg.udhdata ∧
    ostr_data (send_message_input msg).msgdata = ostr_data msg.msgdata := by
  unfold send_message_input
  split
  · rename_i h
    refine ⟨rfl, rfl, rfl, ?_⟩
    have := h.2
    cases hm : msg.msgdata with
    | none => simp [ostr_data]
    | some d =>
      rw [hm] at this
      simp only [octstr_len, Nat.cast_eq_zero, List.length_eq_zero] at this
      simp [ostr_data, this]
  · exact ⟨rfl, rfl, rfl, rfl⟩

/-- The round of the obey loop when no translation is found. -/
theorem obey_request_thread_no_translation (cfg : Smsbox) (msg : Msg)
    (hguard : ¬ (octstr_len msg.sender = 0 ∨ octstr_len msg.receiver = 0 ∨
      msg.sender = msg.receiver))
    (hfind : cfg.urltrans_find msg.msgdata msg.smsc_id = none) :
    obey_request_thread cfg msg =
      obey_send cfg none { msg with sender := msg.receiver, receiver := msg.sender }
        (some (octstr_create "Request failed")) (BoxMsg.ack msg.time msg.id) [] := by
  have h1 : ¬ (octstr_len msg.sender = 0 ∨ octstr_len msg.receiver = 0) := by
    rintro (h1 | h1)
    · exact hguard (Or.inl h1)
    · exact hguard (Or.inr (Or.inl h1))
  have h2 : ¬ octstr_compare msg.sender msg.receiver = 0 := by
    intro h2
    exact hguard (Or.inr (Or.inr ((octstr_compare_eq_zero _ _).mp h2)))
  unfold obey_request_thread
  rw [if_neg h1, if_neg h2, hfind]

/-- The round of the obey loop for a translation of kind text. -/
theorem obey_request_thread_text (cfg : Smsbox) (msg : Msg) (t : URLTranslation)
    (pattern : Octstr)
    (hguard : ¬ (octstr_len msg.sender = 0 ∨ octstr_len msg.receiver = 0 ∨
      msg.sender = msg.receiver))
    (hfind : cfg.urltrans_find msg.msgdata msg.smsc_id = some t)
    (htype : t.type = TRANSTYPE_TEXT)
    (hpat : t.pattern { msg with
      sender := obey_sender cfg t msg, receiver := msg.sender, sms_type := mt_reply } =
      some pattern) :
    obey_request_thread cfg msg =
      obey_send cfg (some t)
        { msg with sender := obey_sender cfg t msg, receiver := msg.sender, sms_type := mt_reply }
        (some pattern) (BoxMsg.ack msg.time msg.id) [] := by
  have h1 : ¬ (octstr_len msg.sender = 0 ∨ octstr_len msg.receiver = 0) := by
    rintro (h1 | h1)
    · exact hguard (Or.inl h1)
    · exact hguard (Or.inr (Or.inl h1))
  have h2 : ¬ octstr_compare msg.sender msg.receiver = 0 := by
    intro h2
    exact hguard (Or.inr (Or.inr ((octstr_compare_eq_zero _ _).mp h2)))
  unfold obey_request_thread
  rw [if_neg h1, if_neg h2, hfind]
  dsimp only []
  unfold obey_request
  rw [hpat]
  dsimp only []
  rw [if_pos htype]
  dsimp only []
  rw [if_pos (by decide), if_neg (by decide)]

/-- The parts that `obey_send` writes are parts of the reply: they keep sender,
receiver and sms_type of the message, have flag_8bit = 0, and their payload
chunks make up a prefix of the reply text. -/
theorem obey_send_parts (cfg : Smsbox) (trans : Option URLTranslation) (msg : Msg)
    (reply : Option Octstr) (reply_msg : BoxMsg) (started : List receiver)
    (written : List BoxMsg) (started1 : List receiver)
    (h : obey_send cfg trans msg reply reply_msg started = .ok (written, started1)) :
    ∃ parts : List Msg, written = parts.map BoxMsg.sms ++ [reply_msg] ∧ started1 = started ∧
      send_message trans { msg with msgdata := reply, flag_8bit := 0, flag_udh := 0, time := cfg.now }
        cfg.counter cfg.sms_max_length = .ok parts ∧
      (∀ p ∈ parts, p.sender = msg.sender ∧ p.receiver = msg.receiver ∧
        p.sms_type = msg.sms_type ∧ p.flag_8bit = 0 ∧ p.time = cfg.now ∧
        p.flag_unicode = msg.flag_unicode) ∧
      (payload_chunks (send_message_header trans) (send_message_footer trans)
        (send_message_suffix trans) parts).flatten <+: ostr_data reply := by
  unfold obey_send at h
  cases hs : send_message trans
      { msg with msgdata := reply, flag_8bit := 0, flag_udh := 0, time := cfg.now }
      cfg.counter cfg.sms_max_length with
  | error e => rw [hs] at h; simp at h
  | ok parts =>
    rw [hs] at h
    simp only [Except.ok.injEq, Prod.mk.injEq] at h
    refine ⟨parts, h.1.symm, h.2.symm, rfl, ?_⟩
    rcases send_message_cases _ _ _ _ _ hs with he | hsplit
    · subst he
      exact ⟨fun p hp => by simp at hp, by simp [payload_chunks]⟩
    · obtain ⟨f1, _, _, f4⟩ := send_message_input_fields
        { msg with msgdata := reply, flag_8bit := 0, flag_udh := 0, time := cfg.now }
      constructor
      · intro p hp
        have hf := sms_split_other_fields _ _ _ _ _ _ _ _ _ _ hsplit p hp
        obtain ⟨g1, g2, g3, g4, g5, g6⟩ := other_fields_sender _ _ (hf.trans f1)
        exact ⟨g1, g2, g3, g4, g5, g6⟩
      · obtain ⟨chunks, _, _, _, hc, hpre, _⟩ := sms_split_chunks _ _ _ _ _ _ _ _ _ _ hsplit
        rw [hc]
        rw [f4] at hpre
        exact hpre

theorem obey_sender_spec (cfg : Smsbox) (t : URLTranslation) (msg : Msg) :
    obey_sender cfg t msg = spec_reply_sender t.faked_sender cfg.global_sender msg.receiver := by
  unfold obey_sender spec_reply_sender
  cases t.faked_sender with
  | some p => rfl
  | none =>
    cases cfg.global_sender with
    | some g => rfl
    | none => rfl

/-- C21: when a translation of kind text is found for a request with non-empty,
distinct sender and receiver, every reply part written to the bearerbox has
the sender of the request as receiver, and as sender the faked sender of the
translation if set, else the global sender if set, else the receiver of the
request; the payload chunks of the parts make up a prefix of the expanded
pattern, and the ack follows the parts. The round returns when max_messages
is not negative and header, footer, split suffix and 7 more septets fit
sms_max_length. -/
theorem obey_text_reply (cfg : Smsbox) (msg : Msg) (t : URLTranslation) (pattern : Octstr)
    (hguard : ¬ (octstr_len msg.sender = 0 ∨ octstr_len msg.receiver = 0 ∨
      msg.sender = msg.receiver))
    (hfind : cfg.urltrans_find msg.msgdata msg.smsc_id = some t)
    (htype : t.type = TRANSTYPE_TEXT)
    (hpat : t.pattern { msg with
      sender := spec_reply_sender t.faked_sender cfg.global_sender msg.receiver,
      receiver := msg.sender, sms_type := mt_reply } = some pattern) :
    (∀ written started, obey_request_thread cfg msg = .ok (written, started) →
      ∃ parts : List Msg, written = parts.map BoxMsg.sms ++ [BoxMsg.ack msg.time msg.id] ∧
        (∀ p ∈ parts, p.receiver = msg.sender ∧
          p.sender = spec_reply_sender t.faked_sender cfg.global_sender msg.receiver ∧
          (∀ f, t.faked_sender = some f → p.sender = some f) ∧
          (t.faked_sender = none → ∀ g, cfg.global_sender = some g → p.sender = some g) ∧
          (t.faked_sender = none → cfg.global_sender = none → p.sender = msg.receiver)) ∧
        (payload_chunks t.header t.footer t.split_suffix parts).flatten <+: pattern) ∧
    (0 ≤ t.max_messages →
      octstr_len t.header + octstr_len t.footer + octstr_len t.split_suffix + 7 ≤
        Int.tdiv (cfg.sms_max_length * 8) 7 →
      ∃ written started, obey_request_thread cfg msg = .ok (written, started)) := by
  rw [← obey_sender_spec cfg t msg] at hpat
  rw [obey_request_thread_text cfg msg t pattern hguard hfind htype hpat]
  constructor
  · intro written started h
    obtain ⟨parts, hw, _, _, hf, hpre⟩ := obey_send_parts _ _ _ _ _ _ _ _ h
    refine ⟨parts, hw, fun p hp => ⟨(hf p hp).2.1, ?_, ?_, ?_, ?_⟩, hpre⟩
    · rw [(hf p hp).1]
      exact obey_sender_spec cfg t msg
    · intro f hfk
      rw [(hf p hp).1]
      simp only [obey_sender, hfk]
    · intro hfk g hg
      rw [(hf p hp).1]
      simp only [obey_sender, hfk, hg]
    · intro hfk hg
      rw [(hf p hp).1]
      simp only [obey_sender, hfk, hg]
  · intro hmax hroom
    obtain ⟨parts, hp⟩ := obey_send_returns cfg (some t)
      { msg with sender := obey_sender cfg t msg, receiver := msg.sender, sms_type := mt_reply }
      (some pattern) (BoxMsg.ack msg.time msg.id) [] hmax hroom
    exact ⟨_, _, hp⟩

theorem sample_mo_guard : ¬ (octstr_len sample_mo.sender = 0 ∨ octstr_len sample_mo.receiver = 0 ∨
    sample_mo.sender = sample_mo.receiver) := by decide

/-- Witness of C21: the translation with the pattern "pong" and the request
"ping" from "+1" to "+2": one part with sender "+2", receiver "+1" and text
"pong" is written, then the ack. With the faked sender "100" on the
translation and the global sender "200" the part has the sender "100", and
with the global sender alone the sender "200". -/
theorem obey_text_reply_witness :
    obey_request_thread (sample_smsbox_with (sample_trans (octstr_create "pong") 1)) sample_mo =
      .ok ([BoxMsg.sms { sample_sms 0 0 none (octstr_create "pong") with
              sender := some (octstr_create "+2"), receiver := some (octstr_create "+1"),
              time := 1000, id := 42, sms_type := mt_reply },
            BoxMsg.ack 7 42], []) ∧
    obey_request_thread (sample_global_smsbox sample_faked_trans) sample_mo =
      .ok ([BoxMsg.sms { sample_sms 0 0 none (octstr_create "pong") with
              sender := some (octstr_create "100"), receiver := some (octstr_create "+1"),
              time := 1000, id := 42, sms_type := mt_reply },
            BoxMsg.ack 7 42], []) ∧
    obey_request_thread (sample_global_smsbox (sample_trans (octstr_create "pong") 1))
        sample_mo =
      .ok ([BoxMsg.sms { sample_sms 0 0 none (octstr_create "pong") with
              sender := some (octstr_create "200"), receiver := some (octstr_create "+1"),
              time := 1000, id := 42, sms_type := mt_reply },
            BoxMsg.ack 7 42], []) ∧
    ((∀ written started,
      obey_request_thread (sample_global_smsbox sample_faked_trans) sample_mo =
        .ok (written, started) →
      ∃ parts : List Msg,
        written = parts.map BoxMsg.sms ++ [BoxMsg.ack sample_mo.time sample_mo.id] ∧
        (∀ p ∈ parts, p.receiver = sample_mo.sender ∧
          p.sender = spec_reply_sender sample_faked_trans.faked_sender
            (sample_global_smsbox sample_faked_trans).global_sender sample_mo.receiver ∧
          (∀ f, sample_faked_trans.faked_sender = some f → p.sender = some f) ∧
          (sample_faked_trans.faked_sender = none →
            ∀ g, (sample_global_smsbox sample_faked_trans).global_sender = some g →
              p.sender = some g) ∧
          (sample_faked_trans.faked_sender = none →
            (sample_global_smsbox sample_faked_trans).global_sender = none →
              p.sender = sample_mo.receiver)) ∧
        (payload_chunks sample_faked_trans.header sample_faked_trans.footer
          sample_faked_trans.split_suffix parts).flatten <+: octstr_create "pong") ∧
    (0 ≤ sample_faked_trans.max_messages →
      octstr_len sample_faked_trans.header + octstr_len sample_faked_trans.footer +
          octstr_len sample_faked_trans.split_suffix + 7 ≤
        Int.tdiv ((sample_global_smsbox sample_faked_trans).sms_max_length * 8) 7 →
      ∃ written started,
        obey_request_thread (sample_global_smsbox sample_faked_trans) sample_mo =
          .ok (written, started))) :=
  ⟨by
      have h := obey_request_thread_text
        (sample_smsbox_with (sample_trans (octstr_create "pong") 1)) sample_mo
        (sample_trans (octstr_create "pong") 1) (octstr_create "pong") sample_mo_guard rfl rfl rfl
      rw [h]
      rfl,
    by
      have h := obey_request_thread_text (sample_global_smsbox sample_faked_trans) sample_mo
        sample_faked_trans (octstr_create "pong") sample_mo_guard rfl rfl rfl
      rw [h]
      rfl,
    by
      have h := obey_request_thread_text
        (sample_global_smsbox (sample_trans (octstr_create "pong") 1)) sample_mo
        (sample_trans (octstr_create "pong") 1) (octstr_create "pong") sample_mo_guard rfl rfl rfl
      rw [h]
      rfl,
    obey_text_reply (sample_global_smsbox sample_faked_trans) sample_mo sample_faked_trans
      (octstr_create "pong") sample_mo_guard rfl rfl rfl⟩

/-- C22 fails as stated when sms_max_length leaves no room for the text: with
sms_max_length = 5 (40 bits, five septets) and no translation, the reply to
the request from "+1" to "+2" has the msgdata "Reque". -/
theorem obey_request_failed_truncated :
    { sample_smsbox with sms_max_length := 5 }.urltrans_find sample_mo.msgdata
      sample_mo.smsc_id = none ∧
    obey_request_thread { sample_smsbox with sms_max_length := 5 } sample_mo =
      .ok ([BoxMsg.sms { sample_sms 0 0 none (octstr_create "Reque") with
              sender := some (octstr_create "+2"), receiver := some (octstr_create "+1"),
              time := 1000, id := 42 },
            BoxMsg.ack 7 42], []) := by
  refine ⟨rfl, ?_⟩
  rw [obey_request_thread_no_translation _ _ sample_mo_guard rfl]
  rfl

/-- C22 (amended): when no translation is found for a request with non-empty,
distinct sender and receiver and sms_max_length has room for 14 septets, the
obey loop writes exactly one SMS, which is the request with sender and
receiver exchanged (no faked or global sender), the msgdata "Request failed",
flag_8bit = 0, flag_udh = 0 and the current time, and then the ack. -/
theorem obey_request_failed_reply (cfg : Smsbox) (msg : Msg)
    (hguard : ¬ (octstr_len msg.sender = 0 ∨ octstr_len msg.receiver = 0 ∨
      msg.sender = msg.receiver))
    (hfind : cfg.urltrans_find msg.msgdata msg.smsc_id = none)
    (hroom : 14 ≤ Int.tdiv (cfg.sms_max_length * 8) 7) :
    obey_request_thread cfg msg =
      .ok ([BoxMsg.sms { msg with
              sender := msg.receiver, receiver := msg.sender,
              msgdata := some (octstr_create "Request failed"), flag_8bit := 0, flag_udh := 0,
              time := cfg.now },
            BoxMsg.ack msg.time msg.id], []) := by
  rw [obey_request_thread_no_translation _ _ hguard hfind]
  have hin : send_message_input { msg with
      sender := msg.receiver, receiver := msg.sender,
      msgdata := some (octstr_create "Request failed"), flag_8bit := 0, flag_udh := 0,
      time := cfg.now } = { msg with
      sender := msg.receiver, receiver := msg.sender,
      msgdata := some (octstr_create "Request failed"), flag_8bit := 0, flag_udh := 0,
      time := cfg.now } := by
    unfold send_message_input
    rw [if_neg]
    rintro ⟨_, h⟩
    have h14 : octstr_len (some (octstr_create "Request failed")) = 14 := by decide
    have h0 : octstr_len (some (octstr_create "Request failed")) = 0 := h
    omega
  have hP : sms_split_max_part_len { msg with
      sender := msg.receiver, receiver := msg.sender,
      msgdata := some (octstr_create "Request failed"), flag_8bit := 0, flag_udh := 0,
      time := cfg.now } none none 0 cfg.sms_max_length = Int.tdiv (cfg.sms_max_length * 8) 7 := by
    have e1 : Int.tdiv ((0 : Int) * 8 + 6) 7 = 0 := by decide
    simp only [sms_split_max_part_len, sms_split_udh_len, part_budget, ne_eq,
      not_true_eq_false, if_false, e1, and_false, octstr_len]
    omega
  have hone := sms_split_one_part { msg with
      sender := msg.receiver, receiver := msg.sender,
      msgdata := some (octstr_create "Request failed"), flag_8bit := 0, flag_udh := 0,
      time := cfg.now } none none none none 0 0 1 cfg.sms_max_length
    (by rw [hP]; omega) (Or.inr rfl)
  have htake : (ostr_data (some (octstr_create "Request failed"))).take
      (Int.tdiv (cfg.sms_max_length * 8) 7).toNat = octstr_create "Request failed" := by
    apply List.take_of_length_le
    have : ((octstr_create "Request failed").length : Int) = 14 := by decide
    simp only [ostr_data]
    omega
  have hsend : send_message none { msg with
      sender := msg.receiver, receiver := msg.sender,
      msgdata := some (octstr_create "Request failed"), flag_8bit := 0, flag_udh := 0,
      time := cfg.now } cfg.counter cfg.sms_max_length = .ok [{ msg with
      sender := msg.receiver, receiver := msg.sender,
      msgdata := some (octstr_create "Request failed"), flag_8bit := 0, flag_udh := 0,
      time := cfg.now }] := by
    unfold send_message
    rw [if_neg (by decide), if_neg (by
      rintro ⟨⟨_, h⟩, _⟩
      have h14 : octstr_len (some (octstr_create "Request failed")) = 14 := by decide
      have h0 : octstr_len (some (octstr_create "Request failed")) = 0 := h
      omega)]
    simp only [hin, send_message_header, send_message_footer, send_message_suffix,
      send_message_split_chars, send_message_catenate, send_message_max_msgs, ne_eq,
      not_true_eq_false, if_false]
    rw [hone, hP, htake]
    simp only [part_skeleton, msg_duplicate, compose_part, gt_iff_lt, lt_self_iff_false,
      false_and, if_false]
  unfold obey_send
  simp only []
  rw [hsend]
  rfl

/-- Witness of C22 (amended): the request from "+1" to "+2" and no translation,
with sms_max_length = 140. -/
theorem obey_request_failed_reply_witness :
    (¬ (octstr_len sample_mo.sender = 0 ∨ octstr_len sample_mo.receiver = 0 ∨
        sample_mo.sender = sample_mo.receiver) ∧
      sample_smsbox.urltrans_find sample_mo.msgdata sample_mo.smsc_id = none ∧
      14 ≤ Int.tdiv (sample_smsbox.sms_max_length * 8) 7) ∧
    obey_request_thread sample_smsbox sample_mo =
      .ok ([BoxMsg.sms { sample_mo with
              sender := sample_mo.receiver, receiver := sample_mo.sender,
              msgdata := some (octstr_create "Request failed"), flag_8bit := 0, flag_udh := 0,
              time := sample_smsbox.now },
            BoxMsg.ack sample_mo.time sample_mo.id], []) :=
  ⟨⟨sample_mo_guard, rfl, by decide⟩,
    obey_request_failed_reply sample_smsbox sample_mo sample_mo_guard rfl (by decide)⟩

/-- C23 fails on the code when no translation is found: the "Request failed"
reply to the request from "+1" to "+2" keeps the sms_type of the request, mo,
because the jump to `error` passes over the assignment of mt_reply. When a
translation is found and the request fails (here a translation of kind
sendsms), the same reply has sms_type = mt_reply. -/
theorem obey_request_failed_sms_type :
    sample_mo.sms_type = mo ∧ mo ≠ mt_reply ∧
    obey_request_thread sample_smsbox sample_mo =
      .ok ([BoxMsg.sms { sample_sms 0 0 none (octstr_create "Request failed") with
              sender := some (octstr_create "+2"), receiver := some (octstr_create "+1"),
              time := 1000, id := 42, sms_type := mo },
            BoxMsg.ack 7 42], []) ∧
    obey_request_thread
      (sample_smsbox_with { sample_trans (octstr_create "x") 1 with type := TRANSTYPE_SENDSMS })
      sample_mo =
      .ok ([BoxMsg.sms { sample_sms 0 0 none (octstr_create "Request failed") with
              sender := some (octstr_create "+2"), receiver := some (octstr_create "+1"),
              time := 1000, id := 42, sms_type := mt_reply },
            BoxMsg.ack 7 42], []) := by
  refine ⟨rfl, by decide, ?_, rfl⟩
  rw [obey_request_thread_no_translation _ _ sample_mo_guard rfl]
  rfl

/-! ## fill_message and the HTTP result loop -/

theorem fill_message_denied (cfg : Smsbox) (msg : Msg) (trans : URLTranslation)
    (replytext : Option Octstr) (octet_stream : Int) (frm to_ udh : Option Octstr)
    (flag_flash flag_mwi mwimessages flag_unicode validity deferred : Int)
    (dlr_id : Option Octstr) (dlr_mask : Int) (h : trans.accept_x_kannel_headers = 0) :
    fill_message cfg msg trans replytext octet_stream frm to_ udh flag_flash flag_mwi
      mwimessages flag_unicode validity deferred dlr_id dlr_mask =
    { msg with
      msgdata := replytext, time := cfg.now,
      flag_8bit := if octet_stream ≠ 0 ∧ trans.assume_plain_text = 0 then 1 else msg.flag_8bit } := by
  have ha : decide (trans.accept_x_kannel_headers ≠ 0) = false := by simp [h]
  unfold fill_message
  simp only [ha, Bool.false_eq_true, and_false, if_false]
  by_cases hc : octet_stream ≠ 0 ∧ trans.assume_plain_text = 0
  · simp only [hc, ne_eq, not_false_eq_true, and_self, if_true]
  · simp only [hc, if_false]

/-- C24: when the translation does not accept X-Kannel headers, `fill_message`
changes only msgdata (the reply text), time (the current time) and, for an
octet-stream reply of a translation without assume_plain_text, flag_8bit
(set to 1); sender, receiver, udhdata, flag_udh, flag_flash, flag_mwi,
mwimessages, flag_unicode, validity, deferred, dlr_mask, dlr_id and
dlr_keyword, and every other field, are left as they are, whatever the header
values are. -/
theorem fill_message_headers_denied (cfg : Smsbox) (msg : Msg) (trans : URLTranslation)
    (replytext : Option Octstr) (octet_stream : Int) (frm to_ udh : Option Octstr)
    (flag_flash flag_mwi mwimessages flag_unicode validity deferred : Int)
    (dlr_id : Option Octstr) (dlr_mask : Int) (h : trans.accept_x_kannel_headers = 0) :
    (fill_message cfg msg trans replytext octet_stream frm to_ udh flag_flash flag_mwi
      mwimessages flag_unicode validity deferred dlr_id dlr_mask).msgdata = replytext ∧
    (fill_message cfg msg trans replytext octet_stream frm to_ udh flag_flash flag_mwi
      mwimessages flag_unicode validity deferred dlr_id dlr_mask).time = cfg.now ∧
    (fill_message cfg msg trans replytext octet_stream frm to_ udh flag_flash flag_mwi
      mwimessages flag_unicode validity deferred dlr_id dlr_mask).flag_8bit =
      (if octet_stream ≠ 0 ∧ trans.assume_plain_text = 0 then 1 else msg.flag_8bit) ∧
    { fill_message cfg msg trans replytext octet_stream frm to_ udh flag_flash flag_mwi
        mwimessages flag_unicode validity deferred dlr_id dlr_mask with
      msgdata := none, time := 0, flag_8bit := 0 } =
    { msg with msgdata := none, time := 0, flag_8bit := 0 } := by
  rw [fill_message_denied cfg msg trans replytext octet_stream frm to_ udh flag_flash flag_mwi
    mwimessages flag_unicode validity deferred dlr_id dlr_mask h]
  exact ⟨rfl, rfl, rfl, rfl⟩

/-- Witness of C24: a skeleton from "+2" to "+1", a translation that does not
accept the headers, and header values for every field. -/
theorem fill_message_headers_denied_witness :
    (sample_trans [] 1).accept_x_kannel_headers = 0 ∧
    (fill_message sample_smsbox sample_mo (sample_trans [] 1) (some (octstr_create "hello")) 1
      (some (octstr_create "A")) (some (octstr_create "B")) (some [2, 112, 0]) 1 2 3 1 4 5
      (some (octstr_create "id")) 7).msgdata = some (octstr_create "hello") ∧
    (fill_message sample_smsbox sample_mo (sample_trans [] 1) (some (octstr_create "hello")) 1
      (some (octstr_create "A")) (some (octstr_create "B")) (some [2, 112, 0]) 1 2 3 1 4 5
      (some (octstr_create "id")) 7).time = sample_smsbox.now ∧
    (fill_message sample_smsbox sample_mo (sample_trans [] 1) (some (octstr_create "hello")) 1
      (some (octstr_create "A")) (some (octstr_create "B")) (some [2, 112, 0]) 1 2 3 1 4 5
      (some (octstr_create "id")) 7).flag_8bit =
      (if (1 : Int) ≠ 0 ∧ (sample_trans [] 1).assume_plain_text = 0 then 1
        else sample_mo.flag_8bit) ∧
    { fill_message sample_smsbox sample_mo (sample_trans [] 1) (some (octstr_create "hello")) 1
        (some (octstr_create "A")) (some (octstr_create "B")) (some [2, 112, 0]) 1 2 3 1 4 5
        (some (octstr_create "id")) 7 with
      msgdata := none, time := 0, flag_8bit := 0 } =
    { sample_mo with msgdata := none, time := 0, flag_8bit := 0 } :=
  ⟨rfl, fill_message_headers_denied sample_smsbox sample_mo (sample_trans [] 1)
    (some (octstr_create "hello")) 1 (some (octstr_create "A")) (some (octstr_create "B"))
    (some [2, 112, 0]) 1 2 3 1 4 5 (some (octstr_create "id")) 7 rfl⟩

/-- C25 fails on the code: the request with the UDH 02 70 00 and a Unicode text
satisfies the invariants, but the message that the obey loop hands to
`send_message` for the "Request failed" reply, which is the single part
written, has flag_udh = 0 with the UDH still in udhdata and flag_8bit = 0 with
flag_unicode = 1, so it does not satisfy them. The skeleton that
`remember_receiver` makes for an HTTP reply has no udhdata and flag_unicode = 0. -/
theorem obey_reply_breaks_invariants :
    message_invariants sample_mo_udh ∧
    obey_request_thread sample_smsbox sample_mo_udh =
      .ok ([BoxMsg.sms { sample_mo_udh with
              sender := sample_mo_udh.receiver, receiver := sample_mo_udh.sender,
              msgdata := some (octstr_create "Request failed"), flag_8bit := 0, flag_udh := 0,
              time := sample_smsbox.now },
            BoxMsg.ack 7 42], []) ∧
    ¬ message_invariants { sample_mo_udh with
        sender := sample_mo_udh.receiver, receiver := sample_mo_udh.sender,
        msgdata := some (octstr_create "Request failed"), flag_8bit := 0, flag_udh := 0,
        time := sample_smsbox.now } ∧
    (remember_receiver sample_mo_udh (sample_trans [] 1)).msg.udhdata = none ∧
    (remember_receiver sample_mo_udh (sample_trans [] 1)).msg.flag_unicode = 0 := by
  refine ⟨by decide, ?_, by decide, rfl, rfl⟩
  rw [obey_request_thread_no_translation _ _ (by decide) rfl]
  rfl

/-! ## gw_timer_start and the watcher -/

/-- What `heap_adjust` returns: 1 exactly when the timer moved up and reached
position 0. -/
theorem heap_adjust_spec_ret (st : TimerState) (j : Nat) (hj : j < st.len)
    (hinv : hole_inv st j) :
    ∃ st1 r, heap_adjust st j = .ok (st1, r) ∧ heap_ordered st1 ∧ HeapPerm st st1 ∧
      (key st j < key st (j / 2) →
        ∃ j1, st1.tab j1 = st.tab j ∧ j1 < j ∧ r = (if j1 = 0 then 1 else 0)) ∧
      (¬ key st j < key st (j / 2) → r = 0) := by
  unfold heap_adjust
  rw [if_neg (not_not.mpr hj)]
  simp only []
  by_cases hc : (st.mem (st.tab j)).elapses < (st.mem (st.tab (j / 2))).elapses
  · rw [if_pos hc]
    have hlt : key st j < key st (j / 2) := hc
    have hj1 : 1 ≤ j := by
      by_contra h0
      have : j = 0 := by omega
      subst this
      simp at hlt
    have hup : up_inv st j := by
      constructor
      · intro i hi1 hi2 hi3
        by_cases hp : i / 2 = j
        · have := hinv.2 i hi1 hi2 hp hj1
          rw [hp]
          omega
        · exact hinv.1 i hi1 hi2 hi3 hp
      · intro c hc1 hc2 hc3 _
        exact hinv.2 c hc1 hc2 hc3 hj1
    obtain ⟨st1, j1, hres, hord, hperm, htab, hlt1⟩ :=
      heap_adjust_up_spec (st.tab j) (j + 1) st j hj rfl (by omega) hlt hup
    simp only [hres, bind, Except.bind]
    exact ⟨st1, _, rfl, hord, hperm, fun _ => ⟨j1, htab, hlt1, rfl⟩, fun h => absurd hlt h⟩
  · rw [if_neg hc]
    have hge : ¬ key st j < key st (j / 2) := hc
    have hdown : down_inv st j := by
      constructor
      · intro i hi1 hi2 hi3
        by_cases hij : i = j
        · subst hij
          omega
        · exact hinv.1 i hi1 hi2 hij hi3
      · exact hinv.2
    obtain ⟨st1, hres, hord, hperm⟩ :=
      heap_adjust_down_spec (st.tab j) (st.len + 1) st j hj rfl (by omega) hdown
    simp only [hres, bind, Except.bind]
    exact ⟨st1, _, rfl, hord, hperm, fun h => absurd h hge, fun _ => rfl⟩

theorem abort_elapsed_index_consistent (st : TimerState) (t : Nat)
    (hc : index_consistent st) : index_consistent (abort_elapsed st t) := by
  obtain ⟨htab, hlen, hmem⟩ := abort_elapsed_frame st t
  constructor
  · intro i hi
    rw [hlen] at hi
    rw [htab, (hmem _).2.1]
    exact hc.1 i hi
  · intro p hp
    rw [(hmem p).2.1]
    apply hc.2
    rintro ⟨i, hi, hp1⟩
    exact hp ⟨i, by rw [hlen]; exact hi, by rw [htab]; exact hp1⟩

theorem heap_adjust_up_strict (t : Nat) : ∀ (fuel : Nat) (st : TimerState) (j : Nat)
    (st1 : TimerState) (j1 : Nat),
    heap_adjust_up t fuel st j = .ok (st1, j1) → j < st.len → st.tab j = t →
    key st j < key st (j / 2) →
    (st.mem t).elapses < key st j1 ∧ j1 < j ∧ st1.tab j1 = t := by
  intro fuel
  induction fuel with
  | zero =>
    intro st j st1 j1 h
    simp [heap_adjust_up] at h
  | succ fuel ih =>
    intro st j st1 j1 h hj ht hlt
    have hkt : key st j = (st.mem t).elapses := by unfold key; rw [ht]
    have hj1 : 1 ≤ j := by
      by_contra h0
      have : j = 0 := by omega
      subst this
      simp at hlt
    obtain ⟨st2, hswap, hrel⟩ := heap_swap_spec st j (j / 2) hj (by omega)
    have ht2 : st2.tab (j / 2) = t := by rw [hrel.tab_j, ht]
    unfold heap_adjust_up at h
    simp only [hswap, bind, Except.bind] at h
    by_cases hc : (st2.mem t).elapses < (st2.mem (st2.tab (j / 2 / 2))).elapses
    · rw [if_pos hc] at h
      have hlt2 : key st2 (j / 2) < key st2 (j / 2 / 2) := by
        unfold key
        rw [ht2]
        exact hc
      obtain ⟨g1, g2, g3⟩ := ih st2 (j / 2) st1 j1 h (by rw [hrel.len_eq]; omega) ht2 hlt2
      refine ⟨?_, by omega, g3⟩
      have hk : key st2 j1 = key st j1 := by
        unfold key
        rw [hrel.tab_other j1 (by omega) (by omega), hrel.elapses_eq]
      rw [← hk, ← hrel.elapses_eq]
      exact g1
    · rw [if_neg hc] at h
      simp only [pure, Except.pure, Except.ok.injEq, Prod.mk.injEq] at h
      obtain ⟨h1, h2⟩ := h
      rw [← h2, ← h1]
      exact ⟨by rw [← hkt]; exact hlt, by omega, ht2⟩

theorem heap_adjust_down_frame (t : Nat) : ∀ (fuel : Nat) (st : TimerState) (j : Nat)
    (st1 : TimerState),
    heap_adjust_down t fuel st j = .ok st1 → j < st.len →
    ∀ k, k < j → st1.tab k = st.tab k := by
  intro fuel
  induction fuel with
  | zero =>
    intro st j st1 h
    simp [heap_adjust_down] at h
  | succ fuel ih =>
    intro st j st1 h hj k hk
    unfold heap_adjust_down at h
    simp only [] at h
    by_cases hc1 : j * 2 ≥ st.len
    · rw [if_pos hc1] at h
      simp only [pure, Except.pure, Except.ok.injEq] at h
      rw [← h]
    · rw [if_neg hc1] at h
      by_cases hc2 : ((j * 2 : Nat) : Int) = (st.len : Int) - 1
      · rw [if_pos hc2] at h
        by_cases hc3 : (st.mem (st.tab (j * 2))).elapses < (st.mem t).elapses
        · rw [if_pos hc3] at h
          obtain ⟨st2, hswap, hrel⟩ := heap_swap_spec st j (j * 2) hj (by omega)
          rw [hswap] at h
          have e := Except.ok.inj h
          rw [← e]
          exact hrel.tab_other k (by omega) (by omega)
        · rw [if_neg hc3] at h
          simp only [pure, Except.pure, Except.ok.injEq] at h
          rw [← h]
      · rw [if_neg hc2] at h
        generalize hci : (if (st.mem (st.tab (j * 2 + 1))).elapses <
            (st.mem (st.tab (j * 2))).elapses then j * 2 + 1 else j * 2) = ci at h
        have hci1 : j * 2 ≤ ci ∧ ci < st.len := by
          rw [← hci]
          split <;> omega
        by_cases hc3 : (st.mem (st.tab ci)).elapses < (st.mem t).elapses
        · rw [if_pos hc3] at h
          obtain ⟨st2, hswap, hrel⟩ := heap_swap_spec st j ci hj hci1.2
          simp only [hswap, bind, Except.bind] at h
          rw [ih st2 ci st1 h (by rw [hrel.len_eq]; exact hci1.2) k (by omega)]
          exact hrel.tab_other k (by omega) (by omega)
        · rw [if_neg hc3] at h
          simp only [pure, Except.pure, Except.ok.injEq] at h
          rw [← h]

/-- When `heap_adjust` returns 1, or leaves the timer of position `j > 0` on
top, that timer elapses strictly before the timer that was on top. -/
theorem heap_adjust_top_strict (st : TimerState) (j : Nat) (st1 : TimerState) (r : Int)
    (h : heap_adjust st j = .ok (st1, r)) (hj : j < st.len) (hc : index_consistent st)
    (hj0 : 0 < j) (htop : st1.tab 0 = st.tab j ∨ r ≠ 0) :
    (st.mem (st.tab j)).elapses < key st 0 := by
  obtain ⟨st1', r', hres, hperm⟩ := heap_adjust_returns st j hj
  rw [h] at hres
  simp only [Except.ok.injEq, Prod.mk.injEq] at hres
  have hperm1 : HeapPerm st st1 := by rw [hres.1]; exact hperm
  have hc1 : index_consistent st1 := hperm1.index_pres hc
  unfold heap_adjust at h
  rw [if_neg (not_not.mpr hj)] at h
  simp only [] at h
  by_cases hlt : (st.mem (st.tab j)).elapses < (st.mem (st.tab (j / 2))).elapses
  · rw [if_pos hlt] at h
    cases hup : heap_adjust_up (st.tab j) (j + 1) st j with
    | error e =>
      rw [hup] at h
      simp [bind, Except.bind] at h
    | ok res =>
      obtain ⟨st2, j1⟩ := res
      rw [hup] at h
      simp only [bind, Except.bind, pure, Except.pure, Except.ok.injEq, Prod.mk.injEq] at h
      obtain ⟨g1, g2, g3⟩ := heap_adjust_up_strict (st.tab j) (j + 1) st j st2 j1 hup hj rfl hlt
      have hj10 : j1 = 0 := by
        rcases htop with ht | hr
        · rw [← h.1] at ht
          have hc2 : index_consistent st2 := by rw [h.1]; exact hc1
          have hlen2 : st2.len = st.len := by rw [h.1]; exact hperm1.len_eq
          exact index_consistent_inj hc2 j1 0 (by omega) (by omega) (by rw [g3, ht])
        · by_contra hne
          rw [if_neg hne] at h
          exact hr h.2.symm
      rw [hj10] at g1
      exact g1
  · rw [if_neg hlt] at h
    cases hdown : heap_adjust_down (st.tab j) (st.len + 1) st j with
    | error e =>
      rw [hdown] at h
      simp [bind, Except.bind] at h
    | ok st2 =>
      rw [hdown] at h
      simp only [bind, Except.bind, pure, Except.pure, Except.ok.injEq, Prod.mk.injEq] at h
      exfalso
      rcases htop with ht | hr
      · have hf := heap_adjust_down_frame (st.tab j) (st.len + 1) st j st2 hdown hj 0 hj0
        rw [← h.1, hf] at ht
        have := index_consistent_inj hc 0 j (by omega) hj ht
        omega
      · exact hr h.2.symm

theorem heap_insert_top_strict (st : TimerState) (timer : Nat) (st1 : TimerState)
    (h : heap_insert st timer = .ok st1) (hc : index_consistent st)
    (hout : ¬ in_heap st timer) (hlen : 0 < st.len) (htop : st1.tab 0 = timer) :
    (st.mem timer).elapses < key st 0 := by
  unfold heap_insert at h
  simp only [bind, Except.bind] at h
  generalize hst3 : heap_append st timer = st3 at h
  have hlen3 : st3.len = st.len + 1 := by rw [← hst3]; rfl
  have htab3 : ∀ k, st3.tab k = if k = st.len then timer else st.tab k := by
    intro k
    rw [← hst3]
    simp only [heap_append, set_index_frame, Function.update, eq_rec_constant, dite_eq_ite,
      Nat.add_sub_cancel]
  have hmem3 : ∀ q, (st3.mem q).elapses = (st.mem q).elapses ∧
      (st3.mem q).index = (if q = timer then ((st.len : Int)) else (st.mem q).index) := by
    intro q
    rw [← hst3]
    by_cases hq : q = timer
    · subst hq
      simp [heap_append, set_index]
    · simp [heap_append, set_index, Function.update, hq]
  have hidx : (st3.mem timer).index.toNat = st.len := by
    rw [(hmem3 timer).2, if_pos rfl]
    omega
  have hheap3 : ∀ p, in_heap st3 p ↔ (in_heap st p ∨ p = timer) := by
    intro p
    unfold in_heap
    rw [hlen3]
    constructor
    · rintro ⟨k, hk, hp⟩
      rw [htab3 k] at hp
      by_cases hkl : k = st.len
      · rw [if_pos hkl] at hp
        exact Or.inr hp.symm
      · rw [if_neg hkl] at hp
        exact Or.inl ⟨k, by omega, hp⟩
    · rintro (⟨k, hk, hp⟩ | hp)
      · exact ⟨k, by omega, by rw [htab3 k, if_neg (by omega)]; exact hp⟩
      · exact ⟨st.len, by omega, by rw [htab3 st.len, if_pos rfl]; exact hp.symm⟩
  have hc3 : index_consistent st3 := by
    constructor
    · intro k hk
      rw [hlen3] at hk
      rw [htab3 k]
      by_cases hkl : k = st.len
      · rw [if_pos hkl, (hmem3 timer).2, if_pos rfl, hkl]
      · rw [if_neg hkl, (hmem3 _).2, if_neg]
        · exact hc.1 k (by omega)
        · intro he
          exact hout ⟨k, by omega, he⟩
    · intro p hp
      rw [hheap3] at hp
      rw [(hmem3 p).2, if_neg (fun he => hp (Or.inr he))]
      exact hc.2 p (fun he => hp (Or.inl he))
  rw [hidx] at h
  cases hadj : heap_adjust st3 st.len with
  | error e =>
    rw [hadj] at h
    simp at h
  | ok res =>
    obtain ⟨st4, r⟩ := res
    rw [hadj] at h
    simp only [pure, Except.pure, Except.ok.injEq] at h
    have hst : st3.tab st.len = timer := by rw [htab3 st.len, if_pos rfl]
    have hs := heap_adjust_top_strict st3 st.len st4 r hadj (by omega) hc3 hlen
      (Or.inl (by rw [h, hst]; exact htop))
    rw [hst, (hmem3 timer).1] at hs
    have hk0 : key st3 0 = key st 0 := by
      unfold key
      rw [htab3 0, if_neg (by omega), (hmem3 _).1]
    rw [hk0] at hs
    exact hs

/-- C26 (amended): on a well-formed timer set with an ordered heap,
`gw_timer_start` returns and leaves the heap ordered, and it wakes the watcher
thread exactly when the heap was empty before the call or the top of the heap
after the call elapses earlier than the top before the call; a call after
which the top elapses at the same time or later does not wake it. -/
theorem gw_timer_start_wakes (st : TimerState) (now : Int) (timer : Nat) (interval : Int)
    (data : Nat) (hwf : timers_wf st) (hord : heap_ordered st) :
    ∃ st1 wake, gw_timer_start st now timer interval data = .ok (st1, wake) ∧
      heap_ordered st1 ∧
      (wake = true ↔ (st.len = 0 ∨ key st1 0 < key st 0)) := by
  have hdata : ∀ v : TimerState,
      (∀ k, key (if data ≠ 0 then
        { v with mem := Function.update v.mem timer { v.mem timer with data := data } }
        else v) k = key v k) := by
    intro v k
    by_cases hd : data ≠ 0
    · rw [if_pos hd]
      unfold key
      by_cases hk : v.tab k = timer
      · simp [Function.update, hk]
      · simp [Function.update, hk]
    · rw [if_neg hd]
  have hdlen : ∀ v : TimerState,
      (if data ≠ 0 then
        { v with mem := Function.update v.mem timer { v.mem timer with data := data } }
        else v).len = v.len := by
    intro v
    by_cases hd : data ≠ 0
    · rw [if_pos hd]
    · rw [if_neg hd]
  have hdord : ∀ v : TimerState, heap_ordered v → heap_ordered (if data ≠ 0 then
        { v with mem := Function.update v.mem timer { v.mem timer with data := data } }
        else v) := by
    intro v hv i hi1 hi2
    rw [hdlen] at hi2
    have h1 := hdata v i
    have h2 := hdata v (i / 2)
    unfold key at h1 h2
    rw [h1, h2]
    exact hv i hi1 hi2
  unfold gw_timer_start
  simp only [bind, Except.bind, pure, Except.pure]
  by_cases h : (st.mem timer).elapses > 0
  · rw [if_pos h]
    obtain ⟨i, hi, htab, hidx⟩ := timers_wf_active hwf timer h
    have hidx1 : ((set_elapses st timer (interval + now)).mem timer).index = (i : Int) := by
      rw [(set_elapses_mem st timer (interval + now) timer).1, hidx]
    have htab1 : (set_elapses st timer (interval + now)).tab i = timer := htab
    rw [hidx1, if_neg (by omega), Int.toNat_ofNat, htab1, if_neg (by simp)]
    have hhole : hole_inv (set_elapses st timer (interval + now)) i := by
      have := set_elapses_hole st i (interval + now) hi hwf.1 hord
      rw [htab] at this
      exact this
    obtain ⟨st2, r, hres, hord2, hperm, hup, hdown⟩ :=
      heap_adjust_spec_ret (set_elapses st timer (interval + now)) i hi hhole
    rw [hres]
    have hconv : (decide (interval + now < (st.mem timer).elapses ∧ (st.mem timer).index = 0) ||
        decide (r ≠ 0)) = true → key st2 0 < key st 0 := by
      intro hw
      rw [Bool.or_eq_true, decide_eq_true_iff, decide_eq_true_iff] at hw
      have hint : in_heap st2 timer := (hperm.in_heap_iff timer).mpr ⟨i, hi, htab1⟩
      have hle2 := in_heap_top_le hord2 timer hint
      have hel : (st2.mem timer).elapses = interval + now := by
        rw [hperm.elapses_eq, (set_elapses_mem st timer (interval + now) timer).2.2.2.2,
          if_pos rfl]
      have hk2 : key st2 0 ≤ interval + now := by
        unfold key
        omega
      rcases hw with ⟨hlt, hidx0⟩ | hr
      · have hi0 : i = 0 := by omega
        have htab0 : st.tab 0 = timer := by rw [← hi0]; exact htab
        have hk0 : key st 0 = (st.mem timer).elapses := by unfold key; rw [htab0]
        omega
      · have hipos : 0 < i := by
          by_contra hi0
          have hi00 : i = 0 := by omega
          apply hr
          apply hdown
          rw [hi00]
          exact lt_irrefl _
        have hc1 : index_consistent (set_elapses st timer (interval + now)) :=
          set_elapses_index_consistent st timer (interval + now) hwf.1
        have hs := heap_adjust_top_strict (set_elapses st timer (interval + now)) i st2 r hres hi
          hc1 hipos (Or.inr hr)
        rw [htab1, (set_elapses_mem st timer (interval + now) timer).2.2.2.2, if_pos rfl] at hs
        have hne0 : st.tab 0 ≠ timer := by
          intro he
          have := index_consistent_inj hwf.1 0 i (by omega) hi (by rw [he, htab])
          omega
        rw [set_elapses_key st timer (interval + now) 0 hne0] at hs
        omega
    refine ⟨_, _, rfl, hdord st2 hord2,
      ⟨fun hw => Or.inr (by rw [hdata st2 0]; exact hconv hw), ?_⟩⟩
    intro hcase
    rcases hcase with h0 | hlt
    · omega
    rw [hdata st2 0] at hlt
    have hc1 : index_consistent (set_elapses st timer (interval + now)) :=
      set_elapses_index_consistent st timer (interval + now) hwf.1
    have hc2 : index_consistent st2 := hperm.index_pres hc1
    have hlen2 : st2.len = st.len := hperm.len_eq
    have htop : st2.tab 0 = timer := by
      by_contra hne
      have hin2 : in_heap st2 (st2.tab 0) := ⟨0, by omega, rfl⟩
      have hin : in_heap st (st2.tab 0) := (hperm.in_heap_iff _).mp hin2
      have hle := in_heap_top_le hord _ hin
      have he : (st2.mem (st2.tab 0)).elapses = (st.mem (st2.tab 0)).elapses := by
        rw [hperm.elapses_eq, (set_elapses_mem st timer (interval + now) _).2.2.2.2, if_neg hne]
      unfold key at hlt
      omega
    have hnew : key st2 0 = interval + now := by
      unfold key
      rw [htop, hperm.elapses_eq, (set_elapses_mem st timer (interval + now) timer).2.2.2.2,
        if_pos rfl]
    have hold : key st 0 ≤ (st.mem timer).elapses := in_heap_top_le hord timer ⟨i, hi, htab⟩
    by_cases hi0 : i = 0
    · have : decide (interval + now < (st.mem timer).elapses ∧ (st.mem timer).index = 0) = true := by
        rw [decide_eq_true_iff]
        exact ⟨by omega, by rw [hidx, hi0]; rfl⟩
      rw [this]
      rfl
    · have hpar : (set_elapses st timer (interval + now)).tab (i / 2) ≠ timer := by
        intro hp
        have := index_consistent_inj hwf.1 (i / 2) i (by omega) hi (by rw [htab]; exact hp)
        omega
      have hkey : key (set_elapses st timer (interval + now)) i <
          key (set_elapses st timer (interval + now)) (i / 2) := by
        have k1 : key (set_elapses st timer (interval + now)) i = interval + now := by
          unfold key
          rw [htab1, (set_elapses_mem st timer (interval + now) timer).2.2.2.2, if_pos rfl]
        have k2 : key (set_elapses st timer (interval + now)) (i / 2) = key st (i / 2) :=
          set_elapses_key st timer (interval + now) (i / 2) hpar
        have k3 : key st 0 ≤ key st (i / 2) := heap_ordered_top st hord (i / 2) (by omega)
        omega
      obtain ⟨j1, hj1, _, hr⟩ := hup hkey
      have hj0 : j1 = 0 := by
        by_contra hne
        have hj1len : j1 < st2.len := by omega
        have := index_consistent_inj hc2 j1 0 hj1len (by omega) (by rw [hj1, htop, htab1])
        exact hne this
      rw [hr, if_pos hj0]
      simp
  · rw [if_neg h]
    obtain ⟨hout, _, hidx⟩ := timers_wf_inactive hwf timer h
    obtain ⟨ftab, flen, fmem⟩ := abort_elapsed_frame st timer
    have hidx1 : ((set_elapses (abort_elapsed st timer) timer (interval + now)).mem timer).index =
        -1 := by
      rw [(set_elapses_mem _ timer (interval + now) timer).1, (fmem timer).2.1, hidx]
    rw [hidx1, if_neg (by decide)]
    have hc1 : index_consistent (set_elapses (abort_elapsed st timer) timer (interval + now)) :=
      set_elapses_index_consistent _ timer (interval + now)
        (abort_elapsed_index_consistent st timer hwf.1)
    have hin1 : ∀ p, in_heap (set_elapses (abort_elapsed st timer) timer (interval + now)) p ↔
        in_heap st p := by
      intro p
      unfold in_heap
      show (∃ i, i < (abort_elapsed st timer).len ∧ (abort_elapsed st timer).tab i = p) ↔ _
      rw [flen, ftab]
    have hel1 : ∀ p, p ≠ timer →
        ((set_elapses (abort_elapsed st timer) timer (interval + now)).mem p).elapses =
          (st.mem p).elapses := by
      intro p hp
      rw [(set_elapses_mem _ timer (interval + now) p).2.2.2.2, if_neg hp, (fmem p).1]
    have hnot : ∀ k, k < st.len → st.tab k ≠ timer := fun k hk he => hout ⟨k, hk, he⟩
    have hord1 : heap_ordered (set_elapses (abort_elapsed st timer) timer (interval + now)) := by
      intro i hi1 hi2
      have hi3 : i < st.len := by rw [← flen]; exact hi2
      show ((set_elapses (abort_elapsed st timer) timer (interval + now)).mem
          ((abort_elapsed st timer).tab (i / 2))).elapses ≤
        ((set_elapses (abort_elapsed st timer) timer (interval + now)).mem
          ((abort_elapsed st timer).tab i)).elapses
      rw [ftab, hel1 _ (hnot (i / 2) (by omega)), hel1 _ (hnot i hi3)]
      exact hord i hi1 hi3
    have hout1 : ¬ in_heap (set_elapses (abort_elapsed st timer) timer (interval + now)) timer :=
      fun hh => hout ((hin1 timer).mp hh)
    obtain ⟨st2, hres, hord2, hc2, hlen2, hsame, hin2⟩ :=
      heap_insert_spec _ timer hc1 hord1 hout1
    rw [hres]
    have hlen2' : st2.len = st.len + 1 := by rw [hlen2]; exact congrArg (· + 1) flen
    obtain ⟨k, hk, hkt⟩ := (hin2 timer).mpr (Or.inr rfl)
    have hkidx : (st2.mem timer).index = (k : Int) := by
      have := hc2.1 k hk
      rw [hkt] at this
      exact this
    have hconv : decide ((st2.mem timer).index = 0) = true →
        st.len = 0 ∨ key st2 0 < key st 0 := by
      intro hw
      rw [decide_eq_true_iff, hkidx] at hw
      have hk0 : k = 0 := by omega
      have htop : st2.tab 0 = timer := by rw [← hk0]; exact hkt
      by_cases hl0 : st.len = 0
      · exact Or.inl hl0
      · right
        have hs := heap_insert_top_strict
          (set_elapses (abort_elapsed st timer) timer (interval + now)) timer st2 hres hc1 hout1
          (by show 0 < (abort_elapsed st timer).len; rw [flen]; omega) htop
        rw [(set_elapses_mem _ timer (interval + now) timer).2.2.2.2, if_pos rfl] at hs
        have hk1 : key (set_elapses (abort_elapsed st timer) timer (interval + now)) 0 =
            key st 0 := by
          show ((set_elapses (abort_elapsed st timer) timer (interval + now)).mem
            ((abort_elapsed st timer).tab 0)).elapses = (st.mem (st.tab 0)).elapses
          rw [ftab, hel1 _ (hnot 0 (by omega))]
        have hk2 : key st2 0 = interval + now := by
          unfold key
          rw [htop, hsame.elapses_eq, (set_elapses_mem _ timer (interval + now) timer).2.2.2.2,
            if_pos rfl]
        omega
    refine ⟨_, _, rfl, hdord st2 hord2,
      ⟨fun hw => by rw [hdata st2 0]; exact hconv hw, ?_⟩⟩
    intro hcase
    rw [decide_eq_true_iff]
    have hk0 : k = 0 := by
      rcases hcase with h0 | hlt
      · omega
      · rw [hdata st2 0] at hlt
        by_contra hkne
        have hne : st2.tab 0 ≠ timer := by
          intro he
          have := index_consistent_inj hc2 0 k (by omega) hk (by rw [he, hkt])
          omega
        have hq : in_heap st (st2.tab 0) := by
          rcases (hin2 (st2.tab 0)).mp ⟨0, by omega, rfl⟩ with hq | hq
          · exact (hin1 _).mp hq
          · exact absurd hq hne
        have hle := in_heap_top_le hord _ hq
        have he : (st2.mem (st2.tab 0)).elapses = (st.mem (st2.tab 0)).elapses := by
          rw [hsame.elapses_eq, hel1 _ hne]
        unfold key at hlt
        omega
    rw [hkidx, hk0]
    rfl

/-- C26 fails as stated: in the timer set with the deadlines 10, 20 and 30,
restarting the timer on top (timer 1, deadline 10) with the deadline 25 puts
timer 2 with the deadline 20 on top, and the watcher is not woken. -/
theorem gw_timer_start_later_top_no_wakeup :
    sample_timers.tab 0 = 1 ∧ key sample_timers 0 = 10 ∧
    (gw_timer_start sample_timers 0 1 25 0).map (fun r => (r.2, r.1.tab 0, key r.1 0)) =
      .ok (false, 2, 20) := by
  refine ⟨rfl, rfl, ?_⟩
  decide

/-- Witness of C26 (amended): in the timer set with the deadlines 10, 20 and
30, timer 3 is restarted with the deadline 5. -/
theorem gw_timer_start_wakes_witness :
    (timers_wf sample_timers ∧ heap_ordered sample_timers) ∧
    ∃ st1 wake, gw_timer_start sample_timers 0 3 5 0 = .ok (st1, wake) ∧
      heap_ordered st1 ∧
      (wake = true ↔ (sample_timers.len = 0 ∨ key st1 0 < key sample_timers 0)) :=
  ⟨⟨sample_timers_wf, sample_timers_ordered⟩,
    gw_timer_start_wakes sample_timers 0 3 5 0 sample_timers_wf sample_timers_ordered⟩

theorem heap_insert_index (st : TimerState) (timer : Nat) (hc : index_consistent st)
    (hout : ¬ in_heap st timer) :
    ∃ st1, heap_insert st timer = .ok st1 ∧ index_consistent st1 := by
  unfold heap_insert
  simp only [bind, Except.bind]
  generalize hst3 : heap_append st timer = st3
  have hlen3 : st3.len = st.len + 1 := by rw [← hst3]; rfl
  have htab3 : ∀ k, st3.tab k = if k = st.len then timer else st.tab k := by
    intro k
    rw [← hst3]
    simp only [heap_append, set_index_frame, Function.update, eq_rec_constant, dite_eq_ite,
      Nat.add_sub_cancel]
  have hmem3 : ∀ q,
      (st3.mem q).index = (if q = timer then ((st.len : Int)) else (st.mem q).index) := by
    intro q
    rw [← hst3]
    by_cases hq : q = timer
    · subst hq
      simp [heap_append, set_index]
    · simp [heap_append, set_index, Function.update, hq]
  have hidx : (st3.mem timer).index.toNat = st.len := by
    rw [hmem3 timer, if_pos rfl]
    omega
  have hheap3 : ∀ p, in_heap st3 p ↔ (in_heap st p ∨ p = timer) := by
    intro p
    unfold in_heap
    rw [hlen3]
    constructor
    · rintro ⟨k, hk, hp⟩
      rw [htab3 k] at hp
      by_cases hkl : k = st.len
      · rw [if_pos hkl] at hp
        exact Or.inr hp.symm
      · rw [if_neg hkl] at hp
        exact Or.inl ⟨k, by omega, hp⟩
    · rintro (⟨k, hk, hp⟩ | hp)
      · exact ⟨k, by omega, by rw [htab3 k, if_neg (by omega)]; exact hp⟩
      · exact ⟨st.len, by omega, by rw [htab3 st.len, if_pos rfl]; exact hp.symm⟩
  have hc3 : index_consistent st3 := by
    constructor
    · intro k hk
      rw [hlen3] at hk
      rw [htab3 k]
      by_cases hkl : k = st.len
      · rw [if_pos hkl, hmem3 timer, if_pos rfl, hkl]
      · rw [if_neg hkl, hmem3 _, if_neg]
        · exact hc.1 k (by omega)
        · intro he
          exact hout ⟨k, by omega, he⟩
    · intro p hp
      rw [hheap3] at hp
      rw [hmem3 p, if_neg (fun he => hp (Or.inr he))]
      exact hc.2 p (fun he => hp (Or.inl he))
  obtain ⟨st1, r, hres, hperm⟩ := heap_adjust_returns st3 st.len (by omega)
  rw [hidx, hres]
  exact ⟨st1, rfl, hperm.index_pres hc3⟩

theorem apply_heap_call_index (st st1 : TimerState) (call : HeapCall)
    (hc : index_consistent st) (h : apply_heap_call st call = .ok st1) :
    index_consistent st1 := by
  cases call with
  | insert timer =>
    simp only [apply_heap_call] at h
    by_cases hi : (st.mem timer).index < 0
    · rw [if_neg (not_not.mpr hi)] at h
      have hout : ¬ in_heap st timer := by
        rintro ⟨k, hk, hp⟩
        have := hc.1 k hk
        rw [hp] at this
        omega
      obtain ⟨st2, h2, hc2⟩ := heap_insert_index st timer hc hout
      rw [h2] at h
      cases h
      exact hc2
    · rw [if_pos hi] at h
      cases h
  | delete index =>
    simp only [apply_heap_call] at h
    by_cases hi : index < st.len
    · obtain ⟨st2, h2, hc2, _⟩ := heap_delete_spec st index hi hc
      rw [h2] at h
      cases h
      exact hc2
    · unfold heap_delete at h
      rw [if_pos hi] at h
      cases h
  | swap index1 index2 =>
    simp only [apply_heap_call] at h
    by_cases hi : index1 < st.len ∧ index2 < st.len
    · obtain ⟨st2, h2, hrel⟩ := heap_swap_spec st index1 index2 hi.1 hi.2
      rw [h2] at h
      cases h
      exact hrel.index_pres hi.1 hi.2 hc
    · unfold heap_swap at h
      rw [if_pos hi] at h
      cases h
  | adjust index =>
    simp only [apply_heap_call] at h
    by_cases hi : index < st.len
    · obtain ⟨st2, r, h2, hperm⟩ := heap_adjust_returns st index hi
      rw [h2] at h
      simp only [bind, Except.bind, pure, Except.pure] at h
      cases h
      exact hperm.index_pres hc
    · unfold heap_adjust at h
      rw [if_pos hi] at h
      simp only [bind, Except.bind] at h
      cases h
  | store timer elapses =>
    simp only [apply_heap_call] at h
    cases h
    exact set_elapses_index_consistent st timer elapses hc

theorem run_heap_calls_index (calls : List HeapCall) : ∀ (st st1 : TimerState),
    index_consistent st → run_heap_calls st calls = .ok st1 → index_consistent st1 := by
  induction calls with
  | nil =>
    intro st st1 hc h
    simp only [run_heap_calls, Except.ok.injEq] at h
    subst h
    exact hc
  | cons call calls ih =>
    intro st st1 hc h
    simp only [run_heap_calls] at h
    rw [except_bind_ok] at h
    obtain ⟨st2, h1, h2⟩ := h
    exact ih st2 st1 (apply_heap_call_index st st2 call hc h1) h2

/-- C27: in every state reached from the empty heap (len = 0, every timer with
index -1) through calls of `heap_insert` (as `gw_timer_start` calls it),
`heap_delete`, `heap_swap` and `heap_adjust`, interleaved with changes of
deadlines, each timer stored at tab[i] with i < len has index = i, no timer
occurs at two positions, every timer outside the heap has index = -1, and the
timer a further call of `heap_delete` removes has left the heap and has
index = -1. -/
theorem heap_index_consistent (st0 : TimerState) (calls : List HeapCall) (st : TimerState)
    (hlen : st0.len = 0) (hidx : ∀ p, (st0.mem p).index = -1)
    (h : run_heap_calls st0 calls = .ok st) :
    (∀ i, i < st.len → (st.mem (st.tab i)).index = (i : Int)) ∧
    (∀ i j, i < st.len → j < st.len → st.tab i = st.tab j → i = j) ∧
    (∀ p, ¬ in_heap st p → (st.mem p).index = -1) ∧
    (∀ i st1, heap_delete st i = .ok st1 →
      ¬ in_heap st1 (st.tab i) ∧ (st1.mem (st.tab i)).index = -1) := by
  have hc0 : index_consistent st0 :=
    ⟨fun i hi => by omega, fun p _ => hidx p⟩
  have hc : index_consistent st := run_heap_calls_index calls st0 st hc0 h
  refine ⟨hc.1, ?_, hc.2, ?_⟩
  · intro i j hi hj he
    have h1 := hc.1 i hi
    have h2 := hc.1 j hj
    rw [he] at h1
    omega
  · intro i st1 hd
    by_cases hi : i < st.len
    · obtain ⟨st2, h2, hc2, _, _, hheap, _⟩ := heap_delete_spec st i hi hc
      rw [h2] at hd
      have e : st2 = st1 := Except.ok.inj hd
      rw [← e]
      have hout : ¬ in_heap st2 (st.tab i) := fun hin => ((hheap _).mp hin).2 rfl
      exact ⟨hout, hc2.2 _ hout⟩
    · unfold heap_delete at hd
      rw [if_pos hi] at hd
      cases hd

/-- Witness of C27: the sample sequence of calls from the empty timer set. -/
theorem heap_index_consistent_witness :
    (empty_timers.len = 0 ∧ (∀ p, (empty_timers.mem p).index = -1) ∧
      run_heap_calls empty_timers sample_heap_calls =
        .ok (returned_state (run_heap_calls empty_timers sample_heap_calls))) ∧
    (returned_state (run_heap_calls empty_timers sample_heap_calls)).len = 1 ∧
    ((∀ i, i < (returned_state (run_heap_calls empty_timers sample_heap_calls)).len →
        ((returned_state (run_heap_calls empty_timers sample_heap_calls)).mem
          ((returned_state (run_heap_calls empty_timers sample_heap_calls)).tab i)).index =
          (i : Int)) ∧
      (∀ i j, i < (returned_state (run_heap_calls empty_timers sample_heap_calls)).len →
        j < (returned_state (run_heap_calls empty_timers sample_heap_calls)).len →
        (returned_state (run_heap_calls empty_timers sample_heap_calls)).tab i =
          (returned_state (run_heap_calls empty_timers sample_heap_calls)).tab j → i = j) ∧
      (∀ p, ¬ in_heap (returned_state (run_heap_calls empty_timers sample_heap_calls)) p →
        ((returned_state (run_heap_calls empty_timers sample_heap_calls)).mem p).index = -1) ∧
      (∀ i st1,
        heap_delete (returned_state (run_heap_calls empty_timers sample_heap_calls)) i =
          .ok st1 →
        ¬ in_heap st1
            ((returned_state (run_heap_calls empty_timers sample_heap_calls)).tab i) ∧
          (st1.mem
            ((returned_state (run_heap_calls empty_timers sample_heap_calls)).tab i)).index =
            -1)) :=
  ⟨⟨rfl, fun _ => rfl, returned_state_eq _ (by decide!)⟩, by decide!,
    heap_index_consistent empty_timers sample_heap_calls _ rfl (fun _ => rfl)
      (returned_state_eq _ (by decide!))⟩

theorem find_range_some (p : Nat → Bool) : ∀ (n i : Nat), i < n → p i = true →
    (∀ k, k < i → p k = false) → (List.range n).find? p = some i := by
  intro n
  induction n with
  | zero => intro i hi; omega
  | succ n ih =>
    intro i hi hp hmin
    rw [List.range_succ, List.find?_append]
    by_cases hin : i < n
    · rw [ih i hin hp hmin]
      rfl
    · have hi2 : i = n := by omega
      have hnone : (List.range n).find? p = none := by
        rw [List.find?_eq_none]
        intro x hx
        rw [List.mem_range] at hx
        rw [hmin x (by omega)]
        simp
      rw [hnone, ← hi2]
      simp [hp]

theorem find_range_none (p : Nat → Bool) (n : Nat) (h : ∀ k, k < n → p k = false) :
    (List.range n).find? p = none := by
  rw [List.find?_eq_none]
  intro x hx
  rw [List.mem_range] at hx
  rw [h x hx]
  simp

theorem octstr_case_search_first (body needle : Octstr) (pos i : Nat)
    (h : first_occurrence body needle pos i) :
    octstr_case_search body needle (pos : Int) = (i : Int) := by
  obtain ⟨hpos, hocc, hmin⟩ := h
  unfold octstr_case_search
  have hfind : (List.range (body.length + 1 - needle.length)).find?
      (fun (k : Nat) => decide ((pos : Int) ≤ Int.ofNat k) &&
        decide (((body.drop k).take needle.length).map tolower = needle.map tolower)) =
      some i := by
    apply find_range_some
    · have := hocc.1
      omega
    · have hp : (pos : Int) ≤ Int.ofNat i := by
        simp only [Int.ofNat_eq_coe]
        omega
      simp only [hp, hocc.2, decide_True, Bool.and_self]
    · intro k hk
      by_cases hpk : pos ≤ k
      · have hno := hmin k hpk hk
        have hne : ¬ ((body.drop k).take needle.length).map tolower = needle.map tolower := by
          intro he
          exact hno ⟨by have := hocc.1; omega, he⟩
        simp only [hne, decide_False, Bool.and_false]
      · have hp : ¬ ((pos : Int) ≤ Int.ofNat k) := by
          simp only [Int.ofNat_eq_coe]
          omega
        simp only [hp, decide_False, Bool.false_and]
  rw [hfind]

theorem octstr_case_search_none (body needle : Octstr) (pos : Nat)
    (h : ∀ k, pos ≤ k → ¬ occurs_at body needle k) :
    octstr_case_search body needle (pos : Int) = -1 := by
  unfold octstr_case_search
  have hfind : (List.range (body.length + 1 - needle.length)).find?
      (fun (k : Nat) => decide ((pos : Int) ≤ Int.ofNat k) &&
        decide (((body.drop k).take needle.length).map tolower = needle.map tolower)) =
      none := by
    apply find_range_none
    intro k hk
    by_cases hpk : pos ≤ k
    · have hne : ¬ ((body.drop k).take needle.length).map tolower = needle.map tolower := by
        intro he
        exact h k hpk ⟨by omega, he⟩
      simp only [hne, decide_False, Bool.and_false]
    · have hp : ¬ ((pos : Int) ≤ Int.ofNat k) := by
        simp only [Int.ofNat_eq_coe]
        omega
      simp only [hp, decide_False, Bool.false_and]
  rw [hfind]

theorem first_occurrence_exists (body needle : Octstr) (pos : Nat)
    (h : ∃ k, pos ≤ k ∧ occurs_at body needle k) : ∃ i, first_occurrence body needle pos i := by
  refine ⟨Nat.find h, (Nat.find_spec h).1, (Nat.find_spec h).2, ?_⟩
  intro k hpk hk hocc
  exact Nat.find_min h hk ⟨hpk, hocc⟩
theorem strip_prefix_and_suffix_found (html p s : Octstr) (i j : Nat)
    (hp : first_occurrence html p 0 i) (hs : first_occurrence html s (i + p.length) j) :
    strip_prefix_and_suffix html (some p) (some s) =
      .ok ((html.drop (i + p.length)).take (j - (i + p.length))) := by
  have h1 : octstr_case_search html p 0 = (i : Int) := octstr_case_search_first html p 0 i hp
  have h2 : octstr_case_search html s ((i : Int) + octstr_len (some p)) = (j : Int) := by
    have := octstr_case_search_first html s (i + p.length) j hs
    rw [← this]
    simp only [octstr_len, Nat.cast_add]
  have hle : i + p.length ≤ html.length := hp.2.1.1
  have hij : i + p.length ≤ j := hs.1
  unfold strip_prefix_and_suffix
  have hdel : octstr_delete (some html) 0 ((i : Int) + octstr_len (some p)) =
      .ok (html.drop (i + p.length)) := by
    have hpos1 : (if (0 : Int) > (html.length : Int) then (html.length : Int) else 0) = 0 :=
      if_neg (by omega)
    have hlen1 : (if (0 : Int) + ((i : Int) + (p.length : Int)) > (html.length : Int)
        then (html.length : Int) - 0 else (i : Int) + (p.length : Int)) =
        (i : Int) + (p.length : Int) := if_neg (by omega)
    simp only [octstr_delete, octstr_len, hpos1, hlen1]
    by_cases h0 : (i : Int) + (p.length : Int) > 0
    · rw [if_pos h0]
      have e : ((0 : Int) + ((i : Int) + (p.length : Int))).toNat = i + p.length := by omega
      rw [e]
      simp
    · rw [if_neg h0]
      have e : i + p.length = 0 := by omega
      rw [e]
      simp
  have hi1 : ¬ ((i : Int) = -1) := by omega
  have hj1 : ¬ ((j : Int) = -1) := by omega
  simp only [h1, h2, hi1, hj1, if_false, hdel]
  simp only [octstr_truncate, octstr_len]
  rw [if_neg (by omega)]
  have e : ((j : Int) - ((i : Int) + (p.length : Int))).toNat = j - (i + p.length) := by omega
  rw [e]

/-- C28: for every body, prefix and suffix: when both are given, the prefix
occurs in the body (compared without regard to case), first at `i`, and the
suffix occurs at or after the end `i + len(prefix)` of that occurrence, first at
`j`, then `strip_prefix_and_suffix` leaves exactly the octets from
`i + len(prefix)` up to `j`, the text between the two; in every other case the
body is left unchanged. -/
theorem strip_prefix_and_suffix_spec (html : Octstr) (prefix_text suffix_text : Option Octstr) :
    (∀ p s i j, prefix_text = some p → suffix_text = some s →
      first_occurrence html p 0 i → first_occurrence html s (i + p.length) j →
      strip_prefix_and_suffix html prefix_text suffix_text =
        .ok ((html.drop (i + p.length)).take (j - (i + p.length)))) ∧
    ((¬ ∃ p s i j, prefix_text = some p ∧ suffix_text = some s ∧
        first_occurrence html p 0 i ∧ i + p.length ≤ j ∧ occurs_at html s j) →
      strip_prefix_and_suffix html prefix_text suffix_text = .ok html) := by
  constructor
  · intro p s i j hp hs hi hj
    rw [hp, hs]
    exact strip_prefix_and_suffix_found html p s i j hi hj
  · intro hneg
    cases prefix_text with
    | none => rfl
    | some p =>
      cases suffix_text with
      | none => rfl
      | some s =>
        by_cases hpo : ∃ k, 0 ≤ k ∧ occurs_at html p k
        · obtain ⟨i, hi⟩ := first_occurrence_exists html p 0 hpo
          have h1 : octstr_case_search html p 0 = (i : Int) :=
            octstr_case_search_first html p 0 i hi
          have hno : ∀ k, i + p.length ≤ k → ¬ occurs_at html s k := by
            intro k hk hocc
            exact hneg ⟨p, s, i, k, rfl, rfl, hi, hk, hocc⟩
          have h2 : octstr_case_search html s ((i : Int) + octstr_len (some p)) = -1 := by
            have := octstr_case_search_none html s (i + p.length) hno
            rw [← this]
            simp only [octstr_len, Nat.cast_add]
          have hi1 : ¬ ((i : Int) = -1) := by omega
          unfold strip_prefix_and_suffix
          simp only [h1, h2, hi1, if_false, if_true]
        · have hno : ∀ k, 0 ≤ k → ¬ occurs_at html p k := by
            intro k hk hocc
            exact hpo ⟨k, hk, hocc⟩
          have h1 : octstr_case_search html p 0 = -1 :=
            octstr_case_search_none html p 0 hno
          unfold strip_prefix_and_suffix
          simp only [h1, if_true]

/-- Witness of C28: the text between a prefix and a suffix written in another
case than in the body. -/
theorem strip_prefix_and_suffix_spec_witness :
    first_occurrence (octstr_create "<html><B>Hello</B></html>") (octstr_create "<b>") 0 6 ∧
    first_occurrence (octstr_create "<html><B>Hello</B></html>") (octstr_create "</b>")
      (6 + (octstr_create "<b>").length) 14 ∧
    strip_prefix_and_suffix (octstr_create "<html><B>Hello</B></html>")
      (some (octstr_create "<b>")) (some (octstr_create "</b>")) =
      .ok (octstr_create "Hello") :=
  ⟨by unfold first_occurrence; decide, by unfold first_occurrence; decide,
    (strip_prefix_and_suffix_spec (octstr_create "<html><B>Hello</B></html>")
      (some (octstr_create "<b>")) (some (octstr_create "</b>"))).1
      (octstr_create "<b>") (octstr_create "</b>") 6 14 rfl rfl
      (by unfold first_occurrence; decide) (by unfold first_occurrence; decide)⟩

theorem prepend_catenation_udh_len (q : Msg) (k n s : Int) :
    octstr_len (prepend_catenation_udh q k n s).udhdata =
      (if octstr_len q.udhdata = 0 then 1 else octstr_len q.udhdata) + 5 := by
  cases hq : q.udhdata with
  | none =>
    have h0 : octstr_len q.udhdata = 0 := by rw [hq]; rfl
    rw [prepend_catenation_udh_empty q k n s h0]
    simp [octstr_len]
  | some u =>
    cases u with
    | nil =>
      have h0 : octstr_len q.udhdata = 0 := by rw [hq]; rfl
      rw [prepend_catenation_udh_empty q k n s h0]
      simp [octstr_len]
    | cons b rest =>
      rw [prepend_catenation_udh_cons q k n s b rest hq]
      simp only [octstr_len, List.length_cons, List.length_append, List.length_nil]
      rw [if_neg (by omega)]
      push_cast
      omega

theorem tdiv_nonneg_arg (a : Int) (h : 0 ≤ Int.tdiv (a * 8) 7) : 0 ≤ a := by
  by_contra hneg
  have e : a * 8 = -(-(a * 8)) := by ring
  rw [e, Int.neg_tdiv, Int.tdiv_eq_ediv (by omega) (by omega)] at h
  omega

theorem part_budget_fits (f maxo u u0 H m : Int) (hu0 : 0 ≤ u0) (hu : u0 ≤ u) (hH : 0 ≤ H)
    (hP : 0 ≤ part_budget f maxo u H) (hm : m ≤ H + part_budget f maxo u H) :
    (f ≠ 0 → u0 + m ≤ maxo) ∧
    (f = 0 → ⌈((u0 * 8 : Int) : ℚ) / 7⌉ + m ≤ ⌊((maxo * 8 : Int) : ℚ) / 7⌋) := by
  constructor
  · intro hf
    simp only [part_budget, if_pos hf] at hm
    omega
  · intro hf
    have hf2 : ¬ (f ≠ 0) := not_not.mpr hf
    simp only [part_budget, if_neg hf2] at hm hP
    have hu1 : Int.tdiv (u * 8 + 6) 7 = (u * 8 + 6) / 7 :=
      Int.tdiv_eq_ediv (by omega) (by omega)
    have hu2 : Int.tdiv (u0 * 8 + 6) 7 = (u0 * 8 + 6) / 7 :=
      Int.tdiv_eq_ediv (by omega) (by omega)
    have hmax : 0 ≤ maxo := by
      apply tdiv_nonneg_arg
      rw [hu1] at hP
      omega
    rw [← tdiv_add_six_eq_ceil u0 hu0, ← tdiv_eq_floor maxo hmax, hu2]
    rw [hu1] at hm
    omega

theorem chunk_bound (P S : Int) : ∀ (chunks : List Octstr),
    (∀ c ∈ chunks.getLast?, (c.length : Int) ≤ P) →
    (∀ c ∈ chunks.dropLast, (c.length : Int) ≤ P - S) →
    ∀ (k : Nat) (c : Octstr), chunks[k]? = some c →
      (c.length : Int) + (if k + 1 < chunks.length then S else 0) ≤ P := by
  intro chunks
  induction chunks with
  | nil => intro _ _ k c hk; simp at hk
  | cons a cs ih =>
    intro hlast hinit k c hk
    cases cs with
    | nil =>
      cases k with
      | zero =>
        simp only [List.getElem?_cons_zero, Option.some.injEq] at hk
        have := hlast a (by simp)
        rw [← hk]
        simp only [List.length_cons, List.length_nil]
        rw [if_neg (by omega)]
        omega
      | succ k => simp at hk
    | cons b rest =>
      cases k with
      | zero =>
        simp only [List.getElem?_cons_zero, Option.some.injEq] at hk
        have := hinit a (by simp)
        rw [← hk]
        simp only [List.length_cons]
        rw [if_pos (by omega)]
        omega
      | succ k =>
        simp only [List.getElem?_cons_succ] at hk
        have h1 := ih (fun c hc => hlast c (by simpa using hc))
          (fun c hc => hinit c (by simp only [List.dropLast_cons₂, List.mem_cons]; exact Or.inr hc))
          k c hk
        simp only [List.length_cons] at h1 ⊢
        by_cases hlt : k + 1 < rest.length + 1
        · rw [if_pos hlt] at h1
          rw [if_pos (by omega)]
          exact h1
        · rw [if_neg hlt] at h1
          rw [if_neg (by omega)]
          exact h1
theorem sms_split_udh_len_inv (orig : Msg) (hinv : message_invariants orig) :
    sms_split_udh_len orig = octstr_len orig.udhdata := by
  unfold sms_split_udh_len
  by_cases hf : orig.flag_udh ≠ 0
  · rw [if_pos hf]
  · rw [if_neg hf]
    by_contra hne
    have := (hinv.2.1 (fun h0 => hne h0.symm)).1
    omega

theorem sms_split_budget_cases (orig : Msg) (hdr ftr : Option Octstr) (cat maxo : Int)
    (hinv : message_invariants orig) :
    (sms_split_max_part_len orig hdr ftr cat maxo =
        part_budget orig.flag_8bit maxo
          ((if octstr_len orig.udhdata = 0 then 1 else octstr_len orig.udhdata) + 5)
          (octstr_len hdr + octstr_len ftr)) ∨
    (sms_split_max_part_len orig hdr ftr cat maxo =
        part_budget orig.flag_8bit maxo (octstr_len orig.udhdata)
          (octstr_len hdr + octstr_len ftr) ∧
      (cat ≠ 0 →
        octstr_len orig.msgdata ≤ sms_split_max_part_len orig hdr ftr cat maxo)) := by
  unfold sms_split_max_part_len
  simp only [sms_split_udh_len_inv orig hinv, CATENATE_UDH_LEN]
  by_cases hc : octstr_len orig.msgdata >
      part_budget orig.flag_8bit maxo (octstr_len orig.udhdata)
        (octstr_len hdr + octstr_len ftr) ∧ cat ≠ 0
  · rw [if_pos hc]
    exact Or.inl rfl
  · rw [if_neg hc]
    refine Or.inr ⟨rfl, ?_⟩
    intro hcat
    by_contra hgt
    exact hc ⟨by omega, hcat⟩

/-- C29: for every original message that satisfies the message invariants and
every parameter set with max_messages >= 1 and the non-last suffix not longer
than the per-part payload budget, which is the case when len(header) +
len(footer) + len(nonlast_suffix) does not exceed the budget, `sms_split`
returns, and every part it returns is of the kind of the original and fits one
physical SMS: for an 8-bit message len(udhdata) + len(msgdata) <= max_octets,
and for a 7-bit message ceil(len(udhdata) * 8 / 7) + len(msgdata) <=
floor(max_octets * 8 / 7), the udhdata being the one of the part, with the
concatenation header when one was added. -/
theorem sms_split_parts_fit (orig : Msg)
    (header footer nonlast_suffix split_chars : Option Octstr)
    (catenate msg_sequence max_messages max_octets : Int)
    (hinv : message_invariants orig) (hmax : 1 ≤ max_messages)
    (hroom : octstr_len nonlast_suffix ≤
      sms_split_max_part_len orig header footer catenate max_octets) :
    ∃ parts, sms_split orig header footer nonlast_suffix split_chars catenate msg_sequence
        max_messages max_octets = .ok parts ∧
      ∀ p ∈ parts, p.flag_8bit = orig.flag_8bit ∧ fits_one_sms max_octets p := by
  have hS := octstr_len_nonneg nonlast_suffix
  have hP : 0 ≤ sms_split_max_part_len orig header footer catenate max_octets := by omega
  obtain ⟨parts, hres⟩ := sms_split_returns orig header footer nonlast_suffix split_chars
    catenate msg_sequence max_messages max_octets hmax hP (Or.inr (Or.inr hroom))
  refine ⟨parts, hres, ?_⟩
  intro p hp
  obtain ⟨k, hk⟩ := List.getElem?_of_mem hp
  have hflag : p.flag_8bit = orig.flag_8bit := by
    have h := congrArg Msg.flag_8bit (sms_split_other_fields orig header footer nonlast_suffix
      split_chars catenate msg_sequence max_messages max_octets parts hres p hp)
    exact h
  refine ⟨hflag, ?_⟩
  obtain ⟨chunks, _, hparts, hlen, hpc, _, _, _, hlast, hinit⟩ :=
    sms_split_chunks orig header footer nonlast_suffix split_chars catenate msg_sequence
      max_messages max_octets parts hres
  -- the length of the text of the part
  have hlay := sms_split_part_layout orig header footer nonlast_suffix split_chars catenate
    msg_sequence max_messages max_octets parts hres k p hk
  have hklt : k < chunks.length := by
    rw [← hlen]
    by_contra hge
    rw [List.getElem?_eq_none (by omega)] at hk
    cases hk
  have hck : chunks[k]? = some (chunks.getD k []) := by
    rw [List.getD_eq_getElem?_getD, List.getElem?_eq_getElem hklt]
    rfl
  have hcb := chunk_bound (sms_split_max_part_len orig header footer catenate max_octets)
    (octstr_len nonlast_suffix) chunks (hlast hP) hinit k _ hck
  have hm : octstr_len p.msgdata ≤ (octstr_len header + octstr_len footer) +
      sms_split_max_part_len orig header footer catenate max_octets := by
    rw [hlay, hpc, hlen]
    have e1 := octstr_len_eq header
    have e2 := octstr_len_eq footer
    have e3 := octstr_len_eq nonlast_suffix
    by_cases hlt : k + 1 < chunks.length
    · rw [if_pos hlt] at hcb ⊢
      simp only [octstr_len, List.length_append] at e1 e2 e3 hcb ⊢
      push_cast
      omega
    · rw [if_neg hlt] at hcb ⊢
      simp only [octstr_len, List.length_append, List.length_nil] at e1 e2 e3 hcb ⊢
      push_cast
      omega
  have hH : 0 ≤ octstr_len header + octstr_len footer := by
    have := octstr_len_nonneg header
    have := octstr_len_nonneg footer
    omega
  have hU := octstr_len_nonneg orig.udhdata
  -- the length of the UDH of the part, and the budget it was counted in
  have hudh : ∃ u, octstr_len p.udhdata ≤ u ∧
      sms_split_max_part_len orig header footer catenate max_octets =
        part_budget orig.flag_8bit max_octets u (octstr_len header + octstr_len footer) := by
    by_cases hcat : catenate ≠ 0 ∧ (chunks.length : Int) > 1
    · rw [hparts, if_pos hcat, getElem?_catenation_loop] at hk
      cases hq : (parts_of_chunks orig header footer nonlast_suffix 0 chunks)[k]? with
      | none => rw [hq] at hk; cases hk
      | some q =>
        rw [hq] at hk
        simp only [Option.map_some', Option.some.injEq] at hk
        have hqu := (parts_of_chunks_udh orig header footer nonlast_suffix chunks 0 q
          (List.getElem?_mem hq)).1
        have hpu : octstr_len p.udhdata =
            (if octstr_len orig.udhdata = 0 then 1 else octstr_len orig.udhdata) + 5 := by
          rw [← hk, prepend_catenation_udh_len, hqu]
        rcases sms_split_budget_cases orig header footer catenate max_octets hinv with hb | hb
        · exact ⟨_, le_of_eq hpu, hb⟩
        · exfalso
          have hone := sms_split_one_part orig header footer nonlast_suffix split_chars
            catenate msg_sequence max_messages max_octets hP (Or.inl (hb.2 hcat.1))
          rw [hone] at hres
          have e := Except.ok.inj hres
          rw [← e] at hlen
          simp only [List.length_singleton] at hlen
          have := hcat.2
          omega
    · rw [hparts, if_neg hcat] at hk
      have hpu := (parts_of_chunks_udh orig header footer nonlast_suffix chunks 0 p
        (List.getElem?_mem hk)).1
      rcases sms_split_budget_cases orig header footer catenate max_octets hinv with hb | hb
      · refine ⟨_, ?_, hb⟩
        rw [hpu]
        split <;> omega
      · exact ⟨_, by rw [hpu], hb.1⟩
  obtain ⟨u, hu, hbud⟩ := hudh
  rw [hbud] at hm hP
  have hfit := part_budget_fits orig.flag_8bit max_octets u (octstr_len p.udhdata)
    (octstr_len header + octstr_len footer) (octstr_len p.msgdata)
    (octstr_len_nonneg p.udhdata) hu hH hP hm
  unfold fits_one_sms
  rw [hflag]
  by_cases hf : orig.flag_8bit ≠ 0
  · rw [if_pos hf]
    exact hfit.1 hf
  · rw [if_neg hf]
    exact hfit.2 (not_not.mp hf)

/-- Witness of C29: a 7-bit text of 300 letters with a UDH of three octets,
split with a header, a non-last suffix and concatenation into at most three
parts of 140 octets. -/
theorem sms_split_parts_fit_witness :
    message_invariants (sample_sms 0 1 (some [2, 112, 0]) (sample_text 300)) ∧
    (1 : Int) ≤ 3 ∧
    octstr_len (some (octstr_create "...")) ≤
      sms_split_max_part_len (sample_sms 0 1 (some [2, 112, 0]) (sample_text 300))
        (some (octstr_create "Hi ")) none 1 140 ∧
    ∃ parts, sms_split (sample_sms 0 1 (some [2, 112, 0]) (sample_text 300))
        (some (octstr_create "Hi ")) none (some (octstr_create "...")) none 1 7 3 140 =
          .ok parts ∧
      ∀ p ∈ parts, p.flag_8bit = (sample_sms 0 1 (some [2, 112, 0]) (sample_text 300)).flag_8bit ∧
        fits_one_sms 140 p :=
  ⟨by decide, by decide, by decide,
    sms_split_parts_fit (sample_sms 0 1 (some [2, 112, 0]) (sample_text 300))
      (some (octstr_create "Hi ")) none (some (octstr_create "...")) none 1 7 3 140
      (by decide) (by decide) (by decide)⟩

/-- C30 fails on the code: `url_result_thread` sets `dlr_mask = 0` once, before
its loop, and a round whose reply has a status other than 200 does not call
`get_x_kannel_from_headers`, so it hands the value left by the round before to
`fill_message`. After the reply 200 with `X-Kannel-DLR-Mask: 3`, the message
written for the reply 404 has dlr_mask = 3 and the keyword "DLR"; the same
reply 404 processed first gives dlr_mask = 0 and no keyword. -/
theorem url_result_thread_stale_dlr_mask :
    sample_reply_404.status ≠ HTTP_OK ∧
    (url_result_run sample_smsbox [sample_reply_dlr, sample_reply_404]).map
        (fun outs => outs.map emitted_dlr) =
      .ok [[(3, none, some (octstr_create "DLR"))], [(3, none, some (octstr_create "DLR"))]] ∧
    (url_result_run sample_smsbox [sample_reply_404]).map (fun outs => outs.map emitted_dlr) =
      .ok [[(0, none, none)]] := by
  refine ⟨by decide, ?_, ?_⟩
  · rfl
  · rfl

theorem obey_request_thread_http (cfg : Smsbox) (msg : Msg) (t : URLTranslation)
    (hguard : ¬ (octstr_len msg.sender = 0 ∨ octstr_len msg.receiver = 0 ∨
      msg.sender = msg.receiver))
    (hfind : cfg.urltrans_find msg.msgdata msg.smsc_id = some t)
    (htype : t.type = TRANSTYPE_GET_URL ∨ t.type = TRANSTYPE_POST_URL)
    (hpat : ∀ m, t.pattern m ≠ none) :
    ∃ r, obey_request_thread cfg msg = .ok ([BoxMsg.ack msg.time msg.id], [r]) := by
  have h1 : ¬ (octstr_len msg.sender = 0 ∨ octstr_len msg.receiver = 0) := by
    rintro (h1 | h1)
    · exact hguard (Or.inl h1)
    · exact hguard (Or.inr (Or.inl h1))
  have h2 : ¬ octstr_compare msg.sender msg.receiver = 0 := by
    intro h2
    exact hguard (Or.inr (Or.inr ((octstr_compare_eq_zero _ _).mp h2)))
  unfold obey_request_thread
  rw [if_neg h1, if_neg h2, hfind]
  dsimp only []
  cases hp : t.pattern { msg with
      sender := obey_sender cfg t msg, receiver := msg.sender, sms_type := mt_reply } with
  | none => exact absurd hp (hpat _)
  | some pattern =>
    unfold obey_request
    rw [hp]
    dsimp only []
    rcases htype with hty | hty
    · rw [hty, if_neg (by decide), if_neg (by decide), if_pos rfl]
      dsimp only []
      rw [if_neg (by decide)]
      exact ⟨_, rfl⟩
    · rw [hty, if_neg (by decide), if_neg (by decide), if_neg (by decide), if_pos rfl]
      dsimp only []
      rw [if_neg (by decide)]
      exact ⟨_, rfl⟩

theorem obey_request_thread_direct (cfg : Smsbox) (msg : Msg) (t : URLTranslation)
    (hguard : ¬ (octstr_len msg.sender = 0 ∨ octstr_len msg.receiver = 0 ∨
      msg.sender = msg.receiver))
    (hfind : cfg.urltrans_find msg.msgdata msg.smsc_id = some t)
    (htype : ¬ (t.type = TRANSTYPE_GET_URL ∨ t.type = TRANSTYPE_POST_URL))
    (hpat : ∀ m, t.pattern m ≠ none) (hmax : 0 ≤ t.max_messages)
    (hlen : octstr_len t.header + octstr_len t.footer + octstr_len t.split_suffix + 7 ≤
      Int.tdiv (cfg.sms_max_length * 8) 7) :
    ∃ parts : List Msg, obey_request_thread cfg msg =
      .ok (parts.map BoxMsg.sms ++ [BoxMsg.ack msg.time msg.id], []) := by
  have h1 : ¬ (octstr_len msg.sender = 0 ∨ octstr_len msg.receiver = 0) := by
    rintro (h1 | h1)
    · exact hguard (Or.inl h1)
    · exact hguard (Or.inr (Or.inl h1))
  have h2 : ¬ octstr_compare msg.sender msg.receiver = 0 := by
    intro h2
    exact hguard (Or.inr (Or.inr ((octstr_compare_eq_zero _ _).mp h2)))
  have hroom : 7 ≤ Int.tdiv (cfg.sms_max_length * 8) 7 := by
    have := octstr_len_nonneg t.header
    have := octstr_len_nonneg t.footer
    have := octstr_len_nonneg t.split_suffix
    omega
  have hnone : 0 ≤ send_message_max_msgs none ∧
      octstr_len (send_message_header none) + octstr_len (send_message_footer none) +
        octstr_len (send_message_suffix none) + 7 ≤ Int.tdiv (cfg.sms_max_length * 8) 7 := by
    refine ⟨by decide, ?_⟩
    simp only [send_message_header, send_message_footer, send_message_suffix, octstr_len]
    omega
  have hsome : 0 ≤ send_message_max_msgs (some t) ∧
      octstr_len (send_message_header (some t)) + octstr_len (send_message_footer (some t)) +
        octstr_len (send_message_suffix (some t)) + 7 ≤
        Int.tdiv (cfg.sms_max_length * 8) 7 := ⟨hmax, hlen⟩
  unfold obey_request_thread
  rw [if_neg h1, if_neg h2, hfind]
  dsimp only []
  cases hp : t.pattern { msg with
      sender := obey_sender cfg t msg, receiver := msg.sender, sms_type := mt_reply } with
  | none => exact absurd hp (hpat _)
  | some pattern =>
    unfold obey_request
    rw [hp]
    dsimp only []
    by_cases c1 : t.type = TRANSTYPE_TEXT
    · rw [if_pos c1]
      dsimp only []
      rw [if_pos (by decide), if_neg (by decide)]
      exact obey_send_returns cfg (some t)
        { msg with
          sender := obey_sender cfg t msg, receiver := msg.sender, sms_type := mt_reply }
        (some pattern) (BoxMsg.ack msg.time msg.id) [] hsome.1 hsome.2
    rw [if_neg c1]
    by_cases c2 : t.type = TRANSTYPE_FILE
    · rw [if_pos c2]
      dsimp only []
      rw [if_pos (by decide), if_neg (by decide)]
      exact obey_send_returns cfg (some t)
        { msg with
          sender := obey_sender cfg t msg, receiver := msg.sender, sms_type := mt_reply }
        (cfg.octstr_read_file pattern) (BoxMsg.ack msg.time msg.id) [] hsome.1 hsome.2
    rw [if_neg c2, if_neg (fun h => htype (Or.inl h)), if_neg (fun h => htype (Or.inr h))]
    dsimp only []
    rw [if_pos (by decide), if_pos (by decide)]
    exact obey_send_returns cfg none
      { msg with
        sender := obey_sender cfg t msg, receiver := msg.sender, sms_type := mt_reply }
      (some (octstr_create "Request failed")) (BoxMsg.ack msg.time msg.id) [] hnone.1 hnone.2

/-- C20 (amended): for a message taken from the queue by the obey loop, if its
sender or receiver is empty or they are equal, nothing is written to the
bearerbox, whatever the configuration. Otherwise, when the configuration
leaves room for a part (7 septets within sms_max_length and, for the
translation found, a pattern, max_messages >= 0 and len(header) +
len(footer) + len(split_suffix) + 7 septets within sms_max_length), the round
returns and writes the parts of the direct reply, if any, and then exactly one
ack with the id and the time of the message; for a translation of kind get-url
or post-url it writes the ack only and starts one HTTP request, and in every
other case it starts none. -/
theorem obey_request_thread_ack (cfg : Smsbox) (msg : Msg) :
    ((octstr_len msg.sender = 0 ∨ octstr_len msg.receiver = 0 ∨ msg.sender = msg.receiver) →
      obey_request_thread cfg msg = .ok ([], [])) ∧
    (¬ (octstr_len msg.sender = 0 ∨ octstr_len msg.receiver = 0 ∨ msg.sender = msg.receiver) →
      7 ≤ Int.tdiv (cfg.sms_max_length * 8) 7 →
      (∀ t, cfg.urltrans_find msg.msgdata msg.smsc_id = some t →
        (∀ m, t.pattern m ≠ none) ∧ 0 ≤ t.max_messages ∧
        octstr_len t.header + octstr_len t.footer + octstr_len t.split_suffix + 7 ≤
          Int.tdiv (cfg.sms_max_length * 8) 7) →
      ∃ (parts : List Msg) (started : List receiver), obey_request_thread cfg msg =
          .ok (parts.map BoxMsg.sms ++ [BoxMsg.ack msg.time msg.id], started) ∧
        (∀ t, cfg.urltrans_find msg.msgdata msg.smsc_id = some t →
          (t.type = TRANSTYPE_GET_URL ∨ t.type = TRANSTYPE_POST_URL) →
          parts = [] ∧ started.length = 1) ∧
        ((cfg.urltrans_find msg.msgdata msg.smsc_id = none ∨
          ∃ t, cfg.urltrans_find msg.msgdata msg.smsc_id = some t ∧
            t.type ≠ TRANSTYPE_GET_URL ∧ t.type ≠ TRANSTYPE_POST_URL) →
          started = [])) := by
  constructor
  · intro h
    unfold obey_request_thread
    by_cases h1 : octstr_len msg.sender = 0 ∨ octstr_len msg.receiver = 0
    · rw [if_pos h1]
    · rw [if_neg h1]
      have h2 : msg.sender = msg.receiver := by
        rcases h with h | h | h
        · exact absurd (Or.inl h) h1
        · exact absurd (Or.inr h) h1
        · exact h
      rw [if_pos ((octstr_compare_eq_zero _ _).mpr h2)]
  · intro hguard hroom htrans
    cases ht : cfg.urltrans_find msg.msgdata msg.smsc_id with
    | none =>
      have hnone : 0 ≤ send_message_max_msgs none ∧
          octstr_len (send_message_header none) + octstr_len (send_message_footer none) +
            octstr_len (send_message_suffix none) + 7 ≤
            Int.tdiv (cfg.sms_max_length * 8) 7 := by
        refine ⟨by decide, ?_⟩
        simp only [send_message_header, send_message_footer, send_message_suffix, octstr_len]
        omega
      obtain ⟨parts, hp⟩ := obey_send_returns cfg none
        { msg with sender := msg.receiver, receiver := msg.sender }
        (some (octstr_create "Request failed")) (BoxMsg.ack msg.time msg.id) [] hnone.1 hnone.2
      refine ⟨parts, [], ?_, fun t h => (by cases h), fun _ => rfl⟩
      rw [obey_request_thread_no_translation cfg msg hguard ht]
      exact hp
    | some t =>
      obtain ⟨hpat, hmax, hlen⟩ := htrans t ht
      by_cases hty : t.type = TRANSTYPE_GET_URL ∨ t.type = TRANSTYPE_POST_URL
      · obtain ⟨r, hr⟩ := obey_request_thread_http cfg msg t hguard ht hty hpat
        refine ⟨[], [r], hr, fun _ _ _ => ⟨rfl, rfl⟩, ?_⟩
        rintro (h | ⟨t1, h1, h2, h3⟩)
        · cases h
        · have e : t = t1 := Option.some.inj h1
          rw [← e] at h2 h3
          rcases hty with hty | hty
          · exact absurd hty h2
          · exact absurd hty h3
      · obtain ⟨parts, hp⟩ := obey_request_thread_direct cfg msg t hguard ht hty hpat hmax hlen
        refine ⟨parts, [], hp, ?_, fun _ => rfl⟩
        intro t1 h1 hty1
        have e : t = t1 := Option.some.inj h1
        rw [← e] at hty1
        exact absurd hty1 hty

theorem sample_get_room : ∀ t,
    (sample_smsbox_with sample_get_trans).urltrans_find sample_mo.msgdata sample_mo.smsc_id =
      some t →
    (∀ m, t.pattern m ≠ none) ∧ 0 ≤ t.max_messages ∧
      octstr_len t.header + octstr_len t.footer + octstr_len t.split_suffix + 7 ≤
        Int.tdiv ((sample_smsbox_with sample_get_trans).sms_max_length * 8) 7 := by
  intro t ht
  have e : t = sample_get_trans := by
    simp only [sample_smsbox_with, Option.some.injEq] at ht
    exact ht.symm
  subst e
  refine ⟨fun m => by simp [sample_get_trans, sample_trans], by decide, by decide⟩

/-- Witness of C20 (amended): the request "ping" from "+1" to "+2" served by
the fixed-text translation "pong", and served by a get-url translation. -/
theorem obey_request_thread_ack_witness :
    (¬ (octstr_len sample_mo.sender = 0 ∨ octstr_len sample_mo.receiver = 0 ∨
        sample_mo.sender = sample_mo.receiver) ∧
      7 ≤ Int.tdiv ((sample_smsbox_with (sample_trans (octstr_create "pong") 1)).sms_max_length
        * 8) 7) ∧
    (∃ (parts : List Msg) (started : List receiver),
      obey_request_thread (sample_smsbox_with (sample_trans (octstr_create "pong") 1))
          sample_mo =
        .ok (parts.map BoxMsg.sms ++ [BoxMsg.ack sample_mo.time sample_mo.id], started) ∧
      (∀ t, (sample_smsbox_with (sample_trans (octstr_create "pong") 1)).urltrans_find
          sample_mo.msgdata sample_mo.smsc_id = some t →
        (t.type = TRANSTYPE_GET_URL ∨ t.type = TRANSTYPE_POST_URL) →
        parts = [] ∧ started.length = 1) ∧
      (((sample_smsbox_with (sample_trans (octstr_create "pong") 1)).urltrans_find
          sample_mo.msgdata sample_mo.smsc_id = none ∨
        ∃ t, (sample_smsbox_with (sample_trans (octstr_create "pong") 1)).urltrans_find
            sample_mo.msgdata sample_mo.smsc_id = some t ∧
          t.type ≠ TRANSTYPE_GET_URL ∧ t.type ≠ TRANSTYPE_POST_URL) →
        started = [])) ∧
    (∃ (parts : List Msg) (started : List receiver),
      obey_request_thread (sample_smsbox_with sample_get_trans) sample_mo =
        .ok (parts.map BoxMsg.sms ++ [BoxMsg.ack sample_mo.time sample_mo.id], started) ∧
      (∀ t, (sample_smsbox_with sample_get_trans).urltrans_find
          sample_mo.msgdata sample_mo.smsc_id = some t →
        (t.type = TRANSTYPE_GET_URL ∨ t.type = TRANSTYPE_POST_URL) →
        parts = [] ∧ started.length = 1) ∧
      (((sample_smsbox_with sample_get_trans).urltrans_find
          sample_mo.msgdata sample_mo.smsc_id = none ∨
        ∃ t, (sample_smsbox_with sample_get_trans).urltrans_find
            sample_mo.msgdata sample_mo.smsc_id = some t ∧
          t.type ≠ TRANSTYPE_GET_URL ∧ t.type ≠ TRANSTYPE_POST_URL) →
        started = [])) :=
  ⟨⟨sample_mo_guard, by decide⟩,
    (obey_request_thread_ack (sample_smsbox_with (sample_trans (octstr_create "pong") 1))
      sample_mo).2 sample_mo_guard (by decide) sample_pong_room,
    (obey_request_thread_ack (sample_smsbox_with sample_get_trans) sample_mo).2
      sample_mo_guard (by decide) sample_get_room⟩

/-- C9 (amended): for every original message, 7-bit or 8-bit, with or without
a UDH, whose msgdata is not longer than the per-part budget of the call,
`sms_split` called with catenate set returns the same list as the same call
with catenate = 0, a single part with the UDH and the flag_udh of the
original: no concatenation UDH is added and the per-part budget is not
reduced. -/
theorem sms_split_catenate_fits (orig : Msg)
    (header footer nonlast_suffix split_chars : Option Octstr)
    (catenate msg_sequence max_messages max_octets : Int)
    (hfit : octstr_len orig.msgdata ≤ sms_split_max_part_len orig header footer 0 max_octets) :
    sms_split_max_part_len orig header footer catenate max_octets =
      sms_split_max_part_len orig header footer 0 max_octets ∧
    ∃ part, sms_split orig header footer nonlast_suffix split_chars catenate msg_sequence
        max_messages max_octets = .ok [part] ∧
      sms_split orig header footer nonlast_suffix split_chars 0 msg_sequence
        max_messages max_octets = .ok [part] ∧
      part.udhdata = orig.udhdata ∧ part.flag_udh = orig.flag_udh := by
  have hb : sms_split_max_part_len orig header footer catenate max_octets =
      sms_split_max_part_len orig header footer 0 max_octets := by
    unfold sms_split_max_part_len at hfit ⊢
    simp only [ne_eq, not_true_eq_false, and_false, if_false] at hfit ⊢
    rw [if_neg]
    intro hc
    omega
  have h0 := octstr_len_nonneg orig.msgdata
  have hP0 : 0 ≤ sms_split_max_part_len orig header footer 0 max_octets := by omega
  have hP : 0 ≤ sms_split_max_part_len orig header footer catenate max_octets := by
    rw [hb]; exact hP0
  have h1 := sms_split_one_part orig header footer nonlast_suffix split_chars catenate
    msg_sequence max_messages max_octets hP (Or.inl (by rw [hb]; exact hfit))
  have h2 := sms_split_one_part orig header footer nonlast_suffix split_chars 0
    msg_sequence max_messages max_octets hP0 (Or.inl hfit)
  rw [hb] at h1
  refine ⟨hb, _, h1, h2, ?_, ?_⟩
  · rw [(compose_part_udh _ _ _ _ _ _).1, (part_skeleton_udh orig 1).1]
  · rw [(compose_part_udh _ _ _ _ _ _).2, (part_skeleton_udh orig 1).2]

/-- Witness of C9 (amended): a 7-bit text of 100 letters with a UDH of three
octets and catenate = 1. -/
theorem sms_split_catenate_fits_witness :
    (sample_sms 0 1 (some [2, 112, 0]) (sample_text 100)).flag_8bit = 0 ∧
    (sample_sms 0 1 (some [2, 112, 0]) (sample_text 100)).flag_udh = 1 ∧
    octstr_len (sample_sms 0 1 (some [2, 112, 0]) (sample_text 100)).msgdata ≤
      sms_split_max_part_len (sample_sms 0 1 (some [2, 112, 0]) (sample_text 100))
        none none 0 140 ∧
    sms_split_max_part_len (sample_sms 0 1 (some [2, 112, 0]) (sample_text 100))
        none none 1 140 =
      sms_split_max_part_len (sample_sms 0 1 (some [2, 112, 0]) (sample_text 100))
        none none 0 140 ∧
    ∃ part, sms_split (sample_sms 0 1 (some [2, 112, 0]) (sample_text 100)) none none none none
        1 17 10 140 = .ok [part] ∧
      sms_split (sample_sms 0 1 (some [2, 112, 0]) (sample_text 100)) none none none none
        0 17 10 140 = .ok [part] ∧
      part.udhdata = (sample_sms 0 1 (some [2, 112, 0]) (sample_text 100)).udhdata ∧
      part.flag_udh = (sample_sms 0 1 (some [2, 112, 0]) (sample_text 100)).flag_udh :=
  ⟨rfl, rfl, by decide,
    sms_split_catenate_fits (sample_sms 0 1 (some [2, 112, 0]) (sample_text 100))
      none none none none 1 17 10 140 (by decide)⟩
end Kannel
